import Mathlib

/-!
# libexpression: a verification development

A shallow embedding of the expression evaluator of `libexpression`
(`tokenizer.c`, `shunting-yard.c`, `eval.c`, `rpn.c`, `functions.c`,
`libexpression.c`) and theorems about it.

Conventions of the embedding.

* A C string is the list of its bytes before the terminating NUL (`List Char`,
  one `Char` per byte).  Names of parameters and functions and error messages
  are Lean strings.  The string of a `T_STRING` value is never `NULL`: the
  lexer, the operators, the built-ins and `IMPORT_TO_VALUE_T` all store a
  string.
* A linked list of `token_t` is a Lean list; the `next` pointer is the tail.
  Stacks are lists with the top first.
* `int64_t` values are integers kept inside the 64-bit range by `wrap64` where
  the C arithmetic can leave it.
* A `double` is modelled by its exact value (`Double`); the sign of a zero is
  not represented.  Comparisons, negation, `fabs`, `round`, `floor`, `ceil` and
  the conversions from and to integers are defined on the exact values; the
  rounded arithmetic, `libm`, `printf` and `atof` are fields of a `Platform`,
  so that a theorem stated for every platform holds for whatever the machine
  computes.  The platform also fixes what the C standard leaves undefined
  (conversions out of range, shifts out of range, locals never assigned).
* The generator behind `rand()` has no state: `Platform.rand` is the value of
  every call.
* Allocation never fails: the `EXP_ER_NOMEM` paths guarded by `malloc`,
  `calloc` and `realloc` are not modelled.
* A C function returning a status and writing through out-parameters becomes a
  function into `Except`.
* The recursion of `exp_shunting_yard` and of `exp_rpn` through the branches of
  a conditional is bounded by a fuel that the two functions compute from their
  input; `exp_rpn_eq` shows that the fuel of `exp_rpn` is always enough, and
  `sy_loop_post` that `exp_shunting_yard` never fails for want of fuel.
* The loop of `exp_parse` is bounded by the length of the text, of which every
  turn consumes a byte; `exp_parse_loop_fuel` and `exp_parse_loop_step` show
  that this is always enough.  The recognisers of the lexer return the payload
  and the length of the token, `none` for `NULL`.  `tolower` and `toupper` are
  those of the "C" locale: only the letters `A` to `Z` and `a` to `z` change.
* A buffer filled by `snprintf` is modelled by the text it holds before the
  terminating NUL, which is the formatted text cut to the size less one.
-/

namespace Libexpression

/-! ## Error codes and failures (`libexpression.h`) -/

/-- The error codes of `exp_error_t`. -/
inductive exp_error_t
  | EXP_ER_INVALEXPR
  | EXP_ER_INVALARGC
  | EXP_ER_INVALARGCHIGH
  | EXP_ER_INVALARGCLOW
  | EXP_ER_INVALARGV
  | EXP_ER_INVALFUNC
  | EXP_ER_INVALPARAM
  | EXP_ER_INVALOPERATOR
  | EXP_ER_NOMEM
  | EXP_ER_COMPLEX
  | EXP_ER_DIVBYZERO
  | EXP_ER_NONINTEGER
  | EXP_ER_NONNUMERIC
  | EXP_ER_NONBOOLEAN
  | EXP_ER_NONSTRING
  | EXP_ER_INTOVERFLOW
  | EXP_ER_TRIGONOMETRIC
  | EXP_ER_INVALRET
  | EXP_ER_USERFUNCERROR
  deriving DecidableEq, Repr

open exp_error_t

/-- What a failing API routine reports through `ercode`, `error` and
`error_pos`. -/
structure exp_failure where
  ercode : exp_error_t
  error : String
  error_pos : Nat
  deriving DecidableEq, Repr

/-! ## Machine integers -/

/-- The constant `INT64_MAX`. -/
def INT64_MAX : Int := 9223372036854775807

/-- The constant `INT64_MIN`. -/
def INT64_MIN : Int := -9223372036854775808

/-- Reduction of an integer to the two's complement 64-bit range. -/
def wrap64 (i : Int) : Int :=
  (i + 9223372036854775808) % 18446744073709551616 - 9223372036854775808

/-! ## Doubles -/

/-- The exact value of a `double`: `fin m e` is `m * 2 ^ e`.  The sign of a zero
is not represented. -/
inductive Double
  | fin (m : Int) (e : Int)
  | inf (neg : Bool)
  | nan
  deriving DecidableEq, Repr

namespace Double

/-- Numerators of two finite values over their common power of two. -/
def align (m1 e1 m2 e2 : Int) : Int × Int :=
  let e := min e1 e2
  (m1 * 2 ^ (e1 - e).toNat, m2 * 2 ^ (e2 - e).toNat)

/-- The C comparison `a < b`. -/
def lt : Double → Double → Bool
  | nan, _ => false
  | _, nan => false
  | inf n1, inf n2 => n1 && !n2
  | inf n1, fin _ _ => n1
  | fin _ _, inf n2 => !n2
  | fin m1 e1, fin m2 e2 => decide ((align m1 e1 m2 e2).1 < (align m1 e1 m2 e2).2)

/-- The C comparison `a == b`. -/
def eq : Double → Double → Bool
  | nan, _ => false
  | _, nan => false
  | inf n1, inf n2 => n1 == n2
  | inf _, fin _ _ => false
  | fin _ _, inf _ => false
  | fin m1 e1, fin m2 e2 => decide ((align m1 e1 m2 e2).1 = (align m1 e1 m2 e2).2)

/-- The C comparison `a > b`. -/
def gt (a b : Double) : Bool := lt b a

/-- The C comparison `a <= b`. -/
def le (a b : Double) : Bool := lt a b || eq a b

/-- The C comparison `a >= b`. -/
def ge (a b : Double) : Bool := le b a

/-- The C comparison `a != b`. -/
def ne (a b : Double) : Bool := !eq a b

/-- The C negation `-a`. -/
def neg : Double → Double
  | fin m e => fin (-m) e
  | inf n => inf (!n)
  | nan => nan

/-- The function `fabs` of libm. -/
def fabs : Double → Double
  | fin m e => fin (Int.natAbs m) e
  | inf _ => inf false
  | nan => nan

/-- The function `round` of libm: to the nearest integer, halves away from
zero. -/
def round : Double → Double
  | fin m e =>
    if 0 ≤ e then fin m e
    else
      let d : Nat := 2 ^ (-e).toNat
      let q := m.natAbs / d
      let r := m.natAbs % d
      let q1 : Nat := if d ≤ 2 * r then q + 1 else q
      fin (if m < 0 then -(q1 : Int) else (q1 : Int)) 0
  | inf n => inf n
  | nan => nan

/-- The integer part of a finite value, truncated towards zero. -/
def trunc (m e : Int) : Int :=
  if 0 ≤ e then m * 2 ^ e.toNat
  else
    let q : Int := (m.natAbs / 2 ^ (-e).toNat : Nat)
    if m < 0 then -q else q

/-- Number of low bits that do not fit a 53-bit significand (`fuel` bounds the
search; 64-bit integers need at most 12). -/
def excess_bits : Nat → Nat → Nat
  | 0, _ => 0
  | fuel + 1, n => if n < 9007199254740992 then 0 else 1 + excess_bits fuel (n / 2)

/-- The conversion `(double)i` of a 64-bit integer: exact below `2 ^ 53`,
otherwise rounded to 53 significant bits, ties to even. -/
def ofInt (i : Int) : Double :=
  let n := i.natAbs
  let sh := excess_bits 64 n
  if sh = 0 then fin i 0
  else
    let q := n / 2 ^ sh
    let r := n % 2 ^ sh
    let half := 2 ^ (sh - 1)
    let q1 : Nat := if half < r ∨ (r = half ∧ q % 2 = 1) then q + 1 else q
    fin (if i < 0 then -(q1 : Int) else (q1 : Int)) sh

end Double

/-! ## Operators, values and tokens (`libexpression-private.h`) -/

/-- The type `token_type_t`. -/
inductive token_type_t
  | T_NONE
  | T_LPAREN
  | T_RPAREN
  | T_COMMA
  | T_OPERATOR
  | T_INTEGER
  | T_REAL
  | T_BOOLEAN
  | T_STRING
  | T_PARAMETER
  | T_FUNCTION
  | T_IFCONDITION
  | T_IFSTATEMENT
  deriving DecidableEq, Repr

/-- The type `operator_t`. -/
inductive operator_t
  | O_NONE
  | O_PLUS
  | O_MINUS
  | O_UMINUS
  | O_UPLUS
  | O_DIV
  | O_MOD
  | O_MUL
  | O_HAT
  | O_EQUALS
  | O_GT
  | O_LT
  | O_GE
  | O_LE
  | O_SHIFTRIGHT
  | O_SHIFTLEFT
  | O_BOOLEQUALS
  | O_NOTEQUALS
  | O_BOOLAND
  | O_BOOLOR
  | O_BOOLNOT
  | O_BITAND
  | O_BITOR
  | O_BITNOT
  | O_IFTHEN
  | O_ELSE
  deriving DecidableEq, Repr

open operator_t token_type_t

/-- The type `value_t`: the tag together with the member of the union that the
tag selects.  A token retyped `T_IFCONDITION` keeps its operator; a token made
by `calloc` and typed `T_IFSTATEMENT` has no payload. -/
inductive value_t
  | T_NONE
  | T_LPAREN
  | T_RPAREN
  | T_COMMA
  | T_OPERATOR (op : operator_t)
  | T_INTEGER (integer : Int)
  | T_REAL (real : Double)
  | T_BOOLEAN (boolean : Int)
  | T_STRING (string : List Char)
  | T_PARAMETER (parameter : String)
  | T_FUNCTION (function : String)
  | T_IFCONDITION (op : operator_t)
  | T_IFSTATEMENT
  deriving DecidableEq, Repr

/-- The field `type` of a `value_t`. -/
def value_t.type : value_t → token_type_t
  | .T_NONE => token_type_t.T_NONE
  | .T_LPAREN => token_type_t.T_LPAREN
  | .T_RPAREN => token_type_t.T_RPAREN
  | .T_COMMA => token_type_t.T_COMMA
  | .T_OPERATOR _ => token_type_t.T_OPERATOR
  | .T_INTEGER _ => token_type_t.T_INTEGER
  | .T_REAL _ => token_type_t.T_REAL
  | .T_BOOLEAN _ => token_type_t.T_BOOLEAN
  | .T_STRING _ => token_type_t.T_STRING
  | .T_PARAMETER _ => token_type_t.T_PARAMETER
  | .T_FUNCTION _ => token_type_t.T_FUNCTION
  | .T_IFCONDITION _ => token_type_t.T_IFCONDITION
  | .T_IFSTATEMENT => token_type_t.T_IFSTATEMENT

/-- The type `token_t` without its `next` pointer. -/
inductive token_t
  | mk (position : Nat) (param : value_t) (children : List token_t)
  deriving Repr

namespace token_t

/-- The field `position`. -/
def position : token_t → Nat
  | mk p _ _ => p

/-- The field `param`. -/
def param : token_t → value_t
  | mk _ v _ => v

/-- The field `children`. -/
def children : token_t → List token_t
  | mk _ _ c => c

/-- The tag `param.type`. -/
def type (t : token_t) : token_type_t := t.param.type

end token_t

/-- A token without children. -/
def tok (position : Nat) (param : value_t) : token_t := token_t.mk position param []

/-! ## Token utilities (`tokenizer.c`) -/

/-- The function `exp_op_argument_count`. -/
def exp_op_argument_count : operator_t → Nat
  | O_BOOLNOT | O_BITNOT | O_UMINUS | O_UPLUS => 1
  | O_EQUALS | O_HAT | O_DIV | O_MOD | O_MUL | O_PLUS | O_MINUS | O_SHIFTLEFT
  | O_SHIFTRIGHT | O_GT | O_LT | O_GE | O_LE | O_NOTEQUALS | O_BOOLEQUALS
  | O_BITAND | O_BITOR | O_BOOLAND | O_BOOLOR | O_IFTHEN | O_ELSE => 2
  | O_NONE => 0

/-- The function `exp_op_is_lefttoright`. -/
def exp_op_is_lefttoright : operator_t → Bool
  | O_BOOLNOT | O_BITNOT | O_EQUALS | O_HAT | O_UMINUS | O_UPLUS | O_IFTHEN
  | O_ELSE => false
  | O_DIV | O_MOD | O_MUL | O_PLUS | O_MINUS | O_SHIFTLEFT | O_SHIFTRIGHT | O_GT
  | O_LT | O_GE | O_LE | O_NOTEQUALS | O_BOOLEQUALS | O_BITAND | O_BITOR
  | O_BOOLAND | O_BOOLOR => true
  | O_NONE => true

/-- The function `exp_token_dup` on one token and, as `exp_token_dup.list`, on
a list: strings, parameters and functions are copied without their children,
an `T_IFSTATEMENT` is copied with a copy of its children and no payload, every
other token is copied bytewise. -/
def exp_token_dup : token_t → token_t
  | .mk p (.T_STRING s) _ => .mk p (.T_STRING s) []
  | .mk p (.T_PARAMETER s) _ => .mk p (.T_PARAMETER s) []
  | .mk p (.T_FUNCTION s) _ => .mk p (.T_FUNCTION s) []
  | .mk p .T_IFSTATEMENT c => .mk p .T_IFSTATEMENT (list c)
  | .mk p v c => .mk p v c
where
  /-- The copy of a list of tokens. -/
  list : List token_t → List token_t
    | [] => []
    | t :: ts => exp_token_dup t :: list ts

/-- Is the optional token of the given type (`false` for `NULL`). -/
def has_type (t : Option token_t) (ty : token_type_t) : Bool :=
  match t with
  | some x => x.type == ty
  | none => false

/-- The promotion made by `exp_check`: a parameter followed by a left
parenthesis becomes a function of the same name. -/
def promote (curr : token_t) (next : Option token_t) : token_t :=
  match curr with
  | .mk p (.T_PARAMETER s) c => if has_type next T_LPAREN then .mk p (.T_FUNCTION s) c else curr
  | _ => curr

/-- The body of the loop of `exp_check` for the token `curr` (already promoted)
between `prev` and `next`: the message of the first test that rejects it. -/
def exp_check_token (prev : Option token_t) (curr : token_t) (next : Option token_t) :
    Option String :=
  let c1 : Option String :=
    if curr.type == T_LPAREN then
      if !(prev.isNone || has_type prev T_LPAREN || has_type prev T_COMMA
            || has_type prev T_OPERATOR || has_type prev T_FUNCTION) then
        some "Unexpected left parenthesis"
      else if next.isSome && (has_type next T_COMMA
            || (has_type next T_RPAREN && (prev.isNone || !has_type prev T_FUNCTION))) then
        some "Parenthesis without operand on the right"
      else none
    else if curr.type == T_RPAREN then
      if !(next.isNone || has_type next T_RPAREN || has_type next T_COMMA
            || has_type next T_OPERATOR) then
        some "Parenthesis without operator on the right"
      else if has_type prev T_COMMA then
        some "Unexpected right parenthesis"
      else none
    else none
  let c2 : Option String :=
    if curr.type == T_BOOLEAN || curr.type == T_INTEGER || curr.type == T_REAL
        || curr.type == T_STRING || curr.type == T_PARAMETER then
      if !(prev.isNone || has_type prev T_OPERATOR || has_type prev T_LPAREN
            || has_type prev T_COMMA) then
        some "Unexpected operand"
      else if !(next.isNone || has_type next T_OPERATOR || has_type next T_RPAREN
            || has_type next T_COMMA) then
        some "Operand without operator on the right"
      else none
    else none
  let c3 : Option String :=
    if curr.type == T_FUNCTION then
      if !(prev.isNone || has_type prev T_OPERATOR || has_type prev T_LPAREN
            || has_type prev T_COMMA) then
        some "Unexpected function"
      else none
    else none
  let c4 : Option String :=
    match curr.param with
    | .T_OPERATOR op =>
      if (prev.isNone || has_type prev T_LPAREN || has_type prev T_COMMA
            || has_type prev T_OPERATOR)
          && (exp_op_is_lefttoright op || exp_op_argument_count op != 1) then
        some "Unexpected operator"
      else if next.isNone || has_type next T_RPAREN || has_type next T_COMMA then
        some "Operator without right operand"
      else none
    | _ => none
  match c1 with
  | some m => some m
  | none =>
    match c2 with
    | some m => some m
    | none =>
      match c3 with
      | some m => some m
      | none => c4

/-- The loop of `exp_check` from the token after `prev`: the list with its
parameters promoted, or the failure at the first rejected token. -/
def exp_check_loop (prev : Option token_t) : List token_t → Except exp_failure (List token_t)
  | [] => .ok []
  | curr0 :: rest =>
    let curr := promote curr0 rest.head?
    match exp_check_token prev curr rest.head? with
    | some msg => .error ⟨EXP_ER_INVALEXPR, msg, curr.position⟩
    | none =>
      match exp_check_loop (some curr) rest with
      | .error e => .error e
      | .ok ts => .ok (curr :: ts)

/-- The function `exp_check`; on success the token list as the function leaves
it (the promotion is made in place). -/
def exp_check (token : List token_t) : Except exp_failure (List token_t) :=
  exp_check_loop none token

/-! ## Shunting-yard (`shunting-yard.c`) -/

/-- The function `op_precedence`. -/
def op_precedence : operator_t → Nat
  | O_UMINUS | O_UPLUS => 20
  | O_HAT => 19
  | O_BOOLNOT | O_BITNOT => 18
  | O_DIV | O_MOD | O_MUL => 17
  | O_PLUS | O_MINUS => 16
  | O_SHIFTLEFT | O_SHIFTRIGHT => 15
  | O_GT | O_LT | O_GE | O_LE => 14
  | O_NOTEQUALS | O_EQUALS | O_BOOLEQUALS => 13
  | O_BITAND => 12
  | O_BITOR => 11
  | O_BOOLAND => 10
  | O_BOOLOR => 9
  | O_IFTHEN => 8
  | O_ELSE | O_NONE => 0

/-- The statement `found_stack[found_len-1]=1` under `if(found_len)`. -/
def found_set : List Int → List Int
  | [] => []
  | _ :: fs => 1 :: fs

/-- The loop of the `T_COMMA` and `T_RPAREN` cases: tokens are moved from the
stack to the output queue until the top of the stack is a left parenthesis. -/
def pop_until_lparen : List token_t → List token_t → List token_t × List token_t
  | [], out => ([], out)
  | t :: stack, out =>
    if t.type == T_LPAREN then (t :: stack, out) else pop_until_lparen stack (out ++ [t])

/-- The loop of the `T_OPERATOR` case for the operator `o1` just read: operators
of the stack that bind at least as tightly move to the output queue. -/
def pop_operators (o1 : operator_t) : List token_t → List token_t → List token_t × List token_t
  | [], out => ([], out)
  | t :: stack, out =>
    match t.param with
    | .T_OPERATOR o2 =>
      if (exp_op_is_lefttoright o1 && decide (op_precedence o1 ≤ op_precedence o2))
          || (!exp_op_is_lefttoright o1 && decide (op_precedence o1 < op_precedence o2)) then
        pop_operators o1 stack (out ++ [t])
      else (t :: stack, out)
    | _ => (t :: stack, out)

/-- The loop after the input is read: the stack is moved to the output queue; a
parenthesis left on it is an error. -/
def sy_drain (if_operand : Nat) : List token_t → List token_t → Except exp_failure (List token_t)
  | [], out => .ok out
  | curr :: stack, out =>
    match curr.type with
    | T_LPAREN =>
      if if_operand = 1 then
        .error ⟨EXP_ER_INVALEXPR, "Non-closed left parenthesis in conditional expression",
          curr.position⟩
      else
        .error ⟨EXP_ER_INVALEXPR,
          "Left parenthesis is opened but right parenthesis was not found", curr.position⟩
    | T_RPAREN => .error ⟨EXP_ER_INVALEXPR, "Unexpected right parenthesis", curr.position⟩
    | _ => sy_drain if_operand stack (out ++ [curr])

/-- The end of `exp_shunting_yard`, after the reading loop: the output queue
and the value stored in `*new_input` (`[]` for `NULL` and when nothing is
stored). -/
def sy_finish (if_operand : Nat) (colon_found : Bool) (in_ stack out : List token_t) :
    Except exp_failure (List token_t × List token_t) :=
  match sy_drain if_operand stack out with
  | .error e => .error e
  | .ok out1 =>
    if out1.isEmpty then .error ⟨EXP_ER_INVALEXPR, "Empty expression was provided", 0⟩
    else if if_operand != 0 && colon_found then .ok (out1, in_)
    else .ok (out1, [])

/-- The reading loop of `exp_shunting_yard` followed by its end.  `in_` is the
input still to read, `stack` the operator stack (top first), `out` the output
queue, `found` and `argc` the two counting stacks (top first).  The recursive
calls for the branches of `?` copy their input as every call does.  `fuel`
bounds the number of tokens read; `exp_shunting_yard` supplies enough. -/
def sy_loop : Nat → Nat → List token_t → List token_t → List token_t → List Int → List Int →
    Except exp_failure (List token_t × List token_t)
  | _, if_operand, [], stack, out, _, _ => sy_finish if_operand false [] stack out
  | 0, _, _ :: _, _, _, _, _ => .error ⟨EXP_ER_NOMEM, "fuel exhausted", 0⟩
  | fuel + 1, if_operand, curr :: in_, stack, out, found, argc =>
    match curr.param with
    | .T_BOOLEAN _ | .T_INTEGER _ | .T_REAL _ | .T_STRING _ | .T_PARAMETER _ =>
      sy_loop fuel if_operand in_ stack (out ++ [curr]) (found_set found) argc
    | .T_FUNCTION _ =>
      sy_loop fuel if_operand in_ (curr :: stack) out (0 :: found_set found) (0 :: argc)
    | .T_COMMA =>
      match pop_until_lparen stack out with
      | ([], _) => .error ⟨EXP_ER_INVALEXPR, "Unexpected comma", curr.position⟩
      | (top :: stack1, out1) =>
        if top.type != T_LPAREN then
          .error ⟨EXP_ER_INVALEXPR, "Unexpected comma", curr.position⟩
        else
          match found, argc with
          | f :: fs, a :: as =>
            if f != 0 then sy_loop fuel if_operand in_ (top :: stack1) out1 (0 :: fs) ((a + 1) :: as)
            else .error ⟨EXP_ER_INVALEXPR, "Unexpected comma", curr.position⟩
          | _, _ => .error ⟨EXP_ER_INVALEXPR, "Unexpected comma", curr.position⟩
    | .T_OPERATOR op =>
      if op = O_ELSE then
        if if_operand = 0 then .error ⟨EXP_ER_INVALEXPR, "Unexpected colon", curr.position⟩
        else if if_operand = 1 then sy_finish if_operand true in_ stack out
        else sy_finish if_operand true (curr :: in_) stack out
      else
        match pop_operators op stack out with
        | (stack1, out1) =>
          if op = O_IFTHEN then
            match sy_loop fuel 1 (exp_token_dup.list in_) [] [] [] [] with
            | .error _ =>
              .error ⟨EXP_ER_INVALEXPR, "Colon was not found in conditional expression",
                curr.position⟩
            | .ok (_, []) =>
              .error ⟨EXP_ER_INVALEXPR, "Colon was not found in conditional expression",
                curr.position⟩
            | .ok (t1, i1 :: in1) =>
              match sy_loop fuel 2 (exp_token_dup.list (i1 :: in1)) [] [] [] [] with
              | .error e => .error e
              | .ok (t2, in2) =>
                sy_loop fuel if_operand in2 stack1
                  (out1 ++ [token_t.mk curr.position .T_IFSTATEMENT t1,
                    token_t.mk curr.position .T_IFSTATEMENT t2,
                    token_t.mk curr.position (.T_IFCONDITION op) curr.children])
                  found argc
          else sy_loop fuel if_operand in_ (curr :: stack1) out1 found argc
    | .T_LPAREN => sy_loop fuel if_operand in_ (curr :: stack) out found argc
    | .T_RPAREN =>
      match pop_until_lparen stack out with
      | ([], out1) =>
        if if_operand = 2 then
          if out1.isEmpty then .error ⟨EXP_ER_INVALEXPR, "Empty clause", curr.position⟩
          else .ok (out1, curr :: in_)
        else .error ⟨EXP_ER_INVALEXPR, "Unexpected right parenthesis", curr.position⟩
      | (top :: stack1, out1) =>
        if top.type != T_LPAREN then
          .error ⟨EXP_ER_INVALEXPR, "Unexpected right parenthesis", curr.position⟩
        else
          match stack1 with
          | [] => sy_loop fuel if_operand in_ [] out1 found argc
          | func :: stack2 =>
            if func.type == T_FUNCTION then
              match argc, found with
              | a :: as, f :: fs =>
                sy_loop fuel if_operand in_ stack2
                  (out1 ++ [token_t.mk func.position (.T_INTEGER (a + (if f != 0 then 1 else 0))) [],
                    func])
                  fs as
              | _, _ => .error ⟨EXP_ER_NOMEM, "Algorithm error", 0⟩
            else sy_loop fuel if_operand in_ (func :: stack2) out1 found argc
    | _ => .error ⟨EXP_ER_INVALEXPR, "Invalid or unsupported token", curr.position⟩

/-- The function `exp_shunting_yard` on `input` in mode `if_operand`: the output
queue together with `*new_input`. -/
def exp_shunting_yard (input : List token_t) (if_operand : Nat) :
    Except exp_failure (List token_t × List token_t) :=
  sy_loop (input.length + 1) if_operand (exp_token_dup.list input) [] [] [] []

/-! ## The platform -/

/-- What the embedding takes from the C library, the floating-point unit and
the compiler: the rounded arithmetic on doubles, `libm`, the conversions
between doubles and text, and the value chosen where the C standard leaves the
behaviour undefined. -/
structure Platform where
  /-- The sum `a + b` of two doubles. -/
  add : Double → Double → Double
  /-- The difference `a - b` of two doubles. -/
  sub : Double → Double → Double
  /-- The product `a * b` of two doubles. -/
  mul : Double → Double → Double
  /-- The quotient `a / b` of two doubles. -/
  div : Double → Double → Double
  /-- The function `pow`. -/
  pow : Double → Double → Double
  /-- The function `atof`. -/
  atof : List Char → Double
  /-- The text printed by the `printf` format `%f`. -/
  fmt_f : Double → List Char
  /-- The text printed by the `printf` format `%0.9f`. -/
  fmt_f9 : Double → List Char
  /-- The text printed by the `printf` format `%s` for the `NULL` pointer. -/
  fmt_null : List Char
  /-- The result of converting to `int64_t` a double that is outside its range. -/
  cast_ub : Double → Int
  /-- The result of a shift to the left by a count outside `0 .. 63`. -/
  shl_ub : Int → Int → Int
  /-- The result of a shift to the right by a count outside `0 .. 63`. -/
  shr_ub : Int → Int → Int
  /-- The content of an `int64_t` local that was never assigned. -/
  uninit : Int
  /-- The unary functions of `libm`, by name, with the `errno` they set. -/
  libm : String → Double → Double × Int
  /-- The function `atan2`, with the `errno` it sets. -/
  atan2 : Double → Double → Double × Int
  /-- The value returned by `rand()` divided by nothing: the raw integer.  The
  state of the generator is not modelled. -/
  rand : Int
  /-- The constant `RAND_MAX`. -/
  RAND_MAX : Int

/-- The conversion `(int64_t)d`: truncation towards zero. -/
def to_int64 (P : Platform) (d : Double) : Int :=
  match d with
  | .fin m e =>
    if INT64_MIN ≤ Double.trunc m e ∧ Double.trunc m e ≤ INT64_MAX then Double.trunc m e
    else P.cast_ub d
  | _ => P.cast_ub d

/-! ## Characters and C strings -/

/-- The test `IS_SPACE`. -/
def IS_SPACE (c : Char) : Bool := c == ' ' || c == '\t'

/-- The test `IS_BLANK`. -/
def IS_BLANK (c : Char) : Bool := c == ' ' || c == '\t' || c == '\r' || c == '\n'

/-- The test `IS_NUMERIC`. -/
def IS_NUMERIC (c : Char) : Bool := decide ('0' ≤ c) && decide (c ≤ '9')

/-- The value `IS_HEXADEMICAL`: the value of a hexadecimal digit, `none` for the
result `-1`. -/
def IS_HEXADEMICAL (c : Char) : Option Nat :=
  if IS_NUMERIC c then some (c.toNat - '0'.toNat)
  else if c == 'a' || c == 'A' then some 10
  else if c == 'b' || c == 'B' then some 11
  else if c == 'c' || c == 'C' then some 12
  else if c == 'd' || c == 'D' then some 13
  else if c == 'e' || c == 'E' then some 14
  else if c == 'f' || c == 'F' then some 15
  else none

/-- The length left of a string after its trailing blanks are cut:
`while( slen && IS_BLANK(s[slen-1])) slen--`. -/
def trim_right_len (s : List Char) : Nat :=
  (s.reverse.dropWhile IS_BLANK).length

/-- The test `0==strncasecmp( a, b, n)`: the end of a list is the terminating
NUL. -/
def strncasecmp_eq : List Char → List Char → Nat → Bool
  | _, _, 0 => true
  | [], [], _ + 1 => true
  | [], _ :: _, _ + 1 => false
  | _ :: _, [], _ + 1 => false
  | a :: as, b :: bs, n + 1 => a.toLower == b.toLower && strncasecmp_eq as bs n

/-- The test `0==strcasecmp( a, b)`. -/
def strcasecmp_eq (a b : List Char) : Bool :=
  a.map Char.toLower == b.map Char.toLower

/-- The sign of `strcmp( a, b)`: bytes are compared as unsigned values. -/
def strcmp : List Char → List Char → Int
  | [], [] => 0
  | [], _ :: _ => -1
  | _ :: _, [] => 1
  | a :: as, b :: bs => if a.toNat < b.toNat then -1 else if b.toNat < a.toNat then 1 else strcmp as bs

/-- The digits read by `atoll` after the sign, as a natural number. -/
def atoll_digits : List Char → Nat → Nat
  | [], acc => acc
  | c :: cs, acc => if IS_NUMERIC c then atoll_digits cs (acc * 10 + (c.toNat - '0'.toNat)) else acc

/-- The function `atoll` (as `strtoll` in base 10): white space, an optional
sign, digits; the result saturates at the ends of the 64-bit range. -/
def atoll (s : List Char) : Int :=
  let s1 := s.dropWhile (fun c => c == ' ' || c == '\t' || c == '\n' || c == '\r'
    || c.toNat == 11 || c.toNat == 12)
  match s1 with
  | '-' :: ds => max INT64_MIN (-(atoll_digits ds 0 : Int))
  | '+' :: ds => min INT64_MAX (atoll_digits ds 0 : Int)
  | ds => min INT64_MAX (atoll_digits ds 0 : Int)

/-- The text that `snprintf` leaves in a buffer of `size` bytes: the first
`size - 1` bytes of the formatted text. -/
def snprintf (size : Nat) (text : List Char) : List Char := text.take (size - 1)

/-- The text printed by the `printf` format `%lld`. -/
def fmt_lld (i : Int) : List Char :=
  if i < 0 then '-' :: Nat.toDigits 10 i.natAbs else Nat.toDigits 10 i.natAbs

/-! ## Coercions (`eval.c`) -/

/-- The scanning loop of `is_number`: `n` is `p - s`, the flags are the locals of
the C function (`neg` and `signfound` share `signfound`, `neg` being unused).
Returns `rlen`, `is_real` and `pointfound` at the end of the loop. -/
def is_number_scan : List Char → Nat → Bool → Bool → Bool → Bool → Nat × Bool × Bool
  | [], n, is_real, _, pointfound, _ => (n, is_real, pointfound)
  | [c], n, is_real, _, pointfound, signfound =>
    if is_real then
      if !IS_NUMERIC c then
        if c == '.' && !pointfound then (n + 1, is_real, true)
        else (n, is_real, pointfound)
      else (n + 1, is_real, pointfound)
    else
      if !IS_NUMERIC c then
        if c == '.' then (n + 1, true, true)
        else if c == '-' && !signfound then (n + 1, is_real, pointfound)
        else if c == '+' && !signfound then (n + 1, is_real, pointfound)
        else (n, is_real, pointfound)
      else (n + 1, is_real, pointfound)
  | c :: c1 :: cs, n, is_real, efound, pointfound, signfound =>
    if is_real then
      if !IS_NUMERIC c then
        if c == '.' && !pointfound then
          is_number_scan (c1 :: cs) (n + 1) is_real efound true signfound
        else if c == 'e' && !efound && decide (0 < n) && (c1 == '+' || c1 == '-') then
          is_number_scan cs (n + 2) is_real true true signfound
        else (n, is_real, pointfound)
      else is_number_scan (c1 :: cs) (n + 1) is_real efound pointfound signfound
    else
      if !IS_NUMERIC c then
        if c == '.' then is_number_scan (c1 :: cs) (n + 1) true efound true signfound
        else if c == '-' && !signfound then
          is_number_scan (c1 :: cs) (n + 1) is_real efound pointfound true
        else if c == '+' && !signfound then
          is_number_scan (c1 :: cs) (n + 1) is_real efound pointfound true
        else if c == 'e' && decide (0 < n) && (c1 == '+' || c1 == '-') then
          is_number_scan cs (n + 2) true true true signfound
        else (n, is_real, pointfound)
      else is_number_scan (c1 :: cs) (n + 1) is_real efound pointfound signfound

/-- The hexadecimal loop of `is_number`: the accumulator (a `uint64_t`) and the
number of digits read. -/
def is_number_hex : List Char → Nat → Nat → Nat × Nat
  | [], num, rlen => (num, rlen)
  | c :: cs, num, rlen =>
    match IS_HEXADEMICAL c with
    | some d => is_number_hex cs ((num * 16 + d) % 18446744073709551616) (rlen + 1)
    | none => (num, rlen)

/-- Is the string, cut at `slen`, one of the words read as true. -/
def is_true_word (s : List Char) (slen : Nat) : Bool :=
  strncasecmp_eq s "true".toList slen || strncasecmp_eq s "yes".toList slen
    || strncasecmp_eq s "on".toList slen || strncasecmp_eq s "t".toList slen
    || strncasecmp_eq s "y".toList slen

/-- Is the string, cut at `slen`, one of the words read as false. -/
def is_false_word (s : List Char) (slen : Nat) : Bool :=
  strncasecmp_eq s "false".toList slen || strncasecmp_eq s "no".toList slen
    || strncasecmp_eq s "off".toList slen || strncasecmp_eq s "f".toList slen
    || strncasecmp_eq s "n".toList slen

/-- The function `is_number` of `eval.c`: the values stored in `*i` and `*d`. -/
def is_number (P : Platform) (str : List Char) : Except exp_error_t (Int × Double) :=
  let s := str.dropWhile IS_SPACE
  let slen := trim_right_len s
  match s with
  | '0' :: 'x' :: h :: tl =>
    match IS_HEXADEMICAL h with
    | some c =>
      if 3 ≤ slen then
        match is_number_hex tl c 3 with
        | (num, rlen) =>
          if rlen = slen then .ok (wrap64 num, Double.ofInt num) else .error EXP_ER_NONNUMERIC
      else is_number_decimal P s slen
    | none => is_number_decimal P s slen
  | _ => is_number_decimal P s slen
where
  /-- The branch of `is_number` for strings that are not hexadecimal. -/
  is_number_decimal (P : Platform) (s : List Char) (slen : Nat) :
      Except exp_error_t (Int × Double) :=
    match is_number_scan s 0 false false false false with
    | (rlen, is_real, pointfound) =>
      if rlen = 0 || (rlen = 1 && pointfound) then
        if slen = 0 then .error EXP_ER_NONNUMERIC
        else if is_true_word s slen then .ok (1, Double.fin 1 0)
        else if is_false_word s slen then .ok (0, Double.fin 0 0)
        else .error EXP_ER_NONNUMERIC
      else if rlen = slen then
        if is_real then .ok (to_int64 P (P.atof s), P.atof s)
        else .ok (atoll s, Double.ofInt (atoll s))
      else .error EXP_ER_NONNUMERIC

/-- The function `exp_to_boolean`. -/
def exp_to_boolean (P : Platform) (v : value_t) : Except exp_error_t Int :=
  match v with
  | .T_INTEGER i => .ok (if i = 0 then 0 else 1)
  | .T_REAL r =>
    if to_int64 P r = 0 then .ok 0
    else if to_int64 P r = 1 then .ok 1
    else .error EXP_ER_NONBOOLEAN
  | .T_BOOLEAN b => .ok b
  | .T_STRING str =>
    let s := str.dropWhile IS_SPACE
    let slen := trim_right_len s
    if is_true_word s slen then .ok 1
    else if is_false_word s slen then .ok 0
    else .error EXP_ER_NONBOOLEAN
  | _ => .error EXP_ER_INVALARGV

/-- The function `exp_to_double`. -/
def exp_to_double (P : Platform) (v : value_t) : Except exp_error_t Double :=
  match v with
  | .T_INTEGER i => .ok (Double.ofInt i)
  | .T_REAL r => .ok r
  | .T_BOOLEAN b => .ok (if b != 0 then Double.fin 1 0 else Double.fin 0 0)
  | .T_STRING s =>
    match is_number P s with
    | .ok (_, d) => .ok d
    | .error _ => .error EXP_ER_NONNUMERIC
  | _ => .error EXP_ER_INVALARGV

/-- The function `exp_to_integer`. -/
def exp_to_integer (P : Platform) (v : value_t) : Except exp_error_t Int :=
  match v with
  | .T_INTEGER i => .ok i
  | .T_REAL r =>
    if Double.gt r (Double.ofInt INT64_MAX) || Double.lt r (Double.ofInt INT64_MIN) then
      .error EXP_ER_INTOVERFLOW
    else .ok (to_int64 P r)
  | .T_BOOLEAN b => .ok (if b != 0 then 1 else 0)
  | .T_STRING s =>
    match is_number P s with
    | .ok (i, _) => .ok i
    | .error _ => .error EXP_ER_NONNUMERIC
  | _ => .error EXP_ER_INVALARGV

/-- The function `exp_is_integer`, called with `*i` holding `i0`: the value of
`*i` when it returns 0.  The string case returns without storing to `*i`. -/
def exp_is_integer (P : Platform) (v : value_t) (i0 : Int) : Except exp_error_t Int :=
  match v with
  | .T_INTEGER i => .ok i
  | .T_REAL r =>
    if Double.gt r (Double.ofInt INT64_MAX) || Double.lt r (Double.ofInt INT64_MIN) then
      .error EXP_ER_NONINTEGER
    else if Double.ne (Double.round r) r then .error EXP_ER_NONINTEGER
    else .ok (to_int64 P (Double.round r))
  | .T_BOOLEAN b => .ok (if b != 0 then 1 else 0)
  | .T_STRING s =>
    match is_number P s with
    | .error _ => .error EXP_ER_NONNUMERIC
    | .ok (i1, d1) =>
      if Double.le d1 (Double.ofInt INT64_MAX) && Double.ge d1 (Double.ofInt INT64_MIN)
          && Double.eq (Double.ofInt i1) (Double.round d1) then .ok i0
      else .error EXP_ER_NONINTEGER
  | _ => .error EXP_ER_INVALARGV

/-- The function `exp_to_string`. -/
def exp_to_string (P : Platform) (v : value_t) : Except exp_error_t (List Char) :=
  match v with
  | .T_INTEGER i => .ok (snprintf 128 (fmt_lld i))
  | .T_REAL r => .ok (snprintf 128 (P.fmt_f r))
  | .T_BOOLEAN b => .ok (if b != 0 then "true".toList else "false".toList)
  | .T_STRING s => .ok s
  | _ => .error EXP_ER_INVALARGV

/-! ## Operators (`eval.c`)

Every `operator_evaluate_*` receives the queue of its operands, first operand
first, and returns the value it stores in `*ret`.  The queue built by
`exp_eval_operator` is never empty; on an empty queue the functions below
return `EXP_ER_INVALARGC`. -/

/-- The function `operator_evaluate_boolnot`. -/
def operator_evaluate_boolnot (P : Platform) : List token_t → Except exp_error_t value_t
  | [] => .error EXP_ER_INVALARGC
  | op :: _ =>
    match exp_to_boolean P op.param with
    | .error status => .error status
    | .ok i1 => .ok (.T_BOOLEAN (if i1 != 0 then 0 else 1))

/-- The function `operator_evaluate_bitnot`. -/
def operator_evaluate_bitnot (P : Platform) : List token_t → Except exp_error_t value_t
  | [] => .error EXP_ER_INVALARGC
  | op :: _ =>
    match exp_is_integer P op.param 0 with
    | .error status => .error status
    | .ok i1 => .ok (.T_INTEGER (Int.not i1))

/-- The function `operator_evaluate_uminus`. -/
def operator_evaluate_uminus (P : Platform) : List token_t → Except exp_error_t value_t
  | [] => .error EXP_ER_INVALARGC
  | op :: _ =>
    match op.param with
    | .T_INTEGER i => .ok (.T_INTEGER (wrap64 (-i)))
    | .T_REAL r => .ok (.T_REAL (Double.neg r))
    | .T_BOOLEAN b => .ok (.T_INTEGER (if b != 0 then -1 else 0))
    | .T_STRING s =>
      match is_number P s with
      | .ok (_, d) => .ok (.T_REAL (Double.neg d))
      | .error _ => .error EXP_ER_NONNUMERIC
    | _ => .error EXP_ER_INVALARGV

/-- The function `operator_evaluate_uplus`. -/
def operator_evaluate_uplus (P : Platform) : List token_t → Except exp_error_t value_t
  | [] => .error EXP_ER_INVALARGC
  | op :: _ =>
    match op.param with
    | .T_INTEGER i => .ok (.T_INTEGER i)
    | .T_REAL r => .ok (.T_REAL r)
    | .T_BOOLEAN b => .ok (.T_INTEGER (if b != 0 then 1 else 0))
    | .T_STRING s =>
      match is_number P s with
      | .ok (_, d) => .ok (.T_REAL d)
      | .error _ => .error EXP_ER_NONNUMERIC
    | _ => .error EXP_ER_INVALARGV

/-- The condition `(0 != (status=exp_to_double( a))) || (0 != (status=exp_to_double( b)))`
shared by the arithmetic operators: the two doubles, or the first non-zero
status. -/
def to_double_pair (P : Platform) (a b : value_t) : Except exp_error_t (Double × Double) :=
  match exp_to_double P a with
  | .error status => .error status
  | .ok d1 =>
    match exp_to_double P b with
    | .error status => .error status
    | .ok d2 => .ok (d1, d2)

/-- The condition `(0==(status=exp_is_integer( a, &i1))) && (0==(status=exp_is_integer( b, &i2)))`
shared by the integer operators, `i1` and `i2` holding `i0` before. -/
def is_integer_pair (P : Platform) (a b : value_t) (i0 : Int) : Except exp_error_t (Int × Int) :=
  match exp_is_integer P a i0 with
  | .error status => .error status
  | .ok i1 =>
    match exp_is_integer P b i0 with
    | .error status => .error status
    | .ok i2 => .ok (i1, i2)

/-- The function `operator_evaluate_hat`. -/
def operator_evaluate_hat (P : Platform) : List token_t → Except exp_error_t value_t
  | [] => .error EXP_ER_INVALARGC
  | [_] => .error EXP_ER_INVALARGC
  | op :: next :: _ =>
    match to_double_pair P op.param next.param with
    | .error status => .error status
    | .ok (d1, d2) =>
      if Double.eq d1 (Double.fin 0 0) && Double.le d2 (Double.fin 0 0) then
        .error EXP_ER_DIVBYZERO
      else if Double.lt d1 (Double.fin 0 0) then
        match exp_is_integer P next.param P.uninit with
        | .ok i2 => .ok (.T_REAL (P.pow d1 (Double.ofInt i2)))
        | .error status =>
          if status = EXP_ER_NONINTEGER then .error EXP_ER_COMPLEX else .error status
      else .ok (.T_REAL (P.pow d1 d2))

/-- The function `operator_evaluate_div`. -/
def operator_evaluate_div (P : Platform) : List token_t → Except exp_error_t value_t
  | [] => .error EXP_ER_INVALARGC
  | [_] => .error EXP_ER_INVALARGC
  | op :: next :: _ =>
    match to_double_pair P op.param next.param with
    | .error status => .error status
    | .ok (d1, d2) =>
      if Double.eq d2 (Double.fin 0 0) then .error EXP_ER_DIVBYZERO
      else .ok (.T_REAL (P.div d1 d2))

/-- The function `operator_evaluate_mod`. -/
def operator_evaluate_mod (P : Platform) : List token_t → Except exp_error_t value_t
  | [] => .error EXP_ER_INVALARGC
  | [_] => .error EXP_ER_INVALARGC
  | op :: next :: _ =>
    match is_integer_pair P op.param next.param 0 with
    | .error status => .error status
    | .ok (i1, i2) =>
      if i2 = 0 then .error EXP_ER_DIVBYZERO
      else .ok (.T_INTEGER (Int.tmod i1 i2))

/-- The function `operator_evaluate_mul`. -/
def operator_evaluate_mul (P : Platform) : List token_t → Except exp_error_t value_t
  | [] => .error EXP_ER_INVALARGC
  | [_] => .error EXP_ER_INVALARGC
  | op :: next :: _ =>
    match to_double_pair P op.param next.param with
    | .error status => .error status
    | .ok (d1, d2) => .ok (.T_REAL (P.mul d1 d2))

/-- The function `operator_concat`. -/
def operator_concat (P : Platform) : List token_t → Except exp_error_t value_t
  | [] => .error EXP_ER_INVALARGC
  | [_] => .error EXP_ER_INVALARGC
  | op :: next :: _ =>
    if op.type == T_STRING || next.type == T_STRING then
      match exp_to_string P op.param with
      | .error status => .error status
      | .ok s1 =>
        match exp_to_string P next.param with
        | .error status => .error status
        | .ok s2 => .ok (.T_STRING (s1 ++ s2))
    else .error EXP_ER_NONSTRING

/-- The function `operator_evaluate_plus`. -/
def operator_evaluate_plus (P : Platform) : List token_t → Except exp_error_t value_t
  | [] => .error EXP_ER_INVALARGC
  | [_] => .error EXP_ER_INVALARGC
  | op :: next :: rest =>
    match to_double_pair P op.param next.param with
    | .error status =>
      if op.type == T_STRING || next.type == T_STRING then
        match operator_concat P (op :: next :: rest) with
        | .error _ => .error status
        | .ok v => .ok v
      else .error status
    | .ok (d1, d2) => .ok (.T_REAL (P.add d1 d2))

/-- The function `operator_evaluate_minus`. -/
def operator_evaluate_minus (P : Platform) : List token_t → Except exp_error_t value_t
  | [] => .error EXP_ER_INVALARGC
  | [_] => .error EXP_ER_INVALARGC
  | op :: next :: _ =>
    match to_double_pair P op.param next.param with
    | .error status => .error status
    | .ok (d1, d2) => .ok (.T_REAL (P.sub d1 d2))

/-- The C expression `i1 << i2` on `int64_t`. -/
def shift_left (P : Platform) (i1 i2 : Int) : Int :=
  if 0 ≤ i2 ∧ i2 < 64 then wrap64 (i1 * 2 ^ i2.toNat) else P.shl_ub i1 i2

/-- The C expression `i1 >> i2` on `int64_t` (an arithmetic shift). -/
def shift_right (P : Platform) (i1 i2 : Int) : Int :=
  if 0 ≤ i2 ∧ i2 < 64 then i1 >>> i2.toNat else P.shr_ub i1 i2

/-- The function `operator_evaluate_shiftleft`; its locals `i1` and `i2` are not
initialised. -/
def operator_evaluate_shiftleft (P : Platform) : List token_t → Except exp_error_t value_t
  | [] => .error EXP_ER_INVALARGC
  | [_] => .error EXP_ER_INVALARGC
  | op :: next :: _ =>
    match is_integer_pair P op.param next.param P.uninit with
    | .error _ => .error EXP_ER_NONINTEGER
    | .ok (i1, i2) => .ok (.T_INTEGER (shift_left P i1 i2))

/-- The function `operator_evaluate_shiftright`; its locals `i1` and `i2` are
not initialised. -/
def operator_evaluate_shiftright (P : Platform) : List token_t → Except exp_error_t value_t
  | [] => .error EXP_ER_INVALARGC
  | [_] => .error EXP_ER_INVALARGC
  | op :: next :: _ =>
    match is_integer_pair P op.param next.param P.uninit with
    | .error _ => .error EXP_ER_NONINTEGER
    | .ok (i1, i2) => .ok (.T_INTEGER (shift_right P i1 i2))

/-- The body shared by the six comparison operators: `cmp_d` is the comparison
of the two doubles, `cmp_s` the test made on the result of `strcmp`. -/
def operator_compare (P : Platform) (cmp_d : Double → Double → Bool) (cmp_s : Int → Bool) :
    List token_t → Except exp_error_t value_t
  | [] => .error EXP_ER_INVALARGC
  | [_] => .error EXP_ER_INVALARGC
  | op :: next :: _ =>
    match to_double_pair P op.param next.param with
    | .error status =>
      match op.param, next.param with
      | .T_STRING s1, .T_STRING s2 => .ok (.T_BOOLEAN (if cmp_s (strcmp s1 s2) then 1 else 0))
      | _, _ => .error status
    | .ok (d1, d2) => .ok (.T_BOOLEAN (if cmp_d d1 d2 then 1 else 0))

/-- The function `operator_evaluate_gt`. -/
def operator_evaluate_gt (P : Platform) : List token_t → Except exp_error_t value_t :=
  operator_compare P Double.gt (fun c => decide (c > 0))

/-- The function `operator_evaluate_lt`. -/
def operator_evaluate_lt (P : Platform) : List token_t → Except exp_error_t value_t :=
  operator_compare P Double.lt (fun c => decide (c < 0))

/-- The function `operator_evaluate_ge`. -/
def operator_evaluate_ge (P : Platform) : List token_t → Except exp_error_t value_t :=
  operator_compare P Double.ge (fun c => decide (c ≥ 0))

/-- The function `operator_evaluate_le`. -/
def operator_evaluate_le (P : Platform) : List token_t → Except exp_error_t value_t :=
  operator_compare P Double.le (fun c => decide (c ≤ 0))

/-- The function `operator_evaluate_boolequals`. -/
def operator_evaluate_boolequals (P : Platform) : List token_t → Except exp_error_t value_t :=
  operator_compare P Double.eq (fun c => decide (c = 0))

/-- The function `operator_evaluate_notequals`. -/
def operator_evaluate_notequals (P : Platform) : List token_t → Except exp_error_t value_t :=
  operator_compare P Double.ne (fun c => decide (c ≠ 0))

/-- The function `operator_evaluate_bitand`. -/
def operator_evaluate_bitand (P : Platform) : List token_t → Except exp_error_t value_t
  | [] => .error EXP_ER_INVALARGC
  | [_] => .error EXP_ER_INVALARGC
  | op :: next :: _ =>
    match is_integer_pair P op.param next.param 0 with
    | .error _ => .error EXP_ER_NONINTEGER
    | .ok (i1, i2) => .ok (.T_INTEGER (Int.land i1 i2))

/-- The function `operator_evaluate_bitor`. -/
def operator_evaluate_bitor (P : Platform) : List token_t → Except exp_error_t value_t
  | [] => .error EXP_ER_INVALARGC
  | [_] => .error EXP_ER_INVALARGC
  | op :: next :: _ =>
    match is_integer_pair P op.param next.param 0 with
    | .error _ => .error EXP_ER_NONINTEGER
    | .ok (i1, i2) => .ok (.T_INTEGER (Int.lor i1 i2))

/-- The condition of `operator_evaluate_booland` and `operator_evaluate_boolor`:
both operands as booleans, or the first non-zero status. -/
def to_boolean_pair (P : Platform) (a b : value_t) : Except exp_error_t (Int × Int) :=
  match exp_to_boolean P a with
  | .error status => .error status
  | .ok d1 =>
    match exp_to_boolean P b with
    | .error status => .error status
    | .ok d2 => .ok (d1, d2)

/-- The function `operator_evaluate_booland`. -/
def operator_evaluate_booland (P : Platform) : List token_t → Except exp_error_t value_t
  | [] => .error EXP_ER_INVALARGC
  | [_] => .error EXP_ER_INVALARGC
  | op :: next :: _ =>
    match to_boolean_pair P op.param next.param with
    | .error status => .error status
    | .ok (d1, d2) => .ok (.T_BOOLEAN (if d1 != 0 && d2 != 0 then 1 else 0))

/-- The function `operator_evaluate_boolor`. -/
def operator_evaluate_boolor (P : Platform) : List token_t → Except exp_error_t value_t
  | [] => .error EXP_ER_INVALARGC
  | [_] => .error EXP_ER_INVALARGC
  | op :: next :: _ =>
    match to_boolean_pair P op.param next.param with
    | .error status => .error status
    | .ok (d1, d2) => .ok (.T_BOOLEAN (if d1 != 0 || d2 != 0 then 1 else 0))

/-- The function `operator_evaluate_equals`. -/
def operator_evaluate_equals (P : Platform) : List token_t → Except exp_error_t value_t :=
  operator_evaluate_boolequals P

/-- The `switch` of `exp_eval_operator`: the number `c` of operands and the
function `f`. -/
def operator_dispatch (P : Platform) :
    operator_t → Option (Nat × (List token_t → Except exp_error_t value_t))
  | O_BOOLNOT => some (1, operator_evaluate_boolnot P)
  | O_BITNOT => some (1, operator_evaluate_bitnot P)
  | O_UMINUS => some (1, operator_evaluate_uminus P)
  | O_UPLUS => some (1, operator_evaluate_uplus P)
  | O_EQUALS => some (2, operator_evaluate_equals P)
  | O_HAT => some (2, operator_evaluate_hat P)
  | O_DIV => some (2, operator_evaluate_div P)
  | O_MOD => some (2, operator_evaluate_mod P)
  | O_MUL => some (2, operator_evaluate_mul P)
  | O_PLUS => some (2, operator_evaluate_plus P)
  | O_MINUS => some (2, operator_evaluate_minus P)
  | O_SHIFTLEFT => some (2, operator_evaluate_shiftleft P)
  | O_SHIFTRIGHT => some (2, operator_evaluate_shiftright P)
  | O_GT => some (2, operator_evaluate_gt P)
  | O_LT => some (2, operator_evaluate_lt P)
  | O_GE => some (2, operator_evaluate_ge P)
  | O_LE => some (2, operator_evaluate_le P)
  | O_NOTEQUALS => some (2, operator_evaluate_notequals P)
  | O_BOOLEQUALS => some (2, operator_evaluate_boolequals P)
  | O_BITAND => some (2, operator_evaluate_bitand P)
  | O_BITOR => some (2, operator_evaluate_bitor P)
  | O_BOOLAND => some (2, operator_evaluate_booland P)
  | O_BOOLOR => some (2, operator_evaluate_boolor P)
  | _ => none

/-- The retagging made after an operator and after a conditional: a real that
`exp_is_integer` accepts becomes the integer it stores. -/
def narrow (P : Platform) (v : value_t) : value_t :=
  match v with
  | .T_REAL r =>
    match exp_is_integer P (.T_REAL r) P.uninit with
    | .ok i => .T_INTEGER i
    | .error _ => .T_REAL r
  | _ => v

/-- The function `exp_eval_operator` on the stack (top first): the stack with
the operands replaced by the result, or the status. -/
def exp_eval_operator (P : Platform) (stack : List token_t) (op : operator_t) :
    Except exp_error_t (List token_t) :=
  match operator_dispatch P op with
  | none => .error EXP_ER_INVALOPERATOR
  | some (c, f) =>
    if stack.length < c then .error EXP_ER_INVALARGC
    else
      match f (stack.take c).reverse with
      | .error status => .error status
      | .ok v => .ok (token_t.mk 0 (narrow P v) [] :: stack.drop c)

/-! ## Built-in functions (`functions.c`)

Every `call_*` receives the queue of its arguments, first argument first (the
empty list is `NULL`), and returns the value it stores in `*ret`. -/

namespace Double

/-- The function `floor` of libm. -/
def floor : Double → Double
  | fin m e => if 0 ≤ e then fin m e else fin (m / 2 ^ (-e).toNat) 0
  | inf n => inf n
  | nan => nan

/-- The function `ceil` of libm. -/
def ceil : Double → Double
  | fin m e => if 0 ≤ e then fin m e else fin (-((-m) / 2 ^ (-e).toNat)) 0
  | inf n => inf n
  | nan => nan

end Double

/-- The frame of the functions of one numeric argument: the argument count
tests, then `exp_to_double`, then the body `k`. -/
def with_one_double (P : Platform) (k : Double → Except exp_error_t value_t) :
    List token_t → Except exp_error_t value_t
  | [] => .error EXP_ER_INVALARGCLOW
  | _ :: _ :: _ => .error EXP_ER_INVALARGCHIGH
  | [op] =>
    match exp_to_double P op.param with
    | .error status => .error status
    | .ok d1 => k d1

/-- The frame of the functions of two numeric arguments. -/
def with_two_doubles (P : Platform) (k : token_t → token_t → Double → Double →
    Except exp_error_t value_t) : List token_t → Except exp_error_t value_t
  | [] => .error EXP_ER_INVALARGCLOW
  | [_] => .error EXP_ER_INVALARGCLOW
  | _ :: _ :: _ :: _ => .error EXP_ER_INVALARGCHIGH
  | [op, next] =>
    match to_double_pair P op.param next.param with
    | .error status => .error status
    | .ok (d1, d2) => k op next d1 d2

/-- The frame of the functions of one string argument made by `exp_to_string`. -/
def with_one_string (P : Platform) (k : List Char → value_t) :
    List token_t → Except exp_error_t value_t
  | [] => .error EXP_ER_INVALARGCLOW
  | _ :: _ :: _ => .error EXP_ER_INVALARGCHIGH
  | [op] =>
    match exp_to_string P op.param with
    | .error status => .error status
    | .ok s1 => .ok (k s1)

/-- The function `call_abs`. -/
def call_abs (P : Platform) : List token_t → Except exp_error_t value_t :=
  with_one_double P (fun d1 => .ok (.T_REAL (Double.fabs d1)))

/-- The function `call_acos`. -/
def call_acos (P : Platform) : List token_t → Except exp_error_t value_t :=
  with_one_double P (fun d1 =>
    if Double.lt d1 (Double.fin (-1) 0) || Double.gt d1 (Double.fin 1 0) then
      .error EXP_ER_TRIGONOMETRIC
    else .ok (.T_REAL (P.libm "acos" d1).1))

/-- The function `call_asin`. -/
def call_asin (P : Platform) : List token_t → Except exp_error_t value_t :=
  with_one_double P (fun d1 =>
    if Double.lt d1 (Double.fin (-1) 0) || Double.gt d1 (Double.fin 1 0) then
      .error EXP_ER_TRIGONOMETRIC
    else .ok (.T_REAL (P.libm "asin" d1).1))

/-- The function `call_atan`. -/
def call_atan (P : Platform) : List token_t → Except exp_error_t value_t :=
  with_one_double P (fun d1 => .ok (.T_REAL (P.libm "atan" d1).1))

/-- The function `call_atan2`. -/
def call_atan2 (P : Platform) : List token_t → Except exp_error_t value_t :=
  with_two_doubles P (fun _ _ d1 d2 =>
    if Double.ne d1 (Double.fin 0 0) && Double.eq d2 (Double.fin 0 0) then
      .error EXP_ER_DIVBYZERO
    else .ok (.T_REAL (P.atan2 d1 d2).1))

/-- The function `call_ceil`. -/
def call_ceil (P : Platform) : List token_t → Except exp_error_t value_t :=
  with_one_double P (fun d1 =>
    if Double.lt d1 (Double.ofInt INT64_MIN) || Double.gt d1 (Double.ofInt INT64_MAX) then
      .error EXP_ER_INTOVERFLOW
    else .ok (.T_INTEGER (to_int64 P (Double.ceil d1))))

/-- The function `call_cos`. -/
def call_cos (P : Platform) : List token_t → Except exp_error_t value_t :=
  with_one_double P (fun d1 => .ok (.T_REAL (P.libm "cos" d1).1))

/-- The function `call_cosh`. -/
def call_cosh (P : Platform) : List token_t → Except exp_error_t value_t :=
  with_one_double P (fun d1 =>
    if (P.libm "cosh" d1).2 ≠ 0 then .error EXP_ER_TRIGONOMETRIC
    else .ok (.T_REAL (P.libm "cosh" d1).1))

/-- The function `call_exp`. -/
def call_exp (P : Platform) : List token_t → Except exp_error_t value_t :=
  with_one_double P (fun d1 => .ok (.T_REAL (P.libm "exp" d1).1))

/-- The function `call_floor`. -/
def call_floor (P : Platform) : List token_t → Except exp_error_t value_t :=
  with_one_double P (fun d1 =>
    if Double.lt d1 (Double.ofInt INT64_MIN) || Double.gt d1 (Double.ofInt INT64_MAX) then
      .error EXP_ER_INTOVERFLOW
    else .ok (.T_INTEGER (to_int64 P (Double.floor d1))))

/-- The function `call_fmod` (its body calls `atan2`). -/
def call_fmod (P : Platform) : List token_t → Except exp_error_t value_t :=
  with_two_doubles P (fun _ _ d1 d2 =>
    if (P.atan2 d1 d2).2 ≠ 0 then .error EXP_ER_INVALARGV
    else .ok (.T_REAL (P.atan2 d1 d2).1))

/-- The function `call_log`. -/
def call_log (P : Platform) : List token_t → Except exp_error_t value_t :=
  with_one_double P (fun d1 =>
    if Double.le d1 (Double.fin 0 0) then .error EXP_ER_COMPLEX
    else .ok (.T_REAL (P.libm "log" d1).1))

/-- The function `call_log10`. -/
def call_log10 (P : Platform) : List token_t → Except exp_error_t value_t :=
  with_one_double P (fun d1 =>
    if Double.le d1 (Double.fin 0 0) then .error EXP_ER_COMPLEX
    else .ok (.T_REAL (P.libm "log10" d1).1))

/-- The loop of `call_min` and `call_max` over the arguments after the first:
`pick d1 acc` says whether `d1` replaces the running value. -/
def fold_doubles (P : Platform) (pick : Double → Double → Bool) :
    List token_t → Double → Except exp_error_t Double
  | [], acc => .ok acc
  | op :: rest, acc =>
    match exp_to_double P op.param with
    | .error status => .error status
    | .ok d1 => fold_doubles P pick rest (if pick d1 acc then d1 else acc)

/-- The function `call_min`. -/
def call_min (P : Platform) : List token_t → Except exp_error_t value_t
  | [] => .error EXP_ER_INVALARGCLOW
  | op :: rest =>
    match exp_to_double P op.param with
    | .error status => .error status
    | .ok d1 =>
      match fold_doubles P Double.lt rest d1 with
      | .error status => .error status
      | .ok m => .ok (.T_REAL m)

/-- The function `call_max`. -/
def call_max (P : Platform) : List token_t → Except exp_error_t value_t
  | [] => .error EXP_ER_INVALARGCLOW
  | op :: rest =>
    match exp_to_double P op.param with
    | .error status => .error status
    | .ok d1 =>
      match fold_doubles P Double.gt rest d1 with
      | .error status => .error status
      | .ok m => .ok (.T_REAL m)

/-- The function `call_pow`. -/
def call_pow (P : Platform) : List token_t → Except exp_error_t value_t :=
  with_two_doubles P (fun _ next d1 d2 =>
    if Double.eq d1 (Double.fin 0 0) && Double.le d2 (Double.fin 0 0) then
      .error EXP_ER_DIVBYZERO
    else if Double.lt d1 (Double.fin 0 0) then
      match exp_is_integer P next.param P.uninit with
      | .ok i2 => .ok (.T_REAL (P.pow d1 (Double.ofInt i2)))
      | .error status =>
        if status = EXP_ER_NONINTEGER then .error EXP_ER_COMPLEX else .error status
    else .ok (.T_REAL (P.pow d1 d2)))

/-- The function `call_random`. -/
def call_random (P : Platform) : List token_t → Except exp_error_t value_t
  | [] => .ok (.T_REAL (P.div (Double.ofInt P.rand) (Double.ofInt P.RAND_MAX)))
  | [op] =>
    match exp_to_double P op.param with
    | .error status => .error status
    | .ok rmax =>
      .ok (.T_REAL (P.div (P.mul (Double.ofInt P.rand) rmax) (Double.ofInt P.RAND_MAX)))
  | [op, next] =>
    match to_double_pair P op.param next.param with
    | .error status => .error status
    | .ok (rmin, rmax) =>
      .ok (.T_REAL (P.add rmin
        (P.div (P.mul (Double.ofInt P.rand) (P.sub rmax rmin)) (Double.ofInt P.RAND_MAX))))
  | _ :: _ :: _ :: _ => .error EXP_ER_INVALARGCHIGH

/-- The function `call_round`. -/
def call_round (P : Platform) : List token_t → Except exp_error_t value_t :=
  with_one_double P (fun d1 =>
    if Double.lt d1 (Double.ofInt INT64_MIN) || Double.gt d1 (Double.ofInt INT64_MAX) then
      .error EXP_ER_INTOVERFLOW
    else .ok (.T_INTEGER (to_int64 P (Double.round d1))))

/-- The function `call_sin`. -/
def call_sin (P : Platform) : List token_t → Except exp_error_t value_t :=
  with_one_double P (fun d1 => .ok (.T_REAL (P.libm "sin" d1).1))

/-- The function `call_sinh`. -/
def call_sinh (P : Platform) : List token_t → Except exp_error_t value_t :=
  with_one_double P (fun d1 =>
    if (P.libm "sinh" d1).2 ≠ 0 then .error EXP_ER_TRIGONOMETRIC
    else .ok (.T_REAL (P.libm "sinh" d1).1))

/-- The function `call_sqr`. -/
def call_sqr (P : Platform) : List token_t → Except exp_error_t value_t :=
  with_one_double P (fun d1 => .ok (.T_REAL (P.mul d1 d1)))

/-- The function `call_sqrt`. -/
def call_sqrt (P : Platform) : List token_t → Except exp_error_t value_t :=
  with_one_double P (fun d1 =>
    if Double.lt d1 (Double.fin 0 0) then .error EXP_ER_COMPLEX
    else .ok (.T_REAL (P.libm "sqrt" d1).1))

/-- The function `call_tan`. -/
def call_tan (P : Platform) : List token_t → Except exp_error_t value_t :=
  with_one_double P (fun d1 => .ok (.T_REAL (P.libm "tan" d1).1))

/-- The function `call_tanh`. -/
def call_tanh (P : Platform) : List token_t → Except exp_error_t value_t :=
  with_one_double P (fun d1 =>
    if (P.libm "tanh" d1).2 ≠ 0 then .error EXP_ER_TRIGONOMETRIC
    else .ok (.T_REAL (P.libm "tanh" d1).1))

/-- The value `IS_OCTAL`: the value of an octal digit, `none` for `-1`. -/
def IS_OCTAL (c : Char) : Option Nat :=
  if decide ('0' ≤ c) && decide (c ≤ '7') then some (c.toNat - '0'.toNat) else none

/-- The value `IS_BINARY`: the value of a binary digit, `none` for `-1`. -/
def IS_BINARY (c : Char) : Option Nat :=
  if c == '0' then some 0 else if c == '1' then some 1 else none

/-- The loop shared by `call_bin2dec`, `call_hex2dec` and `call_oct2dec`: the
accumulator is a `uint64_t`, multiplied by `base` and tested against
`INT64_MAX` after every digit. -/
def digits_to_uint (digit : Char → Option Nat) (base : Nat) :
    List Char → Nat → Except exp_error_t Nat
  | [], result => .ok result
  | c :: cs, result =>
    match digit c with
    | none => .error EXP_ER_INVALARGV
    | some i =>
      let r := (result * base + i) % 18446744073709551616
      if (r : Int) > INT64_MAX then .error EXP_ER_INTOVERFLOW
      else digits_to_uint digit base cs r

/-- The frame shared by `call_bin2dec`, `call_hex2dec` and `call_oct2dec`. -/
def call_to_dec (digit : Char → Option Nat) (base : Nat) :
    List token_t → Except exp_error_t value_t
  | [] => .error EXP_ER_INVALARGCLOW
  | _ :: _ :: _ => .error EXP_ER_INVALARGCHIGH
  | [op] =>
    match op.param with
    | .T_STRING s =>
      match digits_to_uint digit base s 0 with
      | .error status => .error status
      | .ok result => .ok (.T_INTEGER (wrap64 result))
    | _ => .error EXP_ER_NONSTRING

/-- The function `call_bin2dec`. -/
def call_bin2dec : List token_t → Except exp_error_t value_t := call_to_dec IS_BINARY 2

/-- The function `call_hex2dec`. -/
def call_hex2dec : List token_t → Except exp_error_t value_t := call_to_dec IS_HEXADEMICAL 16

/-- The function `call_oct2dec`. -/
def call_oct2dec : List token_t → Except exp_error_t value_t := call_to_dec IS_OCTAL 8

/-- The function `call_boolean`. -/
def call_boolean (P : Platform) : List token_t → Except exp_error_t value_t
  | [] => .error EXP_ER_INVALARGCLOW
  | _ :: _ :: _ => .error EXP_ER_INVALARGCHIGH
  | [op] =>
    match exp_to_boolean P op.param with
    | .error status => .error status
    | .ok b1 => .ok (.T_BOOLEAN b1)

/-- The `do ... while( i1)` loop of `call_dec2bin`, `call_dec2hex` and
`call_dec2oct` together with the copy that reverses the buffer: the digits of
`i1`, most significant first, `bits` bits per digit. -/
def uint_to_digits (bits : Nat) : Nat → Nat → List Char → List Char
  | 0, _, acc => acc
  | fuel + 1, i1, acc =>
    let d := i1 % 2 ^ bits
    let c : Char := if d < 10 then Char.ofNat (d + '0'.toNat) else Char.ofNat (d - 10 + 'a'.toNat)
    if i1 / 2 ^ bits = 0 then c :: acc else uint_to_digits bits fuel (i1 / 2 ^ bits) (c :: acc)

/-- The frame shared by `call_dec2bin`, `call_dec2hex` and `call_dec2oct`; the
local `i` is not initialised. -/
def call_from_dec (P : Platform) (bits : Nat) : List token_t → Except exp_error_t value_t
  | [] => .error EXP_ER_INVALARGCLOW
  | _ :: _ :: _ => .error EXP_ER_INVALARGCHIGH
  | [op] =>
    match exp_is_integer P op.param P.uninit with
    | .error _ => .error EXP_ER_NONINTEGER
    | .ok i => .ok (.T_STRING (uint_to_digits bits 64 (i % 18446744073709551616).toNat []))

/-- The function `call_dec2bin`. -/
def call_dec2bin (P : Platform) : List token_t → Except exp_error_t value_t := call_from_dec P 1

/-- The function `call_dec2hex`. -/
def call_dec2hex (P : Platform) : List token_t → Except exp_error_t value_t := call_from_dec P 4

/-- The function `call_dec2oct`. -/
def call_dec2oct (P : Platform) : List token_t → Except exp_error_t value_t := call_from_dec P 3

/-- The function `call_double`. -/
def call_double (P : Platform) : List token_t → Except exp_error_t value_t :=
  with_one_double P (fun d1 => .ok (.T_REAL d1))

/-- The function `call_integer`. -/
def call_integer (P : Platform) : List token_t → Except exp_error_t value_t
  | [] => .error EXP_ER_INVALARGCLOW
  | _ :: _ :: _ => .error EXP_ER_INVALARGCHIGH
  | [op] =>
    match exp_to_integer P op.param with
    | .error status => .error status
    | .ok i1 => .ok (.T_INTEGER i1)

/-- The function `call_string`. -/
def call_string (P : Platform) : List token_t → Except exp_error_t value_t :=
  with_one_string P (fun s1 => .T_STRING s1)

/-- The function `call_ltrim`. -/
def call_ltrim (P : Platform) : List token_t → Except exp_error_t value_t :=
  with_one_string P (fun s1 => .T_STRING (s1.dropWhile IS_BLANK))

/-- The function `call_rtrim`. -/
def call_rtrim (P : Platform) : List token_t → Except exp_error_t value_t :=
  with_one_string P (fun s1 => .T_STRING (s1.take (trim_right_len s1)))

/-- The function `call_strcasecmp`; both strings are made from the first
argument. -/
def call_strcasecmp (P : Platform) : List token_t → Except exp_error_t value_t
  | [] => .error EXP_ER_INVALARGCLOW
  | [_] => .error EXP_ER_INVALARGCLOW
  | _ :: _ :: _ :: _ => .error EXP_ER_INVALARGCHIGH
  | [op, _] =>
    match exp_to_string P op.param with
    | .error status => .error status
    | .ok s1 =>
      match exp_to_string P op.param with
      | .error status => .error status
      | .ok s2 => .ok (.T_BOOLEAN (if strcasecmp_eq s1 s2 then 1 else 0))

/-- The function `call_strcmp`; both strings are made from the first argument.
The result of `strcmp` is modelled by its sign. -/
def call_strcmp (P : Platform) : List token_t → Except exp_error_t value_t
  | [] => .error EXP_ER_INVALARGCLOW
  | [_] => .error EXP_ER_INVALARGCLOW
  | _ :: _ :: _ :: _ => .error EXP_ER_INVALARGCHIGH
  | [op, _] =>
    match exp_to_string P op.param with
    | .error status => .error status
    | .ok s1 =>
      match exp_to_string P op.param with
      | .error status => .error status
      | .ok s2 => .ok (.T_INTEGER (strcmp s1 s2))

/-- The function `call_strlen`. -/
def call_strlen (P : Platform) : List token_t → Except exp_error_t value_t :=
  with_one_string P (fun s1 => .T_INTEGER s1.length)

/-- The function `call_strtolower`. -/
def call_strtolower (P : Platform) : List token_t → Except exp_error_t value_t :=
  with_one_string P (fun s1 => .T_STRING (s1.map Char.toLower))

/-- The function `call_strtoupper`. -/
def call_strtoupper (P : Platform) : List token_t → Except exp_error_t value_t :=
  with_one_string P (fun s1 => .T_STRING (s1.map Char.toUpper))

/-- The function `call_capitalise`. -/
def call_capitalise (P : Platform) : List token_t → Except exp_error_t value_t :=
  with_one_string P (fun s1 =>
    match s1 with
    | [] => .T_STRING []
    | c :: cs => .T_STRING (c.toUpper :: cs.map Char.toLower))

/-- The function `call_substr`. -/
def call_substr (P : Platform) : List token_t → Except exp_error_t value_t
  | [] => .error EXP_ER_INVALARGCLOW
  | [_] => .error EXP_ER_INVALARGCLOW
  | [op, next] =>
    match exp_to_string P op.param with
    | .error status => .error status
    | .ok s1 =>
      match exp_to_integer P next.param with
      | .error status => .error status
      | .ok start =>
        let string_length : Int := s1.length
        if start > string_length then .error EXP_ER_INVALARGV
        else if start ≥ 0 then .ok (.T_STRING (s1.drop start.toNat))
        else if start < -string_length then .error EXP_ER_INVALARGV
        else .ok (.T_STRING (s1.drop (string_length + start).toNat))
  | [op, next, third] =>
    match exp_to_string P op.param with
    | .error status => .error status
    | .ok s1 =>
      match exp_to_integer P next.param with
      | .error status => .error status
      | .ok start =>
        match exp_to_integer P third.param with
        | .error status => .error status
        | .ok length =>
          let string_length : Int := s1.length
          if length < 0 then .error EXP_ER_INVALARGV
          else if start > string_length then .error EXP_ER_INVALARGV
          else if start ≥ 0 then
            if length > string_length - start then .ok (.T_STRING (s1.drop start.toNat))
            else .ok (.T_STRING ((s1.drop start.toNat).take length.toNat))
          else if start < -string_length then .error EXP_ER_INVALARGV
          else
            if length > -start then .ok (.T_STRING (s1.drop (string_length + start).toNat))
            else .ok (.T_STRING ((s1.drop (string_length + start).toNat).take length.toNat))
  | _ :: _ :: _ :: _ :: _ => .error EXP_ER_INVALARGCHIGH

/-- The function `call_trim`. -/
def call_trim (P : Platform) : List token_t → Except exp_error_t value_t :=
  with_one_string P (fun s1 => .T_STRING ((s1.take (trim_right_len s1)).dropWhile IS_BLANK))

/-- The table `function_table`. -/
def function_table (P : Platform) : List (String × (List token_t → Except exp_error_t value_t)) :=
  [("abs", call_abs P), ("acos", call_acos P), ("asin", call_asin P), ("atan", call_atan P),
   ("atan2", call_atan2 P), ("ceil", call_ceil P), ("cos", call_cos P), ("cosh", call_cosh P),
   ("exp", call_exp P), ("floor", call_floor P), ("fmod", call_fmod P), ("log", call_log P),
   ("log10", call_log10 P), ("min", call_min P), ("max", call_max P), ("pow", call_pow P),
   ("rand", call_random P), ("random", call_random P), ("round", call_round P),
   ("sin", call_sin P), ("sinh", call_sinh P), ("sqr", call_sqr P), ("sqrt", call_sqrt P),
   ("tan", call_tan P), ("tanh", call_tanh P),
   ("bin2dec", call_bin2dec), ("bool", call_boolean P), ("boolean", call_boolean P),
   ("dec2bin", call_dec2bin P), ("dec2hex", call_dec2hex P), ("dec2oct", call_dec2oct P),
   ("float", call_double P), ("double", call_double P), ("hex2dec", call_hex2dec),
   ("integer", call_integer P), ("int", call_integer P), ("oct2dec", call_oct2dec),
   ("string", call_string P), ("str", call_string P),
   ("ltrim", call_ltrim P), ("rtrim", call_rtrim P), ("strcasecmp", call_strcasecmp P),
   ("strcmp", call_strcmp P), ("strlen", call_strlen P),
   ("strtolower", call_strtolower P), ("strlwr", call_strtolower P),
   ("tolower", call_strtolower P), ("lowercase", call_strtolower P),
   ("strtoupper", call_strtoupper P), ("strupr", call_strtoupper P),
   ("toupper", call_strtoupper P), ("upeercase", call_strtoupper P),
   ("capitalise", call_capitalise P), ("substr", call_substr P), ("substring", call_substr P),
   ("trim", call_trim P)]

/-! ## The public value type and the expression handle (`libexpression.h`) -/

/-- The type `exp_value_t`; a string may be the `NULL` pointer.  A type tag
outside the enumeration behaves as `EXP_NONE`. -/
inductive exp_value_t
  | EXP_NONE
  | EXP_INTEGER (integer : Int)
  | EXP_REAL (real : Double)
  | EXP_BOOLEAN (boolean : Int)
  | EXP_STRING (string : Option (List Char))
  deriving DecidableEq, Repr

/-- The type `expression_t`.  A callback returns its status and the value it
stores in `*result`; `none` is the `NULL` callback.  The user data is the
closure of the callbacks. -/
structure expression_t where
  tokens : List token_t
  e : List Char
  fhandler : Option (String → List exp_value_t → Int × exp_value_t)
  phandler : Option (String → Int × exp_value_t)

/-- The block `IMPORT_TO_VALUE_T`. -/
def IMPORT_TO_VALUE_T : exp_value_t → value_t
  | .EXP_INTEGER i => .T_INTEGER i
  | .EXP_REAL r => .T_REAL r
  | .EXP_BOOLEAN b => .T_BOOLEAN b
  | .EXP_STRING (some s) => .T_STRING s
  | .EXP_STRING none => .T_STRING "NULL".toList
  | .EXP_NONE => .T_NONE

/-- The block `EXPORT_FROM_VALUE_T`. -/
def EXPORT_FROM_VALUE_T : value_t → exp_value_t
  | .T_INTEGER i => .EXP_INTEGER i
  | .T_REAL r => .EXP_REAL r
  | .T_BOOLEAN b => .EXP_BOOLEAN b
  | .T_STRING s => .EXP_STRING (some s)
  | _ => .EXP_NONE

/-! ## Function calls (`functions.c`) -/

/-- The search of `function_table` by `strcmp`: the first entry of that name. -/
def function_lookup (P : Platform) (fname : String) :
    Option (List token_t → Except exp_error_t value_t) :=
  ((function_table P).find? (fun entry => entry.1 == fname)).map (fun entry => entry.2)

/-- The search of `exp_call_function` for the function `fname` and its call
on the queue of arguments: the built-in of that name, else the callback of the
host, whose status 0 is success, 1 an unknown function and any other value an
error. -/
def call_status (P : Platform) (exp : expression_t) (fname : String) (opqueue : List token_t) :
    Except exp_error_t value_t :=
  match function_lookup P fname with
  | some func => func opqueue
  | none =>
    match exp.fhandler with
    | some fhandler =>
      match fhandler fname (opqueue.map (fun t => EXPORT_FROM_VALUE_T t.param)) with
      | (st, exv) =>
        if st = 0 then
          if (IMPORT_TO_VALUE_T exv).type == T_NONE then .error EXP_ER_INVALRET
          else .ok (IMPORT_TO_VALUE_T exv)
        else if st = 1 then .error EXP_ER_INVALFUNC
        else .error EXP_ER_USERFUNCERROR
    | none => .error EXP_ER_INVALFUNC

/-- The end of `exp_call_function` on a successful result: a real equal to zero
is stored as `0`; nothing else is changed. -/
def positive_zero (v : value_t) : value_t :=
  match v with
  | .T_REAL r => if Double.eq (Double.fin 0 0) r then .T_REAL (Double.fin 0 0) else .T_REAL r
  | _ => v

/-- The function `exp_call_function` on the stack (top first): the stack with
the `argc` arguments replaced by the result, or the status. -/
def exp_call_function (P : Platform) (exp : expression_t) (fname : String) (argc : Nat)
    (stack : List token_t) : Except exp_error_t (List token_t) :=
  match call_status P exp fname (stack.take argc).reverse with
  | .error st => .error st
  | .ok v => .ok (token_t.mk 0 (positive_zero v) [] :: stack.drop argc)

/-! ## The RPN executor (`rpn.c`) -/

/-- The block `operator_to_string`. -/
def operator_to_string : operator_t → String
  | O_BOOLNOT => "Logical NOT"
  | O_BITNOT => "Bitwise NOT"
  | O_DIV => "Division"
  | O_MOD => "Modulo"
  | O_MUL => "Multiplication"
  | O_UPLUS => "Unary plus"
  | O_PLUS => "Plus"
  | O_UMINUS => "Unary minus"
  | O_MINUS => "Minus"
  | O_SHIFTLEFT => "Bitwise left shift"
  | O_SHIFTRIGHT => "Bitwise right shift"
  | O_GT => "Greater than"
  | O_LT => "Less than"
  | O_GE => "Greater than or equal to"
  | O_LE => "Less than or equal to"
  | O_NOTEQUALS => "Not equal"
  | O_BOOLEQUALS => "Equal"
  | O_BITAND => "Bitwise AND"
  | O_HAT => "Power"
  | O_BITOR => "Bitwise OR"
  | O_BOOLAND => "Logical AND"
  | O_BOOLOR => "Logical OR"
  | O_EQUALS => "Equal"
  | _ => "Unknown"

/-- The message stored by `exp_rpn` for a failed operator. -/
def operator_error_message (status : exp_error_t) (op : operator_t) : String :=
  match status with
  | EXP_ER_INVALARGC =>
    operator_to_string op ++ " operator does not have sufficient number of operands"
  | EXP_ER_INVALARGV => "Invalid operand provided to evaluate expression with operator"
  | EXP_ER_INVALOPERATOR => "Invalid operator"
  | EXP_ER_NOMEM => "Memory error occured while expression was evaluated"
  | EXP_ER_COMPLEX => "Complex result when evaluating expression"
  | EXP_ER_DIVBYZERO => "Division by zero"
  | EXP_ER_NONINTEGER => operator_to_string op ++ " operator requires integer operands"
  | EXP_ER_NONNUMERIC => operator_to_string op ++ " operator requires numeric or boolean operands"
  | EXP_ER_NONBOOLEAN => operator_to_string op ++ " operator requires boolean operands"
  | EXP_ER_NONSTRING => operator_to_string op ++ " operator requires string operands"
  | EXP_ER_INTOVERFLOW => "Overflow occurs when converting operator to integer"
  | _ => "Error occured"

/-- The number printed by `%d` for a status. -/
def exp_error_code : exp_error_t → Nat
  | EXP_ER_INVALEXPR => 101
  | EXP_ER_INVALARGC => 102
  | EXP_ER_INVALARGCHIGH => 103
  | EXP_ER_INVALARGCLOW => 104
  | EXP_ER_INVALARGV => 105
  | EXP_ER_INVALFUNC => 106
  | EXP_ER_INVALPARAM => 107
  | EXP_ER_INVALOPERATOR => 108
  | EXP_ER_NOMEM => 109
  | EXP_ER_COMPLEX => 110
  | EXP_ER_DIVBYZERO => 111
  | EXP_ER_NONINTEGER => 112
  | EXP_ER_NONNUMERIC => 113
  | EXP_ER_NONBOOLEAN => 114
  | EXP_ER_NONSTRING => 115
  | EXP_ER_INTOVERFLOW => 116
  | EXP_ER_TRIGONOMETRIC => 117
  | EXP_ER_INVALRET => 118
  | EXP_ER_USERFUNCERROR => 119

/-- The message stored by `exp_rpn` for a failed function call. -/
def function_error_message (status : exp_error_t) : String :=
  match status with
  | EXP_ER_INVALARGV => "Invalid function argument"
  | EXP_ER_INVALARGCHIGH => "Too many arguments passed to function"
  | EXP_ER_INVALARGCLOW => "Too few arguments passed to function"
  | EXP_ER_INVALFUNC => "Unknown function"
  | EXP_ER_TRIGONOMETRIC => "Function argument is not in range"
  | EXP_ER_COMPLEX => "Complex result when evaluating function"
  | EXP_ER_INTOVERFLOW => "Overflow occurs when converting argument to integer"
  | EXP_ER_NONINTEGER => "Function requires integer operands"
  | EXP_ER_NONNUMERIC => "Function requires numeric or boolean operands"
  | EXP_ER_NONBOOLEAN => "Function requires boolean operands"
  | EXP_ER_NONSTRING => "Function requires string operands"
  | EXP_ER_NOMEM => "Memory error occured while expression was evaluated"
  | EXP_ER_INVALRET => "Unknown type was returned by user defined function handler"
  | EXP_ER_USERFUNCERROR => "Error in user defined function handler"
  | EXP_ER_DIVBYZERO => "Division by zero"
  | _ => "Error occured (" ++ toString (exp_error_code status) ++ ")"

/-- Is the value one of the four kinds that a result may have. -/
def is_value : value_t → Bool
  | .T_BOOLEAN _ | .T_INTEGER _ | .T_REAL _ | .T_STRING _ => true
  | _ => false

/-- The function `exp_eval_if` on a stack of at least three tokens (top first:
the else-branch, the then-branch, the condition); `rpn` is `exp_rpn` for the
same expression. -/
def exp_eval_if (P : Platform) (rpn : List token_t → Except exp_failure value_t)
    (stack : List token_t) : Except exp_failure (List token_t) :=
  match stack with
  | iffalse :: iftrue :: cond :: s =>
    match exp_to_boolean P cond.param with
    | .error ret =>
      .error ⟨ret,
        match ret with
        | EXP_ER_NONBOOLEAN => "Conditional statement requires boolean operand"
        | EXP_ER_INVALARGV => "Invalid operand provided to evaluate conditional statement"
        | _ => "Error occured",
        cond.position⟩
    | .ok b1 =>
      match rpn (if b1 != 0 then iftrue.children else iffalse.children) with
      | .error e => .error e
      | .ok v => .ok (token_t.mk cond.position (narrow P v) [] :: s)
  | _ => .error ⟨EXP_ER_INVALEXPR,
      "Conditional expression does not have sufficient number of operands", 0⟩

/-- The check of the arguments of a function on the stack: the first `i`
tokens, as far as the stack goes, are values. -/
def arguments_are_values : List token_t → Nat → Bool
  | [], _ => true
  | _ :: _, 0 => true
  | temp :: rest, i + 1 => is_value temp.param && arguments_are_values rest i

/-- The reading loop of `exp_rpn`: `in_` is the input still to read, `stack`
the value stack (top first); `rpn` is `exp_rpn` for the same expression, used
for the branch of a conditional.  An argument count is read as an `int`; a
negative one, which the shunting-yard never emits, is read as 0. -/
def rpn_loop (P : Platform) (exp : expression_t)
    (rpn : List token_t → Except exp_failure value_t) :
    List token_t → List token_t → Except exp_failure (List token_t)
  | [], stack => .ok stack
  | curr :: in_, stack =>
    match curr.param with
    | .T_BOOLEAN _ | .T_INTEGER _ | .T_REAL _ | .T_STRING _ | .T_IFSTATEMENT =>
      rpn_loop P exp rpn in_ (curr :: stack)
    | .T_OPERATOR op =>
      if stack.length ≥ exp_op_argument_count op then
        match exp_eval_operator P stack op with
        | .error status =>
          .error ⟨status, operator_error_message status op, curr.position⟩
        | .ok stack1 => rpn_loop P exp rpn in_ stack1
      else
        .error ⟨EXP_ER_INVALEXPR, "Operator does not have sufficient number of operands",
          curr.position⟩
    | .T_IFCONDITION _ =>
      match stack with
      | t0 :: t1 :: _ :: _ =>
        if t0.type == T_IFSTATEMENT && t1.type == T_IFSTATEMENT then
          match exp_eval_if P rpn stack with
          | .error e => .error e
          | .ok stack1 => rpn_loop P exp rpn in_ stack1
        else
          .error ⟨EXP_ER_INVALEXPR,
            "Conditional expression does not have sufficient number of operands", curr.position⟩
      | _ =>
        .error ⟨EXP_ER_INVALEXPR,
          "Conditional expression does not have sufficient number of operands", curr.position⟩
    | .T_FUNCTION fname =>
      match stack with
      | top :: stack1 =>
        match top.param with
        | .T_INTEGER n =>
          let argc := n.toNat
          if argc > stack1.length then
            .error ⟨EXP_ER_INVALEXPR,
              "Algorithm error: stack length is less than arguments count", curr.position⟩
          else if !arguments_are_values stack1 argc then
            .error ⟨EXP_ER_INVALEXPR,
              "Algorithm error: unsupported function argument in stack", curr.position⟩
          else
            match exp_call_function P exp fname argc stack1 with
            | .error status => .error ⟨status, function_error_message status, curr.position⟩
            | .ok stack2 => rpn_loop P exp rpn in_ stack2
        | _ =>
          .error ⟨EXP_ER_INVALEXPR, "Algorithm error: no argument count found for function",
            curr.position⟩
      | [] =>
        .error ⟨EXP_ER_INVALEXPR, "Algorithm error: no argument count found for function",
          curr.position⟩
    | _ => .error ⟨EXP_ER_INVALEXPR, "Invalid or unsupported token", curr.position⟩

/-- The end of `exp_rpn`, after the reading loop. -/
def rpn_finish (stack : List token_t) : Except exp_failure value_t :=
  match stack with
  | [] => .error ⟨EXP_ER_INVALEXPR,
      "Expression is possibly malformed, it has too many operators", 0⟩
  | [t] =>
    if is_value t.param then .ok t.param
    else .error ⟨EXP_ER_INVALEXPR, "Expression is possibly malformed", 0⟩
  | _ :: _ :: _ => .error ⟨EXP_ER_INVALEXPR,
      "Expression is possibly malformed, it has too many operands", 0⟩

/-- The function `exp_rpn` with a bound on the depth of the nested
conditionals that it may enter. -/
def exp_rpn_fuel (P : Platform) (exp : expression_t) :
    Nat → List token_t → Except exp_failure value_t
  | 0, _ => .error ⟨EXP_ER_NOMEM, "fuel exhausted", 0⟩
  | fuel + 1, input =>
    match rpn_loop P exp (exp_rpn_fuel P exp fuel) (exp_token_dup.list input) [] with
    | .error e => .error e
    | .ok stack => rpn_finish stack

/-- The nesting depth of the `T_IFSTATEMENT` tokens of a list. -/
def token_depth : token_t → Nat
  | .mk _ _ c => 1 + list c
where
  /-- The largest nesting depth in a list of tokens. -/
  list : List token_t → Nat
    | [] => 0
    | t :: ts => max (token_depth t) (list ts)

/-- The function `exp_rpn`: the value stored in `*ret`. -/
def exp_rpn (P : Platform) (exp : expression_t) (input : List token_t) :
    Except exp_failure value_t :=
  exp_rpn_fuel P exp (token_depth.list input + 1) input

/-! ## The API (`libexpression.c`) -/

/-- The function `substitute_parameter`: the value of a predefined constant. -/
def substitute_parameter (parameter_name : String) : Option value_t :=
  let n := parameter_name.toList
  if strcasecmp_eq "pi".toList n then
    some (.T_REAL (Double.fin 7074237752028440 (-51)))
  else if strcasecmp_eq "e".toList n then
    some (.T_REAL (Double.fin 6121026514868073 (-51)))
  else if strcasecmp_eq "true".toList n || strcasecmp_eq "yes".toList n
      || strcasecmp_eq "on".toList n then
    some (.T_BOOLEAN 1)
  else if strcasecmp_eq "false".toList n || strcasecmp_eq "no".toList n
      || strcasecmp_eq "off".toList n then
    some (.T_BOOLEAN 0)
  else none

/-- The size `EXP_ERLEN` of the buffer of an error message. -/
def EXP_ERLEN : Nat := 1024

/-- The function `substitute_parameters_in_expr` on one token and, as
`substitute_parameters_in_expr.list`, on a list: the tokens after the
substitution, which is made in place. The message about an unknown parameter
is written by `snprintf` with the size `EXP_ERLEN`. -/
def substitute_parameters_in_expr (exp : expression_t) : token_t → Except exp_failure token_t
  | .mk pos (.T_PARAMETER p) c =>
    match substitute_parameter p with
    | some v => .ok (.mk pos v c)
    | none =>
      match exp.phandler with
      | some phandler =>
        match phandler p with
        | (st, exv) =>
          if st = 0 then
            if (IMPORT_TO_VALUE_T exv).type == T_NONE then
              .error ⟨EXP_ER_INVALRET,
                "Unknown type was returned by user defined parameter handler", pos⟩
            else .ok (.mk pos (IMPORT_TO_VALUE_T exv) c)
          else .error ⟨EXP_ER_INVALPARAM,
            String.mk (snprintf EXP_ERLEN ("Unknown parameter '" ++ p ++ "'").toList), pos⟩
      | none => .error ⟨EXP_ER_INVALPARAM,
            String.mk (snprintf EXP_ERLEN ("Unknown parameter '" ++ p ++ "'").toList), pos⟩
  | .mk pos .T_IFSTATEMENT c =>
    match list exp c with
    | .error e => .error e
    | .ok c1 => .ok (.mk pos .T_IFSTATEMENT c1)
  | .mk pos v c => .ok (.mk pos v c)
where
  /-- The loop of `substitute_parameters_in_expr` over a list of tokens. -/
  list (exp : expression_t) : List token_t → Except exp_failure (List token_t)
    | [] => .ok []
    | t :: ts =>
      match substitute_parameters_in_expr exp t with
      | .error e => .error e
      | .ok t1 =>
        match list exp ts with
        | .error e => .error e
        | .ok ts1 => .ok (t1 :: ts1)

/-- The function `exp_solve`: the value returned through the result pointer. -/
def exp_solve (P : Platform) (exp : expression_t) : Except exp_failure exp_value_t :=
  match substitute_parameters_in_expr.list exp (exp_token_dup.list exp.tokens) with
  | .error e => .error e
  | .ok tokens =>
    match exp_rpn P exp tokens with
    | .error e => .error e
    | .ok v =>
      if EXPORT_FROM_VALUE_T v == .EXP_NONE then
        .error ⟨EXP_ER_INVALEXPR, "Result type is invalid", 0⟩
      else .ok (EXPORT_FROM_VALUE_T v)

/-- The values of `errno` set by `exp_value_to_string_r`. -/
inductive errno_t
  | ENOBUFS
  | EINVAL
  deriving DecidableEq, Repr

/-- The function `exp_value_to_string_r`: the text left in the buffer, which is
the pointer returned, or the `errno` set when `NULL` is returned.
`buffer_null` tells that the pointer `buffer` is `NULL`. -/
def exp_value_to_string_r (P : Platform) (ev : exp_value_t) (buffer_null : Bool)
    (buffer_max_len : Int) : Except errno_t (List Char) :=
  if buffer_null || buffer_max_len < 1 then .error .ENOBUFS
  else
    match ev with
    | .EXP_REAL real =>
      let buffer := snprintf buffer_max_len.toNat (P.fmt_f9 real)
      if buffer.contains '.' then
        let l := buffer.reverse.dropWhile (fun c => c == '0')
        match l with
        | '.' :: l1 => .ok l1.reverse
        | _ => .ok l.reverse
      else .ok buffer
    | .EXP_INTEGER integer => .ok (snprintf buffer_max_len.toNat (fmt_lld integer))
    | .EXP_BOOLEAN boolean =>
      .ok (snprintf buffer_max_len.toNat (if boolean != 0 then "True" else "False").toList)
    | .EXP_STRING (some string) => .ok (snprintf buffer_max_len.toNat string)
    | .EXP_STRING none => .ok (snprintf buffer_max_len.toNat P.fmt_null)
    | .EXP_NONE => .error .EINVAL

/-! ## The lexer (`tokenizer.c`) and `exp_create` (`libexpression.c`) -/

/-- The test `IS_ALPHA`. -/
def IS_ALPHA (c : Char) : Bool :=
  (decide ('a' ≤ c) && decide (c ≤ 'z')) || (decide ('A' ≤ c) && decide (c ≤ 'Z')) || c == '_'

/-- The test `IS_ALPHANUMERIC`. -/
def IS_ALPHANUMERIC (c : Char) : Bool := IS_NUMERIC c || IS_ALPHA c

/-- The function `strtolower`: `tolower` on every byte. -/
def strtolower (str : List Char) : List Char := str.map Char.toLower

/-- The loop of `stripslashes` with `s` at the byte `c` followed by `rest`: the
text from `s` on when the loop ends.  A recognised pair is replaced in place by
the byte it denotes and `s` stays on that byte; an unknown pair is stepped
over; any other byte is stepped over.  A backslash that ends the string is
stepped over together with the terminator: `is_string` passes such a string
only after a pair in front of it was replaced, when the byte behind the
terminator is the terminator that `memmove` left there. -/
def stripslashes_at : Char → List Char → List Char
  | c, [] => [c]
  | c, d :: rest =>
    if c == '\\' then
      if d == 'n' then stripslashes_at '\n' rest
      else if d == 'r' then stripslashes_at '\r' rest
      else if d == 't' then stripslashes_at '\t' rest
      else if d == '\\' then stripslashes_at '\\' rest
      else if d == '\'' then stripslashes_at '\'' rest
      else if d == '"' then stripslashes_at '"' rest
      else
        match rest with
        | [] => [c, d]
        | e :: rest1 => c :: d :: stripslashes_at e rest1
    else c :: stripslashes_at d rest

/-- The function `stripslashes`: the string it leaves in the buffer. -/
def stripslashes : List Char → List Char
  | [] => []
  | c :: rest => stripslashes_at c rest

/-- The function `is_parenthesis`: the payload of the token and `*toklen`. -/
def is_parenthesis : List Char → Option (value_t × Nat)
  | [] => none
  | c :: _ =>
    if c == '(' then some (.T_LPAREN, 1)
    else if c == ')' then some (.T_RPAREN, 1)
    else none

/-- The function `is_comma`. -/
def is_comma : List Char → Option (value_t × Nat)
  | [] => none
  | c :: _ => if c == ',' then some (.T_COMMA, 1) else none

/-- The function `is_operator`; `rest.head?` is the byte `*(s+1)` when
`slen>1`. -/
def is_operator : List Char → Option (value_t × Nat)
  | [] => none
  | c :: rest =>
    if c == '+' then some (.T_OPERATOR O_PLUS, 1)
    else if c == '-' then some (.T_OPERATOR O_MINUS, 1)
    else if c == '/' then some (.T_OPERATOR O_DIV, 1)
    else if c == '%' then some (.T_OPERATOR O_MOD, 1)
    else if c == '*' then some (.T_OPERATOR O_MUL, 1)
    else if c == '^' then some (.T_OPERATOR O_HAT, 1)
    else if c == '~' then some (.T_OPERATOR O_BITNOT, 1)
    else if c == '?' then some (.T_OPERATOR O_IFTHEN, 1)
    else if c == ':' then some (.T_OPERATOR O_ELSE, 1)
    else if c == '>' then
      if rest.head? == some '=' then some (.T_OPERATOR O_GE, 2)
      else if rest.head? == some '>' then some (.T_OPERATOR O_SHIFTRIGHT, 2)
      else some (.T_OPERATOR O_GT, 1)
    else if c == '<' then
      if rest.head? == some '=' then some (.T_OPERATOR O_LE, 2)
      else if rest.head? == some '<' then some (.T_OPERATOR O_SHIFTLEFT, 2)
      else some (.T_OPERATOR O_LT, 1)
    else if c == '=' then
      if rest.head? == some '=' then some (.T_OPERATOR O_BOOLEQUALS, 2)
      else some (.T_OPERATOR O_EQUALS, 1)
    else if c == '!' then
      if rest.head? == some '=' then some (.T_OPERATOR O_NOTEQUALS, 2)
      else some (.T_OPERATOR O_BOOLNOT, 1)
    else if c == '&' then
      if rest.head? == some '&' then some (.T_OPERATOR O_BOOLAND, 2)
      else some (.T_OPERATOR O_BITAND, 1)
    else if c == '|' then
      if rest.head? == some '|' then some (.T_OPERATOR O_BOOLOR, 2)
      else some (.T_OPERATOR O_BITOR, 1)
    else none

namespace tokenizer

/-- The loops of the lexer's `is_number` over the digits of a literal with a
base prefix, `num=(num<<shift)|c` on a `uint64_t`: the accumulator and
`rlen`. -/
def is_number_digits (digit : Char → Option Nat) (shift : Nat) : List Char → Nat → Nat → Nat × Nat
  | [], num, rlen => (num, rlen)
  | c :: cs, num, rlen =>
    match digit c with
    | some d =>
      is_number_digits digit shift cs (((num <<< shift) % 18446744073709551616) ||| d) (rlen + 1)
    | none => (num, rlen)

/-- The scanning loop of the lexer's `is_number` for decimal literals: `n` is
`p - s`; the result is `rlen`, `is_real` and `pointfound`. -/
def is_number_scan : List Char → Nat → Bool → Bool → Bool → Nat × Bool × Bool
  | [], n, is_real, _, pointfound => (n, is_real, pointfound)
  | [c], n, is_real, _, pointfound =>
    if is_real then
      if !IS_NUMERIC c then
        if c == '.' && !pointfound then (n + 1, is_real, true)
        else (n, is_real, pointfound)
      else (n + 1, is_real, pointfound)
    else
      if !IS_NUMERIC c then
        if c == '.' then (n + 1, true, true)
        else (n, is_real, pointfound)
      else (n + 1, is_real, pointfound)
  | c :: c1 :: cs, n, is_real, efound, pointfound =>
    if is_real then
      if !IS_NUMERIC c then
        if c == '.' && !pointfound then is_number_scan (c1 :: cs) (n + 1) is_real efound true
        else if c == 'e' && !efound && decide (0 < n) && (c1 == '+' || c1 == '-') then
          is_number_scan cs (n + 2) is_real true true
        else (n, is_real, pointfound)
      else is_number_scan (c1 :: cs) (n + 1) is_real efound pointfound
    else
      if !IS_NUMERIC c then
        if c == '.' then is_number_scan (c1 :: cs) (n + 1) true efound true
        else if c == 'e' && decide (0 < n) && (c1 == '+' || c1 == '-') then
          is_number_scan cs (n + 2) true true true
        else (n, is_real, pointfound)
      else is_number_scan (c1 :: cs) (n + 1) is_real efound pointfound

/-- The last branch of the lexer's `is_number`: a decimal literal. -/
def is_number_decimal (P : Platform) (s : List Char) : Option (value_t × Nat) :=
  match is_number_scan s 0 false false false with
  | (rlen, is_real, pointfound) =>
    if rlen = 0 || (rlen = 1 && pointfound) then none
    else if is_real then some (.T_REAL (P.atof (s.take rlen)), rlen)
    else some (.T_INTEGER (atoll (s.take rlen)), rlen)

/-- A literal with a base prefix, after its first digit `c`: the token and
`*toklen`.  The `uint64_t` accumulator is stored into the `int64_t` member. -/
def is_number_based (digit : Char → Option Nat) (shift : Nat) (tl : List Char) (c : Nat) :
    Option (value_t × Nat) :=
  match is_number_digits digit shift tl c 3 with
  | (num, rlen) => some (.T_INTEGER (wrap64 num), rlen)

/-- The function `is_number` of `tokenizer.c`. -/
def is_number (P : Platform) (s : List Char) : Option (value_t × Nat) :=
  match s with
  | c0 :: c1 :: h :: tl =>
    if c0 == '0' && c1 == 'x' && (IS_HEXADEMICAL h).isSome then
      match IS_HEXADEMICAL h with
      | some c => is_number_based IS_HEXADEMICAL 4 tl c
      | none => none
    else if c0 == '0' && c1 == 'o' && (IS_OCTAL h).isSome then
      match IS_OCTAL h with
      | some c => is_number_based IS_OCTAL 3 tl c
      | none => none
    else if c0 == '0' && c1 == 'b' && (IS_BINARY h).isSome then
      match IS_BINARY h with
      | some c => is_number_based IS_BINARY 1 tl c
      | none => none
    else is_number_decimal P s
  | _ => is_number_decimal P s

end tokenizer

/-- The function `is_parameter`. -/
def is_parameter : List Char → Option (value_t × Nat)
  | [] => none
  | c :: rest =>
    if IS_ALPHA c then
      let name := c :: rest.takeWhile (fun x => IS_ALPHANUMERIC x || x == '.')
      some (.T_PARAMETER (String.mk (strtolower name)), name.length)
    else none

/-- The scanning loop of `is_string` for the quote `c`: the number of bytes
between the quotes, `none` when the string ends before the closing quote. -/
def is_string_scan (c : Char) : List Char → Nat → Bool → Option Nat
  | [], _, _ => none
  | x :: xs, n, slash =>
    if x == '\\' then is_string_scan c xs (n + 1) (!slash)
    else if x == c && !slash then some n
    else is_string_scan c xs (n + 1) false

/-- The function `is_string`. -/
def is_string : List Char → Option (value_t × Nat)
  | [] => none
  | c :: rest =>
    if c == '\'' || c == '"' then
      match is_string_scan c rest 0 false with
      | some n => some (.T_STRING (stripslashes (rest.take n)), n + 2)
      | none => none
    else none

/-- The cascade of recognisers at the head of the loop of `exp_parse`: the
payload and the length of the token that starts the text, `none` when no
recogniser accepts it. -/
def exp_parse_token (P : Platform) (exp : List Char) : Option (value_t × Nat) :=
  match is_parenthesis exp with
  | some r => some r
  | none =>
    match is_comma exp with
    | some r => some r
    | none =>
      match is_operator exp with
      | some r => some r
      | none =>
        match tokenizer.is_number P exp with
        | some r => some r
        | none =>
          match is_parameter exp with
          | some r => some r
          | none => is_string exp

/-- The rewriting of `-` and `+` in `exp_parse`: after nothing, a comma, a left
parenthesis or an operator the token becomes `O_UMINUS` or `O_UPLUS`. -/
def exp_parse_sign (tail : Option token_t) (v : value_t) : value_t :=
  match v with
  | .T_OPERATOR O_MINUS =>
    if tail.isNone || has_type tail T_COMMA || has_type tail T_LPAREN
        || has_type tail T_OPERATOR then .T_OPERATOR O_UMINUS
    else v
  | .T_OPERATOR O_PLUS =>
    if tail.isNone || has_type tail T_COMMA || has_type tail T_LPAREN
        || has_type tail T_OPERATOR then .T_OPERATOR O_UPLUS
    else v
  | _ => v

/-- The message of `exp_parse` for a byte that starts no token. -/
def exp_parse_message (c : Char) : String :=
  if c == '"' || c == '\'' then "Missing terminating quote character"
  else "Invalid or unsupported token '" ++ String.singleton c ++ "'"

/-- The loop of `exp_parse` with `exp` at offset `pos` of the expression and
`tail` the last token made: the tokens from there on.  `elen` is the length of
`exp` throughout, since no token is longer than the text left.  Every turn
consumes a byte; `fuel` bounds the number of turns and `exp_parse` supplies the
length of the text. -/
def exp_parse_loop (P : Platform) :
    Nat → Nat → List Char → Option token_t → Except exp_failure (List token_t)
  | _, _, [], _ => .ok []
  | 0, pos, _ :: _, _ => .error ⟨EXP_ER_NOMEM, "fuel exhausted", pos⟩
  | fuel + 1, pos, c :: cs, tail =>
    match exp_parse_token P (c :: cs) with
    | none => .error ⟨EXP_ER_INVALEXPR, exp_parse_message c, pos⟩
    | some (v, l) =>
      let token := tok pos (exp_parse_sign tail v)
      let rest := (c :: cs).drop l
      match exp_parse_loop P fuel (pos + l + (rest.takeWhile IS_BLANK).length)
          (rest.dropWhile IS_BLANK) (some token) with
      | .error f => .error f
      | .ok ts => .ok (token :: ts)

/-- The function `exp_parse`. -/
def exp_parse (P : Platform) (expression : List Char) : Except exp_failure (List token_t) :=
  let exp := expression.dropWhile IS_BLANK
  if exp.isEmpty then .error ⟨EXP_ER_INVALEXPR, "Empty expression was provided", 0⟩
  else exp_parse_loop P exp.length (expression.takeWhile IS_BLANK).length exp none

/-- The function `exp_create`: the handle has no callbacks yet. -/
def exp_create (P : Platform) (e : List Char) : Except exp_failure expression_t :=
  match exp_parse P e with
  | .error f => .error f
  | .ok a =>
    match exp_check a with
    | .error f => .error f
    | .ok a1 =>
      match exp_shunting_yard a1 0 with
      | .error f => .error f
      | .ok (b, _) => .ok ⟨b, e, none, none⟩

/-! ## Shapes of inputs used in the statements -/

/-- Payloads of the literal and parameter tokens. -/
def is_operand : value_t → Bool
  | .T_BOOLEAN _ | .T_INTEGER _ | .T_REAL _ | .T_STRING _ | .T_PARAMETER _ => true
  | _ => false

/-- An operand token: a literal or a parameter, without children. -/
def operand_token (t : token_t) : Prop := ∃ p v, t = tok p v ∧ is_operand v = true

/-- The arguments of a call separated by commas; the commas take their
positions from `commas` (0 when the list is too short). -/
def join_args : List token_t → List Nat → List token_t
  | [], _ => []
  | [a], _ => [a]
  | a :: b :: as, [] => a :: tok 0 .T_COMMA :: join_args (b :: as) []
  | a :: b :: as, c :: cs => a :: tok c .T_COMMA :: join_args (b :: as) cs

/-- The tokens of the call `name(a1, ..., an)`: the function token at `fp`, the
parentheses at `lp` and `rp`. -/
def call_input (fp : Nat) (name : String) (lp rp : Nat) (args : List token_t)
    (commas : List Nat) : List token_t :=
  tok fp (.T_FUNCTION name) :: tok lp .T_LPAREN :: (join_args args commas ++ [tok rp .T_RPAREN])

/-- The binary operators of the precedence table. -/
def is_binary_operator : operator_t → Bool
  | O_HAT | O_MUL | O_DIV | O_MOD | O_PLUS | O_MINUS | O_SHIFTLEFT | O_SHIFTRIGHT | O_GT | O_LT
  | O_GE | O_LE | O_BOOLEQUALS | O_NOTEQUALS | O_EQUALS | O_BITAND | O_BITOR | O_BOOLAND
  | O_BOOLOR => true
  | _ => false

/-- The level of an operator in the precedence table of the specification. -/
def spec_level : operator_t → Nat
  | O_UMINUS | O_UPLUS => 20
  | O_HAT => 19
  | O_BOOLNOT | O_BITNOT => 18
  | O_MUL | O_DIV | O_MOD => 17
  | O_PLUS | O_MINUS => 16
  | O_SHIFTLEFT | O_SHIFTRIGHT => 15
  | O_GT | O_LT | O_GE | O_LE => 14
  | O_BOOLEQUALS | O_NOTEQUALS | O_EQUALS => 13
  | O_BITAND => 12
  | O_BITOR => 11
  | O_BOOLAND => 10
  | O_BOOLOR => 9
  | O_IFTHEN => 8
  | _ => 0

/-- The operators that the specification lists as right-associative. -/
def spec_right_assoc : operator_t → Bool
  | O_UMINUS | O_UPLUS | O_HAT | O_BOOLNOT | O_BITNOT | O_IFTHEN | O_ELSE | O_EQUALS => true
  | _ => false

/-- The successor of a token is absent, a right parenthesis or a comma. -/
def no_right_operand : List token_t → Bool
  | [] => true
  | t :: _ => t.type == T_RPAREN || t.type == T_COMMA

/-- The four operators written before their only operand. -/
def is_unary_operator : operator_t → Bool
  | O_UMINUS | O_UPLUS | O_BOOLNOT | O_BITNOT => true
  | _ => false

/-- The place of a token admits no binary operator: the start of the list, or
after a left parenthesis, a comma or an operator. -/
def at_operand_place (prev : Option token_t) : Bool :=
  match prev with
  | none => true
  | some t => t.type == T_LPAREN || t.type == T_COMMA || t.type == T_OPERATOR

/-- The loop of `exp_check` over the tokens `before` that precede the token
`following`: the failure at the first rejected token of `before`, or, when
none is rejected, the token that `following` sees as `prev`. -/
def exp_check_before (prev : Option token_t) :
    List token_t → token_t → Except exp_failure (Option token_t)
  | [], _ => .ok prev
  | curr0 :: rest, following =>
    let next := (rest ++ [following]).head?
    let curr := promote curr0 next
    match exp_check_token prev curr next with
    | some msg => .error ⟨EXP_ER_INVALEXPR, msg, curr.position⟩
    | none => exp_check_before (some curr) rest following

/-- The sum of two doubles without rounding. -/
def Double.add_exact : Double → Double → Double
  | .fin m1 e1, .fin m2 e2 =>
    .fin ((Double.align m1 e1 m2 e2).1 + (Double.align m1 e1 m2 e2).2) (min e1 e2)
  | .nan, _ => .nan
  | _, .nan => .nan
  | .inf n1, .inf n2 => if n1 = n2 then .inf n1 else .nan
  | .inf n1, .fin _ _ => .inf n1
  | .fin _ _, .inf n2 => .inf n2

/-- The product of two doubles without rounding. -/
def Double.mul_exact : Double → Double → Double
  | .fin m1 e1, .fin m2 e2 => .fin (m1 * m2) (e1 + e2)
  | _, _ => .nan

/-- A platform on which the theorems are instantiated: its sums, differences
and products are exact, every other operation on doubles returns NaN, no
function sets `errno`, `%f`, `%0.9f` and `%s` of `NULL` print nothing and the
undefined conversions give `INT64_MIN`. -/
def exact_platform : Platform where
  add := Double.add_exact
  sub := fun a b => Double.add_exact a (Double.neg b)
  mul := Double.mul_exact
  div := fun _ _ => .nan
  pow := fun _ _ => .nan
  atof := fun _ => .nan
  fmt_f := fun _ => []
  fmt_f9 := fun _ => []
  fmt_null := []
  cast_ub := fun _ => INT64_MIN
  shl_ub := fun _ _ => 0
  shr_ub := fun _ _ => 0
  uninit := 0
  libm := fun _ _ => (.nan, 0)
  atan2 := fun _ _ => (.nan, 0)
  rand := 0
  RAND_MAX := 2147483647

/-- An expression handle without callbacks. -/
def plain_expression (tokens : List token_t) : expression_t := ⟨tokens, [], none, none⟩

/-- The string `a` sorts before the string `b` as a sequence of bytes. -/
def bytes_lt (a b : List Char) : Prop :=
  List.Lex (fun x y : Nat => x < y) (a.map Char.toNat) (b.map Char.toNat)

/-- The comparison operators: `>`, `<`, `>=`, `<=`, `==`, `!=` and `=`. -/
def is_comparison : operator_t → Bool
  | O_GT | O_LT | O_GE | O_LE | O_BOOLEQUALS | O_NOTEQUALS | O_EQUALS => true
  | _ => false

/-- The outcome of a comparison operator on two strings compared byte-wise in
lexicographic order. -/
def lex_compare (op : operator_t) (a b : List Char) : Prop :=
  match op with
  | O_GT => bytes_lt b a
  | O_LT => bytes_lt a b
  | O_GE => ¬ bytes_lt a b
  | O_LE => ¬ bytes_lt b a
  | O_NOTEQUALS => a ≠ b
  | _ => a = b

/-- The outcome of a comparison operator on two doubles. -/
def num_compare (op : operator_t) (d1 d2 : Double) : Bool :=
  match op with
  | O_GT => Double.gt d1 d2
  | O_LT => Double.lt d1 d2
  | O_GE => Double.ge d1 d2
  | O_LE => Double.le d1 d2
  | O_NOTEQUALS => Double.ne d1 d2
  | _ => Double.eq d1 d2

/-- The text of a value: an integer in signed decimal, a boolean as `true` or
`false`, a string unchanged, a real as `%f` prints it; the text of a number is
cut to the 127 bytes of the buffer of `exp_to_string`. -/
def stringify (P : Platform) : value_t → List Char
  | .T_INTEGER i => snprintf 128 (fmt_lld i)
  | .T_BOOLEAN b => if b = 0 then "false".toList else "true".toList
  | .T_STRING s => s
  | .T_REAL r => snprintf 128 (P.fmt_f r)
  | _ => []

instance bytes_lt_decidable (a b : List Char) : Decidable (bytes_lt a b) := by
  unfold bytes_lt; infer_instance

instance lex_compare_decidable (op : operator_t) (a b : List Char) :
    Decidable (lex_compare op a b) := by
  unfold lex_compare; cases op <;> infer_instance

/-- The integer that a double is equal to, when it is equal to one. -/
def Double.int_value : Double → Option Int
  | .fin m e =>
    if 0 ≤ e then some (m * 2 ^ e.toNat)
    else if m % 2 ^ (-e).toNat = 0 then some (m / 2 ^ (-e).toNat)
    else none
  | _ => none

/-- Every token of the list has nesting depth at most `D`. -/
def depth_le (D : Nat) (l : List token_t) : Prop := ∀ t ∈ l, token_depth t ≤ D

/-- The handle `exp` with another token list. -/
def with_tokens (exp : expression_t) (tokens : List token_t) : expression_t :=
  ⟨tokens, exp.e, exp.fhandler, exp.phandler⟩

/-- The RPN that the shunting-yard emits for `cond ? a : b` with `?` at position
`p`: the RPN of the condition, the two branches as `T_IFSTATEMENT` tokens and
the `?` token retyped `T_IFCONDITION`. -/
def ternary_rpn (cond : List token_t) (p : Nat) (a b : List token_t) : List token_t :=
  cond ++ [token_t.mk p .T_IFSTATEMENT a, token_t.mk p .T_IFSTATEMENT b,
    token_t.mk p (.T_IFCONDITION O_IFTHEN) []]

/-- The retagging `narrow` on a value returned by `exp_solve`. -/
def narrow_result (P : Platform) : exp_value_t → exp_value_t
  | .EXP_REAL r => EXPORT_FROM_VALUE_T (narrow P (.T_REAL r))
  | v => v

/-- The evaluation of a source text by a host without callbacks: `exp_create`
followed by `exp_solve`. -/
def solve_text (P : Platform) (e : List Char) : Except exp_failure exp_value_t :=
  match exp_create P e with
  | .error f => .error f
  | .ok exp => exp_solve P exp

/-- The arguments of `substr(s, start)` and of `substr(s, start, length)` as the
queue passed to the built-in. -/
def substr_args (s : List Char) (start : Int) (length : Option Int) : List token_t :=
  match length with
  | none => [tok 0 (.T_STRING s), tok 0 (.T_INTEGER start)]
  | some l => [tok 0 (.T_STRING s), tok 0 (.T_INTEGER start), tok 0 (.T_INTEGER l)]

/-- The arguments that the specification of `substr` rejects: `start > len`,
`start < -len` or `length < 0`. -/
def spec_substr_invalid (s : List Char) (start : Int) (length : Option Int) : Bool :=
  decide (start > (s.length : Int)) || decide (start < -(s.length : Int))
    || (match length with
        | none => false
        | some l => decide (l < 0))

/-- The substring of the specification: with `b = start` when `start >= 0` and
`b = len + start` otherwise, the bytes from index `b` up to
`b + min(length, len - b)`, or up to the end when the length is omitted. -/
def spec_substr (s : List Char) (start : Int) (length : Option Int) : List Char :=
  let len : Int := s.length
  let b : Int := if start ≥ 0 then start else len + start
  match length with
  | none => s.drop b.toNat
  | some l => (s.take (b + min l (len - b)).toNat).drop b.toNat

/-- The names of the list of built-ins of the specification, aliases
included. -/
def spec_builtin_names : List String :=
  ["abs", "acos", "asin", "atan", "atan2", "ceil", "cos", "cosh", "exp", "floor", "fmod", "log",
   "log10", "min", "max", "pow", "rand", "random", "round", "sin", "sinh", "sqr", "sqrt", "tan",
   "tanh", "bin2dec", "dec2bin", "dec2hex", "dec2oct", "hex2dec", "oct2dec", "boolean", "bool",
   "float", "double", "integer", "int", "string", "str", "ltrim", "rtrim", "trim", "strcasecmp",
   "strcmp", "strlen", "strtolower", "strlwr", "tolower", "lowercase", "strtoupper", "strupr",
   "toupper", "uppercase", "capitalise", "substr", "substring"]

/-- The string `t` is a beginning of the word `w` when case is ignored. -/
def begins_word (t w : List Char) : Bool :=
  (t.map Char.toLower).isPrefixOf (w.map Char.toLower)

/-- The part of a string that `exp_to_boolean` and `is_number` look at: the
string without the spaces and tabs in front of it and without the blanks
behind it. -/
def trimmed (str : List Char) : List Char :=
  (str.dropWhile IS_SPACE).take (trim_right_len (str.dropWhile IS_SPACE))

/-- The words that the specification reads as true. -/
def spec_true_words : List (List Char) :=
  ["true".toList, "yes".toList, "on".toList, "t".toList, "y".toList]

/-- The words that the specification reads as false. -/
def spec_false_words : List (List Char) :=
  ["false".toList, "no".toList, "off".toList, "f".toList, "n".toList]

/-- The decoding of the specification, one escape at a time from left to
right: a recognised pair gives the byte it denotes and decoding resumes after
the pair, an unknown pair is copied, every other byte is copied. -/
def spec_stripslashes : List Char → List Char
  | [] => []
  | [c] => [c]
  | c :: d :: rest =>
    if c == '\\' then
      if d == 'n' then '\n' :: spec_stripslashes rest
      else if d == 'r' then '\r' :: spec_stripslashes rest
      else if d == 't' then '\t' :: spec_stripslashes rest
      else if d == '\\' then '\\' :: spec_stripslashes rest
      else if d == '\'' then '\'' :: spec_stripslashes rest
      else if d == '"' then '"' :: spec_stripslashes rest
      else c :: d :: spec_stripslashes rest
    else c :: spec_stripslashes (d :: rest)

/-- No backslash of the string is followed by a backslash. -/
def no_backslash_pair : List Char → Bool
  | [] => true
  | [_] => true
  | c :: d :: rest => !(c == '\\' && d == '\\') && no_backslash_pair (d :: rest)

/-- The letter after `0` in the prefix of a literal of base 16, 8 or 2. -/
def base_letter (base : Nat) : Char :=
  if base = 16 then 'x' else if base = 8 then 'o' else 'b'

/-- The value of a byte as a digit of base 16, 8 or 2, `none` when it is not a
digit of that base. -/
def base_digit (base : Nat) (c : Char) : Option Nat :=
  if base = 16 then IS_HEXADEMICAL c else if base = 8 then IS_OCTAL c else IS_BINARY c

/-- The value of a string of digits in the given base, most significant digit
first, continuing from `acc`. -/
def digits_value (base : Nat) : List Char → Nat → Nat
  | [], acc => acc
  | c :: cs, acc => digits_value base cs (acc * base + (base_digit base c).getD 0)

/-- A natural number reduced modulo `2 ^ 64` and read as a signed 64-bit
integer. -/
def as_signed64 (u : Nat) : Int :=
  if u % 18446744073709551616 < 9223372036854775808 then (u % 18446744073709551616 : Nat)
  else ((u % 18446744073709551616 : Nat) : Int) - 18446744073709551616

/-- The number of blanks at offset `p` of the text. -/
def blanks_at (input : List Char) (p : Nat) : Nat :=
  ((input.drop p).takeWhile IS_BLANK).length

/-- The offsets at which the scan of `exp_parse` looks for a token: the offset
of the first byte that is not a blank and, after a token found at a reached
offset, the offset behind that token and the blanks that follow it. -/
inductive scan_reaches (P : Platform) (input : List Char) : Nat → Prop
  | start : scan_reaches P input (blanks_at input 0)
  | next (p : Nat) (v : value_t) (l : Nat) :
      scan_reaches P input p → exp_parse_token P (input.drop p) = some (v, l) →
      scan_reaches P input (p + l + blanks_at input (p + l))

/-- The tokens `pre` in front of the tokens of a result. -/
def prepend_tokens (pre : List token_t) :
    Except exp_failure (List token_t) → Except exp_failure (List token_t)
  | .ok ts => .ok (pre ++ ts)
  | .error f => .error f

/-- The payloads of the four tokens written `+` or `-`. -/
def is_sign : value_t → Bool
  | .T_OPERATOR O_PLUS | .T_OPERATOR O_MINUS | .T_OPERATOR O_UPLUS | .T_OPERATOR O_UMINUS => true
  | _ => false

/-- The rule of the specification for the token `t` lexed from `input` after
the token `prev`: a token that starts with `+` or `-` carries the unary opcode
when it is the first token or follows a comma, a left parenthesis or an
operator, and the binary opcode otherwise; no other token carries one of the
four opcodes. -/
def sign_rule (input : List Char) (prev : Option token_t) (t : token_t) : Prop :=
  (input[t.position]? = some '+' →
      t.param = .T_OPERATOR (if at_operand_place prev then O_UPLUS else O_PLUS))
    ∧ (input[t.position]? = some '-' →
      t.param = .T_OPERATOR (if at_operand_place prev then O_UMINUS else O_MINUS))
    ∧ (is_sign t.param = true →
      input[t.position]? = some '+' ∨ input[t.position]? = some '-')

/-- Every token of the list obeys `sign_rule` with the token in front of it,
the first one with `prev`. -/
def signs_disambiguated (input : List Char) : Option token_t → List token_t → Prop
  | _, [] => True
  | prev, t :: ts => sign_rule input prev t ∧ signs_disambiguated input (some t) ts

/-- The first byte of an identifier of the specification: `[A-Za-z_]`. -/
def ident_start (c : Char) : Bool :=
  (decide ('A' ≤ c) && decide (c ≤ 'Z')) || (decide ('a' ≤ c) && decide (c ≤ 'z')) || c == '_'

/-- A further byte of an identifier of the specification: `[A-Za-z0-9_.]`. -/
def ident_char (c : Char) : Bool :=
  ident_start c || (decide ('0' ≤ c) && decide (c ≤ '9')) || c == '.'

/-- The name has no uppercase letter. -/
def no_uppercase (name : String) : Bool := name.toList.all (fun c => !c.isUpper)

/-- The name of a parameter or of a function has no uppercase letter. -/
def value_lower : value_t → Bool
  | .T_PARAMETER name | .T_FUNCTION name => no_uppercase name
  | _ => true

/-- No parameter or function name of the token or of the tokens nested in it
has an uppercase letter; `names_lower.list` says so of a list of tokens. -/
def names_lower : token_t → Bool
  | .mk _ v c => value_lower v && list c
where
  /-- The same for every token of a list. -/
  list : List token_t → Bool
    | [] => true
    | t :: ts => names_lower t && list ts

/-- A function callback of a host that knows the one function `twice` of one
Integer: status 0 and the doubled argument; status 2 for other arguments and
status 1 for every other name. -/
def twice_handler (fname : String) (argv : List exp_value_t) : Int × exp_value_t :=
  if fname = "twice" then
    match argv with
    | [.EXP_INTEGER i] => (0, .EXP_INTEGER (2 * i))
    | _ => (2, .EXP_NONE)
  else (1, .EXP_NONE)

/-- The names of the predefined constants of the specification. -/
def spec_constant_names : List String := ["pi", "e", "true", "yes", "on", "false", "no", "off"]

/-- The name is one of the predefined constants when case is ignored. -/
def is_predefined (name : String) : Bool :=
  spec_constant_names.any (fun w => w.toList == name.toList.map Char.toLower)

/-- The message `Unknown parameter '<name>'` of the specification. -/
def spec_unknown_parameter (name : String) : String := "Unknown parameter '" ++ name ++ "'"

/-- A name of 1004 bytes. -/
def long_name : String := String.mk (List.replicate 1004 'a')

/-- The text of a Real of the specification, from the integer part `int` and
the fractional digits `frac` of its decimal text: every trailing `0` of the
fraction is removed, and the point too when no digit of the fraction is left. -/
def spec_real_text (int frac : List Char) : List Char :=
  let f := (frac.reverse.dropWhile (fun c => c == '0')).reverse
  if f.isEmpty then int else int ++ '.' :: f

/-- The decimal digits of a natural number, padded with zeros to 9 digits. -/
def pad9 (n : Nat) : List Char :=
  List.replicate (9 - (Nat.toDigits 10 n).length) '0' ++ Nat.toDigits 10 n

/-- A format `%0.9f`: the exact value rounded to 9 decimals, ties to even. -/
def Double.fixed9 : Double → List Char
  | .fin m e =>
    let num := m.natAbs * 1000000000 * 2 ^ e.toNat
    let den := 2 ^ (-e).toNat
    let q := num / den
    let r := num % den
    let n := if 2 * r > den ∨ (2 * r = den ∧ q % 2 = 1) then q + 1 else q
    (if m < 0 then ['-'] else []) ++ Nat.toDigits 10 (n / 1000000000)
      ++ '.' :: pad9 (n % 1000000000)
  | .inf neg => if neg then "-inf".toList else "inf".toList
  | .nan => "nan".toList

/-- The platform `exact_platform` with a format `%0.9f` that prints. -/
def decimal_platform : Platform := { exact_platform with fmt_f9 := Double.fixed9 }

/-- The number of tokens of the type `ty` in a list. -/
def count_type (ty : token_type_t) (l : List token_t) : Nat :=
  l.countP (fun t => t.type == ty)

/-- The parentheses of a token list are balanced: every prefix has at least as
many left as right parentheses, and the list has as many of both. -/
def parens_balanced (l : List token_t) : Prop :=
  (∀ k, count_type T_RPAREN (l.take k) ≤ count_type T_LPAREN (l.take k))
    ∧ count_type T_RPAREN l = count_type T_LPAREN l

/-- The number of open parentheses after a list of tokens read with `d` of them
open; `none` when a right parenthesis closes nothing. -/
def paren_depth : Nat → List token_t → Option Nat
  | d, [] => some d
  | d, t :: ts =>
    if t.type == T_LPAREN then paren_depth (d + 1) ts
    else if t.type == T_RPAREN then
      match d with
      | 0 => none
      | d1 + 1 => paren_depth d1 ts
    else paren_depth d ts

/-- What a run of the shunting-yard in mode `m` on the input `in_`, started with
`L` left parentheses on the stack, guarantees: a failure has the code
`EXP_ER_INVALEXPR`; a success returns an end of the input, the part read before
it closes every parenthesis that it or the stack had open and closes no other,
and in mode 0 the whole input is read. -/
def sy_post (L m : Nat) (in_ : List token_t) :
    Except exp_failure (List token_t × List token_t) → Prop
  | .error e => e.ercode = EXP_ER_INVALEXPR
  | .ok (_, i) =>
    ∃ consumed, in_ = consumed ++ i ∧ paren_depth L consumed = some 0 ∧ (m = 0 → i = [])

/-- A token of an infix expression without conditional: an operator token
holds an operator of the language other than `?` and `:`. -/
def plain_token (t : token_t) : Bool :=
  match t.param with
  | .T_OPERATOR op => op != O_NONE && op != O_IFTHEN && op != O_ELSE
  | _ => true

/-- Every function token of the list is followed by a left parenthesis. -/
def calls_closed : List token_t → Bool
  | [] => true
  | [t] => t.type != T_FUNCTION
  | t :: u :: rest => (t.type != T_FUNCTION || u.type == T_LPAREN) && calls_closed (u :: rest)

/-- The token lists taken for infix expressions without conditional: no token
is `?` or `:`, and every function name is followed by a left parenthesis. -/
def expression_tokens (X : List token_t) : Prop :=
  (∀ t ∈ X, plain_token t = true) ∧ calls_closed X = true

/-- An operator token of an operator other than `?` and `:`. -/
def regular_operator (t : token_t) : Bool :=
  match t.param with
  | .T_OPERATOR op => op != O_NONE && op != O_IFTHEN && op != O_ELSE
  | _ => false

/-- The operator stacks met while an infix expression is read after the left
parenthesis of a call: operators and left parentheses, with a function name
only directly under a left parenthesis. -/
def stack_ok : List token_t → Bool
  | [] => true
  | [t] => t.type == T_LPAREN || regular_operator t
  | t :: f :: rest1 =>
    if t.type == T_LPAREN then
      if f.type == T_FUNCTION then stack_ok rest1 else stack_ok (f :: rest1)
    else regular_operator t && stack_ok (f :: rest1)

/-- The operator stacks met while an infix expression is read: as `stack_ok`,
or a function name on top whose left parenthesis is the next token. -/
def reading_ok (in_ stack : List token_t) : Prop :=
  stack_ok stack = true
    ∨ ∃ f rest lp in1, stack = f :: rest ∧ f.type = T_FUNCTION ∧ stack_ok rest = true
        ∧ in_ = lp :: in1 ∧ lp.type = T_LPAREN

/-- Reading the tokens `X` takes the loop of the shunting-yard from the state
`(s, o, f, a)` to the state `(s1, o1, f1, a1)`, in every mode and whatever
follows `X`. -/
def sy_reads (X s o : List token_t) (f a : List Int) (s1 o1 : List token_t)
    (f1 a1 : List Int) : Prop :=
  ∀ fuel m rest,
    sy_loop (fuel + X.length) m (X ++ rest) s o f a = sy_loop fuel m rest s1 o1 f1 a1

/-- A function callback of a host that answers every call with the Integer 99. -/
def answering_handler (_ : String) (_ : List exp_value_t) : Int × exp_value_t :=
  (0, .EXP_INTEGER 99)

/-- The test that `s` is the shortest string of digits of base 16, 8 or 2 for
`n`: every byte is a digit of the base, the value is `n`, and the string is `0`
for `n = 0` and does not start with `0` otherwise. -/
def is_shortest_digits (base n : Nat) (s : List Char) : Bool :=
  s.all (fun c => (base_digit base c).isSome) && digits_value base s 0 == n
    && (if n = 0 then s == ['0'] else s.head? != some '0')

/-- The token `t` stands at a byte of the text that is not a blank and at which
the cascade of recognisers of `exp_parse` finds a token of at least one byte,
whose payload, after the rewriting of the signs, is that of `t`. -/
def token_at (P : Platform) (input : List Char) (t : token_t) : Prop :=
  t.position < input.length
    ∧ (∃ c, input[t.position]? = some c ∧ IS_BLANK c = false)
    ∧ ∃ v l tail, exp_parse_token P (input.drop t.position) = some (v, l) ∧ 1 ≤ l
        ∧ t = tok t.position (exp_parse_sign tail v)

/-! # Theorems -/

/-! ## Copies of tokens -/

theorem operand_tok (p : Nat) (v : value_t) (h : is_operand v = true) :
    operand_token (tok p v) :=
  ⟨p, v, rfl, h⟩

theorem dup_tok (p : Nat) (v : value_t) : exp_token_dup (tok p v) = tok p v := by
  cases v <;> simp [tok, exp_token_dup, exp_token_dup.list]

theorem dup_list_append (l1 l2 : List token_t) :
    exp_token_dup.list (l1 ++ l2) = exp_token_dup.list l1 ++ exp_token_dup.list l2 := by
  induction l1 with
  | nil => simp [exp_token_dup.list]
  | cons a l ih => simp [exp_token_dup.list, ih]

theorem dup_join_args (args : List token_t) (h : ∀ a ∈ args, operand_token a)
    (commas : List Nat) :
    exp_token_dup.list (join_args args commas) = join_args args commas := by
  induction args generalizing commas with
  | nil => simp [join_args, exp_token_dup.list]
  | cons a l ih =>
    obtain ⟨p, v, rfl, _⟩ := h a (by simp)
    have hl : ∀ a ∈ l, operand_token a := fun x hx => h x (by simp [hx])
    cases l with
    | nil => simp [join_args, exp_token_dup.list, dup_tok]
    | cons b l2 =>
      cases commas with
      | nil => simp [join_args, exp_token_dup.list, dup_tok, ih hl]
      | cons c cs => simp [join_args, exp_token_dup.list, dup_tok, ih hl]

/-! ## Steps of the shunting-yard loop -/

theorem sy_operand (n m : Nat) (p : Nat) (v : value_t) (hv : is_operand v = true)
    (in_ stack out : List token_t) (found argc : List Int) :
    sy_loop (n + 1) m (tok p v :: in_) stack out found argc
      = sy_loop n m in_ stack (out ++ [tok p v]) (found_set found) argc := by
  cases v <;> simp [is_operand] at hv <;> simp [sy_loop, tok, token_t.param]

theorem sy_function (n m : Nat) (p : Nat) (name : String)
    (in_ stack out : List token_t) (found argc : List Int) :
    sy_loop (n + 1) m (tok p (.T_FUNCTION name) :: in_) stack out found argc
      = sy_loop n m in_ (tok p (.T_FUNCTION name) :: stack) out (0 :: found_set found)
          (0 :: argc) := by
  simp [sy_loop, tok, token_t.param]

theorem sy_lparen (n m : Nat) (p : Nat)
    (in_ stack out : List token_t) (found argc : List Int) :
    sy_loop (n + 1) m (tok p .T_LPAREN :: in_) stack out found argc
      = sy_loop n m in_ (tok p .T_LPAREN :: stack) out found argc := by
  simp [sy_loop, tok, token_t.param]

theorem join_args_length (args : List token_t) (commas : List Nat) :
    (join_args args commas).length = 2 * args.length - 1 := by
  induction args generalizing commas with
  | nil => simp [join_args]
  | cons a l ih =>
    cases l with
    | nil => simp [join_args]
    | cons b l2 =>
      cases commas with
      | nil => simp [join_args, ih]; omega
      | cons c cs => simp [join_args, ih]; omega

/-- Reading the arguments of a call whose left parenthesis is on top of the
stack: every argument goes to the output, every comma adds one to the count. -/
theorem sy_args (args : List token_t) (h : ∀ a ∈ args, operand_token a) (hne : args ≠ [])
    (commas : List Nat) (n m lp : Nat) (rest stack out : List token_t) (f a : Int)
    (found argc : List Int) :
    sy_loop (n + (2 * args.length - 1)) m (join_args args commas ++ rest)
        (tok lp .T_LPAREN :: stack) out (f :: found) (a :: argc)
      = sy_loop n m rest (tok lp .T_LPAREN :: stack) (out ++ args) (1 :: found)
          ((a + (args.length - 1 : Nat)) :: argc) := by
  induction args generalizing commas out f a with
  | nil => exact absurd rfl hne
  | cons x l ih =>
    obtain ⟨p, v, rfl, hv⟩ := h x (by simp)
    have hl : ∀ a ∈ l, operand_token a := fun y hy => h y (by simp [hy])
    cases l with
    | nil =>
      simp [join_args, sy_operand _ _ _ _ hv, found_set]
    | cons b l2 =>
      have e : n + (2 * (tok p v :: b :: l2).length - 1)
          = (n + (2 * (b :: l2).length - 1)) + 1 + 1 := by
        simp only [List.length_cons]; omega
      rw [e]
      have step : ∀ c : Nat, sy_loop (n + (2 * (b :: l2).length - 1) + 1 + 1) m
          (tok p v :: tok c .T_COMMA :: (join_args (b :: l2) (commas.drop 1) ++ rest))
          (tok lp .T_LPAREN :: stack) out (f :: found) (a :: argc)
          = sy_loop n m rest (tok lp .T_LPAREN :: stack) (out ++ tok p v :: b :: l2) (1 :: found)
          ((a + ((tok p v :: b :: l2).length - 1 : Nat)) :: argc) := by
        intro c
        rw [sy_operand _ _ _ _ hv]
        have hcomma : sy_loop (n + (2 * (b :: l2).length - 1) + 1) m
            (tok c .T_COMMA :: (join_args (b :: l2) (commas.drop 1) ++ rest))
            (tok lp .T_LPAREN :: stack) (out ++ [tok p v]) (found_set (f :: found)) (a :: argc)
            = sy_loop (n + (2 * (b :: l2).length - 1)) m
            (join_args (b :: l2) (commas.drop 1) ++ rest)
            (tok lp .T_LPAREN :: stack) (out ++ [tok p v]) (0 :: found) ((a + 1) :: argc) := by
          simp [sy_loop, tok, token_t.param, pop_until_lparen, token_t.type, value_t.type,
            found_set]
        rw [hcomma, ih hl (by simp)]
        have e2 : a + 1 + (((b :: l2).length - 1 : Nat) : Int)
            = a + (((tok p v :: b :: l2).length - 1 : Nat) : Int) := by
          simp only [List.length_cons]; omega
        rw [e2]; simp
      cases commas with
      | nil => simpa [join_args] using step 0
      | cons c cs => simpa [join_args] using step c

/-- Closing, at the end of the input, the call whose parenthesis is on top of
the stack. -/
theorem sy_close_call (n m : Nat) (rp lp fp : Nat) (name : String) (out : List token_t)
    (f a : Int) :
    sy_loop (n + 1) m [tok rp .T_RPAREN] [tok lp .T_LPAREN, tok fp (.T_FUNCTION name)] out [f] [a]
      = .ok (out ++ [tok fp (.T_INTEGER (a + (if f != 0 then 1 else 0))),
          tok fp (.T_FUNCTION name)], []) := by
  simp [sy_loop, tok, token_t.param, pop_until_lparen, token_t.type, value_t.type,
    token_t.position, sy_finish, sy_drain]

/-! ## C1: the argument count emitted for a call -/

/-- C1. For every call `name(a1, ..., an)` whose arguments are single operand
tokens (literals or parameters), `n = 0` included, `exp_shunting_yard` in mode 0
outputs the arguments in order, then an Integer token of value exactly `n` at
the position of the function token, then the function token. -/
theorem C1_call_emits_exact_argc (fp : Nat) (name : String) (lp rp : Nat)
    (args : List token_t) (commas : List Nat) (h : ∀ a ∈ args, operand_token a) :
    exp_shunting_yard (call_input fp name lp rp args commas) 0
      = .ok (args ++ [tok fp (.T_INTEGER args.length), tok fp (.T_FUNCTION name)], []) := by
  have hdup : exp_token_dup.list (call_input fp name lp rp args commas)
      = call_input fp name lp rp args commas := by
    simp [call_input, exp_token_dup.list, dup_tok, dup_list_append, dup_join_args args h]
  unfold exp_shunting_yard
  rw [hdup]
  by_cases hne : args = []
  · subst hne
    simp only [call_input, join_args, List.nil_append, List.length_cons, List.length_nil]
    rw [sy_function, sy_lparen]
    simp only [found_set]
    rw [sy_close_call]
    simp
  · have hlen : (call_input fp name lp rp args commas).length + 1
        = (1 + 1 + (2 * args.length - 1)) + 1 + 1 := by
      simp [call_input, join_args_length]; omega
    rw [hlen]
    simp only [call_input]
    rw [sy_function, sy_lparen, sy_args args h hne]
    simp only [found_set]
    rw [sy_close_call]
    have hpos : 1 ≤ args.length := by
      cases args with
      | nil => exact absurd rfl hne
      | cons a l => simp
    have e : ((args.length - 1 : Nat) : Int) + 1 = (args.length : Int) := by omega
    simp [e]

/-- C1, at the calls `f()`, `f(7)` and `f(x, 'a', 2)`: the counts are 0, 1 and 3. -/
theorem C1_call_emits_exact_argc_witness :
    (∀ a ∈ [tok 2 (.T_PARAMETER "x"), tok 5 (.T_STRING ['a']), tok 10 (.T_INTEGER 2)],
        operand_token a)
    ∧ exp_shunting_yard (call_input 0 "f" 1 2 [] []) 0
        = .ok ([tok 0 (.T_INTEGER 0), tok 0 (.T_FUNCTION "f")], [])
    ∧ exp_shunting_yard (call_input 0 "f" 1 3 [tok 2 (.T_INTEGER 7)] []) 0
        = .ok ([tok 2 (.T_INTEGER 7), tok 0 (.T_INTEGER 1), tok 0 (.T_FUNCTION "f")], [])
    ∧ exp_shunting_yard (call_input 0 "f" 1 11
          [tok 2 (.T_PARAMETER "x"), tok 5 (.T_STRING ['a']), tok 10 (.T_INTEGER 2)] [3, 8]) 0
        = .ok ([tok 2 (.T_PARAMETER "x"), tok 5 (.T_STRING ['a']), tok 10 (.T_INTEGER 2),
            tok 0 (.T_INTEGER 3), tok 0 (.T_FUNCTION "f")], []) := by
  have h3 : ∀ a ∈ [tok 2 (.T_PARAMETER "x"), tok 5 (.T_STRING ['a']), tok 10 (.T_INTEGER 2)],
      operand_token a := by
    intro a ha
    simp only [List.mem_cons, List.mem_singleton, List.not_mem_nil, or_false] at ha
    rcases ha with rfl | rfl | rfl
    · exact ⟨2, _, rfl, rfl⟩
    · exact ⟨5, _, rfl, rfl⟩
    · exact ⟨10, _, rfl, rfl⟩
  refine ⟨h3, ?_, ?_, ?_⟩
  · exact C1_call_emits_exact_argc 0 "f" 1 2 [] [] (by simp)
  · exact C1_call_emits_exact_argc 0 "f" 1 3 [tok 2 (.T_INTEGER 7)] []
      (by intro a ha; simp at ha; subst ha; exact ⟨2, _, rfl, rfl⟩)
  · exact C1_call_emits_exact_argc 0 "f" 1 11 _ [3, 8] h3

/-! ## C2: precedence and associativity -/

theorem sy_operator (n m p : Nat) (op : operator_t) (h1 : op ≠ O_ELSE) (h2 : op ≠ O_IFTHEN)
    (in_ stack out : List token_t) (found argc : List Int) :
    sy_loop (n + 1) m (tok p (.T_OPERATOR op) :: in_) stack out found argc
      = sy_loop n m in_ (tok p (.T_OPERATOR op) :: (pop_operators op stack out).1)
          (pop_operators op stack out).2 found argc := by
  simp [sy_loop, tok, token_t.param, h1, h2]

/-- C2. For binary operators `op1`, `op2` of the precedence table and operand
tokens `a`, `b`, `c`, `exp_shunting_yard` on `a op1 b op2 c` outputs
`a b op1 c op2` when the table of the specification puts `op1` on a higher
level than `op2`, or on the same level with `op2` left-associative, and
`a b c op2 op1` otherwise. -/
theorem C2_precedence_grouping (op1 op2 : operator_t) (h1 : is_binary_operator op1 = true)
    (h2 : is_binary_operator op2 = true) (a b c : token_t) (ha : operand_token a)
    (hb : operand_token b) (hc : operand_token c) (p1 p2 : Nat) :
    exp_shunting_yard [a, tok p1 (.T_OPERATOR op1), b, tok p2 (.T_OPERATOR op2), c] 0
      = .ok (if spec_level op2 < spec_level op1
                ∨ (spec_level op1 = spec_level op2 ∧ spec_right_assoc op2 = false)
             then [a, b, tok p1 (.T_OPERATOR op1), c, tok p2 (.T_OPERATOR op2)]
             else [a, b, c, tok p2 (.T_OPERATOR op2), tok p1 (.T_OPERATOR op1)], []) := by
  obtain ⟨pa, va, rfl, hva⟩ := ha
  obtain ⟨pb, vb, rfl, hvb⟩ := hb
  obtain ⟨pc, vc, rfl, hvc⟩ := hc
  have e1 : op1 ≠ O_ELSE := by rintro rfl; simp [is_binary_operator] at h1
  have e2 : op1 ≠ O_IFTHEN := by rintro rfl; simp [is_binary_operator] at h1
  have e3 : op2 ≠ O_ELSE := by rintro rfl; simp [is_binary_operator] at h2
  have e4 : op2 ≠ O_IFTHEN := by rintro rfl; simp [is_binary_operator] at h2
  unfold exp_shunting_yard
  simp only [exp_token_dup.list, dup_tok, List.length_cons, List.length_nil]
  rw [sy_operand _ _ _ _ hva, sy_operator _ _ _ _ e1 e2, sy_operand _ _ _ _ hvb,
    sy_operator _ _ _ _ e3 e4, sy_operand _ _ _ _ hvc]
  cases op1 <;> simp [is_binary_operator] at h1 <;>
    cases op2 <;> simp [is_binary_operator] at h2 <;>
    simp [pop_operators, tok, token_t.param, exp_op_is_lefttoright, op_precedence, spec_level,
      spec_right_assoc, sy_loop, sy_finish, sy_drain, token_t.type, value_t.type]

/-- C2, at `1 + 2 * 3` (grouped `1 + (2 * 3)`), `1 * 2 + 3` (grouped
`(1 * 2) + 3`), `1 - 2 - 3` (grouped `(1 - 2) - 3`) and `2 ^ 3 ^ 4` (grouped
`2 ^ (3 ^ 4)`). -/
theorem C2_precedence_grouping_witness :
    exp_shunting_yard [tok 0 (.T_INTEGER 1), tok 2 (.T_OPERATOR O_PLUS), tok 4 (.T_INTEGER 2),
        tok 6 (.T_OPERATOR O_MUL), tok 8 (.T_INTEGER 3)] 0
      = .ok ([tok 0 (.T_INTEGER 1), tok 4 (.T_INTEGER 2), tok 8 (.T_INTEGER 3),
          tok 6 (.T_OPERATOR O_MUL), tok 2 (.T_OPERATOR O_PLUS)], [])
    ∧ exp_shunting_yard [tok 0 (.T_INTEGER 1), tok 2 (.T_OPERATOR O_MUL), tok 4 (.T_INTEGER 2),
        tok 6 (.T_OPERATOR O_PLUS), tok 8 (.T_INTEGER 3)] 0
      = .ok ([tok 0 (.T_INTEGER 1), tok 4 (.T_INTEGER 2), tok 2 (.T_OPERATOR O_MUL),
          tok 8 (.T_INTEGER 3), tok 6 (.T_OPERATOR O_PLUS)], [])
    ∧ exp_shunting_yard [tok 0 (.T_INTEGER 1), tok 2 (.T_OPERATOR O_MINUS), tok 4 (.T_INTEGER 2),
        tok 6 (.T_OPERATOR O_MINUS), tok 8 (.T_INTEGER 3)] 0
      = .ok ([tok 0 (.T_INTEGER 1), tok 4 (.T_INTEGER 2), tok 2 (.T_OPERATOR O_MINUS),
          tok 8 (.T_INTEGER 3), tok 6 (.T_OPERATOR O_MINUS)], [])
    ∧ exp_shunting_yard [tok 0 (.T_INTEGER 2), tok 2 (.T_OPERATOR O_HAT), tok 4 (.T_INTEGER 3),
        tok 6 (.T_OPERATOR O_HAT), tok 8 (.T_INTEGER 4)] 0
      = .ok ([tok 0 (.T_INTEGER 2), tok 4 (.T_INTEGER 3), tok 8 (.T_INTEGER 4),
          tok 6 (.T_OPERATOR O_HAT), tok 2 (.T_OPERATOR O_HAT)], []) :=
  ⟨C2_precedence_grouping O_PLUS O_MUL rfl rfl _ _ _ (operand_tok 0 (.T_INTEGER 1) rfl)
      (operand_tok 4 (.T_INTEGER 2) rfl) (operand_tok 8 (.T_INTEGER 3) rfl) 2 6,
    C2_precedence_grouping O_MUL O_PLUS rfl rfl _ _ _ (operand_tok 0 (.T_INTEGER 1) rfl)
      (operand_tok 4 (.T_INTEGER 2) rfl) (operand_tok 8 (.T_INTEGER 3) rfl) 2 6,
    C2_precedence_grouping O_MINUS O_MINUS rfl rfl _ _ _ (operand_tok 0 (.T_INTEGER 1) rfl)
      (operand_tok 4 (.T_INTEGER 2) rfl) (operand_tok 8 (.T_INTEGER 3) rfl) 2 6,
    C2_precedence_grouping O_HAT O_HAT rfl rfl _ _ _ (operand_tok 0 (.T_INTEGER 2) rfl)
      (operand_tok 4 (.T_INTEGER 3) rfl) (operand_tok 8 (.T_INTEGER 4) rfl) 2 6⟩

/-! ## C10: operators without a right operand -/

/-- The test of `exp_check` on an operator token whose successor is absent, a
right parenthesis or a comma. -/
theorem exp_check_loop_operator (prev : Option token_t) (optok : token_t) (op : operator_t)
    (hop : optok.param = .T_OPERATOR op) (rest : List token_t)
    (hbad : no_right_operand rest = true) :
    exp_check_loop prev (optok :: rest)
      = .error ⟨EXP_ER_INVALEXPR,
          if at_operand_place prev && !is_unary_operator op then "Unexpected operator"
          else "Operator without right operand", optok.position⟩ := by
  obtain ⟨p, v, c⟩ := optok
  simp only [token_t.param] at hop
  subst hop
  have hnext : (rest.head?.isNone || has_type rest.head? T_RPAREN || has_type rest.head? T_COMMA)
      = true := by
    cases rest with
    | nil => simp
    | cons t ts => simpa [no_right_operand, has_type, Bool.or_assoc] using hbad
  have hprev : (prev.isNone || has_type prev T_LPAREN || has_type prev T_COMMA
      || has_type prev T_OPERATOR) = at_operand_place prev := by
    cases prev <;> simp [at_operand_place, has_type, Bool.or_assoc]
  have hun : (exp_op_is_lefttoright op || exp_op_argument_count op != 1)
      = !is_unary_operator op := by
    cases op <;> rfl
  simp only [exp_check_loop, promote, exp_check_token, token_t.type, token_t.param,
    value_t.type, token_t.position, hnext, hprev, hun]
  by_cases h : (at_operand_place prev && !is_unary_operator op) = true
  · simp [h]
  · simp [h]

/-- C10, as amended. A token list that contains an operator token whose
successor is absent, a right parenthesis or a comma is never accepted by
`exp_check`: either a token before the operator is rejected, or the check fails
with `EXP_ER_INVALEXPR` at the position of that operator; the message is
"Operator without right operand", except that a binary operator standing at the
start of the list or after a left parenthesis, a comma or an operator is
reported as "Unexpected operator". -/
theorem C10_operator_without_right_operand (before : List token_t) (optok : token_t)
    (op : operator_t) (hop : optok.param = .T_OPERATOR op) (rest : List token_t)
    (hbad : no_right_operand rest = true) :
    exp_check (before ++ optok :: rest)
      = match exp_check_before none before optok with
        | .error e => .error e
        | .ok prev1 =>
          .error ⟨EXP_ER_INVALEXPR,
            if at_operand_place prev1 && !is_unary_operator op then "Unexpected operator"
            else "Operator without right operand", optok.position⟩ := by
  unfold exp_check
  generalize (none : Option token_t) = prev
  induction before generalizing prev with
  | nil => simpa [exp_check_before] using exp_check_loop_operator prev optok op hop rest hbad
  | cons x l ih =>
    have hhead : (l ++ optok :: rest).head? = (l ++ [optok]).head? := by
      cases l <;> simp
    rw [List.cons_append, exp_check_loop, exp_check_before, hhead]
    generalize (l ++ [optok]).head? = nxt
    cases hc : exp_check_token prev (promote x nxt) nxt with
    | some msg => rfl
    | none =>
      simp only [ih]
      cases exp_check_before (some (promote x nxt)) l optok <;> rfl

/-- C10 as amended, at `1 + (2*)`: the tokens before `*` are accepted and the
check fails with "Operator without right operand" at the offset 6 of `*`. -/
theorem C10_operator_without_right_operand_witness :
    no_right_operand [tok 7 .T_RPAREN] = true
    ∧ exp_check ([tok 0 (.T_INTEGER 1), tok 2 (.T_OPERATOR O_PLUS), tok 4 .T_LPAREN,
          tok 5 (.T_INTEGER 2)] ++ tok 6 (.T_OPERATOR O_MUL) :: [tok 7 .T_RPAREN])
        = .error ⟨EXP_ER_INVALEXPR, "Operator without right operand", 6⟩ :=
  ⟨rfl, C10_operator_without_right_operand
    [tok 0 (.T_INTEGER 1), tok 2 (.T_OPERATOR O_PLUS), tok 4 .T_LPAREN, tok 5 (.T_INTEGER 2)]
    (tok 6 (.T_OPERATOR O_MUL)) O_MUL rfl [tok 7 .T_RPAREN] rfl⟩

/-- C10 as stated fails at `(*)`: the left parenthesis before `*` is accepted,
the successor of `*` is a right parenthesis, and `exp_check` fails at the
position of `*` with the message "Unexpected operator", not "Operator without
right operand". -/
theorem C10_counterexample :
    exp_check_before none [tok 0 .T_LPAREN] (tok 1 (.T_OPERATOR O_MUL))
        = .ok (some (tok 0 .T_LPAREN))
    ∧ no_right_operand [tok 2 .T_RPAREN] = true
    ∧ exp_check [tok 0 .T_LPAREN, tok 1 (.T_OPERATOR O_MUL), tok 2 .T_RPAREN]
        = .error ⟨EXP_ER_INVALEXPR, "Unexpected operator", 1⟩
    ∧ exp_check [tok 0 .T_LPAREN, tok 1 (.T_OPERATOR O_MUL), tok 2 .T_RPAREN]
        ≠ .error ⟨EXP_ER_INVALEXPR, "Operator without right operand", 1⟩ := by
  refine ⟨rfl, rfl, rfl, ?_⟩
  intro h
  have h2 : exp_check [tok 0 .T_LPAREN, tok 1 (.T_OPERATOR O_MUL), tok 2 .T_RPAREN]
      = .error ⟨EXP_ER_INVALEXPR, "Unexpected operator", 1⟩ := rfl
  rw [h2] at h
  simp at h

/-! ## Byte-wise comparison of strings -/

theorem char_eq_of_toNat (x y : Char) (h : x.toNat = y.toNat) : x = y := by
  apply Char.ext
  apply UInt32.ext
  exact h

theorem lex_cons_nat (u v : Nat) (l1 l2 : List Nat) :
    List.Lex (fun x y : Nat => x < y) (u :: l1) (v :: l2)
      ↔ u < v ∨ (u = v ∧ List.Lex (fun x y : Nat => x < y) l1 l2) := by
  constructor
  · intro h
    cases h with
    | rel h => exact Or.inl h
    | cons h => exact Or.inr ⟨rfl, h⟩
  · intro h
    rcases h with h | ⟨rfl, h⟩
    · exact List.Lex.rel h
    · exact List.Lex.cons h

theorem strcmp_neg_iff (a b : List Char) : strcmp a b < 0 ↔ bytes_lt a b := by
  unfold bytes_lt
  induction a generalizing b with
  | nil =>
    cases b with
    | nil => simp [strcmp]
    | cons y ys => simp [strcmp]; exact List.Lex.nil
  | cons x xs ih =>
    cases b with
    | nil => simp [strcmp]
    | cons y ys =>
      simp only [strcmp, List.map_cons, lex_cons_nat]
      by_cases h1 : x.toNat < y.toNat
      · simp [h1]
      · by_cases h2 : y.toNat < x.toNat
        · rw [if_neg h1, if_pos h2]
          constructor
          · intro h; exact absurd h (by decide)
          · rintro (h | ⟨h, _⟩)
            · exact absurd h h1
            · omega
        · have hxy : x.toNat = y.toNat := by omega
          rw [if_neg h1, if_neg h2, ih]
          constructor
          · intro h; exact Or.inr ⟨hxy, h⟩
          · rintro (h | ⟨_, h⟩)
            · exact absurd h h1
            · exact h

theorem strcmp_zero_iff (a b : List Char) : strcmp a b = 0 ↔ a = b := by
  induction a generalizing b with
  | nil => cases b <;> simp [strcmp]
  | cons x xs ih =>
    cases b with
    | nil => simp [strcmp]
    | cons y ys =>
      simp only [strcmp]
      by_cases h1 : x.toNat < y.toNat
      · simp [h1]; intro h; subst h; omega
      · by_cases h2 : y.toNat < x.toNat
        · simp [h1, h2]; intro h; subst h; omega
        · have : x = y := char_eq_of_toNat x y (by omega)
          simp [h1, h2, ih, this]

theorem strcmp_pos_iff (a b : List Char) : 0 < strcmp a b ↔ bytes_lt b a := by
  rw [← strcmp_neg_iff]
  induction a generalizing b with
  | nil => cases b <;> simp [strcmp]
  | cons x xs ih =>
    cases b with
    | nil => simp [strcmp]
    | cons y ys =>
      simp only [strcmp]
      by_cases h1 : x.toNat < y.toNat
      · have : ¬ y.toNat < x.toNat := by omega
        simp [h1, this]
      · by_cases h2 : y.toNat < x.toNat
        · simp [h1, h2]
        · simp [h1, h2, ih]

/-! ## C5: comparison of two strings -/

theorem to_double_pair_eq (P : Platform) (a b : value_t) :
    to_double_pair P a b
      = match exp_to_double P a, exp_to_double P b with
        | .ok d1, .ok d2 => .ok (d1, d2)
        | .ok _, .error st => .error st
        | .error st, _ => .error st := by
  unfold to_double_pair
  cases exp_to_double P a <;> cases exp_to_double P b <;> rfl

theorem operator_compare_strings (P : Platform) (cmp_d : Double → Double → Bool)
    (cmp_s : Int → Bool) (s1 s2 : List Char) (ta tb : token_t)
    (ha : ta.param = .T_STRING s1) (hb : tb.param = .T_STRING s2) :
    operator_compare P cmp_d cmp_s [ta, tb]
      = .ok (.T_BOOLEAN (if (match exp_to_double P (.T_STRING s1),
                                  exp_to_double P (.T_STRING s2) with
                              | .ok d1, .ok d2 => cmp_d d1 d2
                              | _, _ => cmp_s (strcmp s1 s2)) then 1 else 0)) := by
  simp only [operator_compare, to_double_pair_eq, ha, hb]
  cases exp_to_double P (.T_STRING s1) <;> cases exp_to_double P (.T_STRING s2) <;> rfl

/-- C5, as amended. For String operands `a` and `b`, each of `>`, `<`, `>=`,
`<=`, `==`, `!=` and `=` returns the Boolean of the numeric comparison of the
two numbers when both strings coerce to numbers, and otherwise the Boolean of
the byte-wise lexicographic comparison of `a` and `b`. -/
theorem C5_string_comparison (P : Platform) (op : operator_t) (hop : is_comparison op = true)
    (s1 s2 : List Char) (ta tb : token_t) (ha : ta.param = .T_STRING s1)
    (hb : tb.param = .T_STRING s2) (s : List token_t) :
    exp_eval_operator P (tb :: ta :: s) op
      = .ok (token_t.mk 0 (.T_BOOLEAN
          (if (match exp_to_double P (.T_STRING s1), exp_to_double P (.T_STRING s2) with
                | .ok d1, .ok d2 => num_compare op d1 d2
                | _, _ => decide (lex_compare op s1 s2)) then 1 else 0)) [] :: s) := by
  have hgt : decide (strcmp s1 s2 > 0) = decide (bytes_lt s2 s1) := by
    simp only [gt_iff_lt, strcmp_pos_iff]
  have hlt : decide (strcmp s1 s2 < 0) = decide (bytes_lt s1 s2) := by
    simp only [strcmp_neg_iff]
  have hge : decide (strcmp s1 s2 ≥ 0) = decide (¬ bytes_lt s1 s2) := by
    simp only [ge_iff_le, ← not_lt, strcmp_neg_iff]
  have hle : decide (strcmp s1 s2 ≤ 0) = decide (¬ bytes_lt s2 s1) := by
    simp only [← not_lt, strcmp_pos_iff]
  have heq : decide (strcmp s1 s2 = 0) = decide (s1 = s2) := by
    simp only [strcmp_zero_iff]
  have hne : decide (strcmp s1 s2 ≠ 0) = decide (s1 ≠ s2) := by
    simp only [ne_eq, strcmp_zero_iff]
  cases op <;> simp [is_comparison] at hop <;>
    simp only [exp_eval_operator, operator_dispatch, operator_evaluate_gt, operator_evaluate_lt,
      operator_evaluate_ge, operator_evaluate_le, operator_evaluate_boolequals,
      operator_evaluate_notequals, operator_evaluate_equals, List.length_cons,
      List.take_succ_cons, List.take_zero, List.reverse_cons, List.reverse_nil, List.nil_append,
      List.cons_append, List.drop_succ_cons, List.drop_zero,
      operator_compare_strings P _ _ s1 s2 ta tb ha hb, narrow, num_compare, lex_compare,
      hgt, hlt, hge, hle, heq, hne] <;>
    simp

/-- C5 as amended, at `'abc' < 'abd'` (no number: compared as bytes, true) and
at `'10' < '9'` (two numbers: compared as numbers, false). -/
theorem C5_string_comparison_witness :
    is_comparison O_LT = true
    ∧ exp_eval_operator exact_platform
        [tok 8 (.T_STRING "abd".toList), tok 0 (.T_STRING "abc".toList)] O_LT
        = .ok [token_t.mk 0 (.T_BOOLEAN 1) []]
    ∧ exp_eval_operator exact_platform
        [tok 7 (.T_STRING "9".toList), tok 0 (.T_STRING "10".toList)] O_LT
        = .ok [token_t.mk 0 (.T_BOOLEAN 0) []] :=
  ⟨rfl,
    (C5_string_comparison exact_platform O_LT rfl "abc".toList "abd".toList
      (tok 0 (.T_STRING "abc".toList)) (tok 8 (.T_STRING "abd".toList)) rfl rfl []).trans
      rfl,
    (C5_string_comparison exact_platform O_LT rfl "10".toList "9".toList
      (tok 0 (.T_STRING "10".toList)) (tok 7 (.T_STRING "9".toList)) rfl rfl []).trans
      rfl⟩

/-- C5 as stated fails at `'10' < '9'`: the string `10` sorts before the string
`9` as bytes, but on every platform `<` returns the Boolean false, the result of
the numeric comparison `10 < 9`. -/
theorem C5_counterexample :
    bytes_lt "10".toList "9".toList
    ∧ ∀ P : Platform,
        exp_eval_operator P [tok 7 (.T_STRING "9".toList), tok 0 (.T_STRING "10".toList)] O_LT
          = .ok [token_t.mk 0 (.T_BOOLEAN 0) []] :=
  ⟨by decide, fun _ => rfl⟩

/-! ## C4: `+` with a string operand -/

/-- C4, as amended. For operand values of which at least one is a String,
`+` returns the String that is the concatenation of the two stringified
operands, left operand first, when at least one operand does not coerce to a
number; when both coerce to numbers it returns their numeric sum. -/
theorem C4_plus_with_string (P : Platform) (ta tb : token_t) (hva : is_value ta.param = true)
    (hvb : is_value tb.param = true) (hs : ta.type = T_STRING ∨ tb.type = T_STRING)
    (s : List token_t) :
    exp_eval_operator P (tb :: ta :: s) O_PLUS
      = .ok (token_t.mk 0
          (match exp_to_double P ta.param, exp_to_double P tb.param with
            | .ok d1, .ok d2 => narrow P (.T_REAL (P.add d1 d2))
            | _, _ => .T_STRING (stringify P ta.param ++ stringify P tb.param)) [] :: s) := by
  obtain ⟨pa, va, ca⟩ := ta
  obtain ⟨pb, vb, cb⟩ := tb
  simp only [token_t.param, token_t.type] at hva hvb hs ⊢
  have hstr : ∀ v : value_t, is_value v = true → exp_to_string P v = .ok (stringify P v) := by
    intro v hv
    cases v <;> simp [is_value] at hv <;> simp [exp_to_string, stringify]
  have hor : (va.type == T_STRING || vb.type == T_STRING) = true := by
    rcases hs with h | h <;> simp [h]
  simp only [exp_eval_operator, operator_dispatch, operator_evaluate_plus, operator_concat,
    List.length_cons, List.take_succ_cons, List.take_zero, List.reverse_cons, List.reverse_nil,
    List.nil_append, List.cons_append, List.drop_succ_cons, List.drop_zero, to_double_pair_eq,
    token_t.param, token_t.type, hor, hstr va hva, hstr vb hvb]
  cases exp_to_double P va <;> cases exp_to_double P vb <;> simp [narrow]

/-- C4 as amended, at `'a' + 2` (the String `a2`) and at `'1' + 2` (the number 3). -/
theorem C4_plus_with_string_witness :
    exp_eval_operator exact_platform [tok 6 (.T_INTEGER 2), tok 0 (.T_STRING "a".toList)] O_PLUS
        = .ok [token_t.mk 0 (.T_STRING "a2".toList) []]
    ∧ exp_eval_operator exact_platform [tok 6 (.T_INTEGER 2), tok 0 (.T_STRING "1".toList)] O_PLUS
        = .ok [token_t.mk 0 (.T_INTEGER 3) []] :=
  ⟨(C4_plus_with_string exact_platform (tok 0 (.T_STRING "a".toList)) (tok 6 (.T_INTEGER 2))
      rfl rfl (Or.inl rfl) []).trans rfl,
    (C4_plus_with_string exact_platform (tok 0 (.T_STRING "1".toList)) (tok 6 (.T_INTEGER 2))
      rfl rfl (Or.inl rfl) []).trans rfl⟩

/-- C4 as stated fails at `'1' + 2`: the left operand is a String, and on every
platform `operator_evaluate_plus` returns the Real sum of 1 and 2, not the
String `12`; with exact sums the result pushed is the Integer 3. -/
theorem C4_counterexample :
    (∀ P : Platform,
        operator_evaluate_plus P [tok 0 (.T_STRING "1".toList), tok 6 (.T_INTEGER 2)]
          = .ok (.T_REAL (P.add (Double.fin 1 0) (Double.fin 2 0))))
    ∧ exp_eval_operator exact_platform [tok 6 (.T_INTEGER 2), tok 0 (.T_STRING "1".toList)] O_PLUS
        = .ok [token_t.mk 0 (.T_INTEGER 3) []] :=
  ⟨fun _ => rfl, rfl⟩

/-! ## C6: `%` on a string operand -/

/-- C6 fails on the code: `exp_is_integer` accepts a String that denotes an
integer without storing that integer, so `%` computes with the initial value 0
of its local. On every platform `'5' % 3` is the Integer 0 (not 2), `5 % '3'`
fails with `EXP_ER_DIVBYZERO`, and `~'5'` is the Integer -1 (not -6), while
`5 % 3` on two Integers is 2. -/
theorem C6_mod_ignores_string_value (P : Platform) :
    exp_eval_operator P [tok 6 (.T_INTEGER 3), tok 0 (.T_STRING "5".toList)] O_MOD
        = .ok [token_t.mk 0 (.T_INTEGER 0) []]
    ∧ exp_eval_operator P [tok 4 (.T_STRING "3".toList), tok 0 (.T_INTEGER 5)] O_MOD
        = .error EXP_ER_DIVBYZERO
    ∧ exp_eval_operator P [tok 1 (.T_STRING "5".toList)] O_BITNOT
        = .ok [token_t.mk 0 (.T_INTEGER (-1)) []]
    ∧ exp_eval_operator P [tok 4 (.T_INTEGER 3), tok 0 (.T_INTEGER 5)] O_MOD
        = .ok [token_t.mk 0 (.T_INTEGER 2) []] :=
  ⟨rfl, rfl, rfl, rfl⟩

/-! ## Doubles that are integers -/

/-- The rational value of the finite double `fin m e`. -/
theorem align_fst (m1 e1 m2 e2 : Int) :
    (((Double.align m1 e1 m2 e2).1 : Int) : ℚ) * (2 : ℚ) ^ (min e1 e2) = (m1 : ℚ) * (2 : ℚ) ^ e1 := by
  have h : 0 ≤ e1 - min e1 e2 := by omega
  simp only [Double.align, Int.cast_mul, Int.cast_pow, Int.cast_ofNat]
  rw [mul_assoc, ← zpow_natCast, Int.toNat_of_nonneg h, ← zpow_add₀ (by norm_num : (2:ℚ) ≠ 0)]
  congr 2
  omega

theorem align_snd (m1 e1 m2 e2 : Int) :
    (((Double.align m1 e1 m2 e2).2 : Int) : ℚ) * (2 : ℚ) ^ (min e1 e2) = (m2 : ℚ) * (2 : ℚ) ^ e2 := by
  have h : 0 ≤ e2 - min e1 e2 := by omega
  simp only [Double.align, Int.cast_mul, Int.cast_pow, Int.cast_ofNat]
  rw [mul_assoc, ← zpow_natCast, Int.toNat_of_nonneg h, ← zpow_add₀ (by norm_num : (2:ℚ) ≠ 0)]
  congr 2
  omega

theorem lt_fin_iff (m1 e1 m2 e2 : Int) :
    Double.lt (.fin m1 e1) (.fin m2 e2) = true ↔ (m1 : ℚ) * (2 : ℚ) ^ e1 < (m2 : ℚ) * (2 : ℚ) ^ e2 := by
  have hpos : (0 : ℚ) < (2 : ℚ) ^ (min e1 e2) := by positivity
  rw [← align_fst m1 e1 m2 e2, ← align_snd m1 e1 m2 e2, mul_lt_mul_right hpos]
  simp [Double.lt]

theorem eq_fin_iff (m1 e1 m2 e2 : Int) :
    Double.eq (.fin m1 e1) (.fin m2 e2) = true ↔ (m1 : ℚ) * (2 : ℚ) ^ e1 = (m2 : ℚ) * (2 : ℚ) ^ e2 := by
  have hpos : (2 : ℚ) ^ (min e1 e2) ≠ 0 := by positivity
  rw [← align_fst m1 e1 m2 e2, ← align_snd m1 e1 m2 e2, mul_left_inj' hpos]
  simp [Double.eq]

theorem int_value_val (m e i : Int) (h : Double.int_value (.fin m e) = some i) :
    (m : ℚ) * (2 : ℚ) ^ e = (i : ℚ) := by
  unfold Double.int_value at h
  by_cases he : 0 ≤ e
  · simp only [he, if_true, Option.some.injEq] at h
    subst h
    rw [Int.cast_mul, Int.cast_pow, Int.cast_ofNat, ← zpow_natCast, Int.toNat_of_nonneg he]
  · simp only [he, if_false] at h
    by_cases hd : m % 2 ^ (-e).toNat = 0
    · simp only [hd, if_true, Option.some.injEq] at h
      have hm : m = i * 2 ^ (-e).toNat := by
        rw [← h]; exact (Int.ediv_mul_cancel (Int.dvd_of_emod_eq_zero hd)).symm
      have hne : 0 ≤ -e := by omega
      rw [hm, Int.cast_mul, Int.cast_pow, Int.cast_ofNat, mul_assoc, ← zpow_natCast,
        Int.toNat_of_nonneg hne, ← zpow_add₀ (by norm_num : (2:ℚ) ≠ 0)]
      simp
    · simp [hd] at h

theorem ofInt_max : Double.ofInt INT64_MAX = .fin 9007199254740992 10 := by decide
theorem ofInt_min : Double.ofInt INT64_MIN = .fin (-4503599627370496) 11 := by decide

theorem round_of_int_value (m e i : Int) (h : Double.int_value (.fin m e) = some i) :
    Double.round (.fin m e) = (if 0 ≤ e then .fin m e else .fin i 0) := by
  unfold Double.int_value at h
  by_cases he : 0 ≤ e
  · simp [Double.round, he]
  · simp only [he, if_false] at h
    by_cases hd : m % 2 ^ (-e).toNat = 0
    · simp only [hd, if_true, Option.some.injEq] at h
      simp only [Double.round, he, if_false]
      have hdpos : (0 : Int) < 2 ^ (-e).toNat := by positivity
      have hdvd : ((2 ^ (-e).toNat : Nat) : Int) ∣ m := by
        rw [Nat.cast_pow]; exact Int.dvd_of_emod_eq_zero hd
      have hnat : (2 ^ (-e).toNat : Nat) ∣ m.natAbs := by
        exact Int.natCast_dvd.mp hdvd
      have hr : m.natAbs % 2 ^ (-e).toNat = 0 := Nat.mod_eq_zero_of_dvd hnat
      have hdn : 0 < 2 ^ (-e).toNat := by positivity
      have hq1 : (if 2 ^ (-e).toNat ≤ 2 * (m.natAbs % 2 ^ (-e).toNat) then
          m.natAbs / 2 ^ (-e).toNat + 1 else m.natAbs / 2 ^ (-e).toNat) = m.natAbs / 2 ^ (-e).toNat := by
        rw [hr]; simp
      rw [hq1]
      congr 1
      rw [← h]
      by_cases hm : m < 0
      · simp only [hm, if_true]
        have : m = -(m.natAbs : Int) := by omega
        conv_rhs => rw [this]
        rw [Int.neg_ediv_of_dvd (by rw [Int.natCast_natAbs]; exact (dvd_abs _ _).mpr (Int.dvd_of_emod_eq_zero hd))]
        simp
      · simp only [hm, if_false]
        have : m = (m.natAbs : Int) := by omega
        conv_rhs => rw [this]
        simp
    · simp [hd] at h

theorem trunc_of_int_value (m e i : Int) (h : Double.int_value (.fin m e) = some i) (he : 0 ≤ e) :
    Double.trunc m e = i := by
  unfold Double.int_value at h
  simp only [he, if_true, Option.some.injEq] at h
  simp [Double.trunc, he, h]

/-- A real equal to an integer of the 64-bit range is accepted by `exp_is_integer`, which
stores that integer. -/
theorem exp_is_integer_of_int_value (P : Platform) (r : Double) (i i0 : Int)
    (h : Double.int_value r = some i) (hlo : INT64_MIN ≤ i) (hhi : i ≤ INT64_MAX) :
    exp_is_integer P (.T_REAL r) i0 = .ok i := by
  cases r with
  | inf n => simp [Double.int_value] at h
  | nan => simp [Double.int_value] at h
  | fin m e =>
    have hval := int_value_val m e i h
    have hloq : (-9223372036854775808 : ℚ) ≤ (i : ℚ) := by
      have : ((-9223372036854775808 : Int) : ℚ) ≤ (i : ℚ) := by
        exact_mod_cast hlo
      simpa using this
    have hhiq : (i : ℚ) ≤ (9223372036854775807 : ℚ) := by
      have : (i : ℚ) ≤ ((9223372036854775807 : Int) : ℚ) := by
        exact_mod_cast hhi
      simpa using this
    have hgt : Double.gt (.fin m e) (Double.ofInt INT64_MAX) = false := by
      rw [ofInt_max, Double.gt, Bool.eq_false_iff, Ne, lt_fin_iff, hval]
      norm_num
      linarith
    have hlt : Double.lt (.fin m e) (Double.ofInt INT64_MIN) = false := by
      rw [ofInt_min, Bool.eq_false_iff, Ne, lt_fin_iff, hval]
      norm_num
      linarith
    have hround := round_of_int_value m e i h
    have hne : Double.ne (Double.round (.fin m e)) (.fin m e) = false := by
      rw [Double.ne, hround]
      by_cases he : 0 ≤ e
      · simp only [he, if_true, Bool.not_eq_false', eq_fin_iff]
      · simp only [he, if_false, Bool.not_eq_false', eq_fin_iff, hval]
        simp
    have hcast : to_int64 P (Double.round (.fin m e)) = i := by
      rw [hround]
      by_cases he : 0 ≤ e
      · simp only [he, if_true, to_int64, trunc_of_int_value m e i h he]
        simp [hlo, hhi]
      · simp only [he, if_false, to_int64]
        have : Double.trunc i 0 = i := by simp [Double.trunc]
        simp [this, hlo, hhi]
    simp [exp_is_integer, hgt, hlt, hne, hcast]

/-! ## Nesting depth and the fuel of `exp_rpn` -/

theorem token_depth_pos (t : token_t) : 1 ≤ token_depth t := by
  cases t with
  | mk p v c => simp [token_depth]

theorem token_depth_children (t : token_t) : token_depth.list t.children < token_depth t := by
  cases t with
  | mk p v c => simp [token_depth, token_t.children]

theorem token_depth_le_of_mem (l : List token_t) (t : token_t) (h : t ∈ l) :
    token_depth t ≤ token_depth.list l := by
  induction l with
  | nil => simp at h
  | cons x xs ih =>
    simp only [List.mem_cons] at h
    simp only [token_depth.list]
    rcases h with rfl | h
    · exact le_max_left _ _
    · exact le_trans (ih h) (le_max_right _ _)

mutual
theorem token_depth_dup : ∀ t : token_t, token_depth (exp_token_dup t) ≤ token_depth t
  | .mk p v c => by
    cases v <;> simp [exp_token_dup, token_depth, token_depth.list]
    exact token_depth_dup_list c
theorem token_depth_dup_list : ∀ l : List token_t,
    token_depth.list (exp_token_dup.list l) ≤ token_depth.list l
  | [] => by simp [exp_token_dup.list]
  | t :: ts => by
    simp only [exp_token_dup.list, token_depth.list]
    exact max_le_max (token_depth_dup t) (token_depth_dup_list ts)
end

theorem depth_le_cons (D : Nat) (t : token_t) (l : List token_t) (ht : token_depth t ≤ D)
    (hl : depth_le D l) : depth_le D (t :: l) := by
  intro x hx
  simp only [List.mem_cons] at hx
  rcases hx with rfl | hx
  · exact ht
  · exact hl x hx

theorem depth_le_drop (D n : Nat) (l : List token_t) (hl : depth_le D l) :
    depth_le D (l.drop n) :=
  fun x hx => hl x (List.mem_of_mem_drop hx)

theorem depth_le_result (D : Nat) (hD : 1 ≤ D) (p : Nat) (v : value_t) (l : List token_t)
    (hl : depth_le D l) : depth_le D (token_t.mk p v [] :: l) :=
  depth_le_cons D _ l (by simpa [token_depth, token_depth.list] using hD) hl

theorem exp_eval_operator_depth (P : Platform) (D : Nat) (hD : 1 ≤ D) (stack stack1 : List token_t)
    (op : operator_t) (hst : depth_le D stack) (h : exp_eval_operator P stack op = .ok stack1) :
    depth_le D stack1 := by
  unfold exp_eval_operator at h
  split at h
  · simp at h
  · split at h
    · simp at h
    · split at h
      · simp at h
      · simp only [Except.ok.injEq] at h
        subst h
        exact depth_le_result D hD _ _ _ (depth_le_drop D _ _ hst)

theorem exp_call_function_depth (P : Platform) (exp : expression_t) (D : Nat) (hD : 1 ≤ D)
    (fname : String) (argc : Nat) (stack stack1 : List token_t)
    (hst : depth_le D stack) (h : exp_call_function P exp fname argc stack = .ok stack1) :
    depth_le D stack1 := by
  unfold exp_call_function at h
  split at h
  · simp at h
  · simp only [Except.ok.injEq] at h
    subst h
    exact depth_le_result D hD _ _ _ (depth_le_drop D _ _ hst)

theorem exp_eval_if_congr (P : Platform) (D : Nat)
    (rpn1 rpn2 : List token_t → Except exp_failure value_t)
    (hrpn : ∀ c, token_depth.list c < D → rpn1 c = rpn2 c) (stack : List token_t)
    (hst : depth_le D stack) : exp_eval_if P rpn1 stack = exp_eval_if P rpn2 stack := by
  unfold exp_eval_if
  split
  · rename_i iffalse iftrue cond s
    have h1 : token_depth.list iftrue.children < D :=
      lt_of_lt_of_le (token_depth_children iftrue) (hst iftrue (by simp))
    have h2 : token_depth.list iffalse.children < D :=
      lt_of_lt_of_le (token_depth_children iffalse) (hst iffalse (by simp))
    split
    · rfl
    · rename_i b1 _
      have : rpn1 (if (b1 != 0) = true then iftrue.children else iffalse.children)
          = rpn2 (if (b1 != 0) = true then iftrue.children else iffalse.children) := by
        split
        · exact hrpn _ h1
        · exact hrpn _ h2
      rw [this]
  · rfl

theorem exp_eval_if_depth (P : Platform) (D : Nat) (hD : 1 ≤ D)
    (rpn : List token_t → Except exp_failure value_t) (stack stack1 : List token_t)
    (hst : depth_le D stack) (h : exp_eval_if P rpn stack = .ok stack1) : depth_le D stack1 := by
  unfold exp_eval_if at h
  split at h
  · rename_i iffalse iftrue cond s
    split at h
    · simp at h
    · split at h
      · simp at h
      · simp only [Except.ok.injEq] at h
        subst h
        exact depth_le_result D hD _ _ _
          (fun x hx => hst x (by simp [hx]))
  · simp at h

/-- The reading loop of `exp_rpn` only calls its evaluator on the children of
tokens it holds: two evaluators that agree below the depth `D` give the same
result on tokens of depth at most `D`. -/
theorem rpn_loop_congr (P : Platform) (exp : expression_t) (D : Nat) (hD : 1 ≤ D)
    (rpn1 rpn2 : List token_t → Except exp_failure value_t)
    (hrpn : ∀ c, token_depth.list c < D → rpn1 c = rpn2 c) (input stack : List token_t)
    (hin : depth_le D input) (hst : depth_le D stack) :
    rpn_loop P exp rpn1 input stack = rpn_loop P exp rpn2 input stack := by
  induction input generalizing stack with
  | nil => simp [rpn_loop]
  | cons curr in_ ih =>
    have hin1 : depth_le D in_ := fun x hx => hin x (by simp [hx])
    have hcurr : token_depth curr ≤ D := hin curr (by simp)
    have hpush := ih (curr :: stack) hin1 (depth_le_cons D curr stack hcurr hst)
    obtain ⟨p, v, c⟩ := curr
    cases v with
    | T_BOOLEAN b => simpa [rpn_loop, token_t.param] using hpush
    | T_INTEGER b => simpa [rpn_loop, token_t.param] using hpush
    | T_REAL b => simpa [rpn_loop, token_t.param] using hpush
    | T_STRING b => simpa [rpn_loop, token_t.param] using hpush
    | T_IFSTATEMENT => simpa [rpn_loop, token_t.param] using hpush
    | T_OPERATOR op =>
      simp only [rpn_loop, token_t.param]
      split
      · cases hop : exp_eval_operator P stack op with
        | error st => rfl
        | ok stack1 => exact ih stack1 hin1 (exp_eval_operator_depth P D hD stack stack1 op hst hop)
      · rfl
    | T_IFCONDITION op =>
      simp only [rpn_loop, token_t.param]
      split
      · split
        · rw [exp_eval_if_congr P D rpn1 rpn2 hrpn _ hst]
          cases hif : exp_eval_if P rpn2 _ with
          | error e => rfl
          | ok stack1 => exact ih stack1 hin1 (exp_eval_if_depth P D hD rpn2 _ stack1 hst hif)
        · rfl
      · rfl
    | T_FUNCTION fname =>
      simp only [rpn_loop, token_t.param]
      split
      · rename_i top stack1
        split
        · rename_i n _
          split
          · rfl
          · split
            · rfl
            · cases hf : exp_call_function P exp fname n.toNat stack1 with
              | error st => rfl
              | ok stack2 =>
                exact ih stack2 hin1 (exp_call_function_depth P exp D hD fname _ stack1 stack2
                  (fun x hx => hst x (by simp [hx])) hf)
        · rfl
      · rfl
    | T_NONE => simp [rpn_loop, token_t.param]
    | T_LPAREN => simp [rpn_loop, token_t.param]
    | T_RPAREN => simp [rpn_loop, token_t.param]
    | T_COMMA => simp [rpn_loop, token_t.param]
    | T_PARAMETER s => simp [rpn_loop, token_t.param]

theorem depth_le_dup_list (input : List token_t) :
    depth_le (token_depth.list input) (exp_token_dup.list input) :=
  fun t ht => le_trans (token_depth_le_of_mem _ t ht) (token_depth_dup_list input)

theorem token_depth_list_pos (input : List token_t) (h : input ≠ []) :
    1 ≤ token_depth.list input := by
  cases input with
  | nil => exact absurd rfl h
  | cons t ts => exact le_trans (token_depth_pos t) (le_max_left _ _)

/-- Enough fuel: `exp_rpn_fuel` with more fuel than the nesting depth of its
input is `exp_rpn`. -/
theorem exp_rpn_fuel_eq (P : Platform) (exp : expression_t) (fuel : Nat) :
    ∀ input : List token_t, token_depth.list input < fuel →
      exp_rpn_fuel P exp fuel input = exp_rpn P exp input := by
  induction fuel using Nat.strong_induction_on with
  | _ fuel ih =>
    intro input hlt
    cases fuel with
    | zero => omega
    | succ f =>
      unfold exp_rpn
      simp only [exp_rpn_fuel]
      by_cases hne : input = []
      · subst hne
        simp [exp_token_dup.list, rpn_loop]
      · have hD := token_depth_list_pos input hne
        have hcongr : rpn_loop P exp (exp_rpn_fuel P exp f) (exp_token_dup.list input) []
            = rpn_loop P exp (exp_rpn_fuel P exp (token_depth.list input))
                (exp_token_dup.list input) [] := by
          apply rpn_loop_congr P exp (token_depth.list input) hD
          · intro c hc
            rw [ih f (by omega) c (by omega), ih (token_depth.list input) (by omega) c hc]
          · exact depth_le_dup_list input
          · intro t ht; simp at ht
        rw [hcongr]

/-- The function `exp_rpn` is the reading loop, run with `exp_rpn` itself for the
branches of the conditionals, followed by the final test of the stack. -/
theorem exp_rpn_eq (P : Platform) (exp : expression_t) (input : List token_t) :
    exp_rpn P exp input
      = match rpn_loop P exp (exp_rpn P exp) (exp_token_dup.list input) [] with
        | .error e => .error e
        | .ok stack => rpn_finish stack := by
  by_cases hne : input = []
  · subst hne
    simp [exp_rpn, exp_rpn_fuel, exp_token_dup.list, rpn_loop]
  · have hD := token_depth_list_pos input hne
    have hcongr : rpn_loop P exp (exp_rpn_fuel P exp (token_depth.list input))
        (exp_token_dup.list input) []
        = rpn_loop P exp (exp_rpn P exp) (exp_token_dup.list input) [] := by
      apply rpn_loop_congr P exp (token_depth.list input) hD
      · intro c hc
        exact exp_rpn_fuel_eq P exp _ c hc
      · exact depth_le_dup_list input
      · intro t ht; simp at ht
    rw [← hcongr]
    simp [exp_rpn, exp_rpn_fuel]

/-! ## C7: narrowing after an operator -/

theorem narrow_of_int_value (P : Platform) (r : Double) (i : Int)
    (h : Double.int_value r = some i) (hlo : INT64_MIN ≤ i) (hhi : i ≤ INT64_MAX) :
    narrow P (.T_REAL r) = .T_INTEGER i := by
  simp [narrow, exp_is_integer_of_int_value P r i P.uninit h hlo hhi]

theorem narrow_real (P : Platform) (v : value_t) (r : Double) (h : narrow P v = .T_REAL r) :
    v = .T_REAL r := by
  cases v <;> simp [narrow] at h ⊢
  rename_i r1
  split at h
  · simp at h
  · simpa using h

/-- C7. After every successful operator application in `exp_eval_operator` the
pushed result is the value stored by the operator, narrowed: a Real equal to an
integer of the 64-bit range is retagged Integer with that value, so the pushed
result is never such a Real. -/
theorem C7_operator_result_narrowed (P : Platform) (stack stack1 : List token_t)
    (op : operator_t) (h : exp_eval_operator P stack op = .ok stack1) :
    ∃ c f v, operator_dispatch P op = some (c, f) ∧ f (stack.take c).reverse = .ok v
      ∧ stack1 = token_t.mk 0 (narrow P v) [] :: stack.drop c
      ∧ (∀ r i, v = .T_REAL r → Double.int_value r = some i → INT64_MIN ≤ i → i ≤ INT64_MAX →
          narrow P v = .T_INTEGER i)
      ∧ (∀ r i, narrow P v = .T_REAL r → Double.int_value r = some i →
          ¬ (INT64_MIN ≤ i ∧ i ≤ INT64_MAX)) := by
  unfold exp_eval_operator at h
  cases hd : operator_dispatch P op with
  | none => simp [hd] at h
  | some cf =>
    obtain ⟨c, f⟩ := cf
    simp only [hd] at h
    split at h
    · simp at h
    · cases hf : f (stack.take c).reverse with
      | error st => simp [hf] at h
      | ok v =>
        simp only [hf, Except.ok.injEq] at h
        refine ⟨c, f, v, rfl, hf, h.symm, ?_, ?_⟩
        · intro r i hv hi hlo hhi
          subst hv
          exact narrow_of_int_value P r i hi hlo hhi
        · intro r i hn hi hrange
          have hv := narrow_real P v r hn
          subst hv
          rw [narrow_of_int_value P r i hi hrange.1 hrange.2] at hn
          simp at hn

/-- C7, at `2 + 2` and `2.0 * 3` on a platform with exact sums and products: the
results pushed are the Integers 4 and 6, and solving the two expressions gives
Integers. -/
theorem C7_operator_result_narrowed_witness :
    exp_eval_operator exact_platform [tok 2 (.T_INTEGER 2), tok 0 (.T_INTEGER 2)] O_PLUS
        = .ok [token_t.mk 0 (.T_INTEGER 4) []]
    ∧ (∃ c f v, operator_dispatch exact_platform O_PLUS = some (c, f)
        ∧ f ([tok 2 (.T_INTEGER 2), tok 0 (.T_INTEGER 2)].take c).reverse = .ok v
        ∧ [token_t.mk 0 (.T_INTEGER 4) []]
            = token_t.mk 0 (narrow exact_platform v) []
              :: [tok 2 (.T_INTEGER 2), tok 0 (.T_INTEGER 2)].drop c
        ∧ (∀ r i, v = .T_REAL r → Double.int_value r = some i → INT64_MIN ≤ i → i ≤ INT64_MAX →
            narrow exact_platform v = .T_INTEGER i)
        ∧ (∀ r i, narrow exact_platform v = .T_REAL r → Double.int_value r = some i →
            ¬ (INT64_MIN ≤ i ∧ i ≤ INT64_MAX)))
    ∧ exp_solve exact_platform (plain_expression
          [tok 0 (.T_INTEGER 2), tok 2 (.T_INTEGER 2), tok 1 (.T_OPERATOR O_PLUS)])
        = .ok (.EXP_INTEGER 4)
    ∧ exp_solve exact_platform (plain_expression
          [tok 0 (.T_REAL (.fin 2 0)), tok 6 (.T_INTEGER 3), tok 4 (.T_OPERATOR O_MUL)])
        = .ok (.EXP_INTEGER 6) :=
  ⟨rfl,
    C7_operator_result_narrowed exact_platform [tok 2 (.T_INTEGER 2), tok 0 (.T_INTEGER 2)]
      [token_t.mk 0 (.T_INTEGER 4) []] O_PLUS rfl,
    rfl, rfl⟩

/-! ## C8: the result of a function call -/

/-- C8, as amended. After a successful built-in or host function call,
`exp_call_function` pushes the result with the type that the function gave it: a
Real result stays a Real, also when it is equal to an integer of the 64-bit
range (only a Real equal to zero is stored as 0); every other result is pushed
unchanged. -/
theorem C8_function_result_keeps_type (P : Platform) (exp : expression_t) (fname : String)
    (argc : Nat) (stack : List token_t) (v : value_t)
    (h : call_status P exp fname (stack.take argc).reverse = .ok v) :
    ∃ v1, exp_call_function P exp fname argc stack
        = .ok (token_t.mk 0 v1 [] :: stack.drop argc)
      ∧ v1.type = v.type
      ∧ (∀ r, v = .T_REAL r →
          v1 = .T_REAL (if Double.eq (Double.fin 0 0) r then Double.fin 0 0 else r))
      ∧ (v.type ≠ T_REAL → v1 = v) := by
  refine ⟨positive_zero v, ?_, ?_, ?_, ?_⟩
  · simp [exp_call_function, h]
  · cases v <;> try rfl
    rename_i r
    by_cases hz : Double.eq (Double.fin 0 0) r = true <;> simp [positive_zero, hz, value_t.type]
  · intro r hr
    subst hr
    by_cases hz : Double.eq (Double.fin 0 0) r = true <;> simp [positive_zero, hz]
  · intro hne
    cases v <;> simp [positive_zero, value_t.type] at hne ⊢

/-- C8 as amended, at `abs(-2)`, `sqr(3)` and `max(1, 2)` on a platform with
exact products: the results are the Reals 2, 9 and 2. -/
theorem C8_function_result_keeps_type_witness :
    (∃ v1, exp_call_function exact_platform (plain_expression []) "abs" 1
          [tok 0 (.T_INTEGER (-2))]
        = .ok (token_t.mk 0 v1 [] :: [tok 0 (.T_INTEGER (-2))].drop 1)
      ∧ v1.type = (value_t.T_REAL (.fin 2 0)).type
      ∧ (∀ r, value_t.T_REAL (.fin 2 0) = .T_REAL r →
          v1 = .T_REAL (if Double.eq (Double.fin 0 0) r then Double.fin 0 0 else r))
      ∧ ((value_t.T_REAL (.fin 2 0)).type ≠ T_REAL → v1 = .T_REAL (.fin 2 0)))
    ∧ exp_call_function exact_platform (plain_expression []) "abs" 1 [tok 0 (.T_INTEGER (-2))]
        = .ok [token_t.mk 0 (.T_REAL (.fin 2 0)) []]
    ∧ exp_call_function exact_platform (plain_expression []) "sqr" 1 [tok 4 (.T_INTEGER 3)]
        = .ok [token_t.mk 0 (.T_REAL (.fin 9 0)) []]
    ∧ exp_call_function exact_platform (plain_expression []) "max" 2
        [tok 7 (.T_INTEGER 2), tok 4 (.T_INTEGER 1)]
        = .ok [token_t.mk 0 (.T_REAL (.fin 2 0)) []] :=
  ⟨C8_function_result_keeps_type exact_platform (plain_expression []) "abs" 1
      [tok 0 (.T_INTEGER (-2))] (.T_REAL (.fin 2 0)) rfl,
    rfl, rfl, rfl⟩

/-- C8 as stated fails at `abs(-2)` and `max(1, 2)`: on every platform the
result of the call is the Real 2, which is equal to the integer 2 of the 64-bit
range and is not rewritten to an Integer; solving the RPN that the shunting-yard
emits for `abs(-2)` returns a Real. -/
theorem C8_counterexample :
    Double.int_value (.fin 2 0) = some 2
    ∧ exp_shunting_yard [tok 0 (.T_FUNCTION "abs"), tok 3 .T_LPAREN,
          tok 4 (.T_OPERATOR O_UMINUS), tok 5 (.T_INTEGER 2), tok 6 .T_RPAREN] 0
        = .ok ([tok 5 (.T_INTEGER 2), tok 4 (.T_OPERATOR O_UMINUS), tok 0 (.T_INTEGER 1),
            tok 0 (.T_FUNCTION "abs")], [])
    ∧ (∀ P : Platform,
        exp_call_function P (plain_expression []) "abs" 1 [tok 0 (.T_INTEGER (-2))]
          = .ok [token_t.mk 0 (.T_REAL (.fin 2 0)) []])
    ∧ (∀ P : Platform,
        exp_call_function P (plain_expression []) "max" 2
            [tok 7 (.T_INTEGER 2), tok 4 (.T_INTEGER 1)]
          = .ok [token_t.mk 0 (.T_REAL (.fin 2 0)) []])
    ∧ (∀ P : Platform,
        exp_solve P (plain_expression [tok 5 (.T_INTEGER 2), tok 4 (.T_OPERATOR O_UMINUS),
            tok 0 (.T_INTEGER 1), tok 0 (.T_FUNCTION "abs")])
          = .ok (.EXP_REAL (.fin 2 0))) :=
  ⟨rfl, rfl, fun _ => rfl, fun _ => rfl, fun _ => rfl⟩

/-! ## C9: the position of an operator failure -/

theorem rpn_loop_append (P : Platform) (exp : expression_t)
    (rpn : List token_t → Except exp_failure value_t) (l1 l2 stack : List token_t) :
    rpn_loop P exp rpn (l1 ++ l2) stack
      = match rpn_loop P exp rpn l1 stack with
        | .error e => .error e
        | .ok stack1 => rpn_loop P exp rpn l2 stack1 := by
  induction l1 generalizing stack with
  | nil => simp [rpn_loop]
  | cons curr in_ ih =>
    obtain ⟨p, v, c⟩ := curr
    cases v with
    | T_BOOLEAN b => simp only [List.cons_append, rpn_loop, token_t.param]; exact ih _
    | T_INTEGER b => simp only [List.cons_append, rpn_loop, token_t.param]; exact ih _
    | T_REAL b => simp only [List.cons_append, rpn_loop, token_t.param]; exact ih _
    | T_STRING b => simp only [List.cons_append, rpn_loop, token_t.param]; exact ih _
    | T_IFSTATEMENT => simp only [List.cons_append, rpn_loop, token_t.param]; exact ih _
    | T_OPERATOR op =>
      simp only [List.cons_append, rpn_loop, token_t.param]
      split
      · cases exp_eval_operator P stack op with
        | error st => rfl
        | ok stack1 => exact ih stack1
      · rfl
    | T_IFCONDITION op =>
      simp only [List.cons_append, rpn_loop, token_t.param]
      split
      · split
        · cases exp_eval_if P rpn _ with
          | error e => rfl
          | ok stack1 => exact ih stack1
        · rfl
      · rfl
    | T_FUNCTION fname =>
      simp only [List.cons_append, rpn_loop, token_t.param]
      split
      · rename_i top stack1
        split
        · rename_i n _
          split
          · rfl
          · split
            · rfl
            · cases exp_call_function P exp fname n.toNat stack1 with
              | error st => rfl
              | ok stack2 => exact ih stack2
        · rfl
      · rfl
    | T_NONE => simp [rpn_loop, token_t.param]
    | T_LPAREN => simp [rpn_loop, token_t.param]
    | T_RPAREN => simp [rpn_loop, token_t.param]
    | T_COMMA => simp [rpn_loop, token_t.param]
    | T_PARAMETER s => simp [rpn_loop, token_t.param]

/-- C9, as amended. Whenever the evaluation of an operator fails inside
`exp_rpn`, `exp_rpn` fails with the error code returned by that operator and
with the error position equal to the position of that operator token; and
`/` with a divisor that coerces to 0 fails with `EXP_ER_DIVBYZERO` for every
dividend that coerces to a number. -/
theorem C9_operator_failure_position (P : Platform) (exp : expression_t)
    (before : List token_t) (optok : token_t) (op : operator_t)
    (hop : optok.param = .T_OPERATOR op) (rest stack : List token_t) (st : exp_error_t)
    (hbefore : rpn_loop P exp (exp_rpn P exp) (exp_token_dup.list before) [] = .ok stack)
    (hlen : exp_op_argument_count op ≤ stack.length)
    (hfail : exp_eval_operator P stack op = .error st) :
    exp_rpn P exp (before ++ optok :: rest)
        = .error ⟨st, operator_error_message st op, optok.position⟩
    ∧ ∀ (ta tb : token_t) (d1 d2 : Double) (s : List token_t),
        exp_to_double P ta.param = .ok d1 → exp_to_double P tb.param = .ok d2 →
        Double.eq d2 (Double.fin 0 0) = true →
        exp_eval_operator P (tb :: ta :: s) O_DIV = .error EXP_ER_DIVBYZERO := by
  constructor
  · obtain ⟨p, v, c⟩ := optok
    simp only [token_t.param] at hop
    subst hop
    rw [exp_rpn_eq, dup_list_append, rpn_loop_append, hbefore]
    simp [exp_token_dup.list, exp_token_dup, rpn_loop, token_t.param, hlen, hfail,
      token_t.position]
  · intro ta tb d1 d2 s h1 h2 hz
    simp [exp_eval_operator, operator_dispatch, operator_evaluate_div, to_double_pair, h1, h2, hz]

/-- C9 as amended, at the RPN of `1/0`: the failure is `EXP_ER_DIVBYZERO` at the
offset 1 of `/`. -/
theorem C9_operator_failure_position_witness :
    exp_rpn exact_platform (plain_expression [])
        ([tok 0 (.T_INTEGER 1), tok 2 (.T_INTEGER 0)] ++ tok 1 (.T_OPERATOR O_DIV) :: [])
      = .error ⟨EXP_ER_DIVBYZERO, "Division by zero", 1⟩ :=
  (C9_operator_failure_position exact_platform (plain_expression [])
    [tok 0 (.T_INTEGER 1), tok 2 (.T_INTEGER 0)] (tok 1 (.T_OPERATOR O_DIV)) O_DIV rfl []
    [tok 2 (.T_INTEGER 0), tok 0 (.T_INTEGER 1)] EXP_ER_DIVBYZERO rfl (by decide) rfl).1

/-- C9 as stated fails at `'abc'/0`: the divisor coerces to 0, and on every
platform `/` fails with `EXP_ER_NONNUMERIC`, the error of the dividend, not with
`EXP_ER_DIVBYZERO`. -/
theorem C9_counterexample :
    (∀ P : Platform, exp_to_double P (.T_INTEGER 0) = .ok (Double.fin 0 0))
    ∧ Double.eq (Double.fin 0 0) (Double.fin 0 0) = true
    ∧ (∀ P : Platform,
        exp_eval_operator P [tok 6 (.T_INTEGER 0), tok 0 (.T_STRING "abc".toList)] O_DIV
          = .error EXP_ER_NONNUMERIC)
    ∧ (∀ P : Platform,
        exp_rpn P (plain_expression [])
            [tok 0 (.T_STRING "abc".toList), tok 6 (.T_INTEGER 0), tok 5 (.T_OPERATOR O_DIV)]
          = .error ⟨EXP_ER_NONNUMERIC,
              "Division operator requires numeric or boolean operands", 5⟩) :=
  ⟨fun _ => rfl, rfl, fun _ => rfl, fun _ => rfl⟩

/-! ## C3: the conditional evaluates the selected branch only -/

mutual
theorem dup_dup : ∀ t : token_t, exp_token_dup (exp_token_dup t) = exp_token_dup t
  | .mk p v c => by
    cases v <;> simp [exp_token_dup, exp_token_dup.list]
    exact dup_dup_list c
theorem dup_dup_list : ∀ l : List token_t,
    exp_token_dup.list (exp_token_dup.list l) = exp_token_dup.list l
  | [] => by simp [exp_token_dup.list]
  | t :: ts => by
    simp only [exp_token_dup.list, dup_dup t, dup_dup_list ts]
end

theorem exp_rpn_dup (P : Platform) (exp : expression_t) (input : List token_t) :
    exp_rpn P exp (exp_token_dup.list input) = exp_rpn P exp input := by
  rw [exp_rpn_eq, exp_rpn_eq, dup_dup_list]

theorem exp_rpn_is_value (P : Platform) (exp : expression_t) (input : List token_t)
    (v : value_t) (h : exp_rpn P exp input = .ok v) : is_value v = true := by
  rw [exp_rpn_eq] at h
  cases hl : rpn_loop P exp (exp_rpn P exp) (exp_token_dup.list input) [] with
  | error e => simp [hl] at h
  | ok stack =>
    simp only [hl] at h
    unfold rpn_finish at h
    split at h
    · simp at h
    · split at h
      · rename_i hv
        simp only [Except.ok.injEq] at h
        rw [← h]; exact hv
      · simp at h
    · simp at h

theorem narrow_is_value (P : Platform) (v : value_t) (h : is_value v = true) :
    is_value (narrow P v) = true := by
  cases v <;> simp [is_value] at h <;> try rfl
  rename_i r
  simp only [narrow]
  cases exp_is_integer P (.T_REAL r) P.uninit <;> rfl

theorem export_ne_none (v : value_t) (h : is_value v = true) :
    (EXPORT_FROM_VALUE_T v == .EXP_NONE) = false := by
  cases v <;> simp [is_value] at h <;> rfl

theorem substitute_list_append (exp : expression_t) (l1 l2 : List token_t) :
    substitute_parameters_in_expr.list exp (l1 ++ l2)
      = match substitute_parameters_in_expr.list exp l1 with
        | .error e => .error e
        | .ok r1 =>
          match substitute_parameters_in_expr.list exp l2 with
          | .error e => .error e
          | .ok r2 => .ok (r1 ++ r2) := by
  induction l1 with
  | nil =>
    simp only [List.nil_append, substitute_parameters_in_expr.list]
    cases substitute_parameters_in_expr.list exp l2 <;> simp
  | cons t ts ih =>
    have hcons : ∀ l : List token_t, substitute_parameters_in_expr.list exp (t :: l)
        = match substitute_parameters_in_expr exp t with
          | .error e => .error e
          | .ok t1 =>
            match substitute_parameters_in_expr.list exp l with
            | .error e => .error e
            | .ok ts1 => .ok (t1 :: ts1) := fun _ => rfl
    rw [List.cons_append, hcons, hcons, ih]
    cases substitute_parameters_in_expr exp t with
    | error e => rfl
    | ok t1 =>
      cases substitute_parameters_in_expr.list exp ts with
      | error e => rfl
      | ok ts1 =>
        cases substitute_parameters_in_expr.list exp l2 <;> rfl

mutual
theorem substitute_with_tokens (exp : expression_t) (ts : List token_t) :
    ∀ t : token_t, substitute_parameters_in_expr (with_tokens exp ts) t
      = substitute_parameters_in_expr exp t
  | .mk p v c => by
    have hl := substitute_list_with_tokens exp ts c
    cases v <;> (simp only [substitute_parameters_in_expr, hl]; try rfl)
theorem substitute_list_with_tokens (exp : expression_t) (ts : List token_t) :
    ∀ l : List token_t, substitute_parameters_in_expr.list (with_tokens exp ts) l
      = substitute_parameters_in_expr.list exp l
  | [] => by simp [substitute_parameters_in_expr.list]
  | t :: l => by
    simp only [substitute_parameters_in_expr.list, substitute_with_tokens exp ts t,
      substitute_list_with_tokens exp ts l]
end

theorem rpn_loop_with_tokens (P : Platform) (exp : expression_t) (ts : List token_t)
    (rpn : List token_t → Except exp_failure value_t) (input stack : List token_t) :
    rpn_loop P (with_tokens exp ts) rpn input stack = rpn_loop P exp rpn input stack := by
  have hcall : ∀ fname argc s, exp_call_function P (with_tokens exp ts) fname argc s
      = exp_call_function P exp fname argc s := by
    intro fname argc s
    simp [exp_call_function, call_status, with_tokens]
  induction input generalizing stack with
  | nil => simp [rpn_loop]
  | cons curr in_ ih =>
    obtain ⟨p, v, c⟩ := curr
    cases v with
    | T_BOOLEAN b => simp only [rpn_loop, token_t.param]; exact ih _
    | T_INTEGER b => simp only [rpn_loop, token_t.param]; exact ih _
    | T_REAL b => simp only [rpn_loop, token_t.param]; exact ih _
    | T_STRING b => simp only [rpn_loop, token_t.param]; exact ih _
    | T_IFSTATEMENT => simp only [rpn_loop, token_t.param]; exact ih _
    | T_OPERATOR op =>
      simp only [rpn_loop, token_t.param]
      split
      · cases exp_eval_operator P stack op with
        | error st => rfl
        | ok stack1 => exact ih stack1
      · rfl
    | T_IFCONDITION op =>
      simp only [rpn_loop, token_t.param]
      split
      · split
        · cases exp_eval_if P rpn _ with
          | error e => rfl
          | ok stack1 => exact ih stack1
        · rfl
      · rfl
    | T_FUNCTION fname =>
      simp only [rpn_loop, token_t.param, hcall]
      split
      · rename_i top stack1
        split
        · rename_i n _
          split
          · rfl
          · split
            · rfl
            · cases exp_call_function P exp fname n.toNat stack1 with
              | error st => rfl
              | ok stack2 => exact ih stack2
        · rfl
      · rfl
    | T_NONE => simp [rpn_loop, token_t.param]
    | T_LPAREN => simp [rpn_loop, token_t.param]
    | T_RPAREN => simp [rpn_loop, token_t.param]
    | T_COMMA => simp [rpn_loop, token_t.param]
    | T_PARAMETER s => simp [rpn_loop, token_t.param]

theorem exp_rpn_with_tokens (P : Platform) (exp : expression_t) (ts input : List token_t) :
    exp_rpn P (with_tokens exp ts) input = exp_rpn P exp input := by
  have hfuel : ∀ fuel, exp_rpn_fuel P (with_tokens exp ts) fuel = exp_rpn_fuel P exp fuel := by
    intro fuel
    induction fuel with
    | zero => funext i; simp [exp_rpn_fuel]
    | succ f ih => funext i; simp only [exp_rpn_fuel, ih, rpn_loop_with_tokens]
  simp [exp_rpn, hfuel]

theorem exp_solve_eq (P : Platform) (exp : expression_t) (ts ts1 : List token_t)
    (h : substitute_parameters_in_expr.list exp (exp_token_dup.list ts) = .ok ts1) :
    exp_solve P (with_tokens exp ts)
      = match exp_rpn P exp ts1 with
        | .error e => .error e
        | .ok v => .ok (EXPORT_FROM_VALUE_T v) := by
  have hs : substitute_parameters_in_expr.list (with_tokens exp ts)
      (exp_token_dup.list (with_tokens exp ts).tokens) = .ok ts1 := by
    rw [substitute_list_with_tokens]; exact h
  simp only [exp_solve, hs, exp_rpn_with_tokens]
  cases hr : exp_rpn P exp ts1 with
  | error e => rfl
  | ok v => simp [export_ne_none v (exp_rpn_is_value P exp ts1 v hr)]

/-- C3, as amended. For a compiled expression `cond ? A : B` in which every
parameter of the condition and of both branches resolves, `exp_solve` evaluates
only the selected branch: when the condition is true it succeeds exactly when
solving `A` succeeds, with the same failure or with the value of `A` narrowed (a
Real equal to an integer of the 64-bit range retagged Integer), whatever the
evaluation of `B` would do; and symmetrically with `B` when the condition is
false. -/
theorem C3_ternary_selected_branch (P : Platform) (exp : expression_t)
    (cond A B cond1 A1 B1 : List token_t) (p : Nat) (c : token_t) (b : Int)
    (hcond : substitute_parameters_in_expr.list exp (exp_token_dup.list cond) = .ok cond1)
    (hA : substitute_parameters_in_expr.list exp (exp_token_dup.list A) = .ok A1)
    (hB : substitute_parameters_in_expr.list exp (exp_token_dup.list B) = .ok B1)
    (hc : rpn_loop P exp (exp_rpn P exp) (exp_token_dup.list cond1) [] = .ok [c])
    (hb : exp_to_boolean P c.param = .ok b) :
    exp_solve P (with_tokens exp (ternary_rpn cond p A B))
      = match exp_solve P (with_tokens exp (if b ≠ 0 then A else B)) with
        | .error e => .error e
        | .ok v => .ok (narrow_result P v) := by
  have hsub : substitute_parameters_in_expr.list exp
      (exp_token_dup.list (ternary_rpn cond p A B))
      = .ok (ternary_rpn cond1 p A1 B1) := by
    simp only [ternary_rpn, dup_list_append, substitute_list_append, hcond]
    simp [exp_token_dup.list, exp_token_dup, substitute_parameters_in_expr.list,
      substitute_parameters_in_expr, hA, hB]
  have hsel : substitute_parameters_in_expr.list exp
      (exp_token_dup.list (if b ≠ 0 then A else B)) = .ok (if b ≠ 0 then A1 else B1) := by
    by_cases hb0 : b ≠ 0
    · rw [if_pos hb0, if_pos hb0]; exact hA
    · rw [if_neg hb0, if_neg hb0]; exact hB
  rw [exp_solve_eq P exp _ _ hsub, exp_solve_eq P exp _ _ hsel]
  obtain ⟨pc, vc, cc⟩ := c
  simp only [token_t.param] at hb
  have hloop : rpn_loop P exp (exp_rpn P exp)
      (exp_token_dup.list (ternary_rpn cond1 p A1 B1)) []
      = match exp_rpn P exp (if b ≠ 0 then A1 else B1) with
        | .error e => .error e
        | .ok v => .ok [token_t.mk pc (narrow P v) []] := by
    simp only [ternary_rpn, dup_list_append, rpn_loop_append, hc]
    simp only [exp_token_dup.list, exp_token_dup, rpn_loop, token_t.param, token_t.type,
      value_t.type, exp_eval_if, hb, token_t.children, token_t.position, beq_self_eq_true,
      Bool.and_self, if_true]
    by_cases hb0 : b ≠ 0
    · have hbne : (b != 0) = true := by simpa using hb0
      simp only [hbne, if_true, exp_rpn_dup, hb0, ne_eq, not_false_eq_true]
      cases exp_rpn P exp A1 <;> rfl
    · have hbne : (b != 0) = false := by simpa using hb0
      simp only [hbne, exp_rpn_dup, hb0, if_false, Bool.false_eq_true]
      cases exp_rpn P exp B1 <;> rfl
  rw [exp_rpn_eq P exp (ternary_rpn cond1 p A1 B1), hloop]
  cases hr : exp_rpn P exp (if b ≠ 0 then A1 else B1) with
  | error e => rfl
  | ok v =>
    have hv := exp_rpn_is_value P exp _ v hr
    have hnv := narrow_is_value P v hv
    simp only [rpn_finish, token_t.param, hnv, if_true]
    cases v <;> simp [is_value] at hv <;> simp [narrow_result, EXPORT_FROM_VALUE_T, narrow]

/-- C3 as amended, at the RPN of `true ? 'a' : 1/0`: the parameters resolve, the
condition is true, and `exp_solve` returns the String `a` of the then-branch
although the else-branch divides by zero. -/
theorem C3_ternary_selected_branch_witness :
    exp_solve exact_platform (with_tokens (plain_expression [])
        (ternary_rpn [tok 0 (.T_PARAMETER "true")] 5 [tok 7 (.T_STRING "a".toList)]
          [tok 13 (.T_INTEGER 1), tok 15 (.T_INTEGER 0), tok 14 (.T_OPERATOR O_DIV)]))
      = .ok (.EXP_STRING (some "a".toList)) :=
  (C3_ternary_selected_branch exact_platform (plain_expression [])
    [tok 0 (.T_PARAMETER "true")] [tok 7 (.T_STRING "a".toList)]
    [tok 13 (.T_INTEGER 1), tok 15 (.T_INTEGER 0), tok 14 (.T_OPERATOR O_DIV)]
    [tok 0 (.T_BOOLEAN 1)] [tok 7 (.T_STRING "a".toList)]
    [tok 13 (.T_INTEGER 1), tok 15 (.T_INTEGER 0), tok 14 (.T_OPERATOR O_DIV)]
    5 (tok 0 (.T_BOOLEAN 1)) 1 rfl rfl rfl rfl rfl).trans rfl

/-- C3 as stated fails at `true ? 1 : x` and at `true ? 2.0 : 1`. The first
compiles to a conditional whose condition is true and whose then-branch `1`
solves to the Integer 1, but on every platform `exp_solve` fails with
`EXP_ER_INVALPARAM` at the offset 11 of `x`, a parameter that only the
else-branch mentions (with `2` in place of `x` it returns 1). The second returns
the Integer 2, while solving its then-branch `2.0` alone returns the Real 2. -/
theorem C3_counterexample :
    exp_shunting_yard [tok 0 (.T_PARAMETER "true"), tok 5 (.T_OPERATOR O_IFTHEN),
        tok 7 (.T_INTEGER 1), tok 9 (.T_OPERATOR O_ELSE), tok 11 (.T_PARAMETER "x")] 0
      = .ok (ternary_rpn [tok 0 (.T_PARAMETER "true")] 5 [tok 7 (.T_INTEGER 1)]
          [tok 11 (.T_PARAMETER "x")], [])
    ∧ (∀ P : Platform,
        exp_solve P (plain_expression (ternary_rpn [tok 0 (.T_PARAMETER "true")] 5
            [tok 7 (.T_INTEGER 1)] [tok 11 (.T_PARAMETER "x")]))
          = .error ⟨EXP_ER_INVALPARAM, "Unknown parameter 'x'", 11⟩)
    ∧ (∀ P : Platform,
        exp_solve P (plain_expression (ternary_rpn [tok 0 (.T_PARAMETER "true")] 5
            [tok 7 (.T_INTEGER 1)] [tok 11 (.T_INTEGER 2)]))
          = .ok (.EXP_INTEGER 1))
    ∧ (∀ P : Platform, exp_solve P (plain_expression [tok 7 (.T_INTEGER 1)])
          = .ok (.EXP_INTEGER 1))
    ∧ (∀ P : Platform,
        exp_solve P (plain_expression (ternary_rpn [tok 0 (.T_PARAMETER "true")] 5
            [tok 7 (.T_REAL (.fin 2 0))] [tok 13 (.T_INTEGER 1)]))
          = .ok (.EXP_INTEGER 2))
    ∧ (∀ P : Platform, exp_solve P (plain_expression [tok 7 (.T_REAL (.fin 2 0))])
          = .ok (.EXP_REAL (.fin 2 0))) :=
  ⟨rfl, fun _ => rfl, fun _ => rfl, fun _ => rfl, fun _ => rfl, fun _ => rfl⟩

/-! ## C18: `substr` -/

theorem take_drop_of_le (s : List Char) (b n : Nat) :
    (s.take (b + n)).drop b = (s.drop b).take n := by
  rw [List.drop_take]; simp

/-- C18: for every string `s`, integer `start` and optional integer `length`,
`substr` fails with `EXP_ER_INVALARGV` exactly when `start > len`,
`start < -len` or `length < 0`, and otherwise returns the bytes of `s` from
index `b` (`start`, or `len + start` for a negative `start`) up to
`b + min(length, len - b)`, or up to the end when the length is omitted; the
expressions `substr('abcdef', -2)` and `substr('abcdef', 2, 3)` evaluate to
`ef` and `cde`. -/
theorem C18_substr (P : Platform) (s : List Char) (start : Int) (length : Option Int) :
    call_substr P (substr_args s start length)
        = (if spec_substr_invalid s start length then .error EXP_ER_INVALARGV
           else .ok (.T_STRING (spec_substr s start length)))
      ∧ (call_substr P (substr_args s start length) = .error EXP_ER_INVALARGV
          ↔ (start > (s.length : Int) ∨ start < -(s.length : Int) ∨ ∃ l, length = some l ∧ l < 0))
      ∧ solve_text P "substr('abcdef', -2)".toList = .ok (.EXP_STRING (some "ef".toList))
      ∧ solve_text P "substr('abcdef', 2, 3)".toList = .ok (.EXP_STRING (some "cde".toList)) := by
  have main : call_substr P (substr_args s start length)
        = (if spec_substr_invalid s start length then .error EXP_ER_INVALARGV
           else .ok (.T_STRING (spec_substr s start length))) := by
    cases length with
    | none =>
      simp only [substr_args, call_substr, tok, token_t.param, exp_to_string, exp_to_integer,
        spec_substr_invalid, spec_substr, Bool.or_false, Bool.or_eq_true, decide_eq_true_eq]
      by_cases h1 : start > (s.length : Int)
      · simp [h1]
      · by_cases h2 : start ≥ 0
        · have h3 : ¬ start < -(s.length : Int) := by omega
          simp [h1, h2, h3]
        · by_cases h3 : start < -(s.length : Int)
          · simp [h1, h2, h3]
          · simp [h1, h2, h3]
    | some l =>
      simp only [substr_args, call_substr, tok, token_t.param, exp_to_string, exp_to_integer,
        spec_substr_invalid, spec_substr, Bool.or_eq_true, decide_eq_true_eq]
      by_cases h0 : l < 0
      · simp [h0]
      · by_cases h1 : start > (s.length : Int)
        · simp [h0, h1]
        · by_cases h2 : start ≥ 0
          · have h3 : ¬ start < -(s.length : Int) := by omega
            by_cases h4 : l > (s.length : Int) - start
            · have e : (start + min l ((s.length : Int) - start)).toNat = s.length := by omega
              simp only [h0, h1, h2, h3, h4, or_self, ↓reduceIte]
              rw [e]; simp [List.take_length]
            · have e : (start + min l ((s.length : Int) - start)).toNat
                  = start.toNat + l.toNat := by omega
              simp only [h0, h1, h2, h3, h4, or_self, ↓reduceIte]
              rw [e, take_drop_of_le]
          · by_cases h3 : start < -(s.length : Int)
            · simp [h0, h1, h2, h3]
            · by_cases h4 : l > -start
              · have e : ((s.length : Int) + start
                    + min l ((s.length : Int) - ((s.length : Int) + start))).toNat = s.length := by
                  omega
                simp only [h0, h1, h2, h3, h4, or_self, ↓reduceIte]
                rw [e]; simp [List.take_length]
              · have e : ((s.length : Int) + start
                    + min l ((s.length : Int) - ((s.length : Int) + start))).toNat
                    = ((s.length : Int) + start).toNat + l.toNat := by omega
                simp only [h0, h1, h2, h3, h4, or_self, ↓reduceIte]
                rw [e, take_drop_of_le]
  refine ⟨main, ?_, rfl, rfl⟩
  rw [main]
  cases length with
  | none => simp [spec_substr_invalid]; omega
  | some l => simp [spec_substr_invalid]; omega

/-! ## C19: `strcmp` and `strcasecmp` -/

theorem strcmp_self (s : List Char) : strcmp s s = 0 := (strcmp_zero_iff s s).2 rfl

/-- C19: `call_strcmp` and `call_strcasecmp` make both of their strings from the
first argument: whenever the first argument has a text, `strcmp(a, b)` is
Integer 0 and `strcasecmp(a, b)` is Boolean true whatever `b` is; so
`strcmp('a', 'b')` evaluates to 0 and `strcasecmp('a', 'b')` to true. -/
theorem C19_second_argument_unused (P : Platform) (a b : token_t) (s : List Char)
    (h : exp_to_string P a.param = .ok s) :
    call_strcmp P [a, b] = .ok (.T_INTEGER 0)
      ∧ call_strcasecmp P [a, b] = .ok (.T_BOOLEAN 1)
      ∧ solve_text P "strcmp('a', 'b')".toList = .ok (.EXP_INTEGER 0)
      ∧ solve_text P "strcasecmp('a', 'b')".toList = .ok (.EXP_BOOLEAN 1) := by
  refine ⟨?_, ?_, rfl, rfl⟩
  · simp only [call_strcmp, h, strcmp_self]
  · simp [call_strcasecmp, h, strcasecmp_eq]

/-- C19 at the arguments `'a'` and `'b'`: `strcmp` gives 0 and `strcasecmp` true. -/
theorem C19_second_argument_unused_witness :
    call_strcmp exact_platform [tok 7 (.T_STRING "a".toList), tok 12 (.T_STRING "b".toList)]
        = .ok (.T_INTEGER 0)
      ∧ call_strcasecmp exact_platform
          [tok 11 (.T_STRING "a".toList), tok 16 (.T_STRING "b".toList)] = .ok (.T_BOOLEAN 1) :=
  ⟨(C19_second_argument_unused exact_platform (tok 7 (.T_STRING "a".toList))
      (tok 12 (.T_STRING "b".toList)) "a".toList rfl).1,
   (C19_second_argument_unused exact_platform (tok 11 (.T_STRING "a".toList))
      (tok 16 (.T_STRING "b".toList)) "a".toList rfl).2.1⟩

/-! ## C20: the names of the function table -/

/-- C20: the function table has no entry `uppercase` (the alias is spelled
`upeercase`), so a call of `uppercase` goes to the host callback and, without
one, fails with `EXP_ER_INVALFUNC`; every other name of the list of built-ins
has an entry, and the aliases `strlwr`, `tolower`, `lowercase` of `strtolower`,
`strupr`, `toupper` of `strtoupper` and `substring` of `substr` select the same
function as the name they stand for. -/
theorem C20_uppercase_is_not_in_the_table (P : Platform) :
    function_lookup P "uppercase" = none
      ∧ (∀ tokens opqueue,
          call_status P (plain_expression tokens) "uppercase" opqueue = .error EXP_ER_INVALFUNC)
      ∧ solve_text P "uppercase('a')".toList = .error ⟨EXP_ER_INVALFUNC, "Unknown function", 0⟩
      ∧ solve_text P "upeercase('a')".toList = .ok (.EXP_STRING (some "A".toList))
      ∧ function_lookup P "upeercase" = some (call_strtoupper P)
      ∧ (spec_builtin_names.all
          (fun name => name == "uppercase" || (function_lookup P name).isSome)) = true
      ∧ function_lookup P "strtolower" = some (call_strtolower P)
      ∧ function_lookup P "strlwr" = some (call_strtolower P)
      ∧ function_lookup P "tolower" = some (call_strtolower P)
      ∧ function_lookup P "lowercase" = some (call_strtolower P)
      ∧ function_lookup P "strtoupper" = some (call_strtoupper P)
      ∧ function_lookup P "strupr" = some (call_strtoupper P)
      ∧ function_lookup P "toupper" = some (call_strtoupper P)
      ∧ function_lookup P "substr" = some (call_substr P)
      ∧ function_lookup P "substring" = some (call_substr P) :=
  ⟨rfl, fun _ _ => rfl, rfl, rfl, rfl, rfl, rfl, rfl, rfl, rfl, rfl, rfl, rfl, rfl, rfl⟩

/-! ## C16: strings read as booleans -/

theorem trim_right_len_le (s : List Char) : trim_right_len s ≤ s.length := by
  unfold trim_right_len
  have h := (List.dropWhile_sublist IS_BLANK (l := s.reverse)).length_le
  simpa using h

theorem strncasecmp_eq_begins (n : Nat) :
    ∀ a b : List Char, n ≤ a.length → strncasecmp_eq a b n = begins_word (a.take n) b := by
  induction n with
  | zero => intro a b _; simp [strncasecmp_eq, begins_word]
  | succ n ih =>
    intro a b h
    cases a with
    | nil => simp at h
    | cons x as =>
      cases b with
      | nil => simp [strncasecmp_eq, begins_word, List.isPrefixOf]
      | cons y bs =>
        have h1 : n ≤ as.length := by simpa using h
        simp only [strncasecmp_eq, ih as bs h1, begins_word, List.take_succ_cons, List.map_cons,
          List.isPrefixOf]

theorem is_true_word_eq (s : List Char) :
    is_true_word s (trim_right_len s)
      = spec_true_words.any (begins_word (s.take (trim_right_len s))) := by
  simp only [is_true_word, strncasecmp_eq_begins _ s _ (trim_right_len_le s), spec_true_words,
    List.any_cons, List.any_nil, Bool.or_false, Bool.or_assoc]

theorem is_false_word_eq (s : List Char) :
    is_false_word s (trim_right_len s)
      = spec_false_words.any (begins_word (s.take (trim_right_len s))) := by
  simp only [is_false_word, strncasecmp_eq_begins _ s _ (trim_right_len_le s), spec_false_words,
    List.any_cons, List.any_nil, Bool.or_false, Bool.or_assoc]

/-- C16: `exp_to_boolean` compares only as many bytes as the trimmed string
has, so a String is read as true when its trimmed text is a beginning, ignoring
case, of one of `true`, `yes`, `on`, `t`, `y`, as false when it is not and is a
beginning of one of `false`, `no`, `off`, `f`, `n`, and is rejected with
`EXP_ER_NONBOOLEAN` otherwise; the empty string, `tr` and `o` are read as
true, `fal` as false, and `bool('')` evaluates to true. -/
theorem C16_boolean_word_matched_by_its_beginning (P : Platform) (s : List Char) :
    exp_to_boolean P (.T_STRING s)
        = (if spec_true_words.any (begins_word (trimmed s)) then .ok 1
           else if spec_false_words.any (begins_word (trimmed s)) then .ok 0
           else .error EXP_ER_NONBOOLEAN)
      ∧ exp_to_boolean P (.T_STRING []) = .ok 1
      ∧ exp_to_boolean P (.T_STRING "tr".toList) = .ok 1
      ∧ exp_to_boolean P (.T_STRING "o".toList) = .ok 1
      ∧ exp_to_boolean P (.T_STRING "fal".toList) = .ok 0
      ∧ exp_to_boolean P (.T_STRING "\ntrue".toList) = .error EXP_ER_NONBOOLEAN
      ∧ solve_text P "bool('')".toList = .ok (.EXP_BOOLEAN 1)
      ∧ solve_text P "bool('tr')".toList = .ok (.EXP_BOOLEAN 1) := by
  refine ⟨?_, rfl, rfl, rfl, rfl, rfl, rfl, rfl⟩
  simp only [exp_to_boolean, is_true_word_eq, is_false_word_eq, trimmed]

/-! ## C13: escapes of string literals -/

theorem stripslashes_at_cons (c d : Char) (rest : List Char) :
    stripslashes_at c (d :: rest) =
      if c == '\\' then
        if d == 'n' then stripslashes_at '\n' rest
        else if d == 'r' then stripslashes_at '\r' rest
        else if d == 't' then stripslashes_at '\t' rest
        else if d == '\\' then stripslashes_at '\\' rest
        else if d == '\'' then stripslashes_at '\'' rest
        else if d == '"' then stripslashes_at '"' rest
        else c :: d :: stripslashes rest
      else c :: stripslashes (d :: rest) := by
  cases rest <;> simp [stripslashes_at, stripslashes]

theorem stripslashes_cons (c : Char) (rest : List Char) :
    stripslashes (c :: rest) = stripslashes_at c rest := rfl

theorem stripslashes_at_plain (c : Char) (rest : List Char) (h : (c == '\\') = false) :
    stripslashes_at c rest = c :: stripslashes rest := by
  cases rest with
  | nil => rfl
  | cons d r => rw [stripslashes_at_cons, h]; rfl

theorem stripslashes_unknown (d : Char) (rest : List Char)
    (hn : (d == 'n') = false) (hr : (d == 'r') = false) (ht : (d == 't') = false)
    (hb : (d == '\\') = false) (hq : (d == '\'') = false) (hd : (d == '"') = false) :
    stripslashes ('\\' :: d :: rest) = '\\' :: d :: stripslashes rest := by
  rw [stripslashes_cons, stripslashes_at_cons]
  simp [hn, hr, ht, hb, hq, hd]

theorem stripslashes_eq_spec (n : Nat) :
    ∀ s : List Char, s.length ≤ n → no_backslash_pair s = true →
      stripslashes s = spec_stripslashes s := by
  induction n with
  | zero =>
    intro s h _
    cases s with
    | nil => rfl
    | cons c r => simp at h
  | succ n ih =>
    intro s h hp
    match s, h, hp with
    | [], _, _ => rfl
    | [c], _, _ => rfl
    | c :: d :: rest, h, hp =>
      have hl : rest.length ≤ n := by simp at h; omega
      have hl1 : (d :: rest).length ≤ n := by simp at h ⊢; omega
      simp only [no_backslash_pair, Bool.and_eq_true, Bool.not_eq_true', Bool.and_eq_false_iff]
        at hp
      have hrest : no_backslash_pair rest = true := by
        cases rest with
        | nil => rfl
        | cons e r =>
          have := hp.2
          simp only [no_backslash_pair, Bool.and_eq_true] at this
          exact this.2
      by_cases hc : (c == '\\') = true
      · have hcd : (d == '\\') = false := by
          rcases hp.1 with h1 | h1
          · rw [h1] at hc; cases hc
          · exact h1
        have hce : c = '\\' := by simpa using hc
        subst hce
        have key : ∀ r : Char, (r == '\\') = false →
            stripslashes_at r rest = r :: spec_stripslashes rest := by
          intro r hr
          rw [stripslashes_at_plain r rest hr, ih rest hl hrest]
        by_cases hn : (d == 'n') = true
        · have : d = 'n' := by simpa using hn
          subst this
          rw [stripslashes_cons, stripslashes_at_cons]
          simp [spec_stripslashes, key]
        by_cases hr : (d == 'r') = true
        · have : d = 'r' := by simpa using hr
          subst this
          rw [stripslashes_cons, stripslashes_at_cons]
          simp [spec_stripslashes, key]
        by_cases ht : (d == 't') = true
        · have : d = 't' := by simpa using ht
          subst this
          rw [stripslashes_cons, stripslashes_at_cons]
          simp [spec_stripslashes, key]
        by_cases hq : (d == '\'') = true
        · have : d = '\'' := by simpa using hq
          subst this
          rw [stripslashes_cons, stripslashes_at_cons]
          simp [spec_stripslashes, key]
        by_cases hd : (d == '"') = true
        · have : d = '"' := by simpa using hd
          subst this
          rw [stripslashes_cons, stripslashes_at_cons]
          simp [spec_stripslashes, key]
        simp only [Bool.not_eq_true] at hn hr ht hq hd
        rw [stripslashes_unknown d rest hn hr ht hcd hq hd, ih rest hl hrest]
        simp [spec_stripslashes, hn, hr, ht, hcd, hq, hd]
      · simp only [Bool.not_eq_true] at hc
        have e1 : stripslashes (c :: d :: rest) = c :: stripslashes (d :: rest) :=
          stripslashes_at_plain c (d :: rest) hc
        rw [e1, ih (d :: rest) hl1 hp.2]
        simp [spec_stripslashes, hc]

/-- C13: `stripslashes` does not step over the byte it has just decoded, so the
backslash made from a backslash pair is read again as the start of an escape:
the content backslash, backslash, `n` decodes to the single newline character
where decoding one escape at a time gives backslash and `n`, the literal
`'\\n'` is lexed as the string of one newline, and backslash, backslash,
backslash, quote decodes to the quote alone.  On a content in which no
backslash follows a backslash the function decodes one escape at a time. -/
theorem C13_decoded_backslash_is_read_again (s : List Char)
    (h : no_backslash_pair s = true) :
    stripslashes s = spec_stripslashes s
      ∧ (∀ rest, stripslashes ('\\' :: '\\' :: rest) = stripslashes ('\\' :: rest))
      ∧ stripslashes ['\\', '\\', 'n'] = ['\n']
      ∧ spec_stripslashes ['\\', '\\', 'n'] = ['\\', 'n']
      ∧ is_string ['\'', '\\', '\\', 'n', '\''] = some (.T_STRING ['\n'], 5)
      ∧ stripslashes ['\\', '\\', '\\', '\''] = ['\'']
      ∧ spec_stripslashes ['\\', '\\', '\\', '\''] = ['\\', '\''] :=
  ⟨stripslashes_eq_spec s.length s (Nat.le_refl _) h,
   fun rest => by rw [stripslashes_cons, stripslashes_at_cons]; rfl, rfl, rfl, rfl, rfl, rfl⟩

/-- C13 at a content without two adjacent backslashes, where the function agrees
with the decoding one escape at a time, and at backslash, backslash, `n`. -/
theorem C13_decoded_backslash_is_read_again_witness :
    stripslashes ['a', '\\', 'n', '\\', 'x', '\\', '"', 'b']
        = spec_stripslashes ['a', '\\', 'n', '\\', 'x', '\\', '"', 'b']
      ∧ stripslashes ['\\', '\\', 'n'] = ['\n'] :=
  ⟨(C13_decoded_backslash_is_read_again ['a', '\\', 'n', '\\', 'x', '\\', '"', 'b'] rfl).1,
   (C13_decoded_backslash_is_read_again ['a', '\\', 'n', '\\', 'x', '\\', '"', 'b'] rfl).2.2.1⟩

/-! ## C12: literals with a base prefix -/

theorem shift_or_eq (shift a d : Nat) (hs : shift = 4 ∨ shift = 3 ∨ shift = 1)
    (h : d < 2 ^ shift) :
    ((a <<< shift) % 18446744073709551616) ||| d
      = (a * 2 ^ shift + d) % 18446744073709551616 := by
  rw [Nat.shiftLeft_eq]
  rcases hs with rfl | rfl | rfl
  · have e : (a * 2 ^ 4) % 18446744073709551616 = 2 ^ 4 * (a % 1152921504606846976) := by omega
    rw [e, ← Nat.mul_add_lt_is_or h]
    omega
  · have e : (a * 2 ^ 3) % 18446744073709551616 = 2 ^ 3 * (a % 2305843009213693952) := by omega
    rw [e, ← Nat.mul_add_lt_is_or h]
    omega
  · have e : (a * 2 ^ 1) % 18446744073709551616 = 2 ^ 1 * (a % 9223372036854775808) := by omega
    rw [e, ← Nat.mul_add_lt_is_or h]
    omega

theorem digits_value_mod (base : Nat) (cs : List Char) :
    ∀ x y : Nat, x % 18446744073709551616 = y % 18446744073709551616 →
      digits_value base cs x % 18446744073709551616
        = digits_value base cs y % 18446744073709551616 := by
  induction cs with
  | nil => intro x y h; exact h
  | cons c cs ih =>
    intro x y h
    simp only [digits_value]
    apply ih
    have h1 : x ≡ y [MOD 18446744073709551616] := h
    exact (h1.mul_right _).add_right _

theorem is_number_digits_eq (base shift : Nat) (digit : Char → Option Nat)
    (hbase : base = 2 ^ shift) (hs : shift = 4 ∨ shift = 3 ∨ shift = 1)
    (hdigit : ∀ c, digit c = base_digit base c)
    (hlt : ∀ c v, digit c = some v → v < 2 ^ shift) (rest : List Char)
    (hrest : ∀ c, rest.head? = some c → digit c = none) (d : List Char) :
    ∀ num rlen : Nat, (∀ c ∈ d, (digit c).isSome = true) →
      tokenizer.is_number_digits digit shift (d ++ rest) num rlen
        = (if d.isEmpty then num else digits_value base d num % 18446744073709551616,
            rlen + d.length) := by
  induction d with
  | nil =>
    intro num rlen _
    cases rest with
    | nil => rfl
    | cons c r =>
      have := hrest c rfl
      simp [tokenizer.is_number_digits, this]
  | cons c cs ih =>
    intro num rlen hd
    have hc : (digit c).isSome = true := hd c (List.mem_cons_self _ _)
    obtain ⟨v, hv⟩ := Option.isSome_iff_exists.1 hc
    have hcs : ∀ x ∈ cs, (digit x).isSome = true := fun x hx => hd x (List.mem_cons_of_mem _ hx)
    have hb : base_digit base c = some v := by rw [← hdigit, hv]
    have step : tokenizer.is_number_digits digit shift ((c :: cs) ++ rest) num rlen
        = tokenizer.is_number_digits digit shift (cs ++ rest)
            (((num <<< shift) % 18446744073709551616) ||| v) (rlen + 1) := by
      simp only [List.cons_append, tokenizer.is_number_digits, hv]
      rfl
    rw [step, ih _ _ hcs, shift_or_eq shift num v hs (hlt c v hv), ← hbase]
    have hlen : rlen + 1 + cs.length = rlen + (c :: cs).length := by
      simp only [List.length_cons]; omega
    rw [hlen]
    congr 1
    simp only [List.isEmpty_cons, Bool.false_eq_true, if_false, digits_value, hb,
      Option.getD_some]
    cases cs with
    | nil => simp [digits_value]
    | cons c1 cs1 =>
      simp only [List.isEmpty_cons, Bool.false_eq_true, if_false]
      exact digits_value_mod base _ _ _ (Nat.mod_mod _ _)

theorem wrap64_as_signed64 (u : Nat) :
    wrap64 ((u % 18446744073709551616 : Nat) : Int) = as_signed64 u := by
  unfold wrap64 as_signed64
  split <;> omega

theorem IS_HEXADEMICAL_lt (c : Char) (v : Nat) (h : IS_HEXADEMICAL c = some v) : v < 2 ^ 4 := by
  unfold IS_HEXADEMICAL at h
  split at h
  · rename_i hn
    simp only [IS_NUMERIC, Bool.and_eq_true, decide_eq_true_eq] at hn
    have h1 : c.toNat ≤ '9'.toNat := hn.2
    have h0 : '0'.toNat ≤ c.toNat := hn.1
    have h2 : ('9' : Char).toNat = 57 := rfl
    have h3 : ('0' : Char).toNat = 48 := rfl
    injection h with h; omega
  · repeat' split at h
    all_goals first
      | (injection h with h; omega)
      | cases h

theorem IS_OCTAL_lt (c : Char) (v : Nat) (h : IS_OCTAL c = some v) : v < 2 ^ 3 := by
  unfold IS_OCTAL at h
  split at h
  · rename_i hn
    simp only [Bool.and_eq_true, decide_eq_true_eq] at hn
    have h1 : c.toNat ≤ '7'.toNat := hn.2
    have h0 : '0'.toNat ≤ c.toNat := hn.1
    have h2 : ('7' : Char).toNat = 55 := rfl
    have h3 : ('0' : Char).toNat = 48 := rfl
    injection h with h; omega
  · cases h

theorem IS_BINARY_lt (c : Char) (v : Nat) (h : IS_BINARY c = some v) : v < 2 ^ 1 := by
  unfold IS_BINARY at h
  repeat' split at h
  all_goals first
    | (injection h with h; omega)
    | cases h

theorem is_number_based_eq (base shift : Nat) (digit : Char → Option Nat)
    (hbase : base = 2 ^ shift) (hs : shift = 4 ∨ shift = 3 ∨ shift = 1)
    (hdigit : ∀ c, digit c = base_digit base c)
    (hlt : ∀ c v, digit c = some v → v < 2 ^ shift) (rest : List Char)
    (hrest : ∀ c, rest.head? = some c → digit c = none) (h : Char) (d : List Char) (c : Nat)
    (hh : digit h = some c) (hd : ∀ x ∈ d, (digit x).isSome = true) :
    tokenizer.is_number_based digit shift (d ++ rest) c
      = some (.T_INTEGER (as_signed64 (digits_value base (h :: d) 0)), 2 + (h :: d).length) := by
  have hb : base_digit base h = some c := by rw [← hdigit, hh]
  have hc : c < 18446744073709551616 := by
    have := hlt h c hh
    rcases hs with rfl | rfl | rfl <;> omega
  rw [tokenizer.is_number_based,
    is_number_digits_eq base shift digit hbase hs hdigit hlt rest hrest d c 3 hd]
  simp only [digits_value, hb, Option.getD_some, Nat.zero_mul, Nat.zero_add, List.length_cons]
  rw [← wrap64_as_signed64]
  have hlen : 3 + d.length = 2 + (d.length + 1) := by omega
  rw [hlen]
  cases d with
  | nil => simp [digits_value, Nat.mod_eq_of_lt hc]
  | cons x xs => simp

theorem exp_parse_token_digit (P : Platform) (s : List Char) :
    exp_parse_token P ('0' :: s) = tokenizer.is_number P ('0' :: s) := by
  have h1 : is_parenthesis ('0' :: s) = none := rfl
  have h2 : is_comma ('0' :: s) = none := rfl
  have h3 : is_operator ('0' :: s) = none := rfl
  have hneg : tokenizer.is_number P ('0' :: s) = none → is_parameter ('0' :: s) = none
      ∧ is_string ('0' :: s) = none := fun _ => ⟨rfl, rfl⟩
  unfold exp_parse_token
  rw [h1, h2, h3]
  simp only
  cases h : tokenizer.is_number P ('0' :: s) with
  | some r => rfl
  | none => simp only [(hneg h).1, (hneg h).2]

theorem is_number_based_literal (P : Platform) (base : Nat)
    (hb : base = 16 ∨ base = 8 ∨ base = 2) (h : Char) (d rest : List Char)
    (hd : ∀ c ∈ h :: d, (base_digit base c).isSome = true)
    (hrest : ∀ c, rest.head? = some c → base_digit base c = none) :
    tokenizer.is_number P ('0' :: base_letter base :: ((h :: d) ++ rest))
      = some (.T_INTEGER (as_signed64 (digits_value base (h :: d) 0)), 2 + (h :: d).length) := by
  have hh : (base_digit base h).isSome = true := hd h (List.mem_cons_self _ _)
  obtain ⟨c, hc⟩ := Option.isSome_iff_exists.1 hh
  have hd1 : ∀ x ∈ d, (base_digit base x).isSome = true :=
    fun x hx => hd x (List.mem_cons_of_mem _ hx)
  rcases hb with rfl | rfl | rfl
  · have e : ∀ x, IS_HEXADEMICAL x = base_digit 16 x := fun _ => rfl
    have hc1 : IS_HEXADEMICAL h = some c := hc
    have := is_number_based_eq 16 4 IS_HEXADEMICAL rfl (Or.inl rfl) e IS_HEXADEMICAL_lt rest
      hrest h d c hc1 hd1
    simp only [List.cons_append, tokenizer.is_number, base_letter, hc1]
    simpa using this
  · have e : ∀ x, IS_OCTAL x = base_digit 8 x := fun _ => rfl
    have hc1 : IS_OCTAL h = some c := hc
    have := is_number_based_eq 8 3 IS_OCTAL rfl (Or.inr (Or.inl rfl)) e IS_OCTAL_lt rest
      hrest h d c hc1 hd1
    simp only [List.cons_append, tokenizer.is_number, base_letter, hc1]
    simpa using this
  · have e : ∀ x, IS_BINARY x = base_digit 2 x := fun _ => rfl
    have hc1 : IS_BINARY h = some c := hc
    have := is_number_based_eq 2 1 IS_BINARY rfl (Or.inr (Or.inr rfl)) e IS_BINARY_lt rest
      hrest h d c hc1 hd1
    simp only [List.cons_append, tokenizer.is_number, base_letter, hc1]
    simpa using this

/-- C12: for every non-empty string `d` of digits of base 16, 8 or 2, the text
`0x`, `0o` or `0b` followed by `d` and then by the end of the text or by a byte
that is not a digit of that base starts one Integer token of length `2 + |d|`
whose value is the value of `d` in that base reduced modulo `2 ^ 64` and read
as a signed 64-bit integer; the text without anything behind it is lexed as
that single token, and `0b101 | 0o7` evaluates to Integer 7. -/
theorem C12_based_literal (P : Platform) (base : Nat) (hb : base = 16 ∨ base = 8 ∨ base = 2)
    (d rest : List Char) (hne : d ≠ [])
    (hd : ∀ c ∈ d, (base_digit base c).isSome = true)
    (hrest : ∀ c, rest.head? = some c → base_digit base c = none) :
    exp_parse_token P ('0' :: base_letter base :: (d ++ rest))
        = some (.T_INTEGER (as_signed64 (digits_value base d 0)), 2 + d.length)
      ∧ exp_parse P ('0' :: base_letter base :: d)
          = .ok [tok 0 (.T_INTEGER (as_signed64 (digits_value base d 0)))]
      ∧ solve_text P "0b101 | 0o7".toList = .ok (.EXP_INTEGER 7) := by
  obtain ⟨h, d1, rfl⟩ := List.exists_cons_of_ne_nil hne
  refine ⟨?_, ?_, rfl⟩
  · rw [exp_parse_token_digit]
    exact is_number_based_literal P base hb h d1 rest hd hrest
  · have key := is_number_based_literal P base hb h d1 [] hd (fun c hc => by cases hc)
    rw [List.append_nil] at key
    have hfuel : ('0' :: base_letter base :: h :: d1).length = (d1.length + 2) + 1 := by
      simp only [List.length_cons]
    have hdrop : ('0' :: base_letter base :: h :: d1).drop (2 + (h :: d1).length) = [] := by
      apply List.drop_eq_nil_of_le
      simp only [List.length_cons]; omega
    have hblank : IS_BLANK '0' = false := rfl
    simp only [exp_parse, List.dropWhile_cons, hblank, List.takeWhile_cons, List.isEmpty_cons,
      Bool.false_eq_true, if_false, hfuel, exp_parse_loop, exp_parse_token_digit, key, hdrop,
      List.dropWhile_nil, List.takeWhile_nil, exp_parse_sign, List.length_nil]

/-- C12 at `0xff`, alone and in front of `+5`: one Integer token 255 of length
4. -/
theorem C12_based_literal_witness :
    exp_parse_token exact_platform "0xff+5".toList = some (.T_INTEGER 255, 4)
      ∧ exp_parse exact_platform "0xff".toList = .ok [tok 0 (.T_INTEGER 255)]
      ∧ solve_text exact_platform "0b101 | 0o7".toList = .ok (.EXP_INTEGER 7) :=
  C12_based_literal exact_platform 16 (Or.inl rfl) "ff".toList "+5".toList (by decide)
    (by decide) (by decide)

/-! ## The loop of `exp_parse` -/

theorem exp_parse_token_cases (P : Platform) (s : List Char) (r : value_t × Nat)
    (h : exp_parse_token P s = some r) :
    is_parenthesis s = some r ∨ is_comma s = some r ∨ is_operator s = some r
      ∨ tokenizer.is_number P s = some r ∨ is_parameter s = some r ∨ is_string s = some r := by
  unfold exp_parse_token at h
  cases h1 : is_parenthesis s with
  | some r1 => rw [h1] at h; exact Or.inl h
  | none =>
    cases h2 : is_comma s with
    | some r2 => rw [h1, h2] at h; exact Or.inr (Or.inl h)
    | none =>
      cases h3 : is_operator s with
      | some r3 => rw [h1, h2, h3] at h; exact Or.inr (Or.inr (Or.inl h))
      | none =>
        cases h4 : tokenizer.is_number P s with
        | some r4 => rw [h1, h2, h3, h4] at h; exact Or.inr (Or.inr (Or.inr (Or.inl h)))
        | none =>
          cases h5 : is_parameter s with
          | some r5 =>
            rw [h1, h2, h3, h4, h5] at h; exact Or.inr (Or.inr (Or.inr (Or.inr (Or.inl h))))
          | none =>
            rw [h1, h2, h3, h4, h5] at h; exact Or.inr (Or.inr (Or.inr (Or.inr (Or.inr h))))

theorem is_parenthesis_some (s : List Char) (v : value_t) (l : Nat)
    (h : is_parenthesis s = some (v, l)) : l = 1 ∧ (v = .T_LPAREN ∨ v = .T_RPAREN) := by
  cases s with
  | nil => cases h
  | cons c cs =>
    rw [is_parenthesis] at h
    split_ifs at h <;> simp_all

theorem is_comma_some (s : List Char) (v : value_t) (l : Nat)
    (h : is_comma s = some (v, l)) : l = 1 ∧ v = .T_COMMA := by
  cases s with
  | nil => cases h
  | cons c cs =>
    rw [is_comma] at h
    split_ifs at h
    simp_all

theorem is_operator_some (s : List Char) (v : value_t) (l : Nat)
    (h : is_operator s = some (v, l)) :
    1 ≤ l ∧ ∃ op, v = .T_OPERATOR op ∧ op ≠ O_UPLUS ∧ op ≠ O_UMINUS
      ∧ (s.head? = some '+' → op = O_PLUS ∧ l = 1) ∧ (s.head? = some '-' → op = O_MINUS ∧ l = 1)
      ∧ (op = O_PLUS → s.head? = some '+') ∧ (op = O_MINUS → s.head? = some '-') := by
  cases s with
  | nil => cases h
  | cons c cs =>
    rw [is_operator] at h
    simp only [List.head?_cons]
    by_cases h0 : (c == '+') = true
    · rw [if_pos h0] at h
      have hc : c = '+' := by simpa using h0
      subst hc
      simp only [Option.some.injEq, Prod.mk.injEq] at h
      obtain ⟨rfl, rfl⟩ := h
      exact ⟨by decide, _, rfl, by decide⟩
    rw [if_neg h0] at h
    by_cases h1 : (c == '-') = true
    · rw [if_pos h1] at h
      have hc : c = '-' := by simpa using h1
      subst hc
      simp only [Option.some.injEq, Prod.mk.injEq] at h
      obtain ⟨rfl, rfl⟩ := h
      exact ⟨by decide, _, rfl, by decide⟩
    rw [if_neg h1] at h
    by_cases h2 : (c == '/') = true
    · rw [if_pos h2] at h
      have hc : c = '/' := by simpa using h2
      subst hc
      simp only [Option.some.injEq, Prod.mk.injEq] at h
      obtain ⟨rfl, rfl⟩ := h
      exact ⟨by decide, _, rfl, by decide⟩
    rw [if_neg h2] at h
    by_cases h3 : (c == '%') = true
    · rw [if_pos h3] at h
      have hc : c = '%' := by simpa using h3
      subst hc
      simp only [Option.some.injEq, Prod.mk.injEq] at h
      obtain ⟨rfl, rfl⟩ := h
      exact ⟨by decide, _, rfl, by decide⟩
    rw [if_neg h3] at h
    by_cases h4 : (c == '*') = true
    · rw [if_pos h4] at h
      have hc : c = '*' := by simpa using h4
      subst hc
      simp only [Option.some.injEq, Prod.mk.injEq] at h
      obtain ⟨rfl, rfl⟩ := h
      exact ⟨by decide, _, rfl, by decide⟩
    rw [if_neg h4] at h
    by_cases h5 : (c == '^') = true
    · rw [if_pos h5] at h
      have hc : c = '^' := by simpa using h5
      subst hc
      simp only [Option.some.injEq, Prod.mk.injEq] at h
      obtain ⟨rfl, rfl⟩ := h
      exact ⟨by decide, _, rfl, by decide⟩
    rw [if_neg h5] at h
    by_cases h6 : (c == '~') = true
    · rw [if_pos h6] at h
      have hc : c = '~' := by simpa using h6
      subst hc
      simp only [Option.some.injEq, Prod.mk.injEq] at h
      obtain ⟨rfl, rfl⟩ := h
      exact ⟨by decide, _, rfl, by decide⟩
    rw [if_neg h6] at h
    by_cases h7 : (c == '?') = true
    · rw [if_pos h7] at h
      have hc : c = '?' := by simpa using h7
      subst hc
      simp only [Option.some.injEq, Prod.mk.injEq] at h
      obtain ⟨rfl, rfl⟩ := h
      exact ⟨by decide, _, rfl, by decide⟩
    rw [if_neg h7] at h
    by_cases h8 : (c == ':') = true
    · rw [if_pos h8] at h
      have hc : c = ':' := by simpa using h8
      subst hc
      simp only [Option.some.injEq, Prod.mk.injEq] at h
      obtain ⟨rfl, rfl⟩ := h
      exact ⟨by decide, _, rfl, by decide⟩
    rw [if_neg h8] at h
    by_cases h9 : (c == '>') = true
    · rw [if_pos h9] at h
      have hc : c = '>' := by simpa using h9
      subst hc
      split_ifs at h <;>
        (simp only [Option.some.injEq, Prod.mk.injEq] at h
         obtain ⟨rfl, rfl⟩ := h
         exact ⟨by decide, _, rfl, by decide⟩)
    rw [if_neg h9] at h
    by_cases h10 : (c == '<') = true
    · rw [if_pos h10] at h
      have hc : c = '<' := by simpa using h10
      subst hc
      split_ifs at h <;>
        (simp only [Option.some.injEq, Prod.mk.injEq] at h
         obtain ⟨rfl, rfl⟩ := h
         exact ⟨by decide, _, rfl, by decide⟩)
    rw [if_neg h10] at h
    by_cases h11 : (c == '=') = true
    · rw [if_pos h11] at h
      have hc : c = '=' := by simpa using h11
      subst hc
      split_ifs at h <;>
        (simp only [Option.some.injEq, Prod.mk.injEq] at h
         obtain ⟨rfl, rfl⟩ := h
         exact ⟨by decide, _, rfl, by decide⟩)
    rw [if_neg h11] at h
    by_cases h12 : (c == '!') = true
    · rw [if_pos h12] at h
      have hc : c = '!' := by simpa using h12
      subst hc
      split_ifs at h <;>
        (simp only [Option.some.injEq, Prod.mk.injEq] at h
         obtain ⟨rfl, rfl⟩ := h
         exact ⟨by decide, _, rfl, by decide⟩)
    rw [if_neg h12] at h
    by_cases h13 : (c == '&') = true
    · rw [if_pos h13] at h
      have hc : c = '&' := by simpa using h13
      subst hc
      split_ifs at h <;>
        (simp only [Option.some.injEq, Prod.mk.injEq] at h
         obtain ⟨rfl, rfl⟩ := h
         exact ⟨by decide, _, rfl, by decide⟩)
    rw [if_neg h13] at h
    by_cases h14 : (c == '|') = true
    · rw [if_pos h14] at h
      have hc : c = '|' := by simpa using h14
      subst hc
      split_ifs at h <;>
        (simp only [Option.some.injEq, Prod.mk.injEq] at h
         obtain ⟨rfl, rfl⟩ := h
         exact ⟨by decide, _, rfl, by decide⟩)
    rw [if_neg h14] at h
    cases h

theorem is_number_digits_rlen (digit : Char → Option Nat) (shift : Nat) (s : List Char) :
    ∀ num rlen : Nat, rlen ≤ (tokenizer.is_number_digits digit shift s num rlen).2 := by
  induction s with
  | nil => intro num rlen; exact Nat.le_refl _
  | cons c cs ih =>
    intro num rlen
    simp only [tokenizer.is_number_digits]
    cases digit c with
    | none => exact Nat.le_refl _
    | some d => exact Nat.le_trans (Nat.le_succ _) (ih _ _)

theorem is_number_based_some (digit : Char → Option Nat) (shift : Nat) (tl : List Char) (c : Nat)
    (v : value_t) (l : Nat) (h : tokenizer.is_number_based digit shift tl c = some (v, l)) :
    1 ≤ l ∧ ∃ i, v = .T_INTEGER i := by
  unfold tokenizer.is_number_based at h
  simp only [Option.some.injEq, Prod.mk.injEq] at h
  obtain ⟨rfl, rfl⟩ := h
  have := is_number_digits_rlen digit shift tl c 3
  exact ⟨by omega, _, rfl⟩

theorem is_number_decimal_some (P : Platform) (s : List Char) (v : value_t) (l : Nat)
    (h : tokenizer.is_number_decimal P s = some (v, l)) :
    1 ≤ l ∧ ((∃ i, v = .T_INTEGER i) ∨ ∃ r, v = .T_REAL r) := by
  unfold tokenizer.is_number_decimal at h
  simp only at h
  split_ifs at h with hz hr
  · simp only [Bool.or_eq_true, decide_eq_true_eq, not_or] at hz
    simp only [Option.some.injEq, Prod.mk.injEq] at h
    obtain ⟨rfl, rfl⟩ := h
    exact ⟨by omega, Or.inr ⟨_, rfl⟩⟩
  · simp only [Bool.or_eq_true, decide_eq_true_eq, not_or] at hz
    simp only [Option.some.injEq, Prod.mk.injEq] at h
    obtain ⟨rfl, rfl⟩ := h
    exact ⟨by omega, Or.inl ⟨_, rfl⟩⟩

theorem is_number_some (P : Platform) (s : List Char) (v : value_t) (l : Nat)
    (h : tokenizer.is_number P s = some (v, l)) :
    1 ≤ l ∧ ((∃ i, v = .T_INTEGER i) ∨ ∃ r, v = .T_REAL r) := by
  unfold tokenizer.is_number at h
  split at h
  · split_ifs at h
    · split at h
      · have := is_number_based_some _ _ _ _ _ _ h
        exact ⟨this.1, Or.inl this.2⟩
      · cases h
    · split at h
      · have := is_number_based_some _ _ _ _ _ _ h
        exact ⟨this.1, Or.inl this.2⟩
      · cases h
    · split at h
      · have := is_number_based_some _ _ _ _ _ _ h
        exact ⟨this.1, Or.inl this.2⟩
      · cases h
    · exact is_number_decimal_some P _ v l h
  · exact is_number_decimal_some P _ v l h

theorem is_parameter_some (s : List Char) (v : value_t) (l : Nat)
    (h : is_parameter s = some (v, l)) :
    1 ≤ l ∧ ∃ name : List Char, v = .T_PARAMETER (String.mk (strtolower name)) := by
  cases s with
  | nil => cases h
  | cons c cs =>
    simp only [is_parameter] at h
    split_ifs at h
    simp only [Option.some.injEq, Prod.mk.injEq] at h
    obtain ⟨rfl, rfl⟩ := h
    exact ⟨by simp, _, rfl⟩

theorem is_string_some (s : List Char) (v : value_t) (l : Nat)
    (h : is_string s = some (v, l)) : 1 ≤ l ∧ ∃ str, v = .T_STRING str := by
  cases s with
  | nil => cases h
  | cons c cs =>
    simp only [is_string] at h
    split_ifs at h
    split at h
    · simp only [Option.some.injEq, Prod.mk.injEq] at h
      obtain ⟨rfl, rfl⟩ := h
      exact ⟨by omega, _, rfl⟩
    · cases h

theorem exp_parse_token_pos (P : Platform) (s : List Char) (v : value_t) (l : Nat)
    (h : exp_parse_token P s = some (v, l)) : 1 ≤ l := by
  rcases exp_parse_token_cases P s _ h with h | h | h | h | h | h
  · rw [(is_parenthesis_some s v l h).1]
  · rw [(is_comma_some s v l h).1]
  · exact (is_operator_some s v l h).1
  · exact (is_number_some P s v l h).1
  · exact (is_parameter_some s v l h).1
  · exact (is_string_some s v l h).1

theorem exp_parse_loop_fuel (P : Platform) (fuel : Nat) :
    ∀ (fuel2 : Nat) (exp : List Char) (pos : Nat) (tail : Option token_t),
      exp.length ≤ fuel → exp.length ≤ fuel2 →
      exp_parse_loop P fuel pos exp tail = exp_parse_loop P fuel2 pos exp tail := by
  induction fuel with
  | zero =>
    intro fuel2 exp pos tail h1 _
    cases exp with
    | nil => cases fuel2 <;> rfl
    | cons c cs => simp at h1
  | succ fuel ih =>
    intro fuel2 exp pos tail h1 h2
    cases exp with
    | nil => cases fuel2 <;> rfl
    | cons c cs =>
      cases fuel2 with
      | zero => simp at h2
      | succ fuel2 =>
        simp only [exp_parse_loop]
        cases ht : exp_parse_token P (c :: cs) with
        | none => rfl
        | some r =>
          obtain ⟨v, l⟩ := r
          have hl := exp_parse_token_pos P _ v l ht
          have hlen : (((c :: cs).drop l).dropWhile IS_BLANK).length ≤ cs.length := by
            have h3 := (List.dropWhile_sublist IS_BLANK (l := (c :: cs).drop l)).length_le
            have h4 : ((c :: cs).drop l).length = (c :: cs).length - l := List.length_drop _ _
            simp only [List.length_cons] at h4
            omega
          simp only [List.length_cons] at h1 h2
          simp only
          rw [ih fuel2 _ _ _ (by omega) (by omega)]

theorem drop_takeWhile_length (p : Char → Bool) (s : List Char) :
    s.drop (s.takeWhile p).length = s.dropWhile p := by
  induction s with
  | nil => rfl
  | cons c cs ih =>
    by_cases h : p c = true
    · simp [List.takeWhile_cons, List.dropWhile_cons, h, ih]
    · simp [List.takeWhile_cons, List.dropWhile_cons, h]

theorem drop_blanks_at (input : List Char) (p : Nat) :
    input.drop (p + blanks_at input p) = (input.drop p).dropWhile IS_BLANK := by
  rw [← List.drop_drop, blanks_at, drop_takeWhile_length]

theorem prepend_tokens_nil (r : Except exp_failure (List token_t)) : prepend_tokens [] r = r := by
  cases r <;> rfl

theorem prepend_tokens_append (a b : List token_t) (r : Except exp_failure (List token_t)) :
    prepend_tokens a (prepend_tokens b r) = prepend_tokens (a ++ b) r := by
  cases r <;> simp [prepend_tokens]

theorem exp_parse_token_nil (P : Platform) : exp_parse_token P [] = none := rfl

/-- One turn of the loop of `exp_parse` at offset `p` of `input`, with the
fuel that `exp_parse` supplies. -/
theorem exp_parse_loop_step (P : Platform) (input : List Char) (p : Nat) (c : Char)
    (cs : List Char) (tail : Option token_t) (h : input.drop p = c :: cs) :
    exp_parse_loop P (input.drop p).length p (input.drop p) tail =
      match exp_parse_token P (input.drop p) with
      | none => .error ⟨EXP_ER_INVALEXPR, exp_parse_message c, p⟩
      | some (v, l) =>
        prepend_tokens [tok p (exp_parse_sign tail v)]
          (exp_parse_loop P (input.drop (p + l + blanks_at input (p + l))).length
            (p + l + blanks_at input (p + l)) (input.drop (p + l + blanks_at input (p + l)))
            (some (tok p (exp_parse_sign tail v)))) := by
  rw [h]
  simp only [List.length_cons, exp_parse_loop]
  cases ht : exp_parse_token P (c :: cs) with
  | none => rfl
  | some r =>
    obtain ⟨v, l⟩ := r
    have hl := exp_parse_token_pos P _ v l ht
    have e1 : input.drop (p + l + blanks_at input (p + l))
        = ((c :: cs).drop l).dropWhile IS_BLANK := by
      rw [drop_blanks_at, ← List.drop_drop, h]
    have e2 : blanks_at input (p + l) = (((c :: cs).drop l).takeWhile IS_BLANK).length := by
      rw [blanks_at, ← List.drop_drop, h]
    have hlen : (((c :: cs).drop l).dropWhile IS_BLANK).length ≤ cs.length := by
      have h3 := (List.dropWhile_sublist IS_BLANK (l := (c :: cs).drop l)).length_le
      have h4 : ((c :: cs).drop l).length = (c :: cs).length - l := List.length_drop _ _
      simp only [List.length_cons] at h4
      omega
    simp only
    rw [e1, e2, exp_parse_loop_fuel P cs.length _ _ _ _ hlen (Nat.le_refl _)]
    cases exp_parse_loop P (((c :: cs).drop l).dropWhile IS_BLANK).length
      (p + l + (((c :: cs).drop l).takeWhile IS_BLANK).length)
      (((c :: cs).drop l).dropWhile IS_BLANK) (some (tok p (exp_parse_sign tail v))) <;> rfl

theorem exp_parse_start (P : Platform) (input : List Char)
    (h : input.dropWhile IS_BLANK ≠ []) :
    exp_parse P input
      = exp_parse_loop P (input.drop (blanks_at input 0)).length (blanks_at input 0)
          (input.drop (blanks_at input 0)) none := by
  have e : input.drop (blanks_at input 0) = input.dropWhile IS_BLANK := by
    have := drop_blanks_at input 0
    simpa using this
  have hb : blanks_at input 0 = (input.takeWhile IS_BLANK).length := by simp [blanks_at]
  have hne : (input.dropWhile IS_BLANK).isEmpty = false := by
    cases hd : input.dropWhile IS_BLANK with
    | nil => exact absurd hd h
    | cons a b => rfl
  rw [e, hb]
  simp only [exp_parse, hne, Bool.false_eq_true, if_false]

theorem scan_reaches_ge (P : Platform) (input : List Char) (p : Nat)
    (h : scan_reaches P input p) : blanks_at input 0 ≤ p := by
  induction h with
  | start => exact Nat.le_refl _
  | next p v l _ _ ih => omega

theorem blanks_at_zero_lt (input : List Char) (p : Nat) (h1 : blanks_at input 0 ≤ p)
    (h2 : p < input.length) : input.dropWhile IS_BLANK ≠ [] := by
  intro h
  have e := List.takeWhile_append_dropWhile IS_BLANK input
  rw [h, List.append_nil] at e
  have : blanks_at input 0 = input.length := by simp [blanks_at, e]
  omega

theorem drop_eq_cons_of_getElem (input : List Char) (p : Nat) (c : Char)
    (h : input[p]? = some c) : ∃ cs, input.drop p = c :: cs := by
  have hp : p < input.length := by
    by_contra hn
    rw [List.getElem?_eq_none (by omega)] at h
    cases h
  refine ⟨input.drop (p + 1), ?_⟩
  rw [List.getElem?_eq_getElem hp] at h
  injection h with h
  rw [← h]
  exact List.drop_eq_getElem_cons hp

theorem scan_reaches_loop (P : Platform) (input : List Char)
    (hne : input.dropWhile IS_BLANK ≠ []) (p : Nat) (h : scan_reaches P input p) :
    ∃ pre tail, exp_parse P input
      = prepend_tokens pre
          (exp_parse_loop P (input.drop p).length p (input.drop p) tail) := by
  induction h with
  | start => exact ⟨[], none, by rw [prepend_tokens_nil, exp_parse_start P input hne]⟩
  | next p v l _ ht ih =>
    obtain ⟨pre, tail, e⟩ := ih
    cases hd : input.drop p with
    | nil => rw [hd] at ht; cases ht
    | cons c cs =>
      refine ⟨pre ++ [tok p (exp_parse_sign tail v)], some (tok p (exp_parse_sign tail v)), ?_⟩
      rw [e, exp_parse_loop_step P input p c cs tail hd, ht]
      simp only
      rw [prepend_tokens_append]

theorem exp_parse_loop_error (P : Platform) (input : List Char) (f : exp_failure) (n : Nat) :
    ∀ (p : Nat) (tail : Option token_t), (input.drop p).length ≤ n → scan_reaches P input p →
      exp_parse_loop P (input.drop p).length p (input.drop p) tail = .error f →
      ∃ q, scan_reaches P input q ∧ q < input.length ∧ exp_parse_token P (input.drop q) = none := by
  induction n with
  | zero =>
    intro p tail hn _ he
    have : input.drop p = [] := List.length_eq_zero.1 (Nat.le_zero.1 hn)
    rw [this] at he
    cases he
  | succ n ih =>
    intro p tail hn hr he
    cases hd : input.drop p with
    | nil => rw [hd] at he; cases he
    | cons c cs =>
      have hp : p < input.length := by
        by_contra hlt
        rw [List.drop_eq_nil_of_le (by omega)] at hd
        cases hd
      rw [exp_parse_loop_step P input p c cs tail hd] at he
      cases ht : exp_parse_token P (input.drop p) with
      | none => exact ⟨p, hr, hp, ht⟩
      | some r =>
        obtain ⟨v, l⟩ := r
        rw [ht] at he
        simp only at he
        have hl := exp_parse_token_pos P _ v l ht
        have hlen : (input.drop (p + l + blanks_at input (p + l))).length ≤ n := by
          have h1 : (input.drop p).length = cs.length + 1 := by rw [hd]; rfl
          simp only [List.length_drop] at h1 hn ⊢
          omega
        cases hrec : exp_parse_loop P (input.drop (p + l + blanks_at input (p + l))).length
            (p + l + blanks_at input (p + l)) (input.drop (p + l + blanks_at input (p + l)))
            (some (tok p (exp_parse_sign tail v))) with
        | ok ts => rw [hrec] at he; cases he
        | error f1 =>
          rw [hrec] at he
          have hf : f1 = f := by
            simp only [prepend_tokens] at he
            injection he
          rw [hf] at hrec
          exact ih _ _ hlen (scan_reaches.next p v l hr ht) hrec

/-! ## C15: the failures of `exp_parse` -/

/-- C15: `exp_parse` fails with "Empty expression was provided" at position 0
when the text is empty after its leading blanks; when an offset reached by the
scan starts no token it fails with that offset as the error position and the
message "Missing terminating quote character" if the byte there is a quote,
"Invalid or unsupported token" with that byte otherwise; and it fails in no
other case. -/
theorem C15_exp_parse_failure (P : Platform) (input : List Char) :
    (input.dropWhile IS_BLANK = [] →
        exp_parse P input = .error ⟨EXP_ER_INVALEXPR, "Empty expression was provided", 0⟩)
      ∧ (∀ p c, scan_reaches P input p → input[p]? = some c →
          exp_parse_token P (input.drop p) = none →
          exp_parse P input = .error ⟨EXP_ER_INVALEXPR,
            (if c = '"' ∨ c = '\'' then "Missing terminating quote character"
             else "Invalid or unsupported token '" ++ String.singleton c ++ "'"), p⟩)
      ∧ (∀ f, exp_parse P input = .error f →
          input.dropWhile IS_BLANK = []
            ∨ ∃ p, scan_reaches P input p ∧ p < input.length
                ∧ exp_parse_token P (input.drop p) = none) := by
  refine ⟨?_, ?_, ?_⟩
  · intro h
    simp [exp_parse, h]
  · intro p c hr hc ht
    obtain ⟨cs, hd⟩ := drop_eq_cons_of_getElem input p c hc
    have hp : p < input.length := by
      by_contra hlt
      rw [List.drop_eq_nil_of_le (by omega)] at hd
      cases hd
    have hne := blanks_at_zero_lt input p (scan_reaches_ge P input p hr) hp
    obtain ⟨pre, tail, e⟩ := scan_reaches_loop P input hne p hr
    rw [e, exp_parse_loop_step P input p c cs tail hd, ht]
    simp only [prepend_tokens, exp_parse_message, Bool.or_eq_true, beq_iff_eq]
  · intro f hf
    by_cases hne : input.dropWhile IS_BLANK = []
    · exact Or.inl hne
    · right
      rw [exp_parse_start P input hne] at hf
      exact exp_parse_loop_error P input f _ _ _ (Nat.le_refl _) scan_reaches.start hf

/-- C15 at a text whose offset 6, reached after the tokens `1` and `+`, holds a
`#`, and at a text of blanks. -/
theorem C15_exp_parse_failure_witness :
    exp_parse exact_platform "  1 + #".toList
        = .error ⟨EXP_ER_INVALEXPR, "Invalid or unsupported token '#'", 6⟩
      ∧ exp_parse exact_platform " \t ".toList
        = .error ⟨EXP_ER_INVALEXPR, "Empty expression was provided", 0⟩ :=
  ⟨(C15_exp_parse_failure exact_platform "  1 + #".toList).2.1 6 '#'
      (scan_reaches.next 4 (.T_OPERATOR O_PLUS) 1
        (scan_reaches.next 2 (.T_INTEGER 1) 1 scan_reaches.start rfl) rfl) rfl rfl,
   (C15_exp_parse_failure exact_platform " \t ".toList).1 rfl⟩

/-! ## C11: unary and binary `+` and `-` -/

theorem exp_parse_sign_plus (tail : Option token_t) :
    exp_parse_sign tail (.T_OPERATOR O_PLUS)
      = .T_OPERATOR (if at_operand_place tail then O_UPLUS else O_PLUS) := by
  cases tail with
  | none => rfl
  | some t =>
    simp only [exp_parse_sign, at_operand_place, has_type, Option.isNone_some, Bool.false_or]
    rw [Bool.or_comm (t.type == T_COMMA)]
    split <;> rfl

theorem exp_parse_sign_minus (tail : Option token_t) :
    exp_parse_sign tail (.T_OPERATOR O_MINUS)
      = .T_OPERATOR (if at_operand_place tail then O_UMINUS else O_MINUS) := by
  cases tail with
  | none => rfl
  | some t =>
    simp only [exp_parse_sign, at_operand_place, has_type, Option.isNone_some, Bool.false_or]
    rw [Bool.or_comm (t.type == T_COMMA)]
    split <;> rfl

theorem exp_parse_sign_is_sign (tail : Option token_t) (v : value_t)
    (h : is_sign (exp_parse_sign tail v) = true) :
    v = .T_OPERATOR O_PLUS ∨ v = .T_OPERATOR O_MINUS ∨ v = .T_OPERATOR O_UPLUS
      ∨ v = .T_OPERATOR O_UMINUS := by
  cases v with
  | T_OPERATOR op => cases op <;> simp_all [exp_parse_sign, is_sign]
  | _ => simp [exp_parse_sign, is_sign] at h

theorem exp_parse_token_sign (P : Platform) (s : List Char) (v : value_t) (l : Nat)
    (h : exp_parse_token P s = some (v, l)) :
    (s.head? = some '+' → v = .T_OPERATOR O_PLUS) ∧ (s.head? = some '-' → v = .T_OPERATOR O_MINUS)
      ∧ (v = .T_OPERATOR O_PLUS → s.head? = some '+')
      ∧ (v = .T_OPERATOR O_MINUS → s.head? = some '-')
      ∧ v ≠ .T_OPERATOR O_UPLUS ∧ v ≠ .T_OPERATOR O_UMINUS := by
  have hplus : ∀ cs, exp_parse_token P ('+' :: cs) = some (.T_OPERATOR O_PLUS, 1) := fun _ => rfl
  have hminus : ∀ cs, exp_parse_token P ('-' :: cs) = some (.T_OPERATOR O_MINUS, 1) :=
    fun _ => rfl
  have h1 : s.head? = some '+' → v = .T_OPERATOR O_PLUS := by
    intro hh
    cases s with
    | nil => cases hh
    | cons c cs =>
      simp only [List.head?_cons, Option.some.injEq] at hh
      subst hh
      rw [hplus] at h
      cases h; rfl
  have h2 : s.head? = some '-' → v = .T_OPERATOR O_MINUS := by
    intro hh
    cases s with
    | nil => cases hh
    | cons c cs =>
      simp only [List.head?_cons, Option.some.injEq] at hh
      subst hh
      rw [hminus] at h
      cases h; rfl
  refine ⟨h1, h2, ?_⟩
  rcases exp_parse_token_cases P s _ h with h | h | h | h | h | h
  · rcases (is_parenthesis_some s v l h).2 with e | e <;> subst e <;> simp
  · rw [(is_comma_some s v l h).2]; simp
  · obtain ⟨_, op, e, hu, hm, _, _, hp, hn⟩ := is_operator_some s v l h
    subst e
    refine ⟨fun x => hp (by injection x), fun x => hn (by injection x), ?_, ?_⟩
    · intro x; injection x with x; exact hu x
    · intro x; injection x with x; exact hm x
  · rcases (is_number_some P s v l h).2 with ⟨i, e⟩ | ⟨r, e⟩ <;> subst e <;> simp
  · obtain ⟨_, name, e⟩ := is_parameter_some s v l h
    subst e; simp
  · obtain ⟨_, str, e⟩ := is_string_some s v l h
    subst e; simp

theorem head_drop (input : List Char) (p : Nat) : (input.drop p).head? = input[p]? := by
  rw [List.head?_drop]

theorem exp_parse_loop_signs (P : Platform) (input : List Char) (n : Nat) :
    ∀ (p : Nat) (tail : Option token_t) (ts : List token_t), (input.drop p).length ≤ n →
      exp_parse_loop P (input.drop p).length p (input.drop p) tail = .ok ts →
      signs_disambiguated input tail ts := by
  induction n with
  | zero =>
    intro p tail ts hn he
    have : input.drop p = [] := List.length_eq_zero.1 (Nat.le_zero.1 hn)
    rw [this] at he
    cases he
    trivial
  | succ n ih =>
    intro p tail ts hn he
    cases hd : input.drop p with
    | nil => rw [hd] at he; cases he; trivial
    | cons c cs =>
      rw [exp_parse_loop_step P input p c cs tail hd] at he
      cases ht : exp_parse_token P (input.drop p) with
      | none => rw [ht] at he; cases he
      | some r =>
        obtain ⟨v, l⟩ := r
        rw [ht] at he
        simp only at he
        have hl := exp_parse_token_pos P _ v l ht
        have hlen : (input.drop (p + l + blanks_at input (p + l))).length ≤ n := by
          have h1 : (input.drop p).length = cs.length + 1 := by rw [hd]; rfl
          simp only [List.length_drop] at h1 hn ⊢
          omega
        cases hrec : exp_parse_loop P (input.drop (p + l + blanks_at input (p + l))).length
            (p + l + blanks_at input (p + l)) (input.drop (p + l + blanks_at input (p + l)))
            (some (tok p (exp_parse_sign tail v))) with
        | error f1 => rw [hrec] at he; cases he
        | ok ts1 =>
          rw [hrec] at he
          simp only [prepend_tokens, List.singleton_append] at he
          injection he with he
          subst he
          refine ⟨?_, ih _ _ _ hlen hrec⟩
          obtain ⟨s1, s2, s3, s4, s5, s6⟩ := exp_parse_token_sign P _ v l ht
          rw [head_drop] at s1 s2 s3 s4
          simp only [sign_rule, tok, token_t.position, token_t.param]
          refine ⟨?_, ?_, ?_⟩
          · intro hh; rw [s1 hh, exp_parse_sign_plus]
          · intro hh; rw [s2 hh, exp_parse_sign_minus]
          · intro hh
            rcases exp_parse_sign_is_sign tail v hh with e | e | e | e
            · exact Or.inl (s3 e)
            · exact Or.inr (s4 e)
            · exact absurd e s5
            · exact absurd e s6

/-- C11: in the tokens of every text that `exp_parse` lexes, a token that
starts with `+` or `-` carries the unary opcode (`O_UPLUS`, `O_UMINUS`) when it
is the first token or the token in front of it is a comma, a left parenthesis
or an operator, and the binary opcode (`O_PLUS`, `O_MINUS`) otherwise, and no
other token carries one of these four opcodes. -/
theorem C11_sign_disambiguation (P : Platform) (input : List Char) (ts : List token_t)
    (h : exp_parse P input = .ok ts) : signs_disambiguated input none ts := by
  by_cases hne : input.dropWhile IS_BLANK = []
  · simp [exp_parse, hne] at h
  · rw [exp_parse_start P input hne] at h
    exact exp_parse_loop_signs P input _ _ _ _ (Nat.le_refl _) h

/-- C11 at `-1 - -2 + f(+3, -x)`: the signs at the offsets 0, 5, 12 and 16 are
unary, those at 3 and 8 binary. -/
theorem C11_sign_disambiguation_witness :
    signs_disambiguated "-1 - -2 + f(+3, -x)".toList none
      [tok 0 (.T_OPERATOR O_UMINUS), tok 1 (.T_INTEGER 1), tok 3 (.T_OPERATOR O_MINUS),
       tok 5 (.T_OPERATOR O_UMINUS), tok 6 (.T_INTEGER 2), tok 8 (.T_OPERATOR O_PLUS),
       tok 10 (.T_PARAMETER "f"), tok 11 .T_LPAREN, tok 12 (.T_OPERATOR O_UPLUS),
       tok 13 (.T_INTEGER 3), tok 14 .T_COMMA, tok 16 (.T_OPERATOR O_UMINUS),
       tok 17 (.T_PARAMETER "x"), tok 18 .T_RPAREN] :=
  C11_sign_disambiguation exact_platform "-1 - -2 + f(+3, -x)".toList _ rfl

/-! ## C14: identifiers -/

theorem char_ne_of (p : Char → Bool) (c x : Char) (hc : p c = true) (hx : p x = false) :
    (c == x) = false := by
  cases h : c == x
  · rfl
  · have e : c = x := by simpa using h
    rw [e, hx] at hc
    cases hc

theorem ident_start_eq (c : Char) : ident_start c = IS_ALPHA c := by
  simp only [ident_start, IS_ALPHA]
  rw [Bool.or_comm (decide ('A' ≤ c) && decide (c ≤ 'Z'))]

theorem ident_char_eq (c : Char) : ident_char c = (IS_ALPHANUMERIC c || c == '.') := by
  simp only [ident_char, IS_ALPHANUMERIC, ident_start_eq, IS_NUMERIC]
  rw [Bool.or_comm (IS_ALPHA c)]

theorem ident_start_not_numeric (c : Char) (h : ident_start c = true) : IS_NUMERIC c = false := by
  cases hn : IS_NUMERIC c
  · rfl
  · exfalso
    simp only [IS_NUMERIC, Bool.and_eq_true, decide_eq_true_eq] at hn
    simp only [ident_start, Bool.or_eq_true, Bool.and_eq_true, decide_eq_true_eq,
      beq_iff_eq] at h
    have h9 : c.toNat ≤ 57 := hn.2
    rcases h with (⟨h1, _⟩ | ⟨h1, _⟩) | h1
    · have : 65 ≤ c.toNat := h1
      omega
    · have : 97 ≤ c.toNat := h1
      omega
    · subst h1
      exact absurd h9 (by decide)

theorem is_operator_ident (c : Char) (s : List Char) (hc : ident_start c = true) :
    is_operator (c :: s) = none := by
  rw [is_operator]
  simp only [char_ne_of ident_start c '+' hc rfl, char_ne_of ident_start c '-' hc rfl,
    char_ne_of ident_start c '/' hc rfl, char_ne_of ident_start c '%' hc rfl,
    char_ne_of ident_start c '*' hc rfl, char_ne_of ident_start c '^' hc rfl,
    char_ne_of ident_start c '~' hc rfl, char_ne_of ident_start c '?' hc rfl,
    char_ne_of ident_start c ':' hc rfl, char_ne_of ident_start c '>' hc rfl,
    char_ne_of ident_start c '<' hc rfl, char_ne_of ident_start c '=' hc rfl,
    char_ne_of ident_start c '!' hc rfl, char_ne_of ident_start c '&' hc rfl,
    char_ne_of ident_start c '|' hc rfl, Bool.false_eq_true, if_false]

theorem is_number_ident (P : Platform) (c : Char) (s : List Char) (hc : ident_start c = true) :
    tokenizer.is_number P (c :: s) = none := by
  have h0 : (c == '0') = false := char_ne_of ident_start c '0' hc rfl
  have hdot : (c == '.') = false := char_ne_of ident_start c '.' hc rfl
  have hnum := ident_start_not_numeric c hc
  have hdec : tokenizer.is_number_decimal P (c :: s) = none := by
    have hscan : tokenizer.is_number_scan (c :: s) 0 false false false = (0, false, false) := by
      cases s with
      | nil => simp [tokenizer.is_number_scan, hnum, hdot]
      | cons c1 cs => simp [tokenizer.is_number_scan, hnum, hdot]
    simp [tokenizer.is_number_decimal, hscan]
  unfold tokenizer.is_number
  split
  · rename_i c0 c1 h tl heq
    injection heq with e1 e2
    subst e1
    simp only [h0, Bool.false_and, Bool.false_eq_true, if_false]
    exact hdec
  · exact hdec

theorem takeWhile_append_stop (p : Char → Bool) (l rest : List Char)
    (hl : ∀ x ∈ l, p x = true) (hrest : ∀ x, rest.head? = some x → p x = false) :
    (l ++ rest).takeWhile p = l := by
  induction l with
  | nil =>
    cases rest with
    | nil => rfl
    | cons x xs => simp [List.takeWhile_cons, hrest x rfl]
  | cons a l ih =>
    have ha : p a = true := hl a (List.mem_cons_self _ _)
    simp only [List.cons_append, List.takeWhile_cons, ha, if_true]
    rw [ih (fun x hx => hl x (List.mem_cons_of_mem _ hx))]

theorem exp_parse_token_ident (P : Platform) (c : Char) (cs rest : List Char)
    (hc : ident_start c = true) (hcs : ∀ x ∈ cs, ident_char x = true)
    (hrest : ∀ x, rest.head? = some x → ident_char x = false) :
    exp_parse_token P (c :: cs ++ rest)
      = some (.T_PARAMETER (String.mk ((c :: cs).map Char.toLower)), (c :: cs).length) := by
  have h1 : is_parenthesis (c :: cs ++ rest) = none := by
    simp only [List.cons_append, is_parenthesis, char_ne_of ident_start c '(' hc rfl,
      char_ne_of ident_start c ')' hc rfl, Bool.false_eq_true, if_false]
  have h2 : is_comma (c :: cs ++ rest) = none := by
    simp only [List.cons_append, is_comma, char_ne_of ident_start c ',' hc rfl,
      Bool.false_eq_true, if_false]
  have h3 : is_operator (c :: cs ++ rest) = none := is_operator_ident c _ hc
  have h4 : tokenizer.is_number P (c :: cs ++ rest) = none := is_number_ident P c _ hc
  have htw : (cs ++ rest).takeWhile (fun x => IS_ALPHANUMERIC x || x == '.') = cs :=
    takeWhile_append_stop _ cs rest (fun x hx => by rw [← ident_char_eq]; exact hcs x hx)
      (fun x hx => by rw [← ident_char_eq]; exact hrest x hx)
  have h5 : is_parameter (c :: cs ++ rest)
      = some (.T_PARAMETER (String.mk ((c :: cs).map Char.toLower)), (c :: cs).length) := by
    simp only [List.cons_append, is_parameter, ← ident_start_eq, hc, if_true, htw, strtolower]
  unfold exp_parse_token
  rw [h1, h2, h3, h4, h5]
theorem ofNat_lower_not_upper (n : Nat) (h1 : 65 ≤ n) (h2 : n ≤ 90) :
    (Char.ofNat (n + 32)).isUpper = false := by
  interval_cases n <;> rfl

theorem isUpper_iff (c : Char) : c.isUpper = true ↔ 65 ≤ c.toNat ∧ c.toNat ≤ 90 := by
  simp only [Char.isUpper, Bool.and_eq_true, decide_eq_true_eq, ge_iff_le, Char.toNat]
  constructor
  · rintro ⟨a, b⟩
    exact ⟨a, b⟩
  · rintro ⟨a, b⟩
    exact ⟨a, b⟩

theorem isUpper_toLower (c : Char) : (Char.toLower c).isUpper = false := by
  unfold Char.toLower
  simp only
  split
  · rename_i h
    exact ofNat_lower_not_upper _ h.1 h.2
  · rename_i h
    cases hu : c.isUpper
    · rfl
    · exact absurd ((isUpper_iff c).1 hu) h

theorem no_uppercase_strtolower (name : List Char) :
    no_uppercase (String.mk (strtolower name)) = true := by
  simp only [no_uppercase, strtolower, List.all_eq_true]
  intro x hx
  obtain ⟨c, _, e⟩ := List.mem_map.1 hx
  rw [← e, isUpper_toLower]
  rfl

theorem exp_parse_token_lower (P : Platform) (s : List Char) (v : value_t) (l : Nat)
    (h : exp_parse_token P s = some (v, l)) : value_lower v = true := by
  rcases exp_parse_token_cases P s _ h with h | h | h | h | h | h
  · rcases (is_parenthesis_some s v l h).2 with e | e <;> subst e <;> rfl
  · rw [(is_comma_some s v l h).2]; rfl
  · obtain ⟨_, op, e, _⟩ := is_operator_some s v l h
    subst e; rfl
  · rcases (is_number_some P s v l h).2 with ⟨i, e⟩ | ⟨r, e⟩ <;> subst e <;> rfl
  · obtain ⟨_, name, e⟩ := is_parameter_some s v l h
    subst e
    exact no_uppercase_strtolower name
  · obtain ⟨_, str, e⟩ := is_string_some s v l h
    subst e; rfl

theorem exp_parse_sign_lower (tail : Option token_t) (v : value_t) (h : value_lower v = true) :
    value_lower (exp_parse_sign tail v) = true := by
  unfold exp_parse_sign
  split
  · split <;> rfl
  · split <;> rfl
  · exact h

theorem names_lower_list_append (a b : List token_t) :
    names_lower.list (a ++ b) = (names_lower.list a && names_lower.list b) := by
  induction a with
  | nil => rfl
  | cons t ts ih =>
    show (names_lower t && names_lower.list (ts ++ b)) = _
    rw [ih]
    simp only [names_lower.list, Bool.and_assoc]

theorem names_lower_tok (p : Nat) (v : value_t) : names_lower (tok p v) = value_lower v := by
  simp [tok, names_lower, names_lower.list]

theorem exp_parse_loop_lower (P : Platform) (n : Nat) :
    ∀ (exp : List Char) (pos : Nat) (tail : Option token_t) (ts : List token_t),
      exp_parse_loop P n pos exp tail = .ok ts → names_lower.list ts = true := by
  induction n with
  | zero =>
    intro exp pos tail ts h
    cases exp with
    | nil => simp only [exp_parse_loop] at h; cases h; rfl
    | cons c cs => simp only [exp_parse_loop] at h; cases h
  | succ n ih =>
    intro exp pos tail ts h
    cases exp with
    | nil => simp only [exp_parse_loop] at h; cases h; rfl
    | cons c cs =>
      simp only [exp_parse_loop] at h
      cases ht : exp_parse_token P (c :: cs) with
      | none => rw [ht] at h; cases h
      | some r =>
        obtain ⟨v, l⟩ := r
        rw [ht] at h
        simp only at h
        split at h
        · cases h
        · rename_i ts1 hrec
          cases h
          simp only [names_lower.list, names_lower_tok, ih _ _ _ _ hrec, Bool.and_true]
          exact exp_parse_sign_lower tail v (exp_parse_token_lower P _ v l ht)

theorem exp_parse_lower (P : Platform) (e : List Char) (ts : List token_t)
    (h : exp_parse P e = .ok ts) : names_lower.list ts = true := by
  unfold exp_parse at h
  simp only at h
  split at h
  · cases h
  · exact exp_parse_loop_lower P _ _ _ _ _ h

theorem promote_lower (curr : token_t) (next : Option token_t) (h : names_lower curr = true) :
    names_lower (promote curr next) = true := by
  unfold promote
  split
  · split
    · simpa [names_lower, value_lower] using h
    · exact h
  · exact h

theorem exp_check_loop_lower (l : List token_t) :
    ∀ (prev : Option token_t) (ts : List token_t), names_lower.list l = true →
      exp_check_loop prev l = .ok ts → names_lower.list ts = true := by
  induction l with
  | nil => intro prev ts _ h; simp only [exp_check_loop] at h; cases h; rfl
  | cons c rest ih =>
    intro prev ts hl h
    simp only [names_lower.list, Bool.and_eq_true] at hl
    simp only [exp_check_loop] at h
    split at h
    · cases h
    · split at h
      · cases h
      · rename_i ts1 hrec
        cases h
        simp only [names_lower.list, Bool.and_eq_true]
        exact ⟨promote_lower c _ hl.1, ih _ _ hl.2 hrec⟩

mutual
theorem names_lower_dup : ∀ t : token_t, names_lower t = true →
    names_lower (exp_token_dup t) = true
  | .mk p v c, h => by
    simp only [names_lower, Bool.and_eq_true] at h
    cases v <;>
      simp_all [exp_token_dup, names_lower, names_lower.list, value_lower,
        names_lower_dup_list c h.2]
theorem names_lower_dup_list : ∀ l : List token_t, names_lower.list l = true →
    names_lower.list (exp_token_dup.list l) = true
  | [], _ => rfl
  | t :: ts, h => by
    simp only [names_lower.list, Bool.and_eq_true] at h
    simp only [exp_token_dup.list, names_lower.list, Bool.and_eq_true]
    exact ⟨names_lower_dup t h.1, names_lower_dup_list ts h.2⟩
end
theorem pop_until_lparen_lower (stack : List token_t) :
    ∀ out : List token_t, names_lower.list stack = true → names_lower.list out = true →
      names_lower.list (pop_until_lparen stack out).1 = true
        ∧ names_lower.list (pop_until_lparen stack out).2 = true := by
  induction stack with
  | nil => intro out hs ho; exact ⟨hs, ho⟩
  | cons t stack ih =>
    intro out hs ho
    simp only [pop_until_lparen]
    split
    · exact ⟨hs, ho⟩
    · simp only [names_lower.list, Bool.and_eq_true] at hs
      refine ih _ hs.2 ?_
      simp [names_lower_list_append, names_lower.list, ho, hs.1]

theorem pop_operators_lower (o1 : operator_t) (stack : List token_t) :
    ∀ out : List token_t, names_lower.list stack = true → names_lower.list out = true →
      names_lower.list (pop_operators o1 stack out).1 = true
        ∧ names_lower.list (pop_operators o1 stack out).2 = true := by
  induction stack with
  | nil => intro out hs ho; exact ⟨hs, ho⟩
  | cons t stack ih =>
    intro out hs ho
    simp only [pop_operators]
    split
    · split
      · simp only [names_lower.list, Bool.and_eq_true] at hs
        refine ih _ hs.2 ?_
        simp [names_lower_list_append, names_lower.list, ho, hs.1]
      · exact ⟨hs, ho⟩
    · exact ⟨hs, ho⟩

theorem sy_drain_lower (m : Nat) (stack : List token_t) :
    ∀ out o : List token_t, names_lower.list stack = true → names_lower.list out = true →
      sy_drain m stack out = .ok o → names_lower.list o = true := by
  induction stack with
  | nil => intro out o _ ho h; simp only [sy_drain] at h; cases h; exact ho
  | cons t stack ih =>
    intro out o hs ho h
    simp only [names_lower.list, Bool.and_eq_true] at hs
    simp only [sy_drain] at h
    split at h
    · split at h <;> cases h
    · cases h
    · refine ih _ _ hs.2 ?_ h
      simp [names_lower_list_append, names_lower.list, ho, hs.1]

theorem sy_finish_lower (m : Nat) (colon_found : Bool) (in_ stack out o i : List token_t)
    (hi : names_lower.list in_ = true) (hs : names_lower.list stack = true)
    (ho : names_lower.list out = true)
    (h : sy_finish m colon_found in_ stack out = .ok (o, i)) :
    names_lower.list o = true ∧ names_lower.list i = true := by
  unfold sy_finish at h
  split at h
  · cases h
  · rename_i out1 hd
    have h1 := sy_drain_lower m stack out out1 hs ho hd
    split at h
    · cases h
    · split at h
      · cases h; exact ⟨h1, hi⟩
      · cases h; exact ⟨h1, rfl⟩

theorem sy_loop_lower (fuel : Nat) :
    ∀ (m : Nat) (in_ stack out : List token_t) (found argc : List Int) (o i : List token_t),
      names_lower.list in_ = true → names_lower.list stack = true →
      names_lower.list out = true →
      sy_loop fuel m in_ stack out found argc = .ok (o, i) →
      names_lower.list o = true ∧ names_lower.list i = true := by
  induction fuel with
  | zero =>
    intro m in_ stack out found argc o i hi hs ho h
    cases in_ with
    | nil =>
      simp only [sy_loop] at h
      exact sy_finish_lower _ _ _ _ _ _ _ hi hs ho h
    | cons curr in_ => simp only [sy_loop] at h; cases h
  | succ fuel ih =>
    intro m in_ stack out found argc o i hi hs ho h
    cases in_ with
    | nil =>
      simp only [sy_loop] at h
      exact sy_finish_lower _ _ _ _ _ _ _ hi hs ho h
    | cons curr in_ =>
      have hi0 := hi
      simp only [names_lower.list, Bool.and_eq_true] at hi
      obtain ⟨hcurr, hin⟩ := hi
      have hout1 : names_lower.list (out ++ [curr]) = true := by
        simp [names_lower_list_append, names_lower.list, ho, hcurr]
      have hstack1 : names_lower.list (curr :: stack) = true := by
        simp [names_lower.list, hs, hcurr]
      obtain ⟨hq1, hq2⟩ := pop_until_lparen_lower stack out hs ho
      obtain ⟨p, v, c⟩ := curr
      cases v with
      | T_BOOLEAN b =>
        simp only [sy_loop, token_t.param] at h
        exact ih _ _ _ _ _ _ _ _ hin hs hout1 h
      | T_INTEGER b =>
        simp only [sy_loop, token_t.param] at h
        exact ih _ _ _ _ _ _ _ _ hin hs hout1 h
      | T_REAL b =>
        simp only [sy_loop, token_t.param] at h
        exact ih _ _ _ _ _ _ _ _ hin hs hout1 h
      | T_STRING b =>
        simp only [sy_loop, token_t.param] at h
        exact ih _ _ _ _ _ _ _ _ hin hs hout1 h
      | T_PARAMETER b =>
        simp only [sy_loop, token_t.param] at h
        exact ih _ _ _ _ _ _ _ _ hin hs hout1 h
      | T_FUNCTION b =>
        simp only [sy_loop, token_t.param] at h
        exact ih _ _ _ _ _ _ _ _ hin hstack1 ho h
      | T_LPAREN =>
        simp only [sy_loop, token_t.param] at h
        exact ih _ _ _ _ _ _ _ _ hin hstack1 ho h
      | T_NONE => simp only [sy_loop, token_t.param] at h; cases h
      | T_IFCONDITION b => simp only [sy_loop, token_t.param] at h; cases h
      | T_IFSTATEMENT => simp only [sy_loop, token_t.param] at h; cases h
      | T_COMMA =>
        simp only [sy_loop, token_t.param] at h
        generalize pop_until_lparen stack out = r at h hq1 hq2
        obtain ⟨st1, out1⟩ := r
        cases st1 with
        | nil => simp only at h; cases h
        | cons top stack1 =>
          simp only at h
          split at h
          · cases h
          · split at h
            · split at h
              · exact ih _ _ _ _ _ _ _ _ hin hq1 hq2 h
              · cases h
            · cases h
      | T_RPAREN =>
        simp only [sy_loop, token_t.param] at h
        generalize pop_until_lparen stack out = r at h hq1 hq2
        obtain ⟨st1, out1⟩ := r
        cases st1 with
        | nil =>
          simp only at h
          split at h
          · split at h
            · cases h
            · cases h; exact ⟨hq2, hi0⟩
          · cases h
        | cons top stack1 =>
          simp only at h
          simp only [names_lower.list, Bool.and_eq_true] at hq1
          split at h
          · cases h
          · cases stack1 with
            | nil =>
              simp only at h
              exact ih _ _ [] _ _ _ _ _ hin rfl hq2 h
            | cons func stack2 =>
              simp only at h
              simp only [names_lower.list, Bool.and_eq_true] at hq1
              split at h
              · split at h
                · refine ih _ _ _ _ _ _ _ _ hin hq1.2.2 ?_ h
                  simp [names_lower_list_append, names_lower.list, names_lower, value_lower,
                    hq2, hq1.2.1]
                · cases h
              · refine ih _ _ _ _ _ _ _ _ hin ?_ hq2 h
                simp [names_lower.list, hq1.2.1, hq1.2.2]
      | T_OPERATOR op =>
        simp only [sy_loop, token_t.param] at h
        split at h
        · split at h
          · cases h
          · split at h
            · exact sy_finish_lower _ _ _ _ _ _ _ hin hs ho h
            · exact sy_finish_lower _ _ _ _ _ _ _ hi0 hs ho h
        · obtain ⟨ho1, ho2⟩ := pop_operators_lower op stack out hs ho
          generalize pop_operators op stack out = r at h ho1 ho2
          obtain ⟨stack1, out1⟩ := r
          simp only at h
          split at h
          · split at h
            · cases h
            · cases h
            · rename_i t1 i1 in1 h1
              obtain ⟨ht1, hi1⟩ := ih _ _ [] [] _ _ _ _ (names_lower_dup_list _ hin) rfl rfl h1
              split at h
              · cases h
              · rename_i t2 in2 h2
                obtain ⟨ht2, hi2⟩ :=
                  ih _ _ [] [] _ _ _ _ (names_lower_dup_list _ hi1) rfl rfl h2
                refine ih _ _ _ _ _ _ _ _ hi2 ho1 ?_ h
                have hc : names_lower.list c = true := by
                  simp only [names_lower, Bool.and_eq_true] at hcurr
                  exact hcurr.2
                simp [names_lower_list_append, names_lower.list, names_lower, value_lower,
                  ho2, ht1, ht2, hc, token_t.children, token_t.position]
          · refine ih _ _ _ _ _ _ _ _ hin ?_ ho2 h
            simp [names_lower.list, ho1, hcurr]

theorem exp_create_lower (P : Platform) (e : List Char) (x : expression_t)
    (h : exp_create P e = .ok x) : names_lower.list x.tokens = true := by
  unfold exp_create at h
  split at h
  · cases h
  · rename_i a ha
    split at h
    · cases h
    · rename_i a1 ha1
      split at h
      · cases h
      · rename_i b rest hb
        cases h
        have h1 := exp_check_loop_lower a none a1 (exp_parse_lower P e a ha) ha1
        exact (sy_loop_lower _ _ _ [] [] _ _ _ _ (names_lower_dup_list _ h1) rfl rfl hb).1

/-- C14: a text that starts with an identifier `[A-Za-z_][A-Za-z0-9_.]*`,
followed by the end of the text or by a byte that cannot continue it, starts
one Parameter token that spans the whole identifier and whose name is the
identifier in lowercase; no parameter or function name of an expression made by
`exp_create` has an uppercase letter, and `COS(PI)` compiles to the RPN of
`cos(pi)`. -/
theorem C14_identifier_lowercased (P : Platform) (c : Char) (cs rest : List Char)
    (hc : ident_start c = true) (hcs : ∀ x ∈ cs, ident_char x = true)
    (hrest : ∀ x, rest.head? = some x → ident_char x = false) :
    exp_parse_token P (c :: cs ++ rest)
        = some (.T_PARAMETER (String.mk ((c :: cs).map Char.toLower)), (c :: cs).length)
      ∧ (∀ e exp, exp_create P e = .ok exp → names_lower.list exp.tokens = true)
      ∧ Except.map expression_t.tokens (exp_create P "COS(PI)".toList)
          = Except.map expression_t.tokens (exp_create P "cos(pi)".toList)
      ∧ Except.map expression_t.tokens (exp_create P "COS(PI)".toList)
          = .ok [tok 4 (.T_PARAMETER "pi"), tok 0 (.T_INTEGER 1), tok 0 (.T_FUNCTION "cos")] :=
  ⟨exp_parse_token_ident P c cs rest hc hcs hrest, exp_create_lower P, rfl, rfl⟩

/-- C14 at `Max.Value_2` in front of `+1`, and at `COS(PI)`. -/
theorem C14_identifier_lowercased_witness :
    exp_parse_token exact_platform "Max.Value_2+1".toList
        = some (.T_PARAMETER "max.value_2", 11)
      ∧ Except.map expression_t.tokens (exp_create exact_platform "COS(PI)".toList)
          = Except.map expression_t.tokens (exp_create exact_platform "cos(pi)".toList) :=
  ⟨(C14_identifier_lowercased exact_platform 'M' "ax.Value_2".toList "+1".toList rfl
      (by decide) (by decide)).1,
   (C14_identifier_lowercased exact_platform 'M' "ax.Value_2".toList "+1".toList rfl
      (by decide) (by decide)).2.2.1⟩

/-! ## C17: strings read as numbers -/

theorem is_number_scan_digits (d : List Char) :
    ∀ (n : Nat) (ef pf sf : Bool), (∀ c ∈ d, IS_NUMERIC c = true) →
      is_number_scan d n false ef pf sf = (n + d.length, false, pf) := by
  induction d with
  | nil => intro n ef pf sf _; rfl
  | cons c cs ih =>
    intro n ef pf sf h
    have hc : IS_NUMERIC c = true := h c (List.mem_cons_self _ _)
    have hcs : ∀ x ∈ cs, IS_NUMERIC x = true := fun x hx => h x (List.mem_cons_of_mem _ hx)
    cases cs with
    | nil => simp [is_number_scan, hc]
    | cons c1 cs1 =>
      simp only [is_number_scan, hc, Bool.not_true, Bool.false_eq_true, if_false]
      rw [ih _ _ _ _ hcs]
      simp only [List.length_cons]
      congr 1
      omega

theorem is_number_scan_sign (sign : Char) (hs : sign = '-' ∨ sign = '+') (d2 : List Char)
    (h2 : ∀ c ∈ d2, IS_NUMERIC c = true) (d1 : List Char) :
    ∀ (n : Nat) (ef pf : Bool), (∀ c ∈ d1, IS_NUMERIC c = true) →
      is_number_scan (d1 ++ sign :: d2) n false ef pf false
        = (n + (d1 ++ sign :: d2).length, false, pf) := by
  have hsn : IS_NUMERIC sign = false := by rcases hs with rfl | rfl <;> rfl
  have hsd : (sign == '.') = false := by rcases hs with rfl | rfl <;> rfl
  have hss : (sign == '-' || sign == '+') = true := by rcases hs with rfl | rfl <;> rfl
  induction d1 with
  | nil =>
    intro n ef pf _
    cases d2 with
    | nil =>
      rcases hs with rfl | rfl <;> simp [is_number_scan, IS_NUMERIC]
    | cons c1 cs1 =>
      have e := is_number_scan_digits (c1 :: cs1) (n + 1) ef pf true h2
      rcases hs with rfl | rfl
      · simp only [List.nil_append, is_number_scan, hsn, Bool.not_false, if_true]
        simp only [hsd, Bool.false_eq_true, if_false, beq_self_eq_true, Bool.true_and, if_true]
        rw [e]
        simp only [List.length_cons]
        congr 1
        omega
      · simp only [List.nil_append, is_number_scan, hsn, Bool.not_false, if_true]
        have h1 : (('+' : Char) == '-') = false := rfl
        simp only [hsd, h1, Bool.false_eq_true, if_false, beq_self_eq_true, Bool.true_and,
          Bool.false_and, if_true]
        rw [e]
        simp only [List.length_cons]
        congr 1
        omega
  | cons c cs ih =>
    intro n ef pf h
    have hc : IS_NUMERIC c = true := h c (List.mem_cons_self _ _)
    have hcs : ∀ x ∈ cs, IS_NUMERIC x = true := fun x hx => h x (List.mem_cons_of_mem _ hx)
    have hne : ∃ y ys, cs ++ sign :: d2 = y :: ys := by
      cases cs with
      | nil => exact ⟨_, _, rfl⟩
      | cons y ys => exact ⟨_, _, rfl⟩
    obtain ⟨y, ys, e⟩ := hne
    have ih1 := ih (n + 1) ef pf hcs
    rw [e] at ih1
    simp only [List.cons_append, e, is_number_scan, hc, Bool.not_true, Bool.false_eq_true,
      if_false]
    rw [ih1]
    simp only [List.length_cons]
    congr 1
    omega

theorem atoll_digits_stop (d1 : List Char) (x : Char) (rest : List Char)
    (hx : IS_NUMERIC x = false) :
    ∀ acc, atoll_digits (d1 ++ x :: rest) acc = atoll_digits d1 acc := by
  induction d1 with
  | nil => intro acc; simp [atoll_digits, hx]
  | cons c cs ih =>
    intro acc
    simp only [List.cons_append, atoll_digits]
    split
    · exact ih _
    · rfl

theorem dropWhile_of_all_false (p : Char → Bool) (l : List Char) (h : ∀ c ∈ l, p c = false) :
    l.dropWhile p = l := by
  cases l with
  | nil => rfl
  | cons c cs => simp [List.dropWhile_cons, h c (List.mem_cons_self _ _)]

theorem is_number_sign_inside (P : Platform) (sign : Char) (hs : sign = '-' ∨ sign = '+')
    (d1 d2 : List Char) (h1 : ∀ c ∈ d1, IS_NUMERIC c = true)
    (h2 : ∀ c ∈ d2, IS_NUMERIC c = true) :
    is_number P (d1 ++ sign :: d2)
      = .ok (atoll (d1 ++ sign :: d2), Double.ofInt (atoll (d1 ++ sign :: d2))) := by
  have hall : ∀ c ∈ d1 ++ sign :: d2, IS_NUMERIC c = true ∨ c = sign := by
    intro c hc
    rcases List.mem_append.1 hc with h | h
    · exact Or.inl (h1 c h)
    · rcases List.mem_cons.1 h with h | h
      · exact Or.inr h
      · exact Or.inl (h2 c h)
  have hblank : ∀ c ∈ d1 ++ sign :: d2, IS_BLANK c = false := by
    intro c hc
    rcases hall c hc with h | h
    · simp only [IS_BLANK, char_ne_of IS_NUMERIC c ' ' h rfl, char_ne_of IS_NUMERIC c '\t' h rfl,
        char_ne_of IS_NUMERIC c '\r' h rfl, char_ne_of IS_NUMERIC c '\n' h rfl, Bool.or_self]
    · rw [h]; rcases hs with rfl | rfl <;> rfl
  have hspace : ∀ c ∈ d1 ++ sign :: d2, IS_SPACE c = false := by
    intro c hc
    have := hblank c hc
    simp only [IS_BLANK, Bool.or_eq_false_iff] at this
    simp only [IS_SPACE, this.1.1.1, this.1.1.2, Bool.or_self]
  have hdrop : (d1 ++ sign :: d2).dropWhile IS_SPACE = d1 ++ sign :: d2 :=
    dropWhile_of_all_false _ _ hspace
  have htrim : trim_right_len (d1 ++ sign :: d2) = (d1 ++ sign :: d2).length := by
    unfold trim_right_len
    rw [dropWhile_of_all_false _ _ (fun c hc => hblank c (List.mem_reverse.1 hc)),
      List.length_reverse]
  have hdec : is_number.is_number_decimal P (d1 ++ sign :: d2) (d1 ++ sign :: d2).length
      = .ok (atoll (d1 ++ sign :: d2), Double.ofInt (atoll (d1 ++ sign :: d2))) := by
    have hlen : (d1 ++ sign :: d2).length ≠ 0 := by simp
    simp only [is_number.is_number_decimal, is_number_scan_sign sign hs d2 h2 d1 0 false false h1,
      Nat.zero_add, decide_eq_true_eq, hlen, Bool.false_eq_true, Bool.and_false, Bool.or_false,
      decide_False, if_false, if_true]
  unfold is_number
  simp only [hdrop, htrim]
  split
  · rename_i h tl heq
    have hx : 'x' ∈ d1 ++ sign :: d2 := by rw [heq]; simp
    rcases hall 'x' hx with h | h
    · cases h
    · rcases hs with rfl | rfl <;> cases h
  · exact hdec

/-- C17: the `is_number` of `eval.c` accepts one sign at any place in front of
the point: a string of digits, a sign and further digits is a number, and when
the sign is not in front its value is the value of the digits before the sign.
The strings `1-2`, `12+`, `-` and `+` are numbers (1, 12, 0 and 0), the
beginnings `tr` and `o` of boolean words are numbers as well, while `1 2`, `.`
and the empty string are not; `integer('1-2')` evaluates to 1 and
`integer('-')` to 0. -/
theorem C17_sign_accepted_inside_a_numeral (P : Platform) (sign : Char)
    (hs : sign = '-' ∨ sign = '+') (d1 d2 : List Char)
    (h1 : ∀ c ∈ d1, IS_NUMERIC c = true) (h2 : ∀ c ∈ d2, IS_NUMERIC c = true) :
    is_number P (d1 ++ sign :: d2)
        = .ok (atoll (d1 ++ sign :: d2), Double.ofInt (atoll (d1 ++ sign :: d2)))
      ∧ (d1 ≠ [] → atoll (d1 ++ sign :: d2) = atoll d1)
      ∧ is_number P "1-2".toList = .ok (1, Double.fin 1 0)
      ∧ is_number P "12+".toList = .ok (12, Double.fin 12 0)
      ∧ is_number P "-".toList = .ok (0, Double.fin 0 0)
      ∧ is_number P "+".toList = .ok (0, Double.fin 0 0)
      ∧ is_number P "tr".toList = .ok (1, Double.fin 1 0)
      ∧ is_number P "o".toList = .ok (1, Double.fin 1 0)
      ∧ is_number P "1 2".toList = .error EXP_ER_NONNUMERIC
      ∧ is_number P ".".toList = .error EXP_ER_NONNUMERIC
      ∧ is_number P [] = .error EXP_ER_NONNUMERIC
      ∧ solve_text P "integer('1-2')".toList = .ok (.EXP_INTEGER 1)
      ∧ solve_text P "integer('-')".toList = .ok (.EXP_INTEGER 0) := by
  refine ⟨is_number_sign_inside P sign hs d1 d2 h1 h2, ?_, rfl, rfl, rfl, rfl, rfl, rfl, rfl, rfl,
    rfl, rfl, rfl⟩
  intro hne
  obtain ⟨c, cs, rfl⟩ := List.exists_cons_of_ne_nil hne
  have hc : IS_NUMERIC c = true := h1 c (List.mem_cons_self _ _)
  have hsn : IS_NUMERIC sign = false := by rcases hs with rfl | rfl <;> rfl
  have hd : ∀ rest : List Char, (c :: rest).dropWhile (fun c => c == ' ' || c == '\t'
      || c == '\n' || c == '\r' || c.toNat == 11 || c.toNat == 12) = c :: rest := by
    intro rest
    have e1 : (c.toNat == 11) = false := by
      cases h : c.toNat == 11
      · rfl
      · have : c.toNat = 11 := by simpa using h
        simp only [IS_NUMERIC, Bool.and_eq_true, decide_eq_true_eq] at hc
        have : 48 ≤ c.toNat := hc.1
        omega
    have e2 : (c.toNat == 12) = false := by
      cases h : c.toNat == 12
      · rfl
      · have : c.toNat = 12 := by simpa using h
        simp only [IS_NUMERIC, Bool.and_eq_true, decide_eq_true_eq] at hc
        have : 48 ≤ c.toNat := hc.1
        omega
    simp only [List.dropWhile_cons, char_ne_of IS_NUMERIC c ' ' hc rfl,
      char_ne_of IS_NUMERIC c '\t' hc rfl, char_ne_of IS_NUMERIC c '\r' hc rfl,
      char_ne_of IS_NUMERIC c '\n' hc rfl, e1, e2, Bool.or_self, Bool.false_eq_true, if_false]
  have hm : (c == '-') = false := char_ne_of IS_NUMERIC c '-' hc rfl
  have hp : (c == '+') = false := char_ne_of IS_NUMERIC c '+' hc rfl
  have key : ∀ rest : List Char, atoll (c :: rest) = min INT64_MAX (atoll_digits (c :: rest) 0) := by
    intro rest
    unfold atoll
    simp only [hd]
    split
    · rename_i ds heq
      injection heq with a b
      rw [a] at hm; cases hm
    · rename_i ds heq
      injection heq with a b
      rw [a] at hp; cases hp
    · rfl
  rw [List.cons_append, key, key, ← List.cons_append, atoll_digits_stop _ sign d2 hsn]

/-- C17 at `1-2`: the string is read as the number 1. -/
theorem C17_sign_accepted_inside_a_numeral_witness :
    is_number exact_platform "1-2".toList = .ok (1, Double.fin 1 0)
      ∧ atoll "1-2".toList = atoll "1".toList :=
  ⟨(C17_sign_accepted_inside_a_numeral exact_platform '-' (Or.inl rfl) "1".toList "2".toList
      (by decide) (by decide)).1,
   (C17_sign_accepted_inside_a_numeral exact_platform '-' (Or.inl rfl) "1".toList "2".toList
      (by decide) (by decide)).2.1 (by decide)⟩

/-! ## C21 and C22: `bin2dec`, `hex2dec` and `oct2dec` -/

/-- The value of a string of digits is at least the value it continues from. -/
theorem le_digits_value (base : Nat) (hbase : 1 ≤ base) (cs : List Char) :
    ∀ acc, acc ≤ digits_value base cs acc := by
  induction cs with
  | nil => intro acc; exact le_rfl
  | cons c cs ih =>
    intro acc
    have h1 := ih (acc * base + (base_digit base c).getD 0)
    have h2 : acc ≤ acc * base := Nat.le_mul_of_pos_right acc hbase
    simp only [digits_value]
    omega

/-- The loop of the conversions reads a string part by part. -/
theorem digits_to_uint_append (digit : Char → Option Nat) (base : Nat) (a b : List Char) :
    ∀ acc, digits_to_uint digit base (a ++ b) acc
      = match digits_to_uint digit base a acc with
        | .error e => .error e
        | .ok r => digits_to_uint digit base b r := by
  induction a with
  | nil => intro acc; rfl
  | cons c cs ih =>
    intro acc
    simp only [List.cons_append, digits_to_uint]
    cases hd : digit c with
    | none => rfl
    | some i =>
      simp only []
      split
      · rfl
      · exact ih _

/-- While the value stays within `INT64_MAX`, the loop of the conversions
computes the value of the digits. -/
theorem digits_to_uint_exact (digit : Char → Option Nat) (base : Nat) (hbase : 1 ≤ base)
    (hdigit : ∀ c, digit c = base_digit base c) (cs : List Char) :
    ∀ acc, (∀ c ∈ cs, (digit c).isSome = true) →
      digits_value base cs acc ≤ 9223372036854775807 →
      digits_to_uint digit base cs acc = .ok (digits_value base cs acc) := by
  induction cs with
  | nil => intro acc _ _; rfl
  | cons c cs ih =>
    intro acc hcs hle
    have hc := hcs c (List.mem_cons_self _ _)
    obtain ⟨i, hi⟩ := Option.isSome_iff_exists.1 hc
    have hb : base_digit base c = some i := by rw [← hdigit]; exact hi
    simp only [digits_value, hb, Option.getD_some] at hle ⊢
    have h1 := le_digits_value base hbase cs (acc * base + i)
    have hmod : (acc * base + i) % 18446744073709551616 = acc * base + i :=
      Nat.mod_eq_of_lt (by omega)
    simp only [digits_to_uint, hi, hmod, INT64_MAX]
    rw [if_neg (by omega)]
    exact ih _ (fun x hx => hcs x (List.mem_cons_of_mem _ hx)) hle

/-- When no step of the loop can pass `2 ^ 64`, a value above `INT64_MAX` is
reported as an overflow. -/
theorem digits_to_uint_overflow (digit : Char → Option Nat) (base : Nat)
    (hdigit : ∀ c, digit c = base_digit base c)
    (hlt : ∀ c v, digit c = some v → v < base) (cs : List Char) :
    ∀ acc, (∀ c ∈ cs, (digit c).isSome = true) →
      (acc + 1) * base ^ cs.length ≤ 18446744073709551616 →
      9223372036854775807 < digits_value base cs acc →
      acc ≤ 9223372036854775807 →
      digits_to_uint digit base cs acc = .error EXP_ER_INTOVERFLOW := by
  induction cs with
  | nil =>
    intro acc _ _ hgt hacc
    simp only [digits_value] at hgt
    omega
  | cons c cs ih =>
    intro acc hcs hbound hgt hacc
    have hc := hcs c (List.mem_cons_self _ _)
    obtain ⟨i, hi⟩ := Option.isSome_iff_exists.1 hc
    have hb : base_digit base c = some i := by rw [← hdigit]; exact hi
    have hib := hlt c i hi
    simp only [digits_value, hb, Option.getD_some] at hgt
    simp only [List.length_cons, pow_succ] at hbound
    have hpos : 1 ≤ base ^ cs.length := Nat.one_le_pow _ _ (by omega)
    have hnext : (acc * base + i + 1) * base ^ cs.length ≤ 18446744073709551616 := by
      calc (acc * base + i + 1) * base ^ cs.length
          ≤ ((acc + 1) * base) * base ^ cs.length := by
            apply Nat.mul_le_mul_right
            have : (acc + 1) * base = acc * base + base := by ring
            omega
        _ = (acc + 1) * (base ^ cs.length * base) := by ring
        _ ≤ 18446744073709551616 := hbound
    have hsmall : acc * base + i < 18446744073709551616 := by
      have : (acc * base + i + 1) * 1 ≤ (acc * base + i + 1) * base ^ cs.length :=
        Nat.mul_le_mul_left _ hpos
      omega
    have hmod : (acc * base + i) % 18446744073709551616 = acc * base + i :=
      Nat.mod_eq_of_lt hsmall
    simp only [digits_to_uint, hi, hmod, INT64_MAX]
    by_cases hov : ((acc * base + i : Nat) : Int) > 9223372036854775807
    · rw [if_pos hov]
    · rw [if_neg hov]
      exact ih _ (fun x hx => hcs x (List.mem_cons_of_mem _ hx)) hnext hgt (by omega)

/-- In base 2 no step of the loop can pass `2 ^ 64`: a value above `INT64_MAX`
is always reported as an overflow. -/
theorem digits_to_uint_binary_overflow (cs : List Char) :
    ∀ acc, (∀ c ∈ cs, (IS_BINARY c).isSome = true) →
      9223372036854775807 < digits_value 2 cs acc →
      acc ≤ 9223372036854775807 →
      digits_to_uint IS_BINARY 2 cs acc = .error EXP_ER_INTOVERFLOW := by
  induction cs with
  | nil =>
    intro acc _ hgt hacc
    simp only [digits_value] at hgt
    omega
  | cons c cs ih =>
    intro acc hcs hgt hacc
    have hc := hcs c (List.mem_cons_self _ _)
    obtain ⟨i, hi⟩ := Option.isSome_iff_exists.1 hc
    have hb : base_digit 2 c = some i := hi
    have hib := IS_BINARY_lt c i hi
    simp only [digits_value, hb, Option.getD_some] at hgt
    have hmod : (acc * 2 + i) % 18446744073709551616 = acc * 2 + i :=
      Nat.mod_eq_of_lt (by omega)
    simp only [digits_to_uint, hi, hmod, INT64_MAX]
    by_cases hov : ((acc * 2 + i : Nat) : Int) > 9223372036854775807
    · rw [if_pos hov]
    · rw [if_neg hov]
      exact ih _ (fun x hx => hcs x (List.mem_cons_of_mem _ hx)) hgt (by omega)

/-- The binary digits are the characters `0` and `1`. -/
theorem IS_BINARY_isSome (c : Char) : (IS_BINARY c).isSome = true ↔ (c = '0' ∨ c = '1') := by
  unfold IS_BINARY
  by_cases h0 : c = '0'
  · simp [h0]
  · by_cases h1 : c = '1'
    · simp [h1]
    · simp [h0, h1]

/-- The value that `call_to_dec` stores for an accumulator within `INT64_MAX`. -/
theorem wrap64_of_le (n : Nat) (h : n ≤ 9223372036854775807) : wrap64 (n : Int) = n := by
  unfold wrap64
  omega

/-- C22: for a string `s` of the characters `0` and `1`, the empty string
included, `bin2dec(s)` is the Integer of the base-2 value of `s` when that value
is at most `INT64_MAX` and fails with `EXP_ER_INTOVERFLOW` otherwise; a String
with another character after such an `s` fails with `EXP_ER_INVALARGV` when the
value of `s` is at most `INT64_MAX` (no overflow before that character) and with
`EXP_ER_INTOVERFLOW` otherwise; an argument of another type fails with
`EXP_ER_NONSTRING`, no argument with `EXP_ER_INVALARGCLOW` and more than one
with `EXP_ER_INVALARGCHIGH`. -/
theorem C22_bin2dec (p : Nat) (s : List Char) (hs : ∀ c ∈ s, c = '0' ∨ c = '1') :
    call_bin2dec [tok p (.T_STRING s)]
        = (if digits_value 2 s 0 ≤ 9223372036854775807
           then .ok (.T_INTEGER (digits_value 2 s 0)) else .error EXP_ER_INTOVERFLOW)
    ∧ (∀ c post, c ≠ '0' → c ≠ '1' →
        call_bin2dec [tok p (.T_STRING (s ++ c :: post))]
          = (if digits_value 2 s 0 ≤ 9223372036854775807
             then .error EXP_ER_INVALARGV else .error EXP_ER_INTOVERFLOW))
    ∧ (∀ t : token_t, t.type ≠ T_STRING → call_bin2dec [t] = .error EXP_ER_NONSTRING)
    ∧ call_bin2dec [] = .error EXP_ER_INVALARGCLOW
    ∧ (∀ a b rest, call_bin2dec (a :: b :: rest) = .error EXP_ER_INVALARGCHIGH) := by
  have hsome : ∀ c ∈ s, (IS_BINARY c).isSome = true :=
    fun c hc => (IS_BINARY_isSome c).2 (hs c hc)
  refine ⟨?_, ?_, ?_, rfl, fun _ _ _ => rfl⟩
  · simp only [call_bin2dec, call_to_dec, tok, token_t.param]
    by_cases hle : digits_value 2 s 0 ≤ 9223372036854775807
    · rw [digits_to_uint_exact IS_BINARY 2 (by decide) (fun _ => rfl) s 0 hsome hle, if_pos hle]
      simp only [wrap64_of_le _ hle]
    · rw [digits_to_uint_binary_overflow s 0 hsome (by omega) (by decide), if_neg hle]
  · intro c post h0 h1
    have hnone : IS_BINARY c = none := by
      cases hq : IS_BINARY c with
      | none => rfl
      | some v =>
        have := (IS_BINARY_isSome c).1 (by simp [hq])
        rcases this with h | h
        · exact absurd h h0
        · exact absurd h h1
    simp only [call_bin2dec, call_to_dec, tok, token_t.param, digits_to_uint_append]
    by_cases hle : digits_value 2 s 0 ≤ 9223372036854775807
    · rw [digits_to_uint_exact IS_BINARY 2 (by decide) (fun _ => rfl) s 0 hsome hle, if_pos hle]
      simp only [digits_to_uint, hnone]
    · rw [digits_to_uint_binary_overflow s 0 hsome (by omega) (by decide), if_neg hle]
  · intro t ht
    obtain ⟨q, v, ch⟩ := t
    cases v <;> first
      | rfl
      | exact absurd rfl ht

/-- C22 at `bin2dec('101')`: the Integer 5. -/
theorem C22_bin2dec_witness :
    call_bin2dec [tok 8 (.T_STRING "101".toList)] = .ok (.T_INTEGER 5) :=
  (C22_bin2dec 8 "101".toList (by decide)).1

/-- The hexadecimal digits are recognised by `IS_HEXADEMICAL`. -/
theorem IS_HEXADEMICAL_isSome :
    ∀ c ∈ "0123456789abcdefABCDEF".toList, (IS_HEXADEMICAL c).isSome = true := by
  decide

/-- The octal digits are recognised by `IS_OCTAL`. -/
theorem IS_OCTAL_isSome : ∀ c ∈ "01234567".toList, (IS_OCTAL c).isSome = true := by
  decide

/-- C21, what the code does. For a string `h` of hexadecimal digits whose
base-16 value is at most `INT64_MAX`, `hex2dec(h)` is the Integer of that value,
and a value above `INT64_MAX` is reported as `EXP_ER_INTOVERFLOW` when `h` has
at most 16 digits; the same holds for `oct2dec` and a string `o` of octal digits
whose value is at most `INT64_MAX`. With more digits the 64-bit accumulator
wraps before it is tested: `hex2dec('10000000000000000')`, of value `2 ^ 64`, is
the Integer 0, `hex2dec('10000000000000001')` is 1 and
`oct2dec('2000000000000000000000')`, of value `2 ^ 64`, is the Integer 0, while
`hex2dec('8000000000000000')` fails with `EXP_ER_INTOVERFLOW`. -/
theorem C21_overflow_missed_after_wrap (p : Nat) (h o : List Char)
    (hh : ∀ c ∈ h, c ∈ "0123456789abcdefABCDEF".toList)
    (ho : ∀ c ∈ o, c ∈ "01234567".toList) :
    (digits_value 16 h 0 ≤ 9223372036854775807 →
        call_hex2dec [tok p (.T_STRING h)] = .ok (.T_INTEGER (digits_value 16 h 0)))
    ∧ (9223372036854775807 < digits_value 16 h 0 → h.length ≤ 16 →
        call_hex2dec [tok p (.T_STRING h)] = .error EXP_ER_INTOVERFLOW)
    ∧ (digits_value 8 o 0 ≤ 9223372036854775807 →
        call_oct2dec [tok p (.T_STRING o)] = .ok (.T_INTEGER (digits_value 8 o 0)))
    ∧ digits_value 16 "10000000000000000".toList 0 = 18446744073709551616
    ∧ call_hex2dec [tok p (.T_STRING "10000000000000000".toList)] = .ok (.T_INTEGER 0)
    ∧ call_hex2dec [tok p (.T_STRING "10000000000000001".toList)] = .ok (.T_INTEGER 1)
    ∧ digits_value 8 "2000000000000000000000".toList 0 = 18446744073709551616
    ∧ call_oct2dec [tok p (.T_STRING "2000000000000000000000".toList)] = .ok (.T_INTEGER 0)
    ∧ call_hex2dec [tok p (.T_STRING "8000000000000000".toList)]
        = .error EXP_ER_INTOVERFLOW := by
  have hsome : ∀ c ∈ h, (IS_HEXADEMICAL c).isSome = true :=
    fun c hc => IS_HEXADEMICAL_isSome c (hh c hc)
  have osome : ∀ c ∈ o, (IS_OCTAL c).isSome = true :=
    fun c hc => IS_OCTAL_isSome c (ho c hc)
  refine ⟨?_, ?_, ?_, rfl, rfl, rfl, rfl, rfl, rfl⟩
  · intro hle
    simp only [call_hex2dec, call_to_dec, tok, token_t.param]
    rw [digits_to_uint_exact IS_HEXADEMICAL 16 (by decide)
      (fun _ => by simp [base_digit]) h 0 hsome hle]
    simp only [wrap64_of_le _ hle]
  · intro hgt hlen
    simp only [call_hex2dec, call_to_dec, tok, token_t.param]
    have hpow : (0 + 1) * 16 ^ h.length ≤ 18446744073709551616 := by
      have : 16 ^ h.length ≤ 16 ^ 16 := Nat.pow_le_pow_right (by decide) hlen
      norm_num at this ⊢
      exact this
    rw [digits_to_uint_overflow IS_HEXADEMICAL 16 (fun _ => by simp [base_digit])
      (fun c v hv => IS_HEXADEMICAL_lt c v hv) h 0 hsome hpow hgt (by decide)]
  · intro hle
    simp only [call_oct2dec, call_to_dec, tok, token_t.param]
    rw [digits_to_uint_exact IS_OCTAL 8 (by decide)
      (fun _ => by simp [base_digit]) o 0 osome hle]
    simp only [wrap64_of_le _ hle]

/-- C21 at `hex2dec('7fffffffffffffff')` and `oct2dec('17')`: the Integers
`INT64_MAX` and 15. -/
theorem C21_overflow_missed_after_wrap_witness :
    call_hex2dec [tok 8 (.T_STRING "7fffffffffffffff".toList)]
        = .ok (.T_INTEGER 9223372036854775807)
    ∧ call_oct2dec [tok 8 (.T_STRING "17".toList)] = .ok (.T_INTEGER 15) :=
  ⟨(C21_overflow_missed_after_wrap 8 "7fffffffffffffff".toList "17".toList
      (by decide) (by decide)).1 (by decide),
   (C21_overflow_missed_after_wrap 8 "7fffffffffffffff".toList "17".toList
      (by decide) (by decide)).2.2.1 (by decide)⟩

/-! ## C23: functions of the host -/

/-- C23: for a name that is not in the table of built-ins, `exp_call_function`
on a stack whose top holds the arguments `args` (given here in source order)
fails with `EXP_ER_INVALFUNC` when no function callback is registered; with a
callback, the callback is applied to the name and the exported arguments in
source order, and its status decides: 0 gives success with the returned value
pushed in place of the arguments (`EXP_ER_INVALRET` when the value has none of
the four types), 1 gives `EXP_ER_INVALFUNC` and every other status
`EXP_ER_USERFUNCERROR`. The returned value is stored by `IMPORT_TO_VALUE_T`,
and a Real zero is stored as 0. -/
theorem C23_host_function (P : Platform) (exp : expression_t) (fname : String)
    (args rest : List token_t)
    (hname : function_lookup P fname = none) :
    (exp.fhandler = none →
        exp_call_function P exp fname args.length (args.reverse ++ rest)
          = .error EXP_ER_INVALFUNC)
    ∧ (∀ fhandler, exp.fhandler = some fhandler →
        ∀ status exv,
          fhandler fname (args.map (fun t => EXPORT_FROM_VALUE_T t.param)) = (status, exv) →
          exp_call_function P exp fname args.length (args.reverse ++ rest)
            = if status = 0 then
                (if exv = .EXP_NONE then .error EXP_ER_INVALRET
                 else .ok (token_t.mk 0 (positive_zero (IMPORT_TO_VALUE_T exv)) [] :: rest))
              else if status = 1 then .error EXP_ER_INVALFUNC
              else .error EXP_ER_USERFUNCERROR) := by
  have htake : ((args.reverse ++ rest).take args.length).reverse = args := by
    rw [← List.length_reverse args, List.take_left, List.reverse_reverse]
  have hdrop : (args.reverse ++ rest).drop args.length = rest := by
    rw [← List.length_reverse args, List.drop_left]
  constructor
  · intro hnone
    simp [exp_call_function, htake, call_status, hname, hnone]
  · intro fhandler hsome status exv hcall
    simp only [exp_call_function, htake, hdrop, call_status, hname, hsome, hcall]
    by_cases h0 : status = 0
    · subst h0
      cases exv with
      | EXP_NONE => simp [IMPORT_TO_VALUE_T, value_t.type]
      | EXP_INTEGER i => simp [IMPORT_TO_VALUE_T, value_t.type]
      | EXP_REAL r => simp [IMPORT_TO_VALUE_T, value_t.type]
      | EXP_BOOLEAN b => simp [IMPORT_TO_VALUE_T, value_t.type]
      | EXP_STRING s => cases s <;> simp [IMPORT_TO_VALUE_T, value_t.type]
    · by_cases h1 : status = 1
      · subst h1
        simp
      · simp [h0, h1]

/-- C23 at `twice(21)` with a host callback that doubles an Integer: the
callback receives the argument 21 and the call leaves the Integer 42 on the
stack. -/
theorem C23_host_function_witness :
    function_lookup exact_platform "twice" = none
    ∧ exp_call_function exact_platform ⟨[], [], some twice_handler, none⟩ "twice" 1
        [tok 6 (.T_INTEGER 21), tok 0 (.T_INTEGER 5)]
      = .ok [token_t.mk 0 (.T_INTEGER 42) [], tok 0 (.T_INTEGER 5)] :=
  ⟨rfl, ((C23_host_function exact_platform ⟨[], [], some twice_handler, none⟩ "twice"
      [tok 6 (.T_INTEGER 21)] [tok 0 (.T_INTEGER 5)] rfl).2 twice_handler rfl 0
      (.EXP_INTEGER 42) rfl)⟩

/-! ## C24: the resolution of parameters -/

/-- A name that is not a predefined constant is not substituted by
`substitute_parameter`. -/
theorem substitute_parameter_none (name : String) (h : is_predefined name = false) :
    substitute_parameter name = none := by
  simp only [is_predefined, spec_constant_names, List.any_cons, List.any_nil, Bool.or_false,
    Bool.or_eq_false_iff] at h
  obtain ⟨h1, h2, h3, h4, h5, h6, h7, h8⟩ := h
  have e : ∀ w : String, (w.toList == name.toList.map Char.toLower) = false →
      w.toList.map Char.toLower = w.toList →
      strcasecmp_eq w.toList name.toList = false := by
    intro w hw hl
    simp only [strcasecmp_eq, hl]
    exact hw
  simp only [substitute_parameter, e "pi" h1 rfl, e "e" h2 rfl, e "true" h3 rfl, e "yes" h4 rfl,
    e "on" h5 rfl, e "false" h6 rfl, e "no" h7 rfl, e "off" h8 rfl, Bool.or_self,
    Bool.false_eq_true, if_false]

/-- The length of the text `Unknown parameter '<name>'`. -/
theorem spec_unknown_parameter_length (name : String) :
    (spec_unknown_parameter name).toList.length = name.length + 20 := by
  have a : "Unknown parameter '".length = 19 := rfl
  have b : "'".length = 1 := rfl
  show (spec_unknown_parameter name).length = name.length + 20
  rw [spec_unknown_parameter, String.length_append, String.length_append, a, b]
  omega

/-- The name of 1004 bytes is not a predefined constant. -/
theorem long_name_not_predefined : is_predefined long_name = false := by
  rw [Bool.eq_false_iff]
  intro h
  simp only [is_predefined, List.any_eq_true] at h
  obtain ⟨w, hw, heq⟩ := h
  have hlen : ∀ w ∈ spec_constant_names, w.toList.length ≤ 5 := by decide
  have h1 := congrArg List.length (beq_iff_eq.1 heq)
  have h2 := hlen w hw
  have h3 : long_name.toList.length = 1004 := List.length_replicate _ _
  rw [List.length_map, h3] at h1
  omega

/-- The first parameter that is neither a predefined constant nor resolved by
the parameter callback ends `exp_solve`. -/
theorem exp_solve_unknown_parameter (P : Platform) (exp : expression_t)
    (pre pre1 post : List token_t) (p : Nat) (name : String)
    (hpre : substitute_parameters_in_expr.list exp (exp_token_dup.list pre) = .ok pre1)
    (hname : is_predefined name = false)
    (hcb : exp.phandler = none ∨ ∃ ph, exp.phandler = some ph ∧ (ph name).1 ≠ 0) :
    exp_solve P (with_tokens exp (pre ++ tok p (.T_PARAMETER name) :: post))
      = .error ⟨EXP_ER_INVALPARAM,
          String.mk ((spec_unknown_parameter name).toList.take 1023), p⟩ := by
  have hone : substitute_parameters_in_expr exp (tok p (.T_PARAMETER name))
      = .error ⟨EXP_ER_INVALPARAM,
          String.mk ((spec_unknown_parameter name).toList.take 1023), p⟩ := by
    simp only [tok, substitute_parameters_in_expr, substitute_parameter_none name hname]
    rcases hcb with h | ⟨ph, h, hst⟩
    · simp only [h]
      rfl
    · simp only [h]
      rcases hq : ph name with ⟨st, exv⟩
      rw [hq] at hst
      simp only [] at hst
      simp only [if_neg hst]
      rfl
  have hs : substitute_parameters_in_expr.list (with_tokens exp (pre ++ tok p (.T_PARAMETER name) :: post))
      (exp_token_dup.list (with_tokens exp (pre ++ tok p (.T_PARAMETER name) :: post)).tokens)
      = .error ⟨EXP_ER_INVALPARAM,
          String.mk ((spec_unknown_parameter name).toList.take 1023), p⟩ := by
    rw [substitute_list_with_tokens]
    show substitute_parameters_in_expr.list exp
      (exp_token_dup.list (pre ++ tok p (.T_PARAMETER name) :: post)) = _
    rw [dup_list_append, substitute_list_append, hpre]
    simp only [exp_token_dup.list, dup_tok, substitute_parameters_in_expr.list, hone]
  simp only [exp_solve, hs]

/-- C24, as amended. In `exp_solve` the names `pi` and `e` resolve to Real
constants, `true`, `yes` and `on` to Boolean true and `false`, `no` and `off` to
Boolean false, whatever callbacks are registered; a parameter `name` that is
not a predefined constant is resolved by the parameter callback, and when no
callback is registered or the callback returns non-zero for the first such
parameter of the RPN, `exp_solve` fails with `EXP_ER_INVALPARAM` at the position
of that parameter token, with the first 1023 bytes of the text
`Unknown parameter '<name>'` as the message: the whole text when the name has at
most 1003 bytes. -/
theorem C24_parameter_resolution (P : Platform) (exp : expression_t)
    (pre pre1 post : List token_t) (p : Nat) (name : String)
    (hpre : substitute_parameters_in_expr.list exp (exp_token_dup.list pre) = .ok pre1)
    (hname : is_predefined name = false)
    (hcb : exp.phandler = none ∨ ∃ ph, exp.phandler = some ph ∧ (ph name).1 ≠ 0) :
    exp_solve P (with_tokens exp (pre ++ tok p (.T_PARAMETER name) :: post))
        = .error ⟨EXP_ER_INVALPARAM,
            String.mk ((spec_unknown_parameter name).toList.take 1023), p⟩
    ∧ (name.length ≤ 1003 →
        exp_solve P (with_tokens exp (pre ++ tok p (.T_PARAMETER name) :: post))
          = .error ⟨EXP_ER_INVALPARAM, spec_unknown_parameter name, p⟩)
    ∧ (∀ ph exv c, exp.phandler = some ph → ph name = (0, exv) → exv ≠ .EXP_NONE →
        substitute_parameters_in_expr exp (token_t.mk p (.T_PARAMETER name) c)
          = .ok (token_t.mk p (IMPORT_TO_VALUE_T exv) c))
    ∧ exp_solve P (with_tokens exp [tok p (.T_PARAMETER "pi")])
        = .ok (.EXP_REAL (Double.fin 7074237752028440 (-51)))
    ∧ exp_solve P (with_tokens exp [tok p (.T_PARAMETER "e")])
        = .ok (.EXP_REAL (Double.fin 6121026514868073 (-51)))
    ∧ exp_solve P (with_tokens exp [tok p (.T_PARAMETER "true")]) = .ok (.EXP_BOOLEAN 1)
    ∧ exp_solve P (with_tokens exp [tok p (.T_PARAMETER "yes")]) = .ok (.EXP_BOOLEAN 1)
    ∧ exp_solve P (with_tokens exp [tok p (.T_PARAMETER "on")]) = .ok (.EXP_BOOLEAN 1)
    ∧ exp_solve P (with_tokens exp [tok p (.T_PARAMETER "false")]) = .ok (.EXP_BOOLEAN 0)
    ∧ exp_solve P (with_tokens exp [tok p (.T_PARAMETER "no")]) = .ok (.EXP_BOOLEAN 0)
    ∧ exp_solve P (with_tokens exp [tok p (.T_PARAMETER "off")]) = .ok (.EXP_BOOLEAN 0) := by
  have main := exp_solve_unknown_parameter P exp pre pre1 post p name hpre hname hcb
  refine ⟨main, ?_, ?_, rfl, rfl, rfl, rfl, rfl, rfl, rfl, rfl⟩
  · intro hlen
    rw [main]
    have hl : (spec_unknown_parameter name).toList.length ≤ 1023 := by
      rw [spec_unknown_parameter_length]
      omega
    rw [List.take_of_length_le hl]
    rfl
  · intro ph exv c hph hq hne
    simp only [substitute_parameters_in_expr, substitute_parameter_none name hname, hph, hq]
    cases exv with
    | EXP_NONE => exact absurd rfl hne
    | EXP_INTEGER i => rfl
    | EXP_REAL r => rfl
    | EXP_BOOLEAN b => rfl
    | EXP_STRING s => cases s <;> rfl

/-- C24 as amended, at `1 + y` without a parameter callback: `exp_solve` fails at
offset 4 with the message `Unknown parameter 'y'`. -/
theorem C24_parameter_resolution_witness :
    exp_solve exact_platform (with_tokens (plain_expression [])
        ([tok 0 (.T_INTEGER 1)] ++ tok 4 (.T_PARAMETER "y") :: [tok 2 (.T_OPERATOR O_PLUS)]))
      = .error ⟨EXP_ER_INVALPARAM, "Unknown parameter 'y'", 4⟩ :=
  (C24_parameter_resolution exact_platform (plain_expression []) [tok 0 (.T_INTEGER 1)]
    [tok 0 (.T_INTEGER 1)] [tok 2 (.T_OPERATOR O_PLUS)] 4 "y" rfl rfl (Or.inl rfl)).2.1
    (by decide)

/-- C24 as stated fails for a parameter name of 1004 bytes: the message of
`exp_solve` has 1023 bytes and is not the text `Unknown parameter '<name>'`,
which has 1024. -/
theorem C24_counterexample :
    ∃ message,
      (∀ P : Platform, exp_solve P (plain_expression [tok 0 (.T_PARAMETER long_name)])
        = .error ⟨EXP_ER_INVALPARAM, message, 0⟩)
      ∧ message.length = 1023
      ∧ (spec_unknown_parameter long_name).length = 1024
      ∧ message ≠ spec_unknown_parameter long_name := by
  have main := fun P : Platform =>
    exp_solve_unknown_parameter P (plain_expression []) [] [] [] 0 long_name rfl
      long_name_not_predefined (Or.inl rfl)
  have hlen : (spec_unknown_parameter long_name).toList.length = 1024 := by
    rw [spec_unknown_parameter_length]
    show (List.replicate 1004 'a').length + 20 = 1024
    rw [List.length_replicate]
  have hmsg : (String.mk ((spec_unknown_parameter long_name).toList.take 1023)).length
      = 1023 := by
    show ((spec_unknown_parameter long_name).toList.take 1023).length = 1023
    rw [List.length_take, hlen]
    rfl
  refine ⟨_, main, hmsg, hlen, ?_⟩
  intro heq
  rw [heq] at hmsg
  have : (spec_unknown_parameter long_name).length = 1024 := hlen
  omega

/-! ## C27: the conditional in `exp_rpn` -/

/-- C27, as amended. When the reading loop of `exp_rpn` meets a
`T_IFCONDITION` token with the else-branch, the then-branch and the condition
on top of the stack and the condition coerces to the Boolean `b`, it runs
`exp_rpn` on the children of the then-branch when `b` is true and of the
else-branch otherwise, fails with the failure of that run, and else replaces the
three entries by the value of the run narrowed (a Real equal to an integer of
the 64-bit range retagged Integer, every value of another type unchanged), at
the position of the condition; the children of the other branch do not occur in
the result. With fewer than three entries, or a top pair that is not two
`T_IFSTATEMENT` tokens, it fails with `EXP_ER_INVALEXPR` at the position of the
`T_IFCONDITION` token. -/
theorem C27_conditional_step (P : Platform) (exp : expression_t)
    (curr cond iftrue iffalse : token_t) (in_ s : List token_t) (b : Int)
    (hcurr : curr.type = T_IFCONDITION)
    (ht : iftrue.type = T_IFSTATEMENT) (hf : iffalse.type = T_IFSTATEMENT)
    (hb : exp_to_boolean P cond.param = .ok b) :
    rpn_loop P exp (exp_rpn P exp) (curr :: in_) (iffalse :: iftrue :: cond :: s)
        = (match exp_rpn P exp (if b ≠ 0 then iftrue.children else iffalse.children) with
           | .error e => .error e
           | .ok v => rpn_loop P exp (exp_rpn P exp) in_
               (token_t.mk cond.position (narrow P v) [] :: s))
    ∧ (∀ v : value_t, v.type ≠ T_REAL → narrow P v = v)
    ∧ (∀ r i, Double.int_value r = some i → INT64_MIN ≤ i → i ≤ INT64_MAX →
        narrow P (.T_REAL r) = .T_INTEGER i)
    ∧ (∀ stack : List token_t,
        (stack.length < 3 ∨ ∃ t0 t1 rest, stack = t0 :: t1 :: rest
            ∧ ¬ (t0.type = T_IFSTATEMENT ∧ t1.type = T_IFSTATEMENT)) →
        rpn_loop P exp (exp_rpn P exp) (curr :: in_) stack
          = .error ⟨EXP_ER_INVALEXPR,
              "Conditional expression does not have sufficient number of operands",
              curr.position⟩) := by
  obtain ⟨pc, vc, cc⟩ := curr
  cases vc <;> simp only [token_t.type, value_t.type, token_t.param] at hcurr <;>
    try (exact absurd hcurr (by decide))
  rename_i op
  refine ⟨?_, ?_, ?_, ?_⟩
  · have h2 : (iffalse.type == T_IFSTATEMENT && iftrue.type == T_IFSTATEMENT) = true := by
      rw [ht, hf]; rfl
    obtain ⟨pq, vq, cq⟩ := cond
    simp only [token_t.param] at hb
    simp only [rpn_loop, token_t.param, h2, if_true, exp_eval_if, hb, token_t.position]
    by_cases hb0 : b ≠ 0
    · have hbne : (b != 0) = true := by simpa using hb0
      rw [if_pos hb0]
      simp only [hbne, if_true]
      cases exp_rpn P exp iftrue.children <;> rfl
    · have hbne : (b != 0) = false := by simpa using hb0
      rw [if_neg hb0]
      simp only [hbne, if_false, Bool.false_eq_true]
      cases exp_rpn P exp iffalse.children <;> rfl
  · intro v hv
    cases v <;> first
      | rfl
      | exact absurd rfl hv
  · intro r i h hlo hhi
    exact narrow_of_int_value P r i h hlo hhi
  · intro stack hst
    rcases hst with hlen | ⟨t0, t1, rest, rfl, hne⟩
    · match stack, hlen with
      | [], _ => simp [rpn_loop, token_t.param]
      | [_], _ => simp [rpn_loop, token_t.param]
      | [_, _], _ => simp [rpn_loop, token_t.param]
      | _ :: _ :: _ :: _, hlen => simp at hlen; omega
    · cases rest with
      | nil => simp [rpn_loop, token_t.param]
      | cons t2 rest =>
        have h2 : (t0.type == T_IFSTATEMENT && t1.type == T_IFSTATEMENT) = false := by
          by_cases h0 : t0.type = T_IFSTATEMENT
          · have h1 : t1.type ≠ T_IFSTATEMENT := fun h => hne ⟨h0, h⟩
            simp [h1]
          · simp [h0]
        simp only [rpn_loop, token_t.param, h2]
        rfl

/-- C27 as amended, at the RPN of `true ? 'a' : 1/0` after the substitution of
the constant: the step leaves the String `a` on the stack, the division of the
else-branch is not run, and the compiled text evaluates to the String `a`. -/
theorem C27_conditional_step_witness :
    rpn_loop exact_platform (plain_expression [])
        (exp_rpn exact_platform (plain_expression []))
        [token_t.mk 5 (.T_IFCONDITION O_IFTHEN) []]
        [token_t.mk 5 .T_IFSTATEMENT
            [tok 13 (.T_INTEGER 1), tok 15 (.T_INTEGER 0), tok 14 (.T_OPERATOR O_DIV)],
          token_t.mk 5 .T_IFSTATEMENT [tok 7 (.T_STRING "a".toList)],
          tok 0 (.T_BOOLEAN 1)]
      = .ok [token_t.mk 0 (.T_STRING "a".toList) []]
    ∧ solve_text exact_platform "true ? 'a' : 1/0".toList
      = .ok (.EXP_STRING (some "a".toList)) :=
  ⟨(C27_conditional_step exact_platform (plain_expression [])
      (token_t.mk 5 (.T_IFCONDITION O_IFTHEN) []) (tok 0 (.T_BOOLEAN 1))
      (token_t.mk 5 .T_IFSTATEMENT [tok 7 (.T_STRING "a".toList)])
      (token_t.mk 5 .T_IFSTATEMENT
        [tok 13 (.T_INTEGER 1), tok 15 (.T_INTEGER 0), tok 14 (.T_OPERATOR O_DIV)])
      [] [] 1 rfl rfl rfl rfl).1.trans rfl,
   rfl⟩

/-- C27 as stated fails at the RPN of `true ? 2.0 : 1`: on every platform
`exp_rpn` run on the children of the then-branch returns the Real 2, but the
step pushes the Integer 2. -/
theorem C27_counterexample :
    (∀ (P : Platform) (exp : expression_t),
      exp_rpn P exp [tok 7 (.T_REAL (.fin 2 0))] = .ok (.T_REAL (.fin 2 0)))
    ∧ (∀ (P : Platform) (exp : expression_t),
      rpn_loop P exp (exp_rpn P exp) [token_t.mk 5 (.T_IFCONDITION O_IFTHEN) []]
        [token_t.mk 5 .T_IFSTATEMENT [tok 13 (.T_INTEGER 1)],
          token_t.mk 5 .T_IFSTATEMENT [tok 7 (.T_REAL (.fin 2 0))],
          tok 0 (.T_BOOLEAN 1)]
      = .ok [token_t.mk 0 (.T_INTEGER 2) []]) :=
  ⟨fun _ _ => rfl, fun _ _ => rfl⟩

/-! ## C25: the text of a value -/

/-- A text that fits the buffer is stored whole by `snprintf`. -/
theorem snprintf_fits (size : Int) (text : List Char) (h : (text.length : Int) < size) :
    snprintf size.toNat text = text := by
  unfold snprintf
  apply List.take_of_length_le
  omega

/-- The cut of the trailing zeros and of a trailing point, made on the decimal
text of a Real. -/
theorem trim_decimal_text (int frac : List Char) (hfrac : ∀ c ∈ frac, IS_NUMERIC c = true) :
    (match (int ++ '.' :: frac).reverse.dropWhile (fun c => c == '0') with
      | '.' :: l1 => l1.reverse
      | l => l.reverse) = spec_real_text int frac := by
  have hrev : (int ++ '.' :: frac).reverse = frac.reverse ++ '.' :: int.reverse := by simp
  rw [hrev, List.dropWhile_append]
  cases hz : frac.reverse.dropWhile (fun c => c == '0') with
  | nil =>
    have hd : ('.' :: int.reverse).dropWhile (fun c => c == '0') = '.' :: int.reverse := by
      rw [List.dropWhile_cons_of_neg]
      decide
    simp [spec_real_text, hz, hd]
  | cons c z =>
    have hc : c ∈ frac := by
      have h1 : c ∈ frac.reverse.dropWhile (fun c => c == '0') := by rw [hz]; simp
      exact List.mem_reverse.1 ((List.dropWhile_sublist _).subset h1)
    have hne : c ≠ '.' := by
      intro h
      have := hfrac c hc
      rw [h] at this
      exact absurd this (by decide)
    simp only [List.isEmpty_cons, Bool.false_eq_true, if_false, spec_real_text, hz,
      List.reverse_cons, List.isEmpty_eq_true, List.append_eq_nil, List.cons_ne_nil,
      and_false, List.cons_append]
    split
    · rename_i l1 heq
      injection heq with h1 _
      exact absurd h1 hne
    · simp

/-- C25: `exp_value_to_string_r` with a buffer larger than the text returns for
a Real whose text in the format `%0.9f` is `int`, a point and the digits `frac`
that text with every trailing `0` of the fraction removed and then the point
when it has become the last character; for an Integer its signed decimal text;
for a Boolean `True` or `False`; for a String its bytes unchanged. It returns
`NULL` (here the `errno` it sets) when the buffer is `NULL`, when the length of
the buffer is below 1, and for a value of none of the four types. -/
theorem C25_value_to_string (P : Platform) (real : Double) (int frac : List Char)
    (buffer_max_len : Int)
    (hfmt : P.fmt_f9 real = int ++ '.' :: frac)
    (hfrac : ∀ c ∈ frac, IS_NUMERIC c = true)
    (hlen : ((P.fmt_f9 real).length : Int) < buffer_max_len) :
    exp_value_to_string_r P (.EXP_REAL real) false buffer_max_len
        = .ok (spec_real_text int frac)
    ∧ (∀ i : Int, ((fmt_lld i).length : Int) < buffer_max_len →
        exp_value_to_string_r P (.EXP_INTEGER i) false buffer_max_len
          = .ok (if i < 0 then '-' :: Nat.toDigits 10 i.natAbs else Nat.toDigits 10 i.natAbs))
    ∧ (∀ b : Int, 5 < buffer_max_len →
        exp_value_to_string_r P (.EXP_BOOLEAN b) false buffer_max_len
          = .ok (if b ≠ 0 then "True".toList else "False".toList))
    ∧ (∀ s : List Char, (s.length : Int) < buffer_max_len →
        exp_value_to_string_r P (.EXP_STRING (some s)) false buffer_max_len = .ok s)
    ∧ (∀ ev n, exp_value_to_string_r P ev true n = .error .ENOBUFS)
    ∧ (∀ ev n, n < 1 → exp_value_to_string_r P ev false n = .error .ENOBUFS)
    ∧ (∀ n, 1 ≤ n → exp_value_to_string_r P .EXP_NONE false n = .error .EINVAL) := by
  have hpos : ¬ buffer_max_len < 1 := by
    have : (0 : Int) ≤ ((P.fmt_f9 real).length : Int) := Int.natCast_nonneg _
    omega
  refine ⟨?_, ?_, ?_, ?_, ?_, ?_, ?_⟩
  · have hpoint : (int ++ '.' :: frac).contains '.' = true := by simp
    simp only [exp_value_to_string_r, Bool.false_or, decide_eq_true_eq, if_neg hpos,
      snprintf_fits _ _ hlen]
    rw [hfmt, if_pos hpoint, ← trim_decimal_text int frac hfrac]
    generalize List.dropWhile (fun c => c == '0') (int ++ '.' :: frac).reverse = l
    split
    · rfl
    · rfl
  · intro i hi
    simp only [exp_value_to_string_r, Bool.false_or, decide_eq_true_eq, if_neg hpos,
      snprintf_fits _ _ hi]
    rfl
  · intro b hb
    simp only [exp_value_to_string_r, Bool.false_or, decide_eq_true_eq, if_neg hpos]
    by_cases h0 : b ≠ 0
    · have hbne : (b != 0) = true := by simpa using h0
      rw [if_pos h0, hbne, if_pos rfl, snprintf_fits _ _ (by simp; omega)]
    · have hbne : (b != 0) = false := by simpa using h0
      rw [if_neg h0, hbne, if_neg (by simp), snprintf_fits _ _ (by simp; omega)]
  · intro s hs
    simp only [exp_value_to_string_r, Bool.false_or, decide_eq_true_eq, if_neg hpos,
      snprintf_fits _ _ hs]
  · intro ev n
    simp [exp_value_to_string_r]
  · intro ev n hn
    simp [exp_value_to_string_r, hn]
  · intro n hn
    have : ¬ n < 1 := by omega
    simp [exp_value_to_string_r, this]

/-- C25 for the Real 2.5 and a buffer of 64 bytes, on a platform whose `%0.9f`
prints `2.500000000`: the text is `2.5`. -/
theorem C25_value_to_string_witness :
    decimal_platform.fmt_f9 (.fin 5 (-1)) = "2.500000000".toList
    ∧ exp_value_to_string_r decimal_platform (.EXP_REAL (.fin 5 (-1))) false 64
        = .ok "2.5".toList :=
  ⟨by decide, (C25_value_to_string decimal_platform (.fin 5 (-1)) "2".toList
    "500000000".toList 64 (by decide) (by decide) (by decide)).1⟩

/-! ## C29: an error inside the then-branch of a conditional -/

/-- C29, what the code does. When the reading loop of the shunting-yard meets
`?` and the recursive call for the then-branch fails with any failure `e`, the
failure reported is not `e`: it is always `EXP_ER_INVALEXPR` with the message
"Colon was not found in conditional expression" at the position of `?`. For
`1 ? (2 : 3` the recursive call reports "Non-closed left parenthesis in
conditional expression" at offset 4, for `1 ? 2 ) : 3` "Unexpected right
parenthesis" at offset 6 and for `1 ? 2, 3 : 4` "Unexpected comma" at offset 5,
and `exp_create` reports the missing colon at offset 2 for all three. -/
theorem C29_then_branch_error_replaced (fuel if_operand : Nat) (curr : token_t)
    (in_ stack out : List token_t) (found argc : List Int) (e : exp_failure)
    (hq : curr.param = .T_OPERATOR O_IFTHEN)
    (h : sy_loop fuel 1 (exp_token_dup.list in_) [] [] [] [] = .error e) :
    sy_loop (fuel + 1) if_operand (curr :: in_) stack out found argc
        = .error ⟨EXP_ER_INVALEXPR, "Colon was not found in conditional expression",
            curr.position⟩
    ∧ (∀ P : Platform,
        exp_parse P "1 ? (2 : 3".toList
          = .ok [tok 0 (.T_INTEGER 1), tok 2 (.T_OPERATOR O_IFTHEN), tok 4 .T_LPAREN,
              tok 5 (.T_INTEGER 2), tok 7 (.T_OPERATOR O_ELSE), tok 9 (.T_INTEGER 3)])
    ∧ exp_shunting_yard [tok 4 .T_LPAREN, tok 5 (.T_INTEGER 2), tok 7 (.T_OPERATOR O_ELSE),
          tok 9 (.T_INTEGER 3)] 1
        = .error ⟨EXP_ER_INVALEXPR, "Non-closed left parenthesis in conditional expression", 4⟩
    ∧ exp_shunting_yard [tok 4 (.T_INTEGER 2), tok 6 .T_RPAREN, tok 8 (.T_OPERATOR O_ELSE),
          tok 10 (.T_INTEGER 3)] 1
        = .error ⟨EXP_ER_INVALEXPR, "Unexpected right parenthesis", 6⟩
    ∧ exp_shunting_yard [tok 4 (.T_INTEGER 2), tok 5 .T_COMMA, tok 7 (.T_INTEGER 3),
          tok 9 (.T_OPERATOR O_ELSE), tok 11 (.T_INTEGER 4)] 1
        = .error ⟨EXP_ER_INVALEXPR, "Unexpected comma", 5⟩
    ∧ (∀ P : Platform, ∀ text ∈ ["1 ? (2 : 3", "1 ? 2 ) : 3", "1 ? 2, 3 : 4"],
        exp_create P text.toList
          = .error ⟨EXP_ER_INVALEXPR, "Colon was not found in conditional expression", 2⟩) := by
  refine ⟨?_, fun _ => rfl, rfl, rfl, rfl, ?_⟩
  · simp only [sy_loop, hq, h]
    simp
  · intro P text ht
    simp only [List.mem_cons, List.mem_singleton, List.not_mem_nil, or_false] at ht
    rcases ht with rfl | rfl | rfl <;> rfl

/-- C29 at `1 ? (2 : 3`: the loop at `?` reports the missing colon at offset 2. -/
theorem C29_then_branch_error_replaced_witness :
    sy_loop 5 1 (exp_token_dup.list [tok 4 .T_LPAREN, tok 5 (.T_INTEGER 2),
        tok 7 (.T_OPERATOR O_ELSE), tok 9 (.T_INTEGER 3)]) [] [] [] []
      = .error ⟨EXP_ER_INVALEXPR, "Non-closed left parenthesis in conditional expression", 4⟩
    ∧ sy_loop 6 0 [tok 2 (.T_OPERATOR O_IFTHEN), tok 4 .T_LPAREN, tok 5 (.T_INTEGER 2),
        tok 7 (.T_OPERATOR O_ELSE), tok 9 (.T_INTEGER 3)] [] [tok 0 (.T_INTEGER 1)] [] []
      = .error ⟨EXP_ER_INVALEXPR, "Colon was not found in conditional expression", 2⟩ :=
  ⟨rfl, (C29_then_branch_error_replaced 5 0 (tok 2 (.T_OPERATOR O_IFTHEN))
    [tok 4 .T_LPAREN, tok 5 (.T_INTEGER 2), tok 7 (.T_OPERATOR O_ELSE), tok 9 (.T_INTEGER 3)]
    [] [tok 0 (.T_INTEGER 1)] [] []
    ⟨EXP_ER_INVALEXPR, "Non-closed left parenthesis in conditional expression", 4⟩ rfl rfl).1⟩

/-! ## The parentheses of a compiled list (C28) -/

theorem dup_type (t : token_t) : (exp_token_dup t).type = t.type := by
  obtain ⟨p, v, c⟩ := t
  cases v <;> rfl

theorem dup_list_length (l : List token_t) : (exp_token_dup.list l).length = l.length := by
  induction l with
  | nil => rfl
  | cons t ts ih => simp [exp_token_dup.list, ih]

theorem dup_fixed_suffix (a b : List token_t) (h : exp_token_dup.list (a ++ b) = a ++ b) :
    exp_token_dup.list b = b := by
  rw [dup_list_append] at h
  exact (List.append_inj h (dup_list_length a)).2

theorem paren_depth_dup (l : List token_t) :
    ∀ d, paren_depth d (exp_token_dup.list l) = paren_depth d l := by
  induction l with
  | nil => intro d; rfl
  | cons t ts ih =>
    intro d
    simp only [exp_token_dup.list, paren_depth, dup_type, ih]

theorem paren_depth_append (a b : List token_t) :
    ∀ d, paren_depth d (a ++ b) = (paren_depth d a).bind (fun d1 => paren_depth d1 b) := by
  induction a with
  | nil => intro d; rfl
  | cons t ts ih =>
    intro d
    simp only [List.cons_append, paren_depth]
    split
    · exact ih _
    · split
      · cases d with
        | zero => rfl
        | succ d1 => exact ih _
      · exact ih _

theorem paren_depth_add (a : List token_t) :
    ∀ d d1 k, paren_depth d a = some d1 → paren_depth (d + k) a = some (d1 + k) := by
  induction a with
  | nil =>
    intro d d1 k h
    simp only [paren_depth, Option.some.injEq] at h ⊢
    omega
  | cons t ts ih =>
    intro d d1 k h
    simp only [paren_depth] at h ⊢
    split
    · rename_i hl
      rw [if_pos hl] at h
      have := ih _ _ k h
      rw [show d + k + 1 = d + 1 + k by omega]
      exact this
    · rename_i hl
      rw [if_neg hl] at h
      split
      · rename_i hr
        rw [if_pos hr] at h
        cases d with
        | zero => cases h
        | succ d2 =>
          simp only at h
          rw [show d2 + 1 + k = d2 + k + 1 by omega]
          exact ih _ _ k h
      · rename_i hr
        rw [if_neg hr] at h
        exact ih _ _ k h

theorem paren_depth_balanced_front (a b : List token_t) (h : paren_depth 0 a = some 0) (d : Nat) :
    paren_depth d (a ++ b) = paren_depth d b := by
  have h1 := paren_depth_add a 0 0 d h
  simp only [Nat.zero_add] at h1
  rw [paren_depth_append, h1]
  rfl

theorem paren_depth_counts (l : List token_t) :
    ∀ d d1, paren_depth d l = some d1 →
      (∀ k, count_type T_RPAREN (l.take k) ≤ d + count_type T_LPAREN (l.take k))
        ∧ d + count_type T_LPAREN l = d1 + count_type T_RPAREN l := by
  induction l with
  | nil =>
    intro d d1 h
    simp only [paren_depth, Option.some.injEq] at h
    simp [count_type, h]
  | cons t ts ih =>
    intro d d1 h
    simp only [paren_depth] at h
    by_cases hl : (t.type == T_LPAREN) = true
    · rw [if_pos hl] at h
      have hr : (t.type == T_RPAREN) = false := by
        have : t.type = T_LPAREN := by simpa using hl
        rw [this]; rfl
      obtain ⟨h1, h2⟩ := ih _ _ h
      constructor
      · intro k
        cases k with
        | zero => simp [count_type]
        | succ k =>
          have := h1 k
          simp only [count_type, List.take_succ_cons, List.countP_cons, hl, hr, if_true,
            Bool.false_eq_true, if_false] at this ⊢
          omega
      · simp only [count_type, List.countP_cons, hl, hr, if_true, Bool.false_eq_true,
          if_false] at h2 ⊢
        omega
    · rw [if_neg hl] at h
      have hl0 : (t.type == T_LPAREN) = false := by simpa using hl
      by_cases hr : (t.type == T_RPAREN) = true
      · rw [if_pos hr] at h
        cases d with
        | zero => cases h
        | succ d2 =>
          simp only at h
          obtain ⟨h1, h2⟩ := ih _ _ h
          constructor
          · intro k
            cases k with
            | zero => simp [count_type]
            | succ k =>
              have := h1 k
              simp only [count_type, List.take_succ_cons, List.countP_cons, hl0, hr, if_true,
                Bool.false_eq_true, if_false] at this ⊢
              omega
          · simp only [count_type, List.countP_cons, hl0, hr, if_true, Bool.false_eq_true,
              if_false] at h2 ⊢
            omega
      · rw [if_neg hr] at h
        have hr0 : (t.type == T_RPAREN) = false := by simpa using hr
        obtain ⟨h1, h2⟩ := ih _ _ h
        constructor
        · intro k
          cases k with
          | zero => simp [count_type]
          | succ k =>
            have := h1 k
            simp only [count_type, List.take_succ_cons, List.countP_cons, hl0, hr0,
              Bool.false_eq_true, if_false] at this ⊢
            omega
        · simp only [count_type, List.countP_cons, hl0, hr0, Bool.false_eq_true,
            if_false] at h2 ⊢
          omega

theorem parens_balanced_of_depth (l : List token_t) (h : paren_depth 0 l = some 0) :
    parens_balanced l := by
  obtain ⟨h1, h2⟩ := paren_depth_counts l 0 0 h
  constructor
  · intro k
    have := h1 k
    omega
  · omega

theorem count_type_append (ty : token_type_t) (a b : List token_t) :
    count_type ty (a ++ b) = count_type ty a + count_type ty b := by
  simp [count_type, List.countP_append]

theorem count_type_zero (ty : token_type_t) (a : List token_t) (h : ∀ t ∈ a, t.type ≠ ty) :
    count_type ty a = 0 := by
  simp only [count_type, List.countP_eq_zero]
  intro t ht
  simpa using h t ht

theorem pop_until_lparen_split (stack : List token_t) :
    ∀ out, ∃ popped, stack = popped ++ (pop_until_lparen stack out).1
      ∧ (∀ t ∈ popped, t.type ≠ T_LPAREN)
      ∧ (pop_until_lparen stack out).2 = out ++ popped
      ∧ (∀ top rest, (pop_until_lparen stack out).1 = top :: rest → top.type = T_LPAREN) := by
  induction stack with
  | nil =>
    intro out
    exact ⟨[], rfl, by simp, by simp [pop_until_lparen], by simp [pop_until_lparen]⟩
  | cons t stack ih =>
    intro out
    simp only [pop_until_lparen]
    by_cases hl : (t.type == T_LPAREN) = true
    · rw [if_pos hl]
      refine ⟨[], rfl, by simp, by simp, ?_⟩
      intro top rest h
      simp only [List.cons.injEq] at h
      rw [← h.1]
      simpa using hl
    · rw [if_neg hl]
      obtain ⟨popped, h1, h2, h3, h4⟩ := ih (out ++ [t])
      refine ⟨t :: popped, ?_, ?_, ?_, h4⟩
      · rw [List.cons_append, ← h1]
      · intro x hx
        rcases List.mem_cons.1 hx with rfl | hx
        · simpa using hl
        · exact h2 x hx
      · rw [h3]; simp

theorem pop_operators_split (o1 : operator_t) (stack : List token_t) :
    ∀ out, ∃ popped, stack = popped ++ (pop_operators o1 stack out).1
      ∧ (∀ t ∈ popped, t.type = T_OPERATOR)
      ∧ (pop_operators o1 stack out).2 = out ++ popped := by
  induction stack with
  | nil =>
    intro out
    exact ⟨[], rfl, by simp, by simp [pop_operators]⟩
  | cons t stack ih =>
    intro out
    obtain ⟨p, v, c⟩ := t
    cases v <;> try exact ⟨[], rfl, by simp, by simp [pop_operators, token_t.param]⟩
    rename_i o2
    simp only [pop_operators, token_t.param]
    split
    · obtain ⟨popped, h1, h2, h3⟩ := ih (out ++ [token_t.mk p (.T_OPERATOR o2) c])
      refine ⟨token_t.mk p (.T_OPERATOR o2) c :: popped, ?_, ?_, ?_⟩
      · rw [List.cons_append, ← h1]
      · intro x hx
        rcases List.mem_cons.1 hx with rfl | hx
        · rfl
        · exact h2 x hx
      · rw [h3]; simp
    · exact ⟨[], rfl, by simp, by simp⟩

theorem pop_until_lparen_counts (stack out : List token_t) :
    count_type T_LPAREN (pop_until_lparen stack out).1 = count_type T_LPAREN stack
      ∧ count_type T_FUNCTION (pop_until_lparen stack out).1 ≤ count_type T_FUNCTION stack := by
  obtain ⟨popped, h1, h2, _, _⟩ := pop_until_lparen_split stack out
  constructor
  · conv_rhs => rw [h1]
    rw [count_type_append, count_type_zero _ _ h2]
    omega
  · conv_rhs => rw [h1]
    rw [count_type_append]
    omega

theorem pop_operators_counts (o1 : operator_t) (stack out : List token_t) :
    count_type T_LPAREN (pop_operators o1 stack out).1 = count_type T_LPAREN stack
      ∧ count_type T_FUNCTION (pop_operators o1 stack out).1 = count_type T_FUNCTION stack := by
  obtain ⟨popped, h1, h2, _⟩ := pop_operators_split o1 stack out
  have hl : ∀ t ∈ popped, t.type ≠ T_LPAREN := fun t ht => by rw [h2 t ht]; decide
  have hf : ∀ t ∈ popped, t.type ≠ T_FUNCTION := fun t ht => by rw [h2 t ht]; decide
  constructor
  · conv_rhs => rw [h1]
    rw [count_type_append, count_type_zero _ _ hl]
    omega
  · conv_rhs => rw [h1]
    rw [count_type_append, count_type_zero _ _ hf]
    omega

theorem sy_drain_post (m : Nat) (stack : List token_t) :
    ∀ out, (∀ e, sy_drain m stack out = .error e → e.ercode = EXP_ER_INVALEXPR)
      ∧ (∀ o, sy_drain m stack out = .ok o → count_type T_LPAREN stack = 0) := by
  induction stack with
  | nil =>
    intro out
    simp [sy_drain, count_type]
  | cons t stack ih =>
    intro out
    obtain ⟨ih1, ih2⟩ := ih (out ++ [t])
    cases ht : t.type <;> simp only [sy_drain, ht] <;>
      first
        | (constructor
           · intro e he
             first
               | exact ih1 e he
               | (split at he <;> cases he <;> rfl)
               | (cases he; rfl)
           · intro o ho
             first
               | (have h0 := ih2 o ho
                  simp only [count_type, List.countP_cons, ht] at h0 ⊢
                  simpa using h0)
               | (split at ho <;> cases ho)
               | cases ho)

theorem sy_finish_post (m : Nat) (colon_found : Bool) (pre rest stack out : List token_t)
    (hpre : ∀ d, paren_depth d pre = some d)
    (hrest : (m != 0 && colon_found) = true ∨ rest = []) :
    sy_post (count_type T_LPAREN stack) m (pre ++ rest)
      (sy_finish m colon_found rest stack out) := by
  unfold sy_finish
  obtain ⟨hd1, hd2⟩ := sy_drain_post m stack out
  cases hdr : sy_drain m stack out with
  | error e => exact hd1 e hdr
  | ok out1 =>
    have hd := hd2 out1 hdr
    simp only
    split
    · rfl
    · split
      · rename_i hc
        refine ⟨pre, rfl, ?_, ?_⟩
        · rw [hd]; exact hpre 0
        · intro hm
          subst hm
          simp at hc
      · rename_i hc
        rcases hrest with h | h
        · exact absurd h hc
        · subst h
          refine ⟨pre, by simp, ?_, fun _ => rfl⟩
          rw [hd]; exact hpre 0

theorem sy_post_prepend (L L1 m : Nat) (pre rest : List token_t)
    (r : Except exp_failure (List token_t × List token_t))
    (hpre : paren_depth L pre = some L1) (h : sy_post L1 m rest r) :
    sy_post L m (pre ++ rest) r := by
  cases r with
  | error e => exact h
  | ok x =>
    obtain ⟨o, i⟩ := x
    obtain ⟨consumed, h1, h2, h3⟩ := h
    refine ⟨pre ++ consumed, ?_, ?_, h3⟩
    · rw [h1, List.append_assoc]
    · rw [paren_depth_append, hpre]
      exact h2

theorem count_type_cons (ty : token_type_t) (t : token_t) (l : List token_t) :
    count_type ty (t :: l) = count_type ty l + (if t.type == ty then 1 else 0) := by
  simp [count_type, List.countP_cons]

theorem found_set_length (found : List Int) : (found_set found).length = found.length := by
  cases found <;> rfl

/-- The run of the shunting-yard on a copied input with enough fuel: it fails
with `EXP_ER_INVALEXPR` only, and what it reads has balanced parentheses. -/
theorem sy_loop_post (fuel : Nat) :
    ∀ (m : Nat) (in_ stack out : List token_t) (found argc : List Int),
      exp_token_dup.list in_ = in_ → in_.length ≤ fuel →
      found.length = argc.length → count_type T_FUNCTION stack ≤ found.length →
      sy_post (count_type T_LPAREN stack) m in_ (sy_loop fuel m in_ stack out found argc) := by
  induction fuel with
  | zero =>
    intro m in_ stack out found argc hdup hlen hfa hfn
    cases in_ with
    | nil =>
      simp only [sy_loop]
      exact sy_finish_post m false [] [] stack out (fun _ => rfl) (Or.inr rfl)
    | cons curr in_ => simp at hlen
  | succ fuel ih =>
    intro m in_ stack out found argc hdup hlen hfa hfn
    cases in_ with
    | nil =>
      simp only [sy_loop]
      exact sy_finish_post m false [] [] stack out (fun _ => rfl) (Or.inr rfl)
    | cons curr in_ =>
      have hdupc : exp_token_dup curr = curr ∧ exp_token_dup.list in_ = in_ := by
        simpa [exp_token_dup.list] using hdup
      have hdup1 := hdupc.2
      have hlen1 : in_.length ≤ fuel := by simpa using hlen
      have hfs : (found_set found).length = argc.length := by rw [found_set_length]; exact hfa
      have hfn1 : count_type T_FUNCTION stack ≤ (found_set found).length := by
        rw [found_set_length]; exact hfn
      obtain ⟨p, v, c⟩ := curr
      cases v with
      | T_BOOLEAN b =>
        simp only [sy_loop, token_t.param]
        exact sy_post_prepend _ _ m [_] in_ _ rfl (ih m in_ stack _ _ argc hdup1 hlen1 hfs hfn1)
      | T_INTEGER b =>
        simp only [sy_loop, token_t.param]
        exact sy_post_prepend _ _ m [_] in_ _ rfl (ih m in_ stack _ _ argc hdup1 hlen1 hfs hfn1)
      | T_REAL b =>
        simp only [sy_loop, token_t.param]
        exact sy_post_prepend _ _ m [_] in_ _ rfl (ih m in_ stack _ _ argc hdup1 hlen1 hfs hfn1)
      | T_STRING b =>
        simp only [sy_loop, token_t.param]
        exact sy_post_prepend _ _ m [_] in_ _ rfl (ih m in_ stack _ _ argc hdup1 hlen1 hfs hfn1)
      | T_PARAMETER b =>
        simp only [sy_loop, token_t.param]
        exact sy_post_prepend _ _ m [_] in_ _ rfl (ih m in_ stack _ _ argc hdup1 hlen1 hfs hfn1)
      | T_NONE => simp only [sy_loop, token_t.param]; rfl
      | T_IFCONDITION b => simp only [sy_loop, token_t.param]; rfl
      | T_IFSTATEMENT => simp only [sy_loop, token_t.param]; rfl
      | T_FUNCTION b =>
        simp only [sy_loop, token_t.param]
        have h1 := ih m in_ (token_t.mk p (.T_FUNCTION b) c :: stack) out (0 :: found_set found)
          (0 :: argc) hdup1 hlen1 (by simp [hfs])
          (by rw [count_type_cons]; simp [token_t.type, token_t.param, value_t.type]; omega)
        rw [count_type_cons] at h1
        exact sy_post_prepend _ _ m [_] in_ _ rfl h1
      | T_LPAREN =>
        simp only [sy_loop, token_t.param]
        have h1 := ih m in_ (token_t.mk p .T_LPAREN c :: stack) out found argc hdup1 hlen1 hfa
          (by rw [count_type_cons]; simpa [token_t.type, token_t.param, value_t.type] using hfn)
        rw [count_type_cons] at h1
        exact sy_post_prepend _ _ m [_] in_ _ rfl h1
      | T_COMMA =>
        simp only [sy_loop, token_t.param]
        obtain ⟨hc1, hc2⟩ := pop_until_lparen_counts stack out
        rw [← hc1]
        generalize pop_until_lparen stack out = r at hc1 hc2
        obtain ⟨st1, out1⟩ := r
        dsimp only at hc1 hc2 ⊢
        cases st1 with
        | nil => rfl
        | cons top stack1 =>
          simp only
          split
          · rfl
          · split
            · rename_i f fs a as
              split
              · refine sy_post_prepend _ _ m [_] in_ _ rfl
                  (ih m in_ (top :: stack1) out1 (0 :: fs) ((a + 1) :: as) hdup1 hlen1 ?_ ?_)
                · simpa using hfa
                · simp only [List.length_cons] at hfn ⊢
                  omega
              · rfl
            · rfl
      | T_RPAREN =>
        simp only [sy_loop, token_t.param]
        obtain ⟨hc1, hc2⟩ := pop_until_lparen_counts stack out
        obtain ⟨popped, _, _, _, hs4⟩ := pop_until_lparen_split stack out
        rw [← hc1]
        generalize pop_until_lparen stack out = r at hc1 hc2 hs4
        obtain ⟨st1, out1⟩ := r
        dsimp only at hc1 hc2 hs4 ⊢
        cases st1 with
        | nil =>
          simp only
          split
          · rename_i hm
            split
            · rfl
            · refine ⟨[], rfl, rfl, ?_⟩
              intro h0
              omega
          · rfl
        | cons top stack1 =>
          have htop : top.type = T_LPAREN := hs4 top stack1 rfl
          simp only
          split
          · rfl
          · have hL : count_type T_LPAREN (top :: stack1) = count_type T_LPAREN stack1 + 1 := by
              rw [count_type_cons, htop]; rfl
            have hF : count_type T_FUNCTION (top :: stack1) = count_type T_FUNCTION stack1 := by
              rw [count_type_cons, htop]; rfl
            rw [hL]
            rw [hF] at hc2
            cases stack1 with
            | nil =>
              dsimp only
              exact sy_post_prepend _ _ m [_] in_ _ rfl
                (ih m in_ [] out1 found argc hdup1 hlen1 hfa (by simp [count_type]))
            | cons func stack2 =>
              dsimp only
              rw [count_type_cons] at hc2
              split
              · rename_i hfunc
                rw [if_pos hfunc] at hc2
                have hfl : (func.type == T_LPAREN) = false := by
                  have : func.type = T_FUNCTION := by simpa using hfunc
                  rw [this]; rfl
                have hL2 : count_type T_LPAREN (func :: stack2) = count_type T_LPAREN stack2 := by
                  rw [count_type_cons, hfl]; rfl
                rw [hL2]
                split
                · rename_i a as f fs
                  have h1 := ih m in_ stack2
                    (out1 ++ [token_t.mk func.position
                      (.T_INTEGER (a + (if f != 0 then 1 else 0))) [], func])
                    fs as hdup1 hlen1 (by simpa using hfa)
                    (by simp only [List.length_cons] at hfn; omega)
                  exact sy_post_prepend _ _ m [_] in_ _ rfl h1
                · rename_i hno
                  exfalso
                  cases argc with
                  | nil =>
                    simp only [List.length_nil] at hfa
                    omega
                  | cons a as =>
                    cases found with
                    | nil => simp at hfa
                    | cons f fs => exact hno a as f fs rfl rfl
              · rename_i hfunc
                rw [if_neg hfunc] at hc2
                have h1 := ih m in_ (func :: stack2) out1 found argc hdup1 hlen1 hfa
                  (by rw [count_type_cons, if_neg hfunc]; omega)
                exact sy_post_prepend _ _ m [_] in_ _ rfl h1
      | T_OPERATOR op =>
        simp only [sy_loop, token_t.param]
        split
        · split
          · rfl
          · rename_i hm0
            split
            · rename_i hm1
              subst hm1
              exact sy_finish_post 1 true [_] in_ stack out (fun _ => rfl) (Or.inl rfl)
            · exact sy_finish_post m true [] _ stack out (fun _ => rfl)
                (Or.inl (by simp [hm0]))
        · obtain ⟨ho1, ho2⟩ := pop_operators_counts op stack out
          rw [← ho1]
          generalize pop_operators op stack out = r at ho1 ho2
          obtain ⟨stack1, out1⟩ := r
          dsimp only at ho1 ho2 ⊢
          split
          · rw [hdup1]
            have IH1 := ih 1 in_ [] [] [] [] hdup1 hlen1 rfl (by simp [count_type])
            generalize sy_loop fuel 1 in_ [] [] [] [] = r1 at IH1
            cases r1 with
            | error e => rfl
            | ok x1 =>
              obtain ⟨t1, rest1⟩ := x1
              cases rest1 with
              | nil => rfl
              | cons i1 in1 =>
                simp only
                obtain ⟨c1, hin1, hb1, _⟩ := IH1
                have hdup2 : exp_token_dup.list (i1 :: in1) = i1 :: in1 :=
                  dup_fixed_suffix c1 _ (by rw [← hin1]; exact hdup1)
                have hlen2 : (i1 :: in1).length ≤ fuel := by
                  have := congrArg List.length hin1
                  rw [List.length_append] at this
                  omega
                rw [hdup2]
                have IH2 := ih 2 (i1 :: in1) [] [] [] [] hdup2 hlen2 rfl (by simp [count_type])
                generalize sy_loop fuel 2 (i1 :: in1) [] [] [] [] = r2 at IH2
                cases r2 with
                | error e => exact IH2
                | ok x2 =>
                  obtain ⟨t2, in2⟩ := x2
                  simp only
                  obtain ⟨c2, hin2, hb2, _⟩ := IH2
                  have hdup3 : exp_token_dup.list in2 = in2 :=
                    dup_fixed_suffix c2 _ (by rw [← hin2]; exact hdup2)
                  have hlen3 : in2.length ≤ fuel := by
                    have := congrArg List.length hin2
                    rw [List.length_append] at this
                    omega
                  have IH3 := ih m in2 stack1
                    (out1 ++ [token_t.mk p .T_IFSTATEMENT t1, token_t.mk p .T_IFSTATEMENT t2,
                      token_t.mk p (.T_IFCONDITION op) c])
                    found argc hdup3 hlen3 hfa (by rw [ho2]; exact hfn)
                  have hsplit : token_t.mk p (.T_OPERATOR op) c :: in_
                      = (token_t.mk p (.T_OPERATOR op) c :: (c1 ++ c2)) ++ in2 := by
                    rw [hin1, hin2]; simp
                  rw [hsplit]
                  refine sy_post_prepend _ _ m _ in2 _ ?_ IH3
                  show paren_depth (count_type T_LPAREN stack1) (c1 ++ c2)
                    = some (count_type T_LPAREN stack1)
                  rw [paren_depth_balanced_front c1 c2 hb1]
                  have := paren_depth_add c2 0 0 (count_type T_LPAREN stack1) hb2
                  simpa using this
          · have h1 := ih m in_ (token_t.mk p (.T_OPERATOR op) c :: stack1) out1 found argc
              hdup1 hlen1 hfa
              (by rw [count_type_cons, ho2]
                  simpa [token_t.type, token_t.param, value_t.type] using hfn)
            rw [count_type_cons] at h1
            exact sy_post_prepend _ _ m [_] in_ _ rfl h1

/-- C28: if `exp_shunting_yard` in mode 0 succeeds on a token list, the
parentheses of the list are balanced: every prefix has at least as many
`T_LPAREN` as `T_RPAREN` tokens and the list has as many of both, wherever the
parentheses stand, inside or around the branches of a conditional included; on
a list whose parentheses are not balanced it fails with `EXP_ER_INVALEXPR`. -/
theorem C28_success_implies_balanced (input : List token_t) :
    (∀ out rest, exp_shunting_yard input 0 = .ok (out, rest) → parens_balanced input)
    ∧ (¬ parens_balanced input →
        ∃ message position,
          exp_shunting_yard input 0 = .error ⟨EXP_ER_INVALEXPR, message, position⟩) := by
  have hpost := sy_loop_post (input.length + 1) 0 (exp_token_dup.list input) [] [] [] []
    (dup_dup_list input) (by rw [dup_list_length]; omega) rfl (by simp [count_type])
  have hok : ∀ out rest, exp_shunting_yard input 0 = .ok (out, rest) → parens_balanced input := by
    intro out rest h
    unfold exp_shunting_yard at h
    rw [h] at hpost
    obtain ⟨consumed, h1, h2, h3⟩ := hpost
    rw [h3 rfl, List.append_nil] at h1
    rw [← h1] at h2
    have h4 : paren_depth 0 input = some 0 := by
      rw [← paren_depth_dup]
      exact h2
    exact parens_balanced_of_depth input h4
  refine ⟨hok, ?_⟩
  intro hnb
  cases hr : exp_shunting_yard input 0 with
  | ok x =>
    obtain ⟨out, rest⟩ := x
    exact absurd (hok out rest hr) hnb
  | error e =>
    unfold exp_shunting_yard at hr
    rw [hr] at hpost
    obtain ⟨code, message, position⟩ := e
    have hc : code = EXP_ER_INVALEXPR := hpost
    subst hc
    exact ⟨message, position, rfl⟩

/-- C28 at `(1 ? (2) : 3)`, which compiles and is balanced, and at `1 ? 2 : 3)`,
which is not balanced and fails with `EXP_ER_INVALEXPR`. -/
theorem C28_success_implies_balanced_witness :
    parens_balanced [tok 0 .T_LPAREN, tok 1 (.T_INTEGER 1), tok 3 (.T_OPERATOR O_IFTHEN),
        tok 5 .T_LPAREN, tok 6 (.T_INTEGER 2), tok 7 .T_RPAREN, tok 9 (.T_OPERATOR O_ELSE),
        tok 11 (.T_INTEGER 3), tok 12 .T_RPAREN]
    ∧ ∃ message position,
        exp_shunting_yard [tok 0 (.T_INTEGER 1), tok 2 (.T_OPERATOR O_IFTHEN),
          tok 4 (.T_INTEGER 2), tok 6 (.T_OPERATOR O_ELSE), tok 8 (.T_INTEGER 3),
          tok 9 .T_RPAREN] 0 = .error ⟨EXP_ER_INVALEXPR, message, position⟩ :=
  ⟨(C28_success_implies_balanced _).1
      [tok 1 (.T_INTEGER 1), token_t.mk 3 .T_IFSTATEMENT [tok 6 (.T_INTEGER 2)],
        token_t.mk 3 .T_IFSTATEMENT [tok 11 (.T_INTEGER 3)],
        token_t.mk 3 (.T_IFCONDITION O_IFTHEN) []] [] rfl,
   (C28_success_implies_balanced _).2 (fun h => absurd h.2 (by decide))⟩

/-! ## C26: the compilation of a conditional -/

theorem dup_param (t : token_t) : (exp_token_dup t).param = t.param := by
  obtain ⟨p, v, c⟩ := t
  cases v <;> rfl

theorem plain_token_dup (X : List token_t) (h : ∀ t ∈ X, plain_token t = true) :
    ∀ t ∈ exp_token_dup.list X, plain_token t = true := by
  induction X with
  | nil => intro t ht; simp [exp_token_dup.list] at ht
  | cons x X ih =>
    intro t ht
    simp only [exp_token_dup.list, List.mem_cons] at ht
    rcases ht with rfl | ht
    · have := h x (List.mem_cons_self _ _)
      simp only [plain_token, dup_param] at this ⊢
      exact this
    · exact ih (fun t ht => h t (List.mem_cons_of_mem _ ht)) t ht

theorem calls_closed_dup : ∀ X : List token_t,
    calls_closed (exp_token_dup.list X) = calls_closed X
  | [] => rfl
  | [t] => by simp [exp_token_dup.list, calls_closed, dup_type]
  | t :: u :: rest => by
    have ih := calls_closed_dup (u :: rest)
    simp only [exp_token_dup.list] at ih ⊢
    simp only [calls_closed, dup_type, ih]

theorem expression_tokens_dup (X : List token_t) (h : expression_tokens X) :
    expression_tokens (exp_token_dup.list X) :=
  ⟨plain_token_dup X h.1, by rw [calls_closed_dup]; exact h.2⟩

theorem calls_closed_tail (t : token_t) (X : List token_t) (h : calls_closed (t :: X) = true) :
    calls_closed X = true := by
  cases X with
  | nil => rfl
  | cons u rest =>
    simp only [calls_closed, Bool.and_eq_true] at h
    exact h.2

theorem calls_closed_function (t : token_t) (X : List token_t)
    (h : calls_closed (t :: X) = true) (ht : t.type = T_FUNCTION) :
    ∃ lp in1, X = lp :: in1 ∧ lp.type = T_LPAREN := by
  cases X with
  | nil => simp [calls_closed, ht] at h
  | cons u rest =>
    simp only [calls_closed, Bool.and_eq_true, ht] at h
    exact ⟨u, rest, rfl, by simpa using h.1⟩

theorem regular_operator_type (t : token_t) (h : regular_operator t = true) :
    t.type = T_OPERATOR := by
  obtain ⟨p, v, c⟩ := t
  cases v <;> first
    | rfl
    | simp [regular_operator, token_t.param] at h

theorem stack_ok_cons_regular (t : token_t) (rest : List token_t)
    (ht : regular_operator t = true) (h : stack_ok rest = true) :
    stack_ok (t :: rest) = true := by
  have h1 := regular_operator_type t ht
  cases rest with
  | nil => simp [stack_ok, ht]
  | cons f rest1 => simp [stack_ok, h1, ht, h]

theorem stack_ok_cons_lparen (t : token_t) (rest : List token_t)
    (ht : t.type = T_LPAREN) (h : stack_ok rest = true) :
    stack_ok (t :: rest) = true := by
  cases rest with
  | nil => simp [stack_ok, ht]
  | cons f rest1 =>
    simp only [stack_ok, ht, beq_self_eq_true, if_true]
    split
    · rename_i hf
      have hfl : f.type ≠ T_LPAREN := by
        have : f.type = T_FUNCTION := by simpa using hf
        rw [this]; decide
      cases rest1 with
      | nil => rfl
      | cons g rest2 =>
        have hfl0 : (f.type == T_LPAREN) = false := by simpa using hfl
        simp only [stack_ok, hfl0, Bool.false_eq_true, if_false, Bool.and_eq_true] at h
        exact h.2
    · exact h

theorem stack_ok_cons_call (t f : token_t) (rest : List token_t)
    (ht : t.type = T_LPAREN) (hf : f.type = T_FUNCTION) (h : stack_ok rest = true) :
    stack_ok (t :: f :: rest) = true := by
  simp [stack_ok, ht, hf, h]

theorem stack_ok_tail (t : token_t) (rest : List token_t) (h : stack_ok (t :: rest) = true)
    (ht : t.type ≠ T_LPAREN) : regular_operator t = true ∧ stack_ok rest = true := by
  have hl : (t.type == T_LPAREN) = false := by simpa using ht
  cases rest with
  | nil =>
    simp only [stack_ok, hl, Bool.false_or] at h
    exact ⟨h, rfl⟩
  | cons f rest1 =>
    simpa [stack_ok, hl] using h

theorem stack_ok_under_lparen (t : token_t) (rest : List token_t)
    (h : stack_ok (t :: rest) = true) (ht : t.type = T_LPAREN) :
    match rest with
    | [] => True
    | f :: rest1 => if f.type = T_FUNCTION then stack_ok rest1 = true
        else stack_ok (f :: rest1) = true := by
  cases rest with
  | nil => trivial
  | cons f rest1 =>
    simp only [stack_ok, ht, beq_self_eq_true, if_true] at h
    by_cases hf : f.type = T_FUNCTION
    · simp only [hf, beq_self_eq_true, if_true] at h ⊢
      exact h
    · have hf0 : (f.type == T_FUNCTION) = false := by simpa using hf
      simp only [hf0, Bool.false_eq_true, if_false] at h
      simp only [hf, if_false]
      exact h

theorem stack_ok_pop_until_lparen (stack : List token_t) :
    ∀ out, stack_ok stack = true → stack_ok (pop_until_lparen stack out).1 = true := by
  induction stack with
  | nil => intro out h; exact h
  | cons t stack ih =>
    intro out h
    simp only [pop_until_lparen]
    split
    · exact h
    · rename_i hl
      exact ih _ (stack_ok_tail t stack h (by simpa using hl)).2

theorem stack_ok_pop_operators (o1 : operator_t) (stack : List token_t) :
    ∀ out, stack_ok stack = true → stack_ok (pop_operators o1 stack out).1 = true := by
  induction stack with
  | nil => intro out h; exact h
  | cons t stack ih =>
    intro out h
    obtain ⟨p, v, c⟩ := t
    cases v <;> try exact h
    rename_i o2
    simp only [pop_operators, token_t.param]
    split
    · exact ih _ (stack_ok_tail _ stack h (fun hh => by cases hh)).2
    · exact h

theorem stack_ok_regular (stack : List token_t) (h : stack_ok stack = true)
    (hl : count_type T_LPAREN stack = 0) : ∀ t ∈ stack, regular_operator t = true := by
  induction stack with
  | nil => intro t ht; cases ht
  | cons x stack ih =>
    rw [count_type_cons] at hl
    have hx : x.type ≠ T_LPAREN := by
      intro hx
      rw [hx] at hl
      simp at hl
    obtain ⟨h1, h2⟩ := stack_ok_tail x stack h hx
    intro t ht
    rcases List.mem_cons.1 ht with rfl | ht
    · exact h1
    · exact ih h2 (by omega) t ht

theorem pop_operators_regular (stack : List token_t)
    (h : ∀ t ∈ stack, regular_operator t = true) :
    ∀ out, pop_operators O_IFTHEN stack out = ([], out ++ stack) := by
  induction stack with
  | nil => intro out; simp [pop_operators]
  | cons t stack ih =>
    intro out
    have ht := h t (List.mem_cons_self _ _)
    obtain ⟨p, v, c⟩ := t
    cases v <;> simp [regular_operator, token_t.param] at ht
    rename_i o2
    have hp : (exp_op_is_lefttoright O_IFTHEN && decide (op_precedence O_IFTHEN ≤ op_precedence o2)
        || !exp_op_is_lefttoright O_IFTHEN
          && decide (op_precedence O_IFTHEN < op_precedence o2)) = true := by
      cases o2 <;> first
        | rfl
        | simp at ht
    simp only [pop_operators, token_t.param, hp, if_true]
    rw [ih (fun t ht => h t (List.mem_cons_of_mem _ ht))]
    simp

theorem sy_drain_regular (m : Nat) (stack : List token_t)
    (h : ∀ t ∈ stack, regular_operator t = true) :
    ∀ out, sy_drain m stack out = .ok (out ++ stack) := by
  induction stack with
  | nil => intro out; simp [sy_drain]
  | cons t stack ih =>
    intro out
    have ht := regular_operator_type t (h t (List.mem_cons_self _ _))
    simp only [sy_drain, ht]
    rw [ih (fun t ht => h t (List.mem_cons_of_mem _ ht))]
    simp

theorem sy_drain_mode (m m1 : Nat) (stack : List token_t) :
    ∀ out x, sy_drain m stack out = .ok x → sy_drain m1 stack out = .ok x := by
  induction stack with
  | nil => intro out x h; exact h
  | cons t stack ih =>
    intro out x h
    cases ht : t.type <;> simp only [sy_drain, ht] at h ⊢ <;>
      first
        | exact ih _ _ h
        | (split at h <;> cases h)
        | cases h

theorem sy_reads_nil (s o : List token_t) (f a : List Int) : sy_reads [] s o f a s o f a :=
  fun _ _ _ => rfl

theorem sy_reads_cons (curr : token_t) (X s o : List token_t) (f a : List Int)
    (s1 o1 : List token_t) (f1 a1 : List Int) (s2 o2 : List token_t) (f2 a2 : List Int)
    (hstep : ∀ fuel m rest,
      sy_loop (fuel + 1) m (curr :: rest) s o f a = sy_loop fuel m rest s1 o1 f1 a1)
    (h : sy_reads X s1 o1 f1 a1 s2 o2 f2 a2) :
    sy_reads (curr :: X) s o f a s2 o2 f2 a2 := by
  intro fuel m rest
  have e : fuel + (curr :: X).length = (fuel + X.length) + 1 := by
    simp only [List.length_cons]
    omega
  rw [e, List.cons_append, hstep, h]

theorem reading_ok_stack (curr : token_t) (X s : List token_t)
    (h : reading_ok (curr :: X) s) (hc : curr.type ≠ T_LPAREN) : stack_ok s = true := by
  rcases h with h | ⟨f, rest, lp, in1, _, _, _, hin, hlp⟩
  · exact h
  · simp only [List.cons.injEq] at hin
    rw [← hin.1] at hlp
    exact absurd hlp hc

/-- Reading a list of tokens without `?` and `:` on which the shunting-yard
succeeds in mode 0: the loop reaches a state from which the final drain gives
the result, and it reaches that state in every mode and whatever follows the
list. -/
theorem sy_read_of_success (X : List token_t) :
    ∀ (fuel : Nat) (s o : List token_t) (f a : List Int)
      (r : List token_t × List token_t),
      (∀ t ∈ X, plain_token t = true) → calls_closed X = true → reading_ok X s →
      sy_loop fuel 0 X s o f a = .ok r →
      ∃ s1 o1 f1 a1, sy_reads X s o f a s1 o1 f1 a1
        ∧ sy_finish 0 false [] s1 o1 = .ok r ∧ stack_ok s1 = true := by
  induction X with
  | nil =>
    intro fuel s o f a r _ _ hro h
    have hs : stack_ok s = true := by
      rcases hro with h1 | ⟨_, _, _, _, _, _, _, hin, _⟩
      · exact h1
      · cases hin
    have h1 : sy_finish 0 false [] s o = .ok r := by
      cases fuel <;> simpa only [sy_loop] using h
    exact ⟨s, o, f, a, sy_reads_nil s o f a, h1, hs⟩
  | cons curr X ih =>
    intro fuel s o f a r hplain hcc hro h
    cases fuel with
    | zero => simp only [sy_loop] at h; cases h
    | succ fuel =>
      have hplainX : ∀ t ∈ X, plain_token t = true :=
        fun t ht => hplain t (List.mem_cons_of_mem _ ht)
      have hccX := calls_closed_tail curr X hcc
      have hpc := hplain curr (List.mem_cons_self _ _)
      obtain ⟨p, v, c⟩ := curr
      have key : ∀ (s1 o1 : List token_t) (f1 a1 : List Int),
          (∀ n m rest, sy_loop (n + 1) m (token_t.mk p v c :: rest) s o f a
            = sy_loop n m rest s1 o1 f1 a1) →
          reading_ok X s1 →
          ∃ s2 o2 f2 a2, sy_reads (token_t.mk p v c :: X) s o f a s2 o2 f2 a2
            ∧ sy_finish 0 false [] s2 o2 = .ok r ∧ stack_ok s2 = true := by
        intro s1 o1 f1 a1 hstep hro1
        rw [hstep fuel 0 X] at h
        obtain ⟨s2, o2, f2, a2, hr, hf, hs⟩ := ih fuel s1 o1 f1 a1 r hplainX hccX hro1 h
        exact ⟨s2, o2, f2, a2, sy_reads_cons _ _ _ _ _ _ _ _ _ _ _ _ _ _ hstep hr, hf, hs⟩
      cases v with
      | T_BOOLEAN b =>
        exact key s (o ++ [token_t.mk p (.T_BOOLEAN b) c]) (found_set f) a
          (fun n m rest => by simp only [sy_loop, token_t.param])
          (Or.inl (reading_ok_stack _ _ _ hro (fun hh => by cases hh)))
      | T_INTEGER b =>
        exact key s (o ++ [token_t.mk p (.T_INTEGER b) c]) (found_set f) a
          (fun n m rest => by simp only [sy_loop, token_t.param])
          (Or.inl (reading_ok_stack _ _ _ hro (fun hh => by cases hh)))
      | T_REAL b =>
        exact key s (o ++ [token_t.mk p (.T_REAL b) c]) (found_set f) a
          (fun n m rest => by simp only [sy_loop, token_t.param])
          (Or.inl (reading_ok_stack _ _ _ hro (fun hh => by cases hh)))
      | T_STRING b =>
        exact key s (o ++ [token_t.mk p (.T_STRING b) c]) (found_set f) a
          (fun n m rest => by simp only [sy_loop, token_t.param])
          (Or.inl (reading_ok_stack _ _ _ hro (fun hh => by cases hh)))
      | T_PARAMETER b =>
        exact key s (o ++ [token_t.mk p (.T_PARAMETER b) c]) (found_set f) a
          (fun n m rest => by simp only [sy_loop, token_t.param])
          (Or.inl (reading_ok_stack _ _ _ hro (fun hh => by cases hh)))
      | T_NONE => simp only [sy_loop, token_t.param] at h; cases h
      | T_IFCONDITION b => simp only [sy_loop, token_t.param] at h; cases h
      | T_IFSTATEMENT => simp only [sy_loop, token_t.param] at h; cases h
      | T_FUNCTION b =>
        have hs := reading_ok_stack _ _ _ hro (fun hh => by cases hh)
        obtain ⟨lp, in1, hX, hlp⟩ := calls_closed_function _ X hcc rfl
        exact key (token_t.mk p (.T_FUNCTION b) c :: s) o (0 :: found_set f) (0 :: a)
          (fun n m rest => by simp only [sy_loop, token_t.param])
          (Or.inr ⟨_, s, lp, in1, rfl, rfl, hs, hX, hlp⟩)
      | T_LPAREN =>
        refine key (token_t.mk p .T_LPAREN c :: s) o f a
          (fun n m rest => by simp only [sy_loop, token_t.param]) (Or.inl ?_)
        rcases hro with h1 | ⟨fn, rest, _, _, hst, hfn, hrest, _, _⟩
        · exact stack_ok_cons_lparen _ _ rfl h1
        · rw [hst]
          exact stack_ok_cons_call _ _ _ rfl hfn hrest
      | T_OPERATOR op =>
        have hs := reading_ok_stack _ _ _ hro (fun hh => by cases hh)
        simp only [plain_token, token_t.param, Bool.and_eq_true, bne_iff_ne, ne_eq] at hpc
        obtain ⟨⟨h0, h1⟩, h2⟩ := hpc
        refine key (token_t.mk p (.T_OPERATOR op) c :: (pop_operators op s o).1)
          (pop_operators op s o).2 f a
          (fun n m rest => by simp only [sy_loop, token_t.param, h1, h2, if_false])
          (Or.inl ?_)
        refine stack_ok_cons_regular _ _ ?_ (stack_ok_pop_operators op s o hs)
        simp [regular_operator, token_t.param, h0, h1, h2]
      | T_COMMA =>
        have hs := reading_ok_stack _ _ _ hro (fun hh => by cases hh)
        have hs1 := stack_ok_pop_until_lparen s o hs
        simp only [sy_loop, token_t.param] at h
        cases hpop : pop_until_lparen s o with
        | mk st1 out1 =>
          rw [hpop] at h hs1
          cases st1 with
          | nil => simp only at h; cases h
          | cons top stack1 =>
            simp only at h hs1
            by_cases htop : (top.type != T_LPAREN) = true
            · rw [if_pos htop] at h; cases h
            · rw [if_neg htop] at h
              cases f with
              | nil => simp only at h; cases h
              | cons f0 fs =>
                cases a with
                | nil => simp only at h; cases h
                | cons a0 as =>
                  simp only at h
                  by_cases hf0 : (f0 != 0) = true
                  · exact key (top :: stack1) out1 (0 :: fs) ((a0 + 1) :: as)
                      (fun n m rest => by
                        simp only [sy_loop, token_t.param, hpop]
                        rw [if_neg htop, if_pos hf0])
                      (Or.inl hs1)
                  · rw [if_neg hf0] at h; cases h
      | T_RPAREN =>
        have hs := reading_ok_stack _ _ _ hro (fun hh => by cases hh)
        have hs1 := stack_ok_pop_until_lparen s o hs
        obtain ⟨_, _, _, _, hs4⟩ := pop_until_lparen_split s o
        simp only [sy_loop, token_t.param] at h
        cases hpop : pop_until_lparen s o with
        | mk st1 out1 =>
          rw [hpop] at h hs1 hs4
          cases st1 with
          | nil =>
            simp only at h
            rw [if_neg (by decide)] at h
            cases h
          | cons top stack1 =>
            simp only at h hs1 hs4
            have htop : top.type = T_LPAREN := hs4 top stack1 rfl
            have htop1 : ¬ (top.type != T_LPAREN) = true := by simp [htop]
            rw [if_neg htop1] at h
            have hunder := stack_ok_under_lparen top stack1 hs1 htop
            cases stack1 with
            | nil =>
              exact key [] out1 f a
                (fun n m rest => by
                  simp only [sy_loop, token_t.param, hpop]
                  rw [if_neg htop1])
                (Or.inl rfl)
            | cons func stack2 =>
              simp only at h hunder
              by_cases hfunc : (func.type == T_FUNCTION) = true
              · rw [if_pos hfunc] at h
                have hft : func.type = T_FUNCTION := by simpa using hfunc
                rw [if_pos hft] at hunder
                cases a with
                | nil => simp only at h; cases h
                | cons a0 as =>
                  cases f with
                  | nil => simp only at h; cases h
                  | cons f0 fs =>
                    exact key stack2
                      (out1 ++ [token_t.mk func.position
                        (.T_INTEGER (a0 + (if f0 != 0 then 1 else 0))) [], func]) fs as
                      (fun n m rest => by
                        simp only [sy_loop, token_t.param, hpop]
                        rw [if_neg htop1, if_pos hfunc])
                      (Or.inl hunder)
              · have hft : ¬ func.type = T_FUNCTION := by simpa using hfunc
                rw [if_neg hft] at hunder
                exact key (func :: stack2) out1 f a
                  (fun n m rest => by
                    simp only [sy_loop, token_t.param, hpop]
                    rw [if_neg htop1, if_neg hfunc])
                  (Or.inl hunder)

theorem sy_finish_ok (m : Nat) (colon_found : Bool) (rest s o r i : List token_t)
    (h : sy_finish m colon_found rest s o = .ok (r, i)) :
    sy_drain m s o = .ok r ∧ r.isEmpty = false := by
  unfold sy_finish at h
  cases hd : sy_drain m s o with
  | error e => rw [hd] at h; cases h
  | ok out1 =>
    rw [hd] at h
    simp only at h
    by_cases he : out1.isEmpty = true
    · rw [if_pos he] at h; cases h
    · rw [if_neg he] at h
      have he0 : out1.isEmpty = false := by simpa using he
      split at h <;> (cases h; exact ⟨rfl, he0⟩)

theorem sy_finish_of_drain (m : Nat) (colon_found : Bool) (rest s o r : List token_t)
    (hd : sy_drain m s o = .ok r) (hr : r.isEmpty = false) :
    sy_finish m colon_found rest s o
      = .ok (r, if (m != 0 && colon_found) = true then rest else []) := by
  unfold sy_finish
  rw [hd]
  simp only [hr, Bool.false_eq_true, if_false]
  split <;> rfl

/-- The turn of the reading loop at a colon in mode 1. -/
theorem sy_colon_step (fuel cp : Nat) (cc in_ s o : List token_t) (f a : List Int) :
    sy_loop (fuel + 1) 1 (token_t.mk cp (.T_OPERATOR O_ELSE) cc :: in_) s o f a
      = sy_finish 1 true in_ s o := by
  simp only [sy_loop, token_t.param, if_true]
  rfl

/-- The turn of the reading loop at `?`. -/
theorem sy_question_step (fuel m qp : Nat) (qc in_ s o : List token_t) (f a : List Int) :
    sy_loop (fuel + 1) m (token_t.mk qp (.T_OPERATOR O_IFTHEN) qc :: in_) s o f a
      = match sy_loop fuel 1 (exp_token_dup.list in_) [] [] [] [] with
        | .error _ =>
          .error ⟨EXP_ER_INVALEXPR, "Colon was not found in conditional expression", qp⟩
        | .ok (_, []) =>
          .error ⟨EXP_ER_INVALEXPR, "Colon was not found in conditional expression", qp⟩
        | .ok (t1, i1 :: in1) =>
          match sy_loop fuel 2 (exp_token_dup.list (i1 :: in1)) [] [] [] [] with
          | .error e => .error e
          | .ok (t2, in2) =>
            sy_loop fuel m in2 (pop_operators O_IFTHEN s o).1
              ((pop_operators O_IFTHEN s o).2 ++ [token_t.mk qp .T_IFSTATEMENT t1,
                token_t.mk qp .T_IFSTATEMENT t2,
                token_t.mk qp (.T_IFCONDITION O_IFTHEN) qc])
              f a := by
  simp only [sy_loop, token_t.param]
  rfl

/-- The then-branch of a conditional, read in mode 1 up to the colon. -/
theorem sy_then_branch (A B sA oA rA : List token_t) (fA aA : List Int) (cp : Nat)
    (cc : List token_t) (fuel : Nat)
    (hread : sy_reads A [] [] [] [] sA oA fA aA)
    (hd : sy_drain 0 sA oA = .ok rA) (hr : rA.isEmpty = false) :
    sy_loop (fuel + 1 + A.length) 1 (A ++ token_t.mk cp (.T_OPERATOR O_ELSE) cc :: B) [] [] [] []
      = .ok (rA, B) := by
  rw [hread (fuel + 1) 1 _, sy_colon_step,
    sy_finish_of_drain 1 true B sA oA rA (sy_drain_mode 0 1 sA oA rA hd) hr]
  rfl

/-- The else-branch of a conditional, read in mode 2 up to the end. -/
theorem sy_else_branch (B sB oB rB : List token_t) (fB aB : List Int) (fuel : Nat)
    (hread : sy_reads B [] [] [] [] sB oB fB aB)
    (hd : sy_drain 0 sB oB = .ok rB) (hr : rB.isEmpty = false) :
    sy_loop (fuel + B.length) 2 B [] [] [] [] = .ok (rB, []) := by
  have h1 := hread fuel 2 []
  rw [List.append_nil] at h1
  rw [h1]
  have h2 : sy_loop fuel 2 [] sB oB fB aB = sy_finish 2 false [] sB oB := by
    cases fuel <;> simp only [sy_loop]
  rw [h2, sy_finish_of_drain 2 false [] sB oB rB (sy_drain_mode 0 2 sB oB rB hd) hr]
  rfl

/-- What the success of the shunting-yard on an infix expression alone tells
about the reading of its copy. -/
theorem sy_alone (X rX restX : List token_t) (hX : expression_tokens X)
    (h : exp_shunting_yard X 0 = .ok (rX, restX)) :
    ∃ s o f a, sy_reads (exp_token_dup.list X) [] [] [] [] s o f a
      ∧ sy_drain 0 s o = .ok rX ∧ rX.isEmpty = false
      ∧ (∀ t ∈ s, regular_operator t = true) ∧ X ≠ [] := by
  unfold exp_shunting_yard at h
  obtain ⟨s, o, f, a, hread, hfin, hok⟩ := sy_read_of_success (exp_token_dup.list X) _ [] [] [] []
    _ (expression_tokens_dup X hX).1 (expression_tokens_dup X hX).2 (Or.inl rfl) h
  obtain ⟨hd, hne⟩ := sy_finish_ok 0 false [] s o rX restX hfin
  have hl := (sy_drain_post 0 s o).2 rX hd
  refine ⟨s, o, f, a, hread, hd, hne, stack_ok_regular s hok hl, ?_⟩
  rintro rfl
  simp [exp_token_dup.list, sy_loop, sy_finish, sy_drain] at h

/-- C26: for token lists `C`, `A` and `B` without `?` and `:` in which every
function name is followed by a left parenthesis and on each of which
`exp_shunting_yard` in mode 0 succeeds (so that their parentheses are balanced),
`exp_shunting_yard` in mode 0 on `C ? A : B` outputs the output for `C` alone,
then a `T_IFSTATEMENT` token whose children are the output for `A` alone, a
`T_IFSTATEMENT` token whose children are the output for `B` alone, and the `?`
token retyped `T_IFCONDITION`, all three at the position of `?`. -/
theorem C26_ternary_compilation (C A B rC rA rB restC restA restB : List token_t)
    (qp cp : Nat) (qc cc : List token_t)
    (hC : expression_tokens C) (hA : expression_tokens A) (hB : expression_tokens B)
    (hrC : exp_shunting_yard C 0 = .ok (rC, restC))
    (hrA : exp_shunting_yard A 0 = .ok (rA, restA))
    (hrB : exp_shunting_yard B 0 = .ok (rB, restB)) :
    exp_shunting_yard (C ++ token_t.mk qp (.T_OPERATOR O_IFTHEN) qc
        :: (A ++ token_t.mk cp (.T_OPERATOR O_ELSE) cc :: B)) 0
      = .ok (rC ++ [token_t.mk qp .T_IFSTATEMENT rA, token_t.mk qp .T_IFSTATEMENT rB,
          token_t.mk qp (.T_IFCONDITION O_IFTHEN) qc], []) := by
  obtain ⟨sC, oC, fC, aC, hreadC, hdC, hneC, hregC, _⟩ := sy_alone C rC restC hC hrC
  obtain ⟨sA, oA, fA, aA, hreadA, hdA, hneA, _, _⟩ := sy_alone A rA restA hA hrA
  obtain ⟨sB, oB, fB, aB, hreadB, hdB, hneB, _, hBne⟩ := sy_alone B rB restB hB hrB
  have hrCeq : rC = oC ++ sC := by
    have := sy_drain_regular 0 sC hregC oC
    rw [hdC] at this
    injection this
  have hpop := pop_operators_regular sC hregC oC
  have hdupB : exp_token_dup.list (exp_token_dup.list B) = exp_token_dup.list B :=
    dup_dup_list B
  have hdupR : exp_token_dup.list (exp_token_dup.list A
      ++ token_t.mk cp (.T_OPERATOR O_ELSE) cc :: exp_token_dup.list B)
      = exp_token_dup.list A ++ token_t.mk cp (.T_OPERATOR O_ELSE) cc :: exp_token_dup.list B := by
    rw [dup_list_append, dup_dup_list]
    simp only [exp_token_dup.list, exp_token_dup, hdupB]
  have hBcons : ∃ b0 B1, exp_token_dup.list B = b0 :: B1 := by
    cases B with
    | nil => exact absurd rfl hBne
    | cons b0 B1 => exact ⟨_, _, rfl⟩
  obtain ⟨b0, B1, hB1⟩ := hBcons
  unfold exp_shunting_yard
  have hinput : exp_token_dup.list (C ++ token_t.mk qp (.T_OPERATOR O_IFTHEN) qc
        :: (A ++ token_t.mk cp (.T_OPERATOR O_ELSE) cc :: B))
      = exp_token_dup.list C ++ token_t.mk qp (.T_OPERATOR O_IFTHEN) qc
        :: (exp_token_dup.list A ++ token_t.mk cp (.T_OPERATOR O_ELSE) cc
          :: exp_token_dup.list B) := by
    rw [dup_list_append]
    simp only [exp_token_dup.list, exp_token_dup, dup_list_append]
  have hfuel : (C ++ token_t.mk qp (.T_OPERATOR O_IFTHEN) qc
        :: (A ++ token_t.mk cp (.T_OPERATOR O_ELSE) cc :: B)).length + 1
      = ((exp_token_dup.list A).length + (exp_token_dup.list B).length + 2 + 1)
        + (exp_token_dup.list C).length := by
    simp only [List.length_append, List.length_cons, dup_list_length]
    omega
  rw [hinput, hfuel, hreadC, sy_question_step, hdupR, hpop]
  have hthen := sy_then_branch (exp_token_dup.list A) (exp_token_dup.list B) sA oA rA fA aA
    cp cc ((exp_token_dup.list B).length + 1) hreadA hdA hneA
  have e1 : (exp_token_dup.list A).length + (exp_token_dup.list B).length + 2
      = (exp_token_dup.list B).length + 1 + 1 + (exp_token_dup.list A).length := by omega
  have helse := sy_else_branch (exp_token_dup.list B) sB oB rB fB aB
    ((exp_token_dup.list A).length + 2) hreadB hdB hneB
  have e2 : (exp_token_dup.list B).length + 1 + 1 + (exp_token_dup.list A).length
      = (exp_token_dup.list A).length + 2 + (exp_token_dup.list B).length := by omega
  rw [e1, hthen, hB1]
  dsimp only
  rw [← hB1, hdupB, e2, helse]
  dsimp only
  rw [hrCeq]
  have hend : ∀ (n : Nat) (out : List token_t), out.isEmpty = false →
      sy_loop n 0 [] [] out fC aC = .ok (out, []) := by
    intro n out hout
    have h0 : sy_loop n 0 [] [] out fC aC = sy_finish 0 false [] [] out := by
      cases n <;> simp only [sy_loop]
    rw [h0, sy_finish_of_drain 0 false [] [] out out rfl hout]
    rfl
  exact hend _ _ (by simp)

/-- C26 at `x > 1 ? f(2) : (3 + 4) * 5`. -/
theorem C26_ternary_compilation_witness :
    exp_shunting_yard [tok 0 (.T_PARAMETER "x"), tok 2 (.T_OPERATOR O_GT), tok 4 (.T_INTEGER 1),
        tok 6 (.T_OPERATOR O_IFTHEN),
        tok 8 (.T_FUNCTION "f"), tok 9 .T_LPAREN, tok 10 (.T_INTEGER 2), tok 11 .T_RPAREN,
        tok 13 (.T_OPERATOR O_ELSE),
        tok 15 .T_LPAREN, tok 16 (.T_INTEGER 3), tok 18 (.T_OPERATOR O_PLUS),
        tok 20 (.T_INTEGER 4), tok 21 .T_RPAREN, tok 23 (.T_OPERATOR O_MUL),
        tok 25 (.T_INTEGER 5)] 0
      = .ok ([tok 0 (.T_PARAMETER "x"), tok 4 (.T_INTEGER 1), tok 2 (.T_OPERATOR O_GT),
          token_t.mk 6 .T_IFSTATEMENT
            [tok 10 (.T_INTEGER 2), tok 8 (.T_INTEGER 1), tok 8 (.T_FUNCTION "f")],
          token_t.mk 6 .T_IFSTATEMENT
            [tok 16 (.T_INTEGER 3), tok 20 (.T_INTEGER 4), tok 18 (.T_OPERATOR O_PLUS),
              tok 25 (.T_INTEGER 5), tok 23 (.T_OPERATOR O_MUL)],
          token_t.mk 6 (.T_IFCONDITION O_IFTHEN) []], []) :=
  C26_ternary_compilation
    [tok 0 (.T_PARAMETER "x"), tok 2 (.T_OPERATOR O_GT), tok 4 (.T_INTEGER 1)]
    [tok 8 (.T_FUNCTION "f"), tok 9 .T_LPAREN, tok 10 (.T_INTEGER 2), tok 11 .T_RPAREN]
    [tok 15 .T_LPAREN, tok 16 (.T_INTEGER 3), tok 18 (.T_OPERATOR O_PLUS),
      tok 20 (.T_INTEGER 4), tok 21 .T_RPAREN, tok 23 (.T_OPERATOR O_MUL),
      tok 25 (.T_INTEGER 5)]
    [tok 0 (.T_PARAMETER "x"), tok 4 (.T_INTEGER 1), tok 2 (.T_OPERATOR O_GT)]
    [tok 10 (.T_INTEGER 2), tok 8 (.T_INTEGER 1), tok 8 (.T_FUNCTION "f")]
    [tok 16 (.T_INTEGER 3), tok 20 (.T_INTEGER 4), tok 18 (.T_OPERATOR O_PLUS),
      tok 25 (.T_INTEGER 5), tok 23 (.T_OPERATOR O_MUL)]
    [] [] [] 6 13 [] []
    ⟨by decide, rfl⟩ ⟨by decide, rfl⟩ ⟨by decide, rfl⟩ rfl rfl rfl

/-! ## C30: the final test of the stack in `exp_rpn` -/

/-- C30: when the reading loop of `exp_rpn` has consumed the whole input
without an error and left `stack`, `exp_rpn` succeeds exactly when the stack
holds one entry and that entry is an Integer, a Real, a Boolean or a String,
and it returns the value of that entry; an empty stack fails with
`EXP_ER_INVALEXPR` and the "too many operators" message, a stack of two or more
entries with `EXP_ER_INVALEXPR` and the "too many operands" message, both at
position 0. -/
theorem C30_final_stack_check (P : Platform) (exp : expression_t)
    (input stack : List token_t)
    (h : rpn_loop P exp (exp_rpn P exp) (exp_token_dup.list input) [] = .ok stack) :
    ((∃ v, exp_rpn P exp input = .ok v)
        ↔ ∃ t, stack = [t] ∧ (t.type = T_INTEGER ∨ t.type = T_REAL
            ∨ t.type = T_BOOLEAN ∨ t.type = T_STRING))
    ∧ (∀ t, stack = [t] → (t.type = T_INTEGER ∨ t.type = T_REAL
            ∨ t.type = T_BOOLEAN ∨ t.type = T_STRING) →
        exp_rpn P exp input = .ok t.param)
    ∧ (stack = [] → exp_rpn P exp input = .error ⟨EXP_ER_INVALEXPR,
        "Expression is possibly malformed, it has too many operators", 0⟩)
    ∧ (2 ≤ stack.length → exp_rpn P exp input = .error ⟨EXP_ER_INVALEXPR,
        "Expression is possibly malformed, it has too many operands", 0⟩) := by
  have hv : ∀ t : token_t, is_value t.param = true
      ↔ (t.type = T_INTEGER ∨ t.type = T_REAL ∨ t.type = T_BOOLEAN ∨ t.type = T_STRING) := by
    intro t
    obtain ⟨p, v, c⟩ := t
    cases v <;> simp [is_value, token_t.type, value_t.type, token_t.param]
  rw [exp_rpn_eq, h]
  refine ⟨?_, ?_, ?_, ?_⟩
  · constructor
    · rintro ⟨v, hv1⟩
      match stack, hv1 with
      | [], hv1 => simp [rpn_finish] at hv1
      | [t], hv1 =>
        refine ⟨t, rfl, (hv t).1 ?_⟩
        by_cases hq : is_value t.param = true
        · exact hq
        · simp [rpn_finish, hq] at hv1
      | _ :: _ :: _, hv1 => simp [rpn_finish] at hv1
    · rintro ⟨t, rfl, ht⟩
      exact ⟨t.param, by simp [rpn_finish, (hv t).2 ht]⟩
  · rintro t rfl ht
    simp [rpn_finish, (hv t).2 ht]
  · rintro rfl
    rfl
  · intro hl
    match stack, hl with
    | _ :: _ :: _, _ => rfl

/-- C30 at the input `7`: the loop leaves one Integer and `exp_rpn` returns it. -/
theorem C30_final_stack_check_witness :
    rpn_loop exact_platform (plain_expression [])
        (exp_rpn exact_platform (plain_expression []))
        (exp_token_dup.list [tok 0 (.T_INTEGER 7)]) [] = .ok [tok 0 (.T_INTEGER 7)]
    ∧ exp_rpn exact_platform (plain_expression []) [tok 0 (.T_INTEGER 7)]
        = .ok (.T_INTEGER 7) :=
  ⟨rfl, (C30_final_stack_check exact_platform (plain_expression [])
      [tok 0 (.T_INTEGER 7)] [tok 0 (.T_INTEGER 7)] rfl).2.1 _ rfl (Or.inl rfl)⟩

/-! ## C38: built-in functions and the callback of the host -/

/-- C38: for every name of an entry of `function_table`, `exp_call_function`
returns what the built-in of that name returns on the arguments taken from the
stack, its result or its error, for every expression handle: the function
callback of the handle, whatever it is, has no part in the result. -/
theorem C38_builtin_shadows_host (P : Platform) (fname : String)
    (hname : ∃ entry ∈ function_table P, entry.1 = fname) :
    ∃ func, (fname, func) ∈ function_table P
      ∧ ∀ (exp : expression_t) (argc : Nat) (stack : List token_t),
          exp_call_function P exp fname argc stack
            = match func (stack.take argc).reverse with
              | .error status => .error status
              | .ok v => .ok (token_t.mk 0 (positive_zero v) [] :: stack.drop argc) := by
  obtain ⟨entry, hmem, hentry⟩ := hname
  have hsome : ((function_table P).find? (fun e => e.1 == fname)).isSome = true := by
    rw [List.find?_isSome]
    exact ⟨entry, hmem, by simp [hentry]⟩
  obtain ⟨found, hfound⟩ := Option.isSome_iff_exists.1 hsome
  have h1 : found.1 = fname := by simpa using List.find?_some hfound
  have h2 : found ∈ function_table P := List.mem_of_find?_eq_some hfound
  refine ⟨found.2, ?_, ?_⟩
  · rw [← h1]
    exact h2
  · intro exp argc stack
    have hcs : call_status P exp fname (stack.take argc).reverse
        = found.2 (stack.take argc).reverse := by
      simp only [call_status, function_lookup, hfound, Option.map_some']
    unfold exp_call_function
    rw [hcs]

/-- C38 at `abs(-2)` with a host callback that answers every call with 99: the
result is the Real 2 of the built-in. -/
theorem C38_builtin_shadows_host_witness :
    ∃ func, ("abs", func) ∈ function_table exact_platform
      ∧ exp_call_function exact_platform ⟨[], [], some answering_handler, none⟩ "abs" 1
          [tok 4 (.T_INTEGER (-2))]
        = match func [tok 4 (.T_INTEGER (-2))] with
          | .error status => .error status
          | .ok v => .ok [token_t.mk 0 (positive_zero v) []] :=
  match C38_builtin_shadows_host exact_platform "abs"
      ⟨("abs", call_abs exact_platform), by simp [function_table], rfl⟩ with
  | ⟨func, hmem, h⟩ =>
    ⟨func, hmem, h ⟨[], [], some answering_handler, none⟩ 1 [tok 4 (.T_INTEGER (-2))]⟩

/-! ## C31: the order of operands and arguments -/

/-- C31: operands reach an operator and arguments reach a function in source
order. For values `a` and `b` read in that order by the loop of `exp_rpn`
followed by a binary operator whose evaluator is `f`, the evaluator is applied
to the queue `a`, `b`; `exp_call_function` with the arguments on the stack, the
last one on top, applies the function to the arguments with the first one first.
The text `'Hello'+', '+strtoupper('world')` evaluates to the String
`Hello, WORLD`, and `-` applied to the Integers 5 and 3, pushed in that order,
subtracts 3 from 5. -/
theorem C31_operands_in_source_order (P : Platform) (exp : expression_t)
    (rpn : List token_t → Except exp_failure value_t)
    (op : operator_t) (f : List token_t → Except exp_error_t value_t)
    (a b optok : token_t) (in_ s : List token_t)
    (hop : operator_dispatch P op = some (2, f))
    (ha : is_value a.param = true) (hb : is_value b.param = true)
    (hoptok : optok.param = .T_OPERATOR op) :
    rpn_loop P exp rpn (a :: b :: optok :: in_) s
        = (match f [a, b] with
           | .error status => .error ⟨status, operator_error_message status op, optok.position⟩
           | .ok v => rpn_loop P exp rpn in_ (token_t.mk 0 (narrow P v) [] :: s))
    ∧ (∀ (fname : String) (args rest : List token_t),
        exp_call_function P exp fname args.length (args.reverse ++ rest)
          = match call_status P exp fname args with
            | .error status => .error status
            | .ok v => .ok (token_t.mk 0 (positive_zero v) [] :: rest))
    ∧ solve_text P "'Hello'+', '+strtoupper('world')".toList
        = .ok (.EXP_STRING (some "Hello, WORLD".toList))
    ∧ exp_eval_operator P [tok 4 (.T_INTEGER 3), tok 0 (.T_INTEGER 5)] O_MINUS
        = .ok [token_t.mk 0 (narrow P (.T_REAL (P.sub (Double.ofInt 5) (Double.ofInt 3)))) []]
    ∧ exp_eval_operator exact_platform [tok 4 (.T_INTEGER 3), tok 0 (.T_INTEGER 5)] O_MINUS
        = .ok [token_t.mk 0 (.T_INTEGER 2) []] := by
  refine ⟨?_, ?_, rfl, rfl, rfl⟩
  · have hcount : exp_op_argument_count op = 2 := by
      cases op <;> simp [operator_dispatch] at hop <;> rfl
    have hpush : ∀ (t : token_t) (rest st : List token_t), is_value t.param = true →
        rpn_loop P exp rpn (t :: rest) st = rpn_loop P exp rpn rest (t :: st) := by
      intro t rest st ht
      obtain ⟨p, v, c⟩ := t
      cases v <;> simp [is_value, token_t.param] at ht <;> simp [rpn_loop, token_t.param]
    obtain ⟨p, v, c⟩ := optok
    simp only [token_t.param] at hoptok
    subst hoptok
    rw [hpush a _ _ ha, hpush b _ _ hb]
    simp only [rpn_loop, token_t.param, hcount, exp_eval_operator, hop, List.length_cons,
      token_t.position]
    have h1 : (s.length + 1 + 1 ≥ 2) = True := by simp
    have h2 : ¬ (s.length + 1 + 1 < 2) := by omega
    simp only [h1, if_true, if_neg h2, List.take, List.reverse_cons, List.reverse_nil,
      List.nil_append, List.cons_append, List.drop]
    cases f [a, b] <;> rfl
  · intro fname args rest
    have htake : ((args.reverse ++ rest).take args.length).reverse = args := by
      rw [← List.length_reverse args, List.take_left, List.reverse_reverse]
    have hdrop : (args.reverse ++ rest).drop args.length = rest := by
      rw [← List.length_reverse args, List.drop_left]
    simp only [exp_call_function, htake, hdrop]

/-- C31 at the RPN `5 3 -` on a platform with exact differences: the loop leaves
the Integer 2. -/
theorem C31_operands_in_source_order_witness :
    rpn_loop exact_platform (plain_expression []) (exp_rpn exact_platform (plain_expression []))
        [tok 0 (.T_INTEGER 5), tok 4 (.T_INTEGER 3), tok 2 (.T_OPERATOR O_MINUS)] []
      = .ok [token_t.mk 0 (.T_INTEGER 2) []] :=
  (C31_operands_in_source_order exact_platform (plain_expression [])
    (exp_rpn exact_platform (plain_expression [])) O_MINUS
    (operator_evaluate_minus exact_platform) (tok 0 (.T_INTEGER 5)) (tok 4 (.T_INTEGER 3))
    (tok 2 (.T_OPERATOR O_MINUS)) [] [] rfl rfl rfl rfl).1.trans rfl

/-! ## C32: an operand after a token that cannot precede it -/

/-- The loop of `exp_check` on a list in which the tokens from `following` on
are always rejected: the failure is that of the first rejected token. -/
theorem exp_check_loop_rejected (before : List token_t) (following : token_t)
    (rest : List token_t) (g : Option token_t → exp_failure)
    (hg : ∀ prev1, exp_check_loop prev1 (following :: rest) = .error (g prev1)) :
    ∀ prev, exp_check_loop prev (before ++ following :: rest)
      = match exp_check_before prev before following with
        | .error e => .error e
        | .ok prev1 => .error (g prev1) := by
  induction before with
  | nil =>
    intro prev
    simp only [List.nil_append, exp_check_before, hg]
  | cons x l ih =>
    intro prev
    have hhead : (l ++ following :: rest).head? = (l ++ [following]).head? := by
      cases l <;> simp
    rw [List.cons_append, exp_check_loop, exp_check_before, hhead]
    generalize (l ++ [following]).head? = nxt
    cases hc : exp_check_token prev (promote x nxt) nxt with
    | some msg => rfl
    | none =>
      simp only [ih]
      cases exp_check_before (some (promote x nxt)) l following <;> rfl

/-- The test of `exp_check` on a literal or parameter whose predecessor is not
an operator, a left parenthesis or a comma. -/
theorem exp_check_token_operand (pred curr : token_t) (next : Option token_t)
    (hcurr : is_operand curr.param = true)
    (hpred : pred.type ≠ T_OPERATOR ∧ pred.type ≠ T_LPAREN ∧ pred.type ≠ T_COMMA) :
    exp_check_token (some pred) (promote curr next) next
      = some (if (promote curr next).type = T_FUNCTION then "Unexpected function"
              else "Unexpected operand") := by
  obtain ⟨h1, h2, h3⟩ := hpred
  have hp : (has_type (some pred) T_OPERATOR || has_type (some pred) T_LPAREN
      || has_type (some pred) T_COMMA) = false := by
    simp [has_type, h1, h2, h3]
  obtain ⟨p, v, c⟩ := curr
  cases v <;> simp [is_operand, token_t.param] at hcurr
  case T_PARAMETER s =>
    by_cases hn : has_type next T_LPAREN = true
    · simp [promote, hn, exp_check_token, token_t.type, token_t.param, value_t.type, hp]
    · simp [promote, hn, exp_check_token, token_t.type, token_t.param, value_t.type, hp]
  all_goals
    simp [promote, exp_check_token, token_t.type, token_t.param, value_t.type, hp]

/-- C32, as amended. A token list in which a literal or parameter token `curr`
follows a token `pred` that is not an operator, a left parenthesis or a comma
is never accepted by `exp_check`: it fails with `EXP_ER_INVALEXPR`. When no
token before `pred` is rejected, the failure is at `pred` whenever `pred` is
itself rejected: a right parenthesis is always rejected there with "Parenthesis
without operator on the right", and a literal or parameter with "Operand without
operator on the right" (with "Unexpected operand" when its own predecessor is
wrong). Only when `pred` is accepted, which needs a token of another type, is
the failure at `curr`, with the message "Unexpected operand" ("Unexpected
function" when `curr` is a name followed by a left parenthesis). -/
theorem C32_operand_after_wrong_predecessor (before : List token_t) (pred curr : token_t)
    (rest : List token_t) (hcurr : is_operand curr.param = true)
    (hpred : pred.type ≠ T_OPERATOR ∧ pred.type ≠ T_LPAREN ∧ pred.type ≠ T_COMMA) :
    (∃ message position, exp_check (before ++ pred :: curr :: rest)
        = .error ⟨EXP_ER_INVALEXPR, message, position⟩)
    ∧ exp_check (before ++ pred :: curr :: rest)
        = (match exp_check_before none before pred with
           | .error e => .error e
           | .ok prev1 =>
             match exp_check_token prev1 pred (some curr) with
             | some message => .error ⟨EXP_ER_INVALEXPR, message, pred.position⟩
             | none =>
               .error ⟨EXP_ER_INVALEXPR,
                 if (promote curr rest.head?).type = T_FUNCTION then "Unexpected function"
                 else "Unexpected operand", curr.position⟩)
    ∧ (pred.type = T_RPAREN → ∀ prev1, exp_check_token prev1 pred (some curr)
        = some "Parenthesis without operator on the right")
    ∧ (is_operand pred.param = true → ∀ prev1, exp_check_token prev1 pred (some curr)
        = some (if at_operand_place prev1 then "Operand without operator on the right"
                else "Unexpected operand")) := by
  have hnext : ∀ ty, has_type (some curr) ty = (curr.type == ty) := fun _ => rfl
  have hcurrty : curr.type ≠ T_LPAREN ∧ curr.type ≠ T_RPAREN ∧ curr.type ≠ T_COMMA
      ∧ curr.type ≠ T_OPERATOR := by
    obtain ⟨p, v, c⟩ := curr
    cases v <;> simp [is_operand, token_t.param] at hcurr <;>
      simp [token_t.type, token_t.param, value_t.type]
  have hn : has_type (some curr) T_LPAREN = false ∧ has_type (some curr) T_RPAREN = false
      ∧ has_type (some curr) T_COMMA = false ∧ has_type (some curr) T_OPERATOR = false := by
    simp [hnext, hcurrty]
  have hpromote : promote pred (some curr) = pred := by
    obtain ⟨p, v, c⟩ := pred
    cases v <;> try rfl
    simp [promote, hnext, hcurrty.1]
  have hposition : (promote curr rest.head?).position = curr.position := by
    obtain ⟨p, v, c⟩ := curr
    cases v <;> try rfl
    simp only [promote]
    split <;> rfl
  have hstep : ∀ prev1, exp_check_loop prev1 (pred :: curr :: rest)
      = .error (match exp_check_token prev1 pred (some curr) with
          | some message => ⟨EXP_ER_INVALEXPR, message, pred.position⟩
          | none => ⟨EXP_ER_INVALEXPR,
              if (promote curr rest.head?).type = T_FUNCTION then "Unexpected function"
              else "Unexpected operand", curr.position⟩) := by
    intro prev1
    rw [exp_check_loop]
    simp only [List.head?_cons, hpromote]
    cases hc : exp_check_token prev1 pred (some curr) with
    | some message => rfl
    | none =>
      rw [exp_check_loop]
      simp only [exp_check_token_operand pred curr rest.head? hcurr hpred, hposition]
  have hmain := exp_check_loop_rejected before pred (curr :: rest) _ hstep none
  have heq : exp_check (before ++ pred :: curr :: rest)
        = (match exp_check_before none before pred with
           | .error e => .error e
           | .ok prev1 =>
             match exp_check_token prev1 pred (some curr) with
             | some message => .error ⟨EXP_ER_INVALEXPR, message, pred.position⟩
             | none =>
               .error ⟨EXP_ER_INVALEXPR,
                 if (promote curr rest.head?).type = T_FUNCTION then "Unexpected function"
                 else "Unexpected operand", curr.position⟩) := by
    unfold exp_check
    rw [hmain]
    cases exp_check_before none before pred with
    | error e => rfl
    | ok prev1 =>
      show Except.error _ = (match exp_check_token prev1 pred (some curr) with
        | some message => Except.error ⟨EXP_ER_INVALEXPR, message, pred.position⟩
        | none => Except.error ⟨EXP_ER_INVALEXPR,
            if (promote curr rest.head?).type = T_FUNCTION then "Unexpected function"
            else "Unexpected operand", curr.position⟩)
      cases exp_check_token prev1 pred (some curr) <;> rfl
  have hbefore : ∀ (l : List token_t) (prev : Option token_t) (e : exp_failure),
      exp_check_before prev l pred = .error e → e.ercode = EXP_ER_INVALEXPR := by
    intro l
    induction l with
    | nil => intro prev e h; simp [exp_check_before] at h
    | cons x l ih =>
      intro prev e h
      rw [exp_check_before] at h
      split at h
      · cases h; rfl
      · exact ih _ _ h
  refine ⟨?_, heq, ?_, ?_⟩
  · rw [heq]
    cases hb : exp_check_before none before pred with
    | error e =>
      have := hbefore before none e hb
      obtain ⟨code, message, position⟩ := e
      simp only at this
      subst this
      exact ⟨message, position, rfl⟩
    | ok prev1 =>
      show ∃ message position, (match exp_check_token prev1 pred (some curr) with
        | some message => Except.error ⟨EXP_ER_INVALEXPR, message, pred.position⟩
        | none => Except.error ⟨EXP_ER_INVALEXPR,
            if (promote curr rest.head?).type = T_FUNCTION then "Unexpected function"
            else "Unexpected operand", curr.position⟩)
          = (Except.error ⟨EXP_ER_INVALEXPR, message, position⟩ : Except exp_failure (List token_t))
      cases exp_check_token prev1 pred (some curr) with
      | some message => exact ⟨message, pred.position, rfl⟩
      | none => exact ⟨_, curr.position, rfl⟩
  · intro hr prev1
    have hl : (pred.type == T_LPAREN) = false := by rw [hr]; rfl
    have hr1 : (pred.type == T_RPAREN) = true := by rw [hr]; rfl
    simp only [exp_check_token, hl, hr1, hn, Option.isNone_some, Bool.or_self,
      Bool.not_false, if_true, Bool.false_eq_true, if_false]
  · intro ho prev1
    have hplace : (prev1.isNone || has_type prev1 T_OPERATOR || has_type prev1 T_LPAREN
        || has_type prev1 T_COMMA) = at_operand_place prev1 := by
      cases prev1 with
      | none => rfl
      | some t =>
        simp only [at_operand_place, has_type, Option.isNone_some, Bool.false_or]
        cases t.type <;> rfl
    clear hstep hmain heq hpromote hbefore hpred
    obtain ⟨p, v, c⟩ := pred
    cases v <;> simp [is_operand, token_t.param] at ho <;>
      (simp only [exp_check_token, token_t.type, token_t.param, value_t.type, hplace, hn]
       cases hq : at_operand_place prev1 <;> rfl)

/-- C32 as amended, at `(1) 2`: the check fails at the right parenthesis at
offset 2 with "Parenthesis without operator on the right". -/
theorem C32_operand_after_wrong_predecessor_witness :
    exp_check ([tok 0 .T_LPAREN, tok 1 (.T_INTEGER 1)] ++ tok 2 .T_RPAREN
        :: tok 4 (.T_INTEGER 2) :: [])
      = .error ⟨EXP_ER_INVALEXPR, "Parenthesis without operator on the right", 2⟩ :=
  (C32_operand_after_wrong_predecessor [tok 0 .T_LPAREN, tok 1 (.T_INTEGER 1)]
    (tok 2 .T_RPAREN) (tok 4 (.T_INTEGER 2)) [] rfl
    ⟨by decide, by decide, by decide⟩).2.1.trans rfl

/-- C32 as stated fails at `1 2` and at `(1) 2`: on every platform `exp_create`
fails with the message "Operand without operator on the right" at offset 0 for
the first and with "Parenthesis without operator on the right" at offset 2 for
the second, not with "Unexpected operand". -/
theorem C32_counterexample :
    exp_check [tok 0 (.T_INTEGER 1), tok 2 (.T_INTEGER 2)]
      = .error ⟨EXP_ER_INVALEXPR, "Operand without operator on the right", 0⟩
    ∧ exp_check [tok 0 .T_LPAREN, tok 1 (.T_INTEGER 1), tok 2 .T_RPAREN, tok 4 (.T_INTEGER 2)]
      = .error ⟨EXP_ER_INVALEXPR, "Parenthesis without operator on the right", 2⟩
    ∧ (∀ P : Platform, exp_create P "1 2".toList
      = .error ⟨EXP_ER_INVALEXPR, "Operand without operator on the right", 0⟩)
    ∧ (∀ P : Platform, exp_create P "(1) 2".toList
      = .error ⟨EXP_ER_INVALEXPR, "Parenthesis without operator on the right", 2⟩) :=
  ⟨rfl, rfl, fun _ => rfl, fun _ => rfl⟩

/-! ## C34: consecutive prefix operators -/

/-- C34 fails: when the shunting-yard reads a prefix operator it moves the
operators of the stack that bind more tightly to the output, also those still
waiting for their operand. For prefix operators `u1`, `u2` and an operand `x`
the output for `u1 u2 x` is `x u2 u1` only when `u2` does not bind less tightly
than `u1`; for `- ! x`, `- ~ x`, `+ ! x`, `+ ~ x` it is `u1 x u2`, which
`exp_rpn` rejects at `u1` for want of an operand. Likewise `a ^ u x` gives
`a x u ^` for the two signs, and `a ^ x u` for `!` and `~`. On every platform
`- ! 3` and `2 ^ ~ 2` are accepted by `exp_create` and fail in `exp_solve`. -/
theorem C34_prefix_operator_popped (u1 u2 : operator_t) (a x : token_t) (p1 p2 : Nat)
    (h1 : is_unary_operator u1 = true) (h2 : is_unary_operator u2 = true)
    (ha : operand_token a) (hx : operand_token x) :
    exp_shunting_yard [tok p1 (.T_OPERATOR u1), tok p2 (.T_OPERATOR u2), x] 0
      = .ok (if op_precedence u2 < op_precedence u1
             then [tok p1 (.T_OPERATOR u1), x, tok p2 (.T_OPERATOR u2)]
             else [x, tok p2 (.T_OPERATOR u2), tok p1 (.T_OPERATOR u1)], [])
    ∧ exp_shunting_yard [a, tok p1 (.T_OPERATOR O_HAT), tok p2 (.T_OPERATOR u2), x] 0
      = .ok (if op_precedence u2 < op_precedence O_HAT
             then [a, tok p1 (.T_OPERATOR O_HAT), x, tok p2 (.T_OPERATOR u2)]
             else [a, x, tok p2 (.T_OPERATOR u2), tok p1 (.T_OPERATOR O_HAT)], [])
    ∧ (∀ (P : Platform) (exp : expression_t),
        exp_rpn P exp [tok p1 (.T_OPERATOR u1), x, tok p2 (.T_OPERATOR u2)]
          = .error ⟨EXP_ER_INVALEXPR,
              "Operator does not have sufficient number of operands", p1⟩)
    ∧ (∀ (P : Platform) (exp : expression_t) (n : Int) (pn : Nat),
        exp_rpn P exp [tok pn (.T_INTEGER n), tok p1 (.T_OPERATOR O_HAT), x,
            tok p2 (.T_OPERATOR u2)]
          = .error ⟨EXP_ER_INVALEXPR,
              "Operator does not have sufficient number of operands", p1⟩)
    ∧ (∀ P : Platform, ∃ exp, exp_create P "- ! 3".toList = .ok exp
        ∧ exp.tokens = [tok 0 (.T_OPERATOR O_UMINUS), tok 4 (.T_INTEGER 3),
            tok 2 (.T_OPERATOR O_BOOLNOT)]
        ∧ exp_solve P exp = .error ⟨EXP_ER_INVALEXPR,
            "Operator does not have sufficient number of operands", 0⟩)
    ∧ (∀ P : Platform, ∃ exp, exp_create P "2 ^ ~ 2".toList = .ok exp
        ∧ exp.tokens = [tok 0 (.T_INTEGER 2), tok 2 (.T_OPERATOR O_HAT), tok 6 (.T_INTEGER 2),
            tok 4 (.T_OPERATOR O_BITNOT)]
        ∧ exp_solve P exp = .error ⟨EXP_ER_INVALEXPR,
            "Operator does not have sufficient number of operands", 2⟩) := by
  obtain ⟨pa, va, rfl, hva⟩ := ha
  obtain ⟨px, vx, rfl, hvx⟩ := hx
  refine ⟨?_, ?_, ?_, ?_, fun P => ⟨_, rfl, rfl, rfl⟩, fun P => ⟨_, rfl, rfl, rfl⟩⟩
  · cases u1 <;> simp [is_unary_operator] at h1 <;>
      cases u2 <;> simp [is_unary_operator] at h2 <;>
        cases vx <;> simp [is_operand] at hvx <;> rfl
  · cases u2 <;> simp [is_unary_operator] at h2 <;>
      cases va <;> simp [is_operand] at hva <;>
        cases vx <;> simp [is_operand] at hvx <;> rfl
  · intro P exp
    cases u1 <;> simp [is_unary_operator] at h1 <;>
      cases vx <;> simp [is_operand] at hvx <;> rfl
  · intro P exp n pn
    cases vx <;> simp [is_operand] at hvx <;> rfl

/-- C34 fails at `- ! 3`: the RPN is `- 3 !`, with the unary minus before its
operand. -/
theorem C34_prefix_operator_popped_witness :
    exp_shunting_yard [tok 0 (.T_OPERATOR O_UMINUS), tok 2 (.T_OPERATOR O_BOOLNOT),
        tok 4 (.T_INTEGER 3)] 0
      = .ok ([tok 0 (.T_OPERATOR O_UMINUS), tok 4 (.T_INTEGER 3),
          tok 2 (.T_OPERATOR O_BOOLNOT)], []) :=
  (C34_prefix_operator_popped O_UMINUS O_BOOLNOT (tok 0 (.T_INTEGER 0)) (tok 4 (.T_INTEGER 3))
    0 2 rfl rfl ⟨0, _, rfl, rfl⟩ ⟨4, _, rfl, rfl⟩).1.trans rfl

/-! ## C35: a prefix-only operator after an operand -/

/-- C35 fails: `exp_check` never rejects `!` or `~` because of the token before
it. For operand tokens `a`, `b` and `op` one of `BoolNot`, `BitNot` the lists
`a op b` and `( a ) op b` pass `exp_check` unchanged, and the shunting-yard turns
`a op b` into the RPN `a b op`; for Integer literals the RPN leaves two values,
so `exp_rpn` fails with "too many operands". On every platform `exp_create`
accepts `2 ~ 3` and `exp_solve` then fails; it also accepts `- ! 3`, whose RPN
`- 3 !` makes the unary minus underflow the stack. -/
theorem C35_prefix_only_operator_accepted (a b : token_t) (p l r : Nat) (op : operator_t)
    (ha : operand_token a) (hb : operand_token b) (hop : op = O_BOOLNOT ∨ op = O_BITNOT) :
    exp_check [a, tok p (.T_OPERATOR op), b] = .ok [a, tok p (.T_OPERATOR op), b]
    ∧ exp_check [tok l .T_LPAREN, a, tok r .T_RPAREN, tok p (.T_OPERATOR op), b]
      = .ok [tok l .T_LPAREN, a, tok r .T_RPAREN, tok p (.T_OPERATOR op), b]
    ∧ exp_shunting_yard [a, tok p (.T_OPERATOR op), b] 0
      = .ok ([a, b, tok p (.T_OPERATOR op)], [])
    ∧ (∀ (P : Platform) (exp : expression_t) (x y : Int) (pa pb : Nat),
        exp_rpn P exp [tok pa (.T_INTEGER x), tok pb (.T_INTEGER y), tok p (.T_OPERATOR op)]
          = .error ⟨EXP_ER_INVALEXPR,
              "Expression is possibly malformed, it has too many operands", 0⟩)
    ∧ (∀ P : Platform, ∃ exp, exp_create P "2 ~ 3".toList = .ok exp
        ∧ exp.tokens = [tok 0 (.T_INTEGER 2), tok 4 (.T_INTEGER 3), tok 2 (.T_OPERATOR O_BITNOT)]
        ∧ exp_solve P exp = .error ⟨EXP_ER_INVALEXPR,
            "Expression is possibly malformed, it has too many operands", 0⟩)
    ∧ (∀ P : Platform, ∃ exp, exp_create P "- ! 3".toList = .ok exp
        ∧ exp.tokens = [tok 0 (.T_OPERATOR O_UMINUS), tok 4 (.T_INTEGER 3),
            tok 2 (.T_OPERATOR O_BOOLNOT)]
        ∧ exp_solve P exp = .error ⟨EXP_ER_INVALEXPR,
            "Operator does not have sufficient number of operands", 0⟩) := by
  obtain ⟨pa, va, rfl, hva⟩ := ha
  obtain ⟨pb, vb, rfl, hvb⟩ := hb
  refine ⟨?_, ?_, ?_, ?_, fun P => ⟨_, rfl, rfl, rfl⟩, fun P => ⟨_, rfl, rfl, rfl⟩⟩
  · rcases hop with rfl | rfl <;> cases va <;> simp [is_operand] at hva <;>
      cases vb <;> simp [is_operand] at hvb <;> rfl
  · rcases hop with rfl | rfl <;> cases va <;> simp [is_operand] at hva <;>
      cases vb <;> simp [is_operand] at hvb <;> rfl
  · rcases hop with rfl | rfl <;> cases va <;> simp [is_operand] at hva <;>
      cases vb <;> simp [is_operand] at hvb <;> rfl
  · intro P exp x y pa pb
    rcases hop with rfl | rfl <;> rfl

/-- C35 fails at `2 ~ 3`: the check accepts the three tokens. -/
theorem C35_prefix_only_operator_accepted_witness :
    exp_check [tok 0 (.T_INTEGER 2), tok 2 (.T_OPERATOR O_BITNOT), tok 4 (.T_INTEGER 3)]
      = .ok [tok 0 (.T_INTEGER 2), tok 2 (.T_OPERATOR O_BITNOT), tok 4 (.T_INTEGER 3)] :=
  (C35_prefix_only_operator_accepted (tok 0 (.T_INTEGER 2)) (tok 4 (.T_INTEGER 3)) 2 0 0
    O_BITNOT ⟨0, _, rfl, rfl⟩ ⟨4, _, rfl, rfl⟩ (Or.inr rfl)).1

/-! ## C36 and C37: commas, conditionals and grouping parentheses -/

/-- The turn of the reading loop at a comma when the stack is empty. -/
theorem sy_comma_empty (n m p : Nat) (in_ out : List token_t) (found argc : List Int) :
    sy_loop (n + 1) m (tok p .T_COMMA :: in_) [] out found argc
      = .error ⟨EXP_ER_INVALEXPR, "Unexpected comma", p⟩ := by
  simp [sy_loop, tok, token_t.param, pop_until_lparen, token_t.position]

/-- The turn of the reading loop at a comma after an argument of the innermost
call, with a left parenthesis on top of the stack. -/
theorem sy_comma_call (n m p lp : Nat) (in_ stack out : List token_t) (a : Int)
    (found argc : List Int) :
    sy_loop (n + 1) m (tok p .T_COMMA :: in_) (tok lp .T_LPAREN :: stack) out (1 :: found)
        (a :: argc)
      = sy_loop n m in_ (tok lp .T_LPAREN :: stack) out (0 :: found) ((a + 1) :: argc) := by
  simp [sy_loop, tok, token_t.param, pop_until_lparen, token_t.type, value_t.type]

/-- The turn of the reading loop at a comma when no call is open. -/
theorem sy_comma_no_call (n m p lp : Nat) (in_ stack out : List token_t) (argc : List Int) :
    sy_loop (n + 1) m (tok p .T_COMMA :: in_) (tok lp .T_LPAREN :: stack) out [] argc
      = .error ⟨EXP_ER_INVALEXPR, "Unexpected comma", p⟩ := by
  simp [sy_loop, tok, token_t.param, pop_until_lparen, token_t.type, value_t.type,
    token_t.position]

/-- The turn of the reading loop at a right parenthesis in mode 2 when the stack
is empty and the output is not: the call returns with the parenthesis unread. -/
theorem sy_rparen_return (n p : Nat) (in_ : List token_t) (x : token_t) (found argc : List Int) :
    sy_loop (n + 1) 2 (tok p .T_RPAREN :: in_) [] [x] found argc
      = .ok ([x], tok p .T_RPAREN :: in_) := by
  simp [sy_loop, tok, token_t.param, pop_until_lparen]

/-- The turn of the reading loop at the right parenthesis of a group that
stands right after another left parenthesis. -/
theorem sy_rparen_group (n m p lp lp2 : Nat) (in_ stack out : List token_t)
    (found argc : List Int) :
    sy_loop (n + 1) m (tok p .T_RPAREN :: in_)
        (tok lp .T_LPAREN :: tok lp2 .T_LPAREN :: stack) out found argc
      = sy_loop n m in_ (tok lp2 .T_LPAREN :: stack) out found argc := by
  simp [sy_loop, tok, token_t.param, pop_until_lparen, token_t.type, value_t.type]

/-- The turn of the reading loop at `?` when both branches compile. -/
theorem sy_question_ok (fuel m qp : Nat) (in_ s o t1 t2 in1 in2 : List token_t) (i1 : token_t)
    (f a : List Int)
    (h1 : sy_loop fuel 1 (exp_token_dup.list in_) [] [] [] [] = .ok (t1, i1 :: in1))
    (h2 : sy_loop fuel 2 (exp_token_dup.list (i1 :: in1)) [] [] [] [] = .ok (t2, in2)) :
    sy_loop (fuel + 1) m (tok qp (.T_OPERATOR O_IFTHEN) :: in_) s o f a
      = sy_loop fuel m in2 (pop_operators O_IFTHEN s o).1
          ((pop_operators O_IFTHEN s o).2 ++ [token_t.mk qp .T_IFSTATEMENT t1,
            token_t.mk qp .T_IFSTATEMENT t2, token_t.mk qp (.T_IFCONDITION O_IFTHEN) []])
          f a := by
  have h := sy_question_step fuel m qp [] in_ s o f a
  rw [h1] at h
  simp only [h2] at h
  exact h

/-- The turn of the reading loop at `?` when the else-branch fails. -/
theorem sy_question_else_error (fuel m qp : Nat) (in_ s o t1 in1 : List token_t) (i1 : token_t)
    (f a : List Int) (e : exp_failure)
    (h1 : sy_loop fuel 1 (exp_token_dup.list in_) [] [] [] [] = .ok (t1, i1 :: in1))
    (h2 : sy_loop fuel 2 (exp_token_dup.list (i1 :: in1)) [] [] [] [] = .error e) :
    sy_loop (fuel + 1) m (tok qp (.T_OPERATOR O_IFTHEN) :: in_) s o f a = .error e := by
  have h := sy_question_step fuel m qp [] in_ s o f a
  rw [h1] at h
  simp only [h2] at h
  exact h

/-- The then-branch `a :` of a conditional whose branch is one operand. -/
theorem sy_then_operand (n p cp : Nat) (v : value_t) (hv : is_operand v = true)
    (in_ : List token_t) :
    sy_loop (n + 1 + 1) 1 (tok p v :: tok cp (.T_OPERATOR O_ELSE) :: in_) [] [] [] []
      = .ok ([tok p v], in_) := by
  rw [sy_operand _ _ _ _ hv]
  have h := sy_colon_step n cp [] in_ [] ([] ++ [tok p v]) (found_set []) []
  exact h.trans (by simp [sy_finish, sy_drain])

/-- C36. For operand tokens `c`, `a`, `b`, `d` the shunting-yard fails on
`f(c ? a : b, d)` with `EXP_ER_INVALEXPR` "Unexpected comma" at the position of
the comma: the compilation of the else-branch, `b , d )` in mode 2, meets the
comma with an empty operator stack and fails so. On `f(d, c ? a : b)` and on
`f((c ? a : b), d)` it succeeds, and the argument count before the function
token is 2. -/
theorem C36_ternary_as_argument (name : String) (fp lp qp cp mp rp lg rg : Nat)
    (c a b d : token_t) (hc : operand_token c) (ha : operand_token a) (hb : operand_token b)
    (hd : operand_token d) :
    exp_shunting_yard [tok fp (.T_FUNCTION name), tok lp .T_LPAREN, c,
        tok qp (.T_OPERATOR O_IFTHEN), a, tok cp (.T_OPERATOR O_ELSE), b, tok mp .T_COMMA, d,
        tok rp .T_RPAREN] 0
      = .error ⟨EXP_ER_INVALEXPR, "Unexpected comma", mp⟩
    ∧ exp_shunting_yard [b, tok mp .T_COMMA, d, tok rp .T_RPAREN] 2
      = .error ⟨EXP_ER_INVALEXPR, "Unexpected comma", mp⟩
    ∧ exp_shunting_yard [tok fp (.T_FUNCTION name), tok lp .T_LPAREN, d, tok mp .T_COMMA, c,
        tok qp (.T_OPERATOR O_IFTHEN), a, tok cp (.T_OPERATOR O_ELSE), b, tok rp .T_RPAREN] 0
      = .ok (d :: ternary_rpn [c] qp [a] [b]
          ++ [tok fp (.T_INTEGER 2), tok fp (.T_FUNCTION name)], [])
    ∧ exp_shunting_yard [tok fp (.T_FUNCTION name), tok lp .T_LPAREN, tok lg .T_LPAREN, c,
        tok qp (.T_OPERATOR O_IFTHEN), a, tok cp (.T_OPERATOR O_ELSE), b, tok rg .T_RPAREN,
        tok mp .T_COMMA, d, tok rp .T_RPAREN] 0
      = .ok (ternary_rpn [c] qp [a] [b]
          ++ [d, tok fp (.T_INTEGER 2), tok fp (.T_FUNCTION name)], []) := by
  obtain ⟨pc, vc, rfl, hvc⟩ := hc
  obtain ⟨pa, va, rfl, hva⟩ := ha
  obtain ⟨pb, vb, rfl, hvb⟩ := hb
  obtain ⟨pd, vd, rfl, hvd⟩ := hd
  have hfail : ∀ n, sy_loop (n + 1 + 1) 2
      [tok pb vb, tok mp .T_COMMA, tok pd vd, tok rp .T_RPAREN] [] [] [] []
      = .error ⟨EXP_ER_INVALEXPR, "Unexpected comma", mp⟩ := by
    intro n
    rw [sy_operand _ _ _ _ hvb, sy_comma_empty]
  have helse : ∀ n r rest, sy_loop (n + 1 + 1) 2 (tok pb vb :: tok r .T_RPAREN :: rest) [] [] [] []
      = .ok ([tok pb vb], tok r .T_RPAREN :: rest) := by
    intro n r rest
    rw [sy_operand _ _ _ _ hvb]
    exact sy_rparen_return _ _ _ _ _ _
  refine ⟨?_, ?_, ?_, ?_⟩
  · unfold exp_shunting_yard
    simp only [exp_token_dup.list, dup_tok, List.length_cons, List.length_nil]
    rw [sy_function, sy_lparen, sy_operand _ _ _ _ hvc]
    refine sy_question_else_error _ _ _ _ _ _ [tok pa va]
      [tok mp .T_COMMA, tok pd vd, tok rp .T_RPAREN] (tok pb vb) _ _ _ ?_ ?_
    · simp only [exp_token_dup.list, dup_tok]
      exact sy_then_operand _ _ _ _ hva _
    · simp only [exp_token_dup.list, dup_tok]
      exact hfail _
  · unfold exp_shunting_yard
    simp only [exp_token_dup.list, dup_tok, List.length_cons, List.length_nil]
    exact hfail _
  · unfold exp_shunting_yard
    simp only [exp_token_dup.list, dup_tok, List.length_cons, List.length_nil]
    rw [sy_function, sy_lparen, sy_operand _ _ _ _ hvd]
    simp only [found_set]
    rw [sy_comma_call, sy_operand _ _ _ _ hvc]
    rw [sy_question_ok _ _ _ _ _ _ [tok pa va] [tok pb vb] [tok rp .T_RPAREN]
      [tok rp .T_RPAREN] (tok pb vb) _ _
      (by simp only [exp_token_dup.list, dup_tok]; exact sy_then_operand _ _ _ _ hva _)
      (by simp only [exp_token_dup.list, dup_tok]; exact helse _ _ _)]
    simp only [pop_operators, tok, token_t.param, found_set]
    exact (sy_close_call _ _ _ _ _ _ _ _ _).trans (by simp [ternary_rpn, tok])
  · unfold exp_shunting_yard
    simp only [exp_token_dup.list, dup_tok, List.length_cons, List.length_nil]
    rw [sy_function, sy_lparen, sy_lparen, sy_operand _ _ _ _ hvc]
    rw [sy_question_ok _ _ _ _ _ _ [tok pa va] [tok pb vb]
      [tok rg .T_RPAREN, tok mp .T_COMMA, tok pd vd, tok rp .T_RPAREN]
      [tok rg .T_RPAREN, tok mp .T_COMMA, tok pd vd, tok rp .T_RPAREN] (tok pb vb) _ _
      (by simp only [exp_token_dup.list, dup_tok]; exact sy_then_operand _ _ _ _ hva _)
      (by simp only [exp_token_dup.list, dup_tok]; exact helse _ _ _)]
    have hpop : ∀ s o, pop_operators O_IFTHEN (tok lg .T_LPAREN :: s) o
        = (tok lg .T_LPAREN :: s, o) := fun _ _ => rfl
    simp only [hpop, found_set]
    rw [sy_rparen_group, sy_comma_call, sy_operand _ _ _ _ hvd]
    simp only [found_set]
    exact (sy_close_call _ _ _ _ _ _ _ _ _).trans (by simp [ternary_rpn, tok])

/-- C36 at `f(1 ? 2 : 3, 4)`: the failure is at the comma at offset 11. -/
theorem C36_ternary_as_argument_witness :
    exp_shunting_yard [tok 0 (.T_FUNCTION "f"), tok 1 .T_LPAREN, tok 2 (.T_INTEGER 1),
        tok 4 (.T_OPERATOR O_IFTHEN), tok 6 (.T_INTEGER 2), tok 8 (.T_OPERATOR O_ELSE),
        tok 10 (.T_INTEGER 3), tok 11 .T_COMMA, tok 13 (.T_INTEGER 4), tok 14 .T_RPAREN] 0
      = .error ⟨EXP_ER_INVALEXPR, "Unexpected comma", 11⟩ :=
  (C36_ternary_as_argument "f" 0 1 4 8 11 14 0 0 (tok 2 (.T_INTEGER 1)) (tok 6 (.T_INTEGER 2))
    (tok 10 (.T_INTEGER 3)) (tok 13 (.T_INTEGER 4)) ⟨2, _, rfl, rfl⟩ ⟨6, _, rfl, rfl⟩
    ⟨10, _, rfl, rfl⟩ ⟨13, _, rfl, rfl⟩).1

/-- C37. For operand tokens `a`, `b` the shunting-yard compiles `f((a, b))` to
`a b 2 f`, which is exactly the RPN of `f(a, b)`: the comma inside the grouping
parentheses counts for the call `f`. The list `(a, b)`, where no call is open,
fails with `EXP_ER_INVALEXPR` "Unexpected comma" at the comma. Both lists pass
`exp_check`; on every platform `exp_create` fails so on the text `(1, 2)`. -/
theorem C37_comma_inside_group (name : String) (fp lp lg rg rp mp : Nat) (a b : token_t)
    (ha : operand_token a) (hb : operand_token b) :
    exp_shunting_yard [tok fp (.T_FUNCTION name), tok lp .T_LPAREN, tok lg .T_LPAREN, a,
        tok mp .T_COMMA, b, tok rg .T_RPAREN, tok rp .T_RPAREN] 0
      = .ok ([a, b, tok fp (.T_INTEGER 2), tok fp (.T_FUNCTION name)], [])
    ∧ exp_shunting_yard [tok fp (.T_FUNCTION name), tok lp .T_LPAREN, tok lg .T_LPAREN, a,
        tok mp .T_COMMA, b, tok rg .T_RPAREN, tok rp .T_RPAREN] 0
      = exp_shunting_yard (call_input fp name lp rp [a, b] [mp]) 0
    ∧ exp_shunting_yard [tok lg .T_LPAREN, a, tok mp .T_COMMA, b, tok rg .T_RPAREN] 0
      = .error ⟨EXP_ER_INVALEXPR, "Unexpected comma", mp⟩
    ∧ exp_check [tok fp (.T_FUNCTION name), tok lp .T_LPAREN, tok lg .T_LPAREN, a,
        tok mp .T_COMMA, b, tok rg .T_RPAREN, tok rp .T_RPAREN]
      = .ok [tok fp (.T_FUNCTION name), tok lp .T_LPAREN, tok lg .T_LPAREN, a,
        tok mp .T_COMMA, b, tok rg .T_RPAREN, tok rp .T_RPAREN]
    ∧ exp_check [tok lg .T_LPAREN, a, tok mp .T_COMMA, b, tok rg .T_RPAREN]
      = .ok [tok lg .T_LPAREN, a, tok mp .T_COMMA, b, tok rg .T_RPAREN]
    ∧ (∀ P : Platform, exp_create P "(1, 2)".toList
      = .error ⟨EXP_ER_INVALEXPR, "Unexpected comma", 2⟩) := by
  obtain ⟨pa, va, rfl, hva⟩ := ha
  obtain ⟨pb, vb, rfl, hvb⟩ := hb
  have hfirst : exp_shunting_yard [tok fp (.T_FUNCTION name), tok lp .T_LPAREN,
        tok lg .T_LPAREN, tok pa va, tok mp .T_COMMA, tok pb vb, tok rg .T_RPAREN,
        tok rp .T_RPAREN] 0
      = .ok ([tok pa va, tok pb vb, tok fp (.T_INTEGER 2), tok fp (.T_FUNCTION name)], []) := by
    unfold exp_shunting_yard
    simp only [exp_token_dup.list, dup_tok, List.length_cons, List.length_nil]
    rw [sy_function, sy_lparen, sy_lparen, sy_operand _ _ _ _ hva]
    simp only [found_set]
    rw [sy_comma_call, sy_operand _ _ _ _ hvb, sy_rparen_group]
    simp only [found_set]
    exact (sy_close_call _ _ _ _ _ _ _ _ _).trans (by simp)
  refine ⟨hfirst, ?_, ?_, ?_, ?_, fun P => rfl⟩
  · rw [hfirst]
    unfold exp_shunting_yard
    simp only [call_input, join_args, List.cons_append, List.nil_append, exp_token_dup.list,
      dup_tok, List.length_cons, List.length_nil]
    rw [sy_function, sy_lparen, sy_operand _ _ _ _ hva]
    simp only [found_set]
    rw [sy_comma_call, sy_operand _ _ _ _ hvb]
    simp only [found_set]
    exact ((sy_close_call _ _ _ _ _ _ _ _ _).trans (by simp)).symm
  · unfold exp_shunting_yard
    simp only [exp_token_dup.list, dup_tok, List.length_cons, List.length_nil]
    rw [sy_lparen, sy_operand _ _ _ _ hva]
    simp only [found_set]
    rw [sy_comma_no_call]
  · cases va <;> simp [is_operand] at hva <;> cases vb <;> simp [is_operand] at hvb <;> rfl
  · cases va <;> simp [is_operand] at hva <;> cases vb <;> simp [is_operand] at hvb <;> rfl

/-- C37 at `f((1, 2))`: the RPN is `1 2 2 f`. -/
theorem C37_comma_inside_group_witness :
    exp_shunting_yard [tok 0 (.T_FUNCTION "f"), tok 1 .T_LPAREN, tok 2 .T_LPAREN,
        tok 3 (.T_INTEGER 1), tok 4 .T_COMMA, tok 6 (.T_INTEGER 2), tok 7 .T_RPAREN,
        tok 8 .T_RPAREN] 0
      = .ok ([tok 3 (.T_INTEGER 1), tok 6 (.T_INTEGER 2), tok 0 (.T_INTEGER 2),
          tok 0 (.T_FUNCTION "f")], []) :=
  (C37_comma_inside_group "f" 0 1 2 7 8 4 (tok 3 (.T_INTEGER 1)) (tok 6 (.T_INTEGER 2))
    ⟨3, _, rfl, rfl⟩ ⟨6, _, rfl, rfl⟩).1

/-! ## C40: the base conversions round-trip -/

theorem digits_value_append (base : Nat) (a b : List Char) :
    ∀ acc, digits_value base (a ++ b) acc = digits_value base b (digits_value base a acc) := by
  induction a with
  | nil => intro acc; rfl
  | cons c cs ih => intro acc; exact ih _

/-- The digit that the loops of `dec2bin`, `dec2hex` and `dec2oct` write for a
value below the base is read back with that value. -/
theorem base_digit_written :
    (∀ d, d < 16 → base_digit 16 (if d < 10 then Char.ofNat (d + '0'.toNat)
        else Char.ofNat (d - 10 + 'a'.toNat)) = some d)
    ∧ (∀ d, d < 8 → base_digit 8 (if d < 10 then Char.ofNat (d + '0'.toNat)
        else Char.ofNat (d - 10 + 'a'.toNat)) = some d)
    ∧ (∀ d, d < 2 → base_digit 2 (if d < 10 then Char.ofNat (d + '0'.toNat)
        else Char.ofNat (d - 10 + 'a'.toNat)) = some d) := by
  decide

/-- The digits written by the loop of `dec2bin`, `dec2hex` and `dec2oct` for a
value that fits in `fuel` digits: they are put in front of the buffer, are
digits of the base, have the value `i`, and start with `0` only for `i = 0`. -/
theorem uint_to_digits_spec (bits base : Nat) (hbase : base = 2 ^ bits)
    (hdigit : ∀ d, d < base → base_digit base (if d < 10 then Char.ofNat (d + '0'.toNat)
        else Char.ofNat (d - 10 + 'a'.toNat)) = some d) :
    ∀ (fuel i : Nat) (acc : List Char), i < base ^ fuel → 0 < fuel →
      ∃ ds, uint_to_digits bits fuel i acc = ds ++ acc ∧ ds ≠ []
        ∧ (∀ c ∈ ds, (base_digit base c).isSome = true)
        ∧ (∀ a, digits_value base ds a = a * base ^ ds.length + i)
        ∧ (i ≠ 0 → ds.head? ≠ some '0')
        ∧ (i = 0 → ds = ['0']) := by
  have hpos : 0 < base := by rw [hbase]; positivity
  have hzero : base_digit base '0' = some 0 := by
    have := hdigit 0 hpos
    simpa using this
  intro fuel
  induction fuel with
  | zero => intro i acc _ h; exact absurd h (by decide)
  | succ fuel ih =>
    intro i acc hi _
    have hmod : i % base < base := Nat.mod_lt _ hpos
    have hd := hdigit (i % base) hmod
    simp only [uint_to_digits, ← hbase]
    by_cases hq : i / base = 0
    · rw [if_pos hq]
      have hlt : i < base := by
        exact (Nat.div_eq_zero_iff hpos).mp hq
      have hmi : i % base = i := Nat.mod_eq_of_lt hlt
      rw [hmi] at hd ⊢
      refine ⟨[_], rfl, by simp, ?_, ?_, ?_, ?_⟩
      · intro c hc
        simp only [List.mem_singleton] at hc
        rw [hc, hd]; rfl
      · intro a
        simp only [digits_value, hd, Option.getD_some, List.length_singleton, pow_one]
      · intro hne hhead
        simp only [List.head?_cons, Option.some.injEq] at hhead
        rw [hhead, hzero] at hd
        simp only [Option.some.injEq] at hd
        omega
      · intro h0
        subst h0
        simp
    · rw [if_neg hq]
      have hfuel : 0 < fuel := by
        rcases Nat.eq_zero_or_pos fuel with h | h
        · subst h
          simp only [zero_add, pow_one] at hi
          exact absurd (Nat.div_eq_of_lt hi) hq
        · exact h
      have hlt : i / base < base ^ fuel := by
        rw [Nat.div_lt_iff_lt_mul hpos]
        rw [pow_succ] at hi
        exact hi
      generalize hch : (if i % base < 10 then Char.ofNat (i % base + '0'.toNat)
        else Char.ofNat (i % base - 10 + 'a'.toNat)) = ch at hd ⊢
      obtain ⟨ds, heq, hne, hvalid, hvalue, hhead, _⟩ := ih (i / base) (ch :: acc) hlt hfuel
      refine ⟨ds ++ [ch], ?_, by simp, ?_, ?_, ?_, ?_⟩
      · rw [heq]; simp
      · intro c hc
        simp only [List.mem_append, List.mem_singleton] at hc
        rcases hc with hc | hc
        · exact hvalid c hc
        · rw [hc, hd]; rfl
      · intro a
        rw [digits_value_append, hvalue]
        simp only [digits_value, hd, Option.getD_some, List.length_append,
          List.length_singleton, pow_succ]
        have := Nat.div_add_mod i base
        nlinarith [Nat.div_add_mod i base]
      · intro _
        cases ds with
        | nil => exact absurd rfl hne
        | cons x xs => exact hhead hq
      · intro h0
        subst h0
        simp at hq

/-- The round trip of one base: the digits written by `call_from_dec` for an
Integer between 0 and `INT64_MAX` are read back by `call_to_dec` as that
Integer. -/
theorem from_dec_to_dec (P : Platform) (bits base : Nat) (digit : Char → Option Nat)
    (hbase : base = 2 ^ bits) (hbig : 9223372036854775807 < base ^ 64)
    (hdigit : ∀ c, digit c = base_digit base c)
    (hwritten : ∀ d, d < base → base_digit base (if d < 10 then Char.ofNat (d + '0'.toNat)
        else Char.ofNat (d - 10 + 'a'.toNat)) = some d)
    (n : Int) (p q : Nat) (h0 : 0 ≤ n) (hmax : n ≤ INT64_MAX) :
    ∃ s, call_from_dec P bits [tok p (.T_INTEGER n)] = .ok (.T_STRING s)
      ∧ call_to_dec digit base [tok q (.T_STRING s)] = .ok (.T_INTEGER n)
      ∧ is_shortest_digits base n.toNat s = true := by
  have hn : n.toNat ≤ 9223372036854775807 := by
    unfold INT64_MAX at hmax
    omega
  have hmod : (n % 18446744073709551616).toNat = n.toNat := by
    unfold INT64_MAX at hmax
    rw [Int.emod_eq_of_lt h0 (by omega)]
  obtain ⟨ds, heq, hne, hvalid, hvalue, hhead, hzero⟩ :=
    uint_to_digits_spec bits base hbase hwritten 64 n.toNat [] (by omega) (by decide)
  rw [List.append_nil] at heq
  have hv : digits_value base ds 0 = n.toNat := by rw [hvalue]; simp
  have hpos : 1 ≤ base := by rw [hbase]; exact Nat.one_le_two_pow
  refine ⟨ds, ?_, ?_, ?_⟩
  · simp only [call_from_dec, tok, token_t.param, exp_is_integer, hmod, heq]
  · have hex := digits_to_uint_exact digit base hpos hdigit ds 0
      (fun c hc => by rw [hdigit]; exact hvalid c hc) (by rw [hv]; exact hn)
    simp only [call_to_dec, tok, token_t.param, hex, hv]
    rw [wrap64_of_le _ hn, Int.toNat_of_nonneg h0]
  · simp only [is_shortest_digits, Bool.and_eq_true, List.all_eq_true, beq_iff_eq]
    refine ⟨⟨hvalid, hv⟩, ?_⟩
    by_cases hz : n.toNat = 0
    · rw [if_pos hz, hzero hz]; rfl
    · rw [if_neg hz]
      simpa using hhead hz

/-- C40. For every Integer `n` with `0 ≤ n ≤ INT64_MAX`, on every platform,
`hex2dec(dec2hex(n))`, `bin2dec(dec2bin(n))` and `oct2dec(dec2oct(n))` are `n`,
and each of `dec2hex(n)`, `dec2bin(n)`, `dec2oct(n)` is the shortest string of
digits of its base for `n`: its value is `n`, it is `0` for `n = 0` and has no
leading `0` otherwise. -/
theorem C40_base_round_trip (P : Platform) (n : Int) (p q : Nat) (h0 : 0 ≤ n)
    (hmax : n ≤ INT64_MAX) :
    (∃ s, call_dec2hex P [tok p (.T_INTEGER n)] = .ok (.T_STRING s)
      ∧ call_hex2dec [tok q (.T_STRING s)] = .ok (.T_INTEGER n)
      ∧ is_shortest_digits 16 n.toNat s = true)
    ∧ (∃ s, call_dec2bin P [tok p (.T_INTEGER n)] = .ok (.T_STRING s)
      ∧ call_bin2dec [tok q (.T_STRING s)] = .ok (.T_INTEGER n)
      ∧ is_shortest_digits 2 n.toNat s = true)
    ∧ (∃ s, call_dec2oct P [tok p (.T_INTEGER n)] = .ok (.T_STRING s)
      ∧ call_oct2dec [tok q (.T_STRING s)] = .ok (.T_INTEGER n)
      ∧ is_shortest_digits 8 n.toNat s = true) :=
  ⟨from_dec_to_dec P 4 16 IS_HEXADEMICAL rfl (by norm_num) (fun _ => rfl)
      base_digit_written.1 n p q h0 hmax,
    from_dec_to_dec P 1 2 IS_BINARY rfl (by norm_num) (fun _ => rfl)
      base_digit_written.2.2 n p q h0 hmax,
    from_dec_to_dec P 3 8 IS_OCTAL rfl (by norm_num) (fun _ => rfl)
      base_digit_written.2.1 n p q h0 hmax⟩

/-- C40 at 255: `dec2hex(255)` is `ff`, which `hex2dec` reads back as 255. -/
theorem C40_base_round_trip_witness :
    (∃ s, call_dec2hex exact_platform [tok 8 (.T_INTEGER 255)] = .ok (.T_STRING s)
      ∧ call_hex2dec [tok 0 (.T_STRING s)] = .ok (.T_INTEGER 255)
      ∧ is_shortest_digits 16 (255 : Int).toNat s = true)
    ∧ call_dec2hex exact_platform [tok 8 (.T_INTEGER 255)] = .ok (.T_STRING "ff".toList) :=
  ⟨(C40_base_round_trip exact_platform 255 8 0 (by decide) (by decide)).1, by rfl⟩

/-! ## C33: the coercions round-trip through strings -/

theorem digitChar_numeric :
    ∀ d, d < 10 → IS_NUMERIC (Nat.digitChar d) = true
      ∧ (Nat.digitChar d).toNat - '0'.toNat = d := by
  decide

theorem atoll_digits_append (a b : List Char) (ha : ∀ c ∈ a, IS_NUMERIC c = true) :
    ∀ acc, atoll_digits (a ++ b) acc = atoll_digits b (atoll_digits a acc) := by
  induction a with
  | nil => intro acc; rfl
  | cons c cs ih =>
    intro acc
    have hc := ha c (List.mem_cons_self _ _)
    simp only [List.cons_append, atoll_digits, hc, if_true]
    exact ih (fun x hx => ha x (List.mem_cons_of_mem _ hx)) _

/-- The decimal digits that `Nat.toDigitsCore` puts in front of `ds`: they are
numeric and `atoll_digits` reads them back as `n`. -/
theorem toDigitsCore_spec :
    ∀ (fuel n : Nat) (ds : List Char), n < fuel →
      ∃ front, Nat.toDigitsCore 10 fuel n ds = front ++ ds ∧ front ≠ []
        ∧ (∀ c ∈ front, IS_NUMERIC c = true)
        ∧ (∀ acc, atoll_digits front acc = acc * 10 ^ front.length + n) := by
  intro fuel
  induction fuel with
  | zero => intro n ds h; exact absurd h (Nat.not_lt_zero _)
  | succ fuel ih =>
    intro n ds hn
    have hd := digitChar_numeric (n % 10) (Nat.mod_lt _ (by decide))
    simp only [Nat.toDigitsCore]
    by_cases hq : n / 10 = 0
    · rw [if_pos hq]
      have hlt : n < 10 := (Nat.div_eq_zero_iff (by decide)).mp hq
      have hmi : n % 10 = n := Nat.mod_eq_of_lt hlt
      rw [hmi] at hd ⊢
      refine ⟨[Nat.digitChar n], rfl, by simp, ?_, ?_⟩
      · intro c hc
        simp only [List.mem_singleton] at hc
        rw [hc]; exact hd.1
      · intro acc
        simp only [atoll_digits, hd.1, hd.2, if_true, List.length_singleton, pow_one]
    · rw [if_neg hq]
      have hlt : n / 10 < fuel := by omega
      obtain ⟨front, heq, hne, hnum, hval⟩ := ih (n / 10) (Nat.digitChar (n % 10) :: ds) hlt
      refine ⟨front ++ [Nat.digitChar (n % 10)], ?_, by simp, ?_, ?_⟩
      · rw [heq]; simp
      · intro c hc
        simp only [List.mem_append, List.mem_singleton] at hc
        rcases hc with hc | hc
        · exact hnum c hc
        · rw [hc]; exact hd.1
      · intro acc
        rw [atoll_digits_append _ _ hnum, hval]
        simp only [atoll_digits, hd.1, hd.2, if_true, List.length_append, List.length_singleton,
          pow_succ]
        nlinarith [Nat.div_add_mod n 10]

/-- The text of `%lld` for a natural number: a non-empty string of decimal
digits that `atoll_digits` reads back. -/
theorem toDigits_spec (k : Nat) :
    Nat.toDigits 10 k ≠ [] ∧ (∀ c ∈ Nat.toDigits 10 k, IS_NUMERIC c = true)
      ∧ atoll_digits (Nat.toDigits 10 k) 0 = k := by
  obtain ⟨front, heq, hne, hnum, hval⟩ := toDigitsCore_spec (k + 1) k [] (Nat.lt_succ_self k)
  have h : Nat.toDigits 10 k = front := by
    rw [Nat.toDigits, heq, List.append_nil]
  rw [h]
  exact ⟨hne, hnum, by rw [hval]; simp⟩

theorem toDigits_length (k : Nat) (hk : k < 10 ^ 19) : (Nat.toDigits 10 k).length ≤ 19 :=
  Nat.toDigitsCore_length 10 (by decide) (k + 1) k 19 hk (by decide)

theorem numeric_not_space (c : Char) (h : IS_NUMERIC c = true) :
    IS_BLANK c = false ∧ IS_SPACE c = false ∧ c ≠ '-' ∧ c ≠ '+' ∧ c ≠ 'x'
      ∧ (c == ' ' || c == '\t' || c == '\n' || c == '\r' || c.toNat == 11 || c.toNat == 12)
        = false := by
  simp only [IS_NUMERIC, Bool.and_eq_true, decide_eq_true_eq] at h
  have h0 : ('0' : Char).toNat = 48 := rfl
  have h9 : ('9' : Char).toNat = 57 := rfl
  have h1 : 48 ≤ c.toNat := h.1
  have h2 : c.toNat ≤ 57 := h.2
  have hne : ∀ x : Char, (x.toNat < 48 ∨ 57 < x.toNat) → c ≠ x := by
    intro x hx hcx
    rw [hcx] at h1 h2
    omega
  have e1 := hne ' ' (Or.inl (by decide))
  have e2 := hne '\t' (Or.inl (by decide))
  have e3 := hne '\n' (Or.inl (by decide))
  have e4 := hne '\r' (Or.inl (by decide))
  have e5 : c.toNat ≠ 11 := by omega
  have e6 : c.toNat ≠ 12 := by omega
  refine ⟨?_, ?_, hne '-' (Or.inl (by decide)), hne '+' (Or.inl (by decide)),
    hne 'x' (Or.inr (by decide)), ?_⟩
  · simp [IS_BLANK, e1, e2, e3, e4]
  · simp [IS_SPACE, e1, e2]
  · simp [e1, e2, e3, e4, e5, e6]

/-- The function `is_number` of `eval.c` on a non-empty string of digits. -/
theorem is_number_of_digits (P : Platform) (d : List Char) (hne : d ≠ [])
    (hd : ∀ c ∈ d, IS_NUMERIC c = true) :
    is_number P d = .ok (atoll d, Double.ofInt (atoll d)) := by
  have hdrop : d.dropWhile IS_SPACE = d :=
    dropWhile_of_all_false _ _ (fun c hc => (numeric_not_space c (hd c hc)).2.1)
  have htrim : trim_right_len d = d.length := by
    unfold trim_right_len
    rw [dropWhile_of_all_false _ _
      (fun c hc => (numeric_not_space c (hd c (List.mem_reverse.1 hc))).1), List.length_reverse]
  have hlen : d.length ≠ 0 := by
    cases d with
    | nil => exact absurd rfl hne
    | cons c cs => simp
  have hdec : is_number.is_number_decimal P d d.length
      = .ok (atoll d, Double.ofInt (atoll d)) := by
    simp only [is_number.is_number_decimal, is_number_scan_digits d 0 false false false hd,
      Nat.zero_add, decide_eq_true_eq, hlen, Bool.false_eq_true, Bool.and_false, Bool.or_false,
      decide_False, if_false, if_true]
  unfold is_number
  simp only [hdrop, htrim]
  split
  · exact absurd rfl (numeric_not_space 'x' (hd 'x' (by simp))).2.2.2.2.1
  · exact hdec

/-- The function `atoll` on the text of `%lld` reads the number back. -/
theorem atoll_fmt_lld (n : Int) (hmin : INT64_MIN ≤ n) (hmax : n ≤ INT64_MAX) :
    atoll (fmt_lld n) = n := by
  obtain ⟨hne, hnum, hval⟩ := toDigits_spec n.natAbs
  unfold INT64_MIN at hmin
  unfold INT64_MAX at hmax
  by_cases hneg : n < 0
  · simp only [fmt_lld, if_pos hneg, atoll, List.dropWhile_cons]
    simp only [show ('-' == ' ' || '-' == '\t' || '-' == '\n' || '-' == '\r'
      || ('-' : Char).toNat == 11 || ('-' : Char).toNat == 12) = false from rfl,
      Bool.false_eq_true, if_false, hval, INT64_MIN]
    omega
  · simp only [fmt_lld, if_neg hneg]
    generalize hds : Nat.toDigits 10 n.natAbs = ds at hne hnum hval
    cases ds with
    | nil => exact absurd rfl hne
    | cons c cs =>
      have hc := numeric_not_space c (hnum c (List.mem_cons_self _ _))
      simp only [atoll, List.dropWhile_cons, hc.2.2.2.2.2, Bool.false_eq_true, if_false]
      split
      · rename_i heq
        injection heq with h1 _
        exact absurd h1 hc.2.2.1
      · rename_i heq
        injection heq with h1 _
        exact absurd h1 hc.2.2.2.1
      · rw [hval, INT64_MAX]
        omega

theorem snprintf_fmt_lld (n : Int) (hmin : INT64_MIN ≤ n) (hmax : n ≤ INT64_MAX) :
    snprintf 128 (fmt_lld n) = fmt_lld n := by
  unfold INT64_MIN at hmin
  unfold INT64_MAX at hmax
  have hk : n.natAbs < 10 ^ 19 := by omega
  have hl := toDigits_length n.natAbs hk
  unfold snprintf
  apply List.take_of_length_le
  unfold fmt_lld
  split
  · simp only [List.length_cons]; omega
  · omega

/-- C33. For every Integer `n` of the 64-bit range, both ends included,
`exp_to_integer` applied to the String that `exp_to_string` makes of `n`
returns `n`. For every Boolean, `exp_to_boolean` applied to the String that
`exp_to_string` makes of it returns its truth value as 1 or 0, which is the
Boolean itself for the two Booleans 1 (true) and 0 (false) that the lexer, the
operators and the built-ins make. -/
theorem C33_stringification_round_trip (P : Platform) (n b : Int) (hmin : INT64_MIN ≤ n)
    (hmax : n ≤ INT64_MAX) :
    (∃ s, exp_to_string P (.T_INTEGER n) = .ok s ∧ exp_to_integer P (.T_STRING s) = .ok n)
    ∧ (∃ s, exp_to_string P (.T_BOOLEAN b) = .ok s
        ∧ exp_to_boolean P (.T_STRING s) = .ok (if b != 0 then 1 else 0))
    ∧ (b = 0 ∨ b = 1 → ∃ s, exp_to_string P (.T_BOOLEAN b) = .ok s
        ∧ exp_to_boolean P (.T_STRING s) = .ok b) := by
  have hbool : ∃ s, exp_to_string P (.T_BOOLEAN b) = .ok s
      ∧ exp_to_boolean P (.T_STRING s) = .ok (if b != 0 then 1 else 0) := by
    refine ⟨_, rfl, ?_⟩
    by_cases hb : b = 0
    · subst hb; rfl
    · have hb1 : (b != 0) = true := by simpa using hb
      rw [hb1]; rfl
  refine ⟨⟨fmt_lld n, ?_, ?_⟩, hbool, ?_⟩
  · simp only [exp_to_string, snprintf_fmt_lld n hmin hmax]
  · have hnum : is_number P (fmt_lld n)
        = .ok (atoll (fmt_lld n), Double.ofInt (atoll (fmt_lld n))) := by
      obtain ⟨hne, hd, _⟩ := toDigits_spec n.natAbs
      unfold fmt_lld
      split
      · exact is_number_sign_inside P '-' (Or.inl rfl) [] _ (by simp) hd
      · exact is_number_of_digits P _ hne hd
    simp only [exp_to_integer, hnum, atoll_fmt_lld n hmin hmax]
  · intro h
    obtain ⟨s, h1, h2⟩ := hbool
    refine ⟨s, h1, ?_⟩
    rw [h2]
    rcases h with rfl | rfl <;> rfl

/-- C33 at `INT64_MIN` and at the Boolean true: the string of `INT64_MIN` is
`-9223372036854775808` and is read back as `INT64_MIN`. -/
theorem C33_stringification_round_trip_witness :
    (∃ s, exp_to_string exact_platform (.T_INTEGER INT64_MIN) = .ok s
      ∧ exp_to_integer exact_platform (.T_STRING s) = .ok INT64_MIN)
    ∧ exp_to_string exact_platform (.T_INTEGER INT64_MIN)
      = .ok "-9223372036854775808".toList :=
  ⟨(C33_stringification_round_trip exact_platform INT64_MIN 1 (by decide) (by decide)).1,
    by rfl⟩

/-! ## C39: the positions of the tokens -/

theorem dropWhile_head_not (p : Char → Bool) (l : List Char) (c : Char) (cs : List Char)
    (h : l.dropWhile p = c :: cs) : p c = false := by
  induction l with
  | nil => cases h
  | cons x xs ih =>
    by_cases hx : p x = true
    · rw [List.dropWhile_cons, if_pos hx] at h
      exact ih h
    · rw [List.dropWhile_cons, if_neg hx] at h
      injection h with h1 _
      rw [← h1]
      simpa using hx

/-- The tokens that the loop of `exp_parse` makes from offset `p` on, when the
byte at `p` is not a blank. -/
theorem exp_parse_loop_positions (P : Platform) (input : List Char) (n : Nat) :
    ∀ (p : Nat) (tail : Option token_t) (ts : List token_t), (input.drop p).length ≤ n →
      (∀ c cs, input.drop p = c :: cs → IS_BLANK c = false) →
      exp_parse_loop P (input.drop p).length p (input.drop p) tail = .ok ts →
      (∀ t ∈ ts, p ≤ t.position ∧ token_at P input t)
        ∧ List.Pairwise (fun a b : token_t => a.position < b.position) ts
        ∧ ts.length ≤ (input.drop p).length := by
  induction n with
  | zero =>
    intro p tail ts hn _ he
    have hnil : input.drop p = [] := List.length_eq_zero.1 (Nat.le_zero.1 hn)
    rw [hnil] at he
    simp only [exp_parse_loop, Except.ok.injEq] at he
    subst he
    simp
  | succ n ih =>
    intro p tail ts hn hblank he
    cases hd : input.drop p with
    | nil =>
      rw [hd] at he
      simp only [exp_parse_loop, Except.ok.injEq] at he
      subst he
      simp
    | cons c cs =>
      have hp : p < input.length := by
        by_contra hlt
        rw [List.drop_eq_nil_of_le (by omega)] at hd
        cases hd
      rw [exp_parse_loop_step P input p c cs tail hd] at he
      cases ht : exp_parse_token P (input.drop p) with
      | none => rw [ht] at he; cases he
      | some r =>
        obtain ⟨v, l⟩ := r
        rw [ht] at he
        simp only at he
        have hl := exp_parse_token_pos P _ v l ht
        have hlen1 : (input.drop p).length = cs.length + 1 := by rw [hd]; rfl
        have hlen : (input.drop (p + l + blanks_at input (p + l))).length ≤ n := by
          simp only [List.length_drop] at hlen1 hn ⊢
          omega
        have hnext : ∀ c1 cs1, input.drop (p + l + blanks_at input (p + l)) = c1 :: cs1 →
            IS_BLANK c1 = false := by
          intro c1 cs1 h1
          rw [drop_blanks_at] at h1
          exact dropWhile_head_not _ _ _ _ h1
        cases hrec : exp_parse_loop P (input.drop (p + l + blanks_at input (p + l))).length
            (p + l + blanks_at input (p + l)) (input.drop (p + l + blanks_at input (p + l)))
            (some (tok p (exp_parse_sign tail v))) with
        | error f => rw [hrec] at he; cases he
        | ok ts1 =>
          rw [hrec] at he
          simp only [prepend_tokens, Except.ok.injEq] at he
          subst he
          obtain ⟨h1, h2, h3⟩ := ih _ _ ts1 hlen hnext hrec
          have hhere : token_at P input (tok p (exp_parse_sign tail v)) := by
            refine ⟨hp, ⟨c, ?_, hblank c cs hd⟩, v, l, tail, ht, hl, rfl⟩
            show input[p]? = some c
            rw [← List.head?_drop, hd]
            rfl
          refine ⟨?_, ?_, ?_⟩
          · intro t hmem
            simp only [List.singleton_append, List.mem_cons] at hmem
            rcases hmem with rfl | hmem
            · exact ⟨Nat.le_refl _, hhere⟩
            · have := h1 t hmem
              exact ⟨by omega, this.2⟩
          · simp only [List.singleton_append, List.pairwise_cons]
            refine ⟨?_, h2⟩
            intro t hmem
            have := (h1 t hmem).1
            show p < t.position
            omega
          · simp only [List.singleton_append, List.length_cons]
            simp only [List.length_drop] at h3 hlen1 ⊢
            omega

/-- C39. When `exp_parse` succeeds, the positions of its tokens are strictly
increasing; each position is an offset of the text as given, leading blanks
counted, the byte there is not a blank and the cascade of recognisers finds
the token at that byte; every recogniser that accepts consumes at least one
byte; there are at most as many tokens as bytes, and at least one; and any fuel
from the length of the text on gives the same tokens, so the loop ends by
itself. -/
theorem C39_token_positions (P : Platform) (input : List Char) (ts : List token_t)
    (h : exp_parse P input = .ok ts) :
    List.Pairwise (fun a b : token_t => a.position < b.position) ts
    ∧ (∀ t ∈ ts, token_at P input t)
    ∧ ts.length ≤ input.length
    ∧ 1 ≤ ts.length
    ∧ (∀ s v l, exp_parse_token P s = some (v, l) → 1 ≤ l)
    ∧ (∀ fuel, input.length ≤ fuel →
        exp_parse_loop P fuel (blanks_at input 0) (input.drop (blanks_at input 0)) none
          = .ok ts) := by
  have hne : input.dropWhile IS_BLANK ≠ [] := by
    intro hnil
    simp [exp_parse, hnil] at h
  have hstart := exp_parse_start P input hne
  rw [hstart] at h
  have hblank : ∀ c cs, input.drop (blanks_at input 0) = c :: cs → IS_BLANK c = false := by
    intro c cs h1
    have e := drop_blanks_at input 0
    rw [Nat.zero_add, List.drop_zero] at e
    rw [e] at h1
    exact dropWhile_head_not _ _ _ _ h1
  obtain ⟨h1, h2, h3⟩ := exp_parse_loop_positions P input _ _ none ts (Nat.le_refl _) hblank h
  refine ⟨h2, fun t ht => (h1 t ht).2, ?_, ?_, fun s v l => exp_parse_token_pos P s v l, ?_⟩
  · simp only [List.length_drop] at h3
    omega
  · cases ts with
    | cons t ts1 => simp
    | nil =>
      exfalso
      cases hd : input.drop (blanks_at input 0) with
      | nil =>
        have e := drop_blanks_at input 0
        rw [Nat.zero_add, List.drop_zero] at e
        rw [e] at hd
        exact hne hd
      | cons c cs =>
        rw [exp_parse_loop_step P input _ c cs none hd] at h
        cases ht : exp_parse_token P (input.drop (blanks_at input 0)) with
        | none => rw [ht] at h; cases h
        | some r =>
          rw [ht] at h
          simp only at h
          generalize exp_parse_loop P _ _ _ _ = r1 at h
          cases r1 <;> simp [prepend_tokens] at h
  · intro fuel hfuel
    rw [← h]
    exact (exp_parse_loop_fuel P _ _ _ _ _ (Nat.le_refl _)
      (by simp only [List.length_drop]; omega)).symm

/-- C39 at the text `  1 + 2`, whose tokens stand at the offsets 2, 4 and 6. -/
theorem C39_token_positions_witness :
    exp_parse exact_platform "  1 + 2".toList
      = .ok [tok 2 (.T_INTEGER 1), tok 4 (.T_OPERATOR O_PLUS), tok 6 (.T_INTEGER 2)]
    ∧ List.Pairwise (fun a b : token_t => a.position < b.position)
        [tok 2 (.T_INTEGER 1), tok 4 (.T_OPERATOR O_PLUS), tok 6 (.T_INTEGER 2)]
    ∧ [tok 2 (.T_INTEGER 1), tok 4 (.T_OPERATOR O_PLUS), tok 6 (.T_INTEGER 2)].length
        ≤ "  1 + 2".toList.length :=
  ⟨rfl, (C39_token_positions exact_platform "  1 + 2".toList _ rfl).1,
    (C39_token_positions exact_platform "  1 + 2".toList _ rfl).2.2.1⟩

end Libexpression
